import Mathlib

/-!
The program forth_gmp.c : a Forth-like interpreter over GMP integers

A shallow embedding of `src/forth_gmp.c`.

Conventions of the embedding.

* `mpz_t` values are `Int`.  The GMP entry points the program calls
  (`mpz_set_str`, `mpz_div`, `mpz_get_si`, ...) belong to an external library;
  each one is a definition below that states the library's documented
  behaviour.
* The value stack `Stack` is a `List Int` whose head is `data[top]`
  (`top = length - 1`); array cells above `top` are never read by the program.
* `loop_stack` and `control_stack` are lists whose head is the top entry.
* `dictionary` keeps all `DICT_SIZE` slots of the C array and `dict_count`
  separately, because `FORGET` lowers `dict_count` and leaves the slots in
  place, and a word that is being executed is referred to by address
  (`WordRef`).
* `code` and `strings` of a word are lists; `code_length` and `string_count`
  are their lengths.
* The heap: `FORGET` and the in-place branch of `addCompiledWord` pass the
  string pointers of a dictionary slot to `free` and leave the pointers in
  the slot.  `State.freed` lists the cells `dictionary[i].strings[j]` that
  hold such a pointer; reading a string through one of them, or freeing it a
  second time, is undefined behaviour (`heapFault`, `commitFault`,
  `redefineFault`).  A name is not read or freed again after being freed (a
  slot at or above `dict_count` gets a new name before it counts again), so
  names need no bookkeeping.
* `printf` output is accumulated in `State.output`.
* Three scratch integers `mpz_pool` are shared by all instructions; `a` and `b`
  are always written before they are read, so only `result` (`mpz_pool[2]`) is
  part of the state.
* Functions that loop or recurse take a fuel argument and return `none` when it
  runs out; `none` is also the result where the behaviour of the C program is
  undefined: a read or write outside an array, a read of freed memory, a
  second `free` of the same pointer.
* File contents are a parameter `fs` mapping a file name to the successive
  buffers `fgets` delivers (new-line already cut), or `none` when `fopen` fails.
-/

namespace ForthGmp

abbrev STACK_SIZE : Nat := 1000
abbrev DICT_SIZE : Nat := 100
abbrev WORD_CODE_SIZE : Nat := 256
abbrev CONTROL_STACK_SIZE : Nat := 100
abbrev LOOP_STACK_SIZE : Nat := 100
abbrev VAR_SIZE : Nat := 100
abbrev MAX_STRING_SIZE : Nat := 256

inductive OpCode
  | OP_PUSH | OP_ADD | OP_SUB | OP_MUL | OP_DIV | OP_DUP | OP_SWAP | OP_OVER
  | OP_ROT | OP_DROP | OP_EQ | OP_LT | OP_GT | OP_AND | OP_OR | OP_NOT | OP_I
  | OP_DO | OP_LOOP | OP_BRANCH_FALSE | OP_BRANCH | OP_CALL | OP_END | OP_DOT_QUOTE
  | OP_CR | OP_DOT_S | OP_FLUSH | OP_DOT | OP_CASE | OP_OF | OP_ENDOF | OP_ENDCASE
  | OP_EXIT | OP_BEGIN | OP_WHILE | OP_REPEAT
  | OP_BIT_AND | OP_BIT_OR | OP_BIT_XOR | OP_BIT_NOT | OP_LSHIFT | OP_RSHIFT
  | OP_WORDS | OP_FORGET | OP_VARIABLE | OP_FETCH | OP_STORE
  | OP_PICK
  deriving DecidableEq, Repr

structure Instruction where
  opcode : OpCode
  operand : Int
  deriving DecidableEq, Repr

structure CompiledWord where
  name : List Char
  code : List Instruction
  strings : List (List Char)
  deriving DecidableEq, Repr

/-- The field `code_length` of a word. -/
def CompiledWord.code_length (w : CompiledWord) : Int := w.code.length

/-- The field `string_count` of a word. -/
def CompiledWord.string_count (w : CompiledWord) : Int := w.strings.length

inductive ControlType
  | CT_IF | CT_DO | CT_CASE | CT_OF | CT_ENDOF
  deriving DecidableEq, Repr

structure ControlEntry where
  type : ControlType
  addr : Int
  deriving DecidableEq, Repr

structure Variable where
  name : List Char
  value : Int
  deriving DecidableEq, Repr

structure LoopControl where
  index : Int
  limit : Int
  addr : Int
  deriving DecidableEq, Repr

/-- One piece of standard output: literal text, or an integer printed with `%Zd`. -/
inductive Output
  | text (s : String)
  | num (n : Int)
  deriving DecidableEq, Repr

/-- The global variables of the program together with the `Stack` the driver owns.
The C array `variables` is the field `vars` (its length is `var_count`).  The field
`freed` is the part of the heap the program depends on: the pairs `(i, j)` such that
`dictionary[i].strings[j]` holds a pointer that was passed to `free`. -/
structure State where
  stack : List Int
  control_stack : List ControlEntry
  loop_stack : List LoopControl
  dictionary : List CompiledWord
  dict_count : Nat
  vars : List Variable
  currentWord : CompiledWord
  compiling : Bool
  current_word_index : Int
  error_flag : Bool
  result : Int
  output : List Output
  freed : List (Nat × Nat)
  deriving DecidableEq, Repr

/-- The word a `CompiledWord *` argument points to: the local `temp` of `interpret`,
or a slot of `dictionary`. -/
inductive WordRef
  | temp (w : CompiledWord)
  | dict (i : Nat)
  deriving DecidableEq, Repr

/-- A zero-initialised `CompiledWord`. -/
def emptyWord : CompiledWord := { name := [], code := [], strings := [] }

/-- The state after `initStack` and `init_mpz_pool` in `main`. -/
def initState : State :=
  { stack := [], control_stack := [], loop_stack := [],
    dictionary := List.replicate DICT_SIZE emptyWord, dict_count := 0,
    vars := [], currentWord := emptyWord, compiling := false,
    current_word_index := -1, error_flag := false, result := 0, output := [],
    freed := [] }

/-- Dereference a word pointer in the current state. -/
def wordOf (st : State) : WordRef → CompiledWord
  | WordRef.temp w => w
  | WordRef.dict i => st.dictionary.getD i emptyWord

/-- The double-quote character. -/
def dquote : Char := Char.ofNat 34

/-! ## The GMP functions used by the program -/

/-- C `isspace` in the "C" locale. -/
def isspace (c : Char) : Bool :=
  c = ' ' || c = '\t' || c = '\n' || c = Char.ofNat 11 || c = Char.ofNat 12 || c = '\r'

/-- Value of a decimal digit character. -/
def digitValue (c : Char) : Option Nat :=
  if '0' ≤ c ∧ c ≤ '9' then some (c.toNat - 48) else none

/-- The digit loop of `mpz_set_str`: white space is skipped, any other non-digit fails. -/
def parseDigits : List Char → Nat → Option Nat
  | [], acc => some acc
  | c :: cs, acc =>
    if isspace c then parseDigits cs acc
    else match digitValue c with
      | some d => parseDigits cs (10 * acc + d)
      | none => none

/-- GMP `mpz_set_str (x, s, 10)`: `some v` when it returns 0 and sets `x` to `v`,
`none` when it returns -1 (and leaves `x` alone).  Leading white space is skipped, one
optional `-` follows, then at least one digit; white space among the digits is
ignored. -/
def mpz_set_str (s : List Char) : Option Int :=
  match s.dropWhile isspace with
  | [] => none
  | c :: cs =>
    if c = '-' then
      match cs with
      | [] => none
      | d :: ds =>
        if (digitValue d).isSome then (parseDigits (d :: ds) 0).map (fun n => -(n : Int))
        else none
    else if (digitValue c).isSome then (parseDigits (c :: cs) 0).map (fun n => (n : Int))
    else none

/-- GMP `mpz_div`, which `gmp.h` defines as `mpz_fdiv_q`: the quotient rounded towards
minus infinity. -/
def mpz_div (n d : Int) : Int := Int.fdiv n d

/-- GMP `mpz_tdiv_q_2exp`: the quotient by `2^k` rounded towards zero. -/
def mpz_tdiv_q_2exp (n : Int) (k : Nat) : Int := Int.tdiv n (2 ^ k)

/-- GMP `mpz_mul_2exp`. -/
def mpz_mul_2exp (n : Int) (k : Nat) : Int := n * 2 ^ k

/-- GMP `mpz_get_ui` with a 64-bit `unsigned long`: the low 64 bits of the absolute value. -/
def mpz_get_ui (a : Int) : Nat := a.natAbs % 2 ^ 64

/-- GMP `mpz_fits_slong_p` with a 64-bit `long`. -/
def mpz_fits_slong_p (a : Int) : Bool := decide (-(2 : Int) ^ 63 ≤ a ∧ a < (2 : Int) ^ 63)

/-- GMP `mpz_get_si` with a 64-bit `long`: the value itself when it fits, otherwise the
low 63 bits of the absolute value with the sign of the argument. -/
def mpz_get_si (a : Int) : Int :=
  if 0 < a then ((a.natAbs % 2 ^ 63 : Nat) : Int)
  else if a < 0 then -1 - (((a.natAbs - 1) % 2 ^ 63 : Nat) : Int)
  else 0

/-! ## Stack primitives -/

/-- C `set_error`: print the message and raise `error_flag`. -/
def set_error (msg : String) (st : State) : State :=
  { st with output := st.output ++ [Output.text "Error: ", Output.text msg, Output.text "\n"],
            error_flag := true }

/-- C `printf` of a literal text. -/
def print (s : String) (st : State) : State :=
  { st with output := st.output ++ [Output.text s] }

/-- C `push`. -/
def push (value : Int) (st : State) : State :=
  if st.stack.length < STACK_SIZE then { st with stack := value :: st.stack }
  else set_error "Stack overflow" st

/-- C `pop`: the popped value (0 on underflow) and the new state. -/
def pop (st : State) : Int × State :=
  match st.stack with
  | x :: rest => (x, { st with stack := rest })
  | [] => (0, set_error "Stack underflow" st)

/-- The loop of `findCompiledWordIndex`, from index `i` on. -/
def findIndexFrom (name : List Char) : List CompiledWord → Int → Int
  | [], _ => -1
  | w :: ws, i => if w.name = name then i else findIndexFrom name ws (i + 1)

/-- C `findCompiledWordIndex`: the first index below `dict_count` with that name, or -1. -/
def findCompiledWordIndex (name : List Char) (st : State) : Int :=
  findIndexFrom name (st.dictionary.take st.dict_count) 0

/-- The loop `for (j = 0; j < string_count; j++) if (strings[j]) free (strings[j])` over
`dictionary[i]`: the cells whose pointers it frees.  The pointers stay in the cells. -/
def freeStrings (st : State) (i : Nat) : List (Nat × Nat) :=
  (List.range (st.dictionary.getD i emptyWord).strings.length).map (fun j => (i, j))

/-- That loop over `dictionary[i]` frees a pointer that was freed before. -/
def freesTwice (st : State) (i : Nat) : Bool :=
  st.freed.any
    (fun p => decide (p.1 = i ∧ p.2 < (st.dictionary.getD i emptyWord).strings.length))

/-- The loops of `OP_FORGET` over the entries `k .. dict_count - 1`: the freed cells
afterwards. -/
def forgetFreed (st : State) (k : Nat) : List (Nat × Nat) :=
  st.freed ++ ((List.range' k (st.dict_count - k)).map (freeStrings st)).flatten

/-- Those loops free a pointer that was freed before. -/
def forgetFault (st : State) (k : Nat) : Bool :=
  (List.range' k (st.dict_count - k)).any (freesTwice st)

/-- The cells `dictionary[i].strings[0..n-1]` are assigned fresh pointers: they no longer
hold freed ones. -/
def overwritten (i n : Nat) (freed : List (Nat × Nat)) : List (Nat × Nat) :=
  freed.filter (fun p => !decide (p.1 = i ∧ p.2 < n))

/-- C `addCompiledWord`: overwrite the entry of that name in place, after freeing its
strings, or append one. -/
def addCompiledWord (name : List Char) (code : List Instruction)
    (strings : List (List Char)) (st : State) : State :=
  let existing_index := findCompiledWordIndex name st
  if 0 ≤ existing_index then
    { st with dictionary := st.dictionary.set existing_index.toNat
                { name := name, code := code, strings := strings },
              freed := overwritten existing_index.toNat strings.length
                (st.freed ++ freeStrings st existing_index.toNat) }
  else if st.dict_count < DICT_SIZE then
    { st with dictionary := st.dictionary.set st.dict_count
                { name := name, code := code, strings := strings },
              dict_count := st.dict_count + 1,
              freed := overwritten st.dict_count strings.length st.freed }
  else set_error "Dictionary full" st

/-- The in-place branch of `addCompiledWord (name, ...)` frees a pointer a second time. -/
def redefineFault (name : List Char) (st : State) : Bool :=
  decide (0 ≤ findCompiledWordIndex name st)
    && freesTwice st (findCompiledWordIndex name st).toNat

/-- The test `operand >= 0 && operand < word->string_count` together with the read of
`word->strings[operand]`. -/
def stringAt (word : CompiledWord) (operand : Int) : Option (List Char) :=
  if 0 ≤ operand then word.strings[operand.toNat]? else none

/-- The read of `word->strings[operand]` goes through a pointer that was freed.  The
strings of the local `temp` of `interpret` are freed only after it has run. -/
def readsFreed (st : State) : WordRef → Int → Bool
  | WordRef.temp _, _ => false
  | WordRef.dict i, operand => decide (0 ≤ operand) && st.freed.contains (i, operand.toNat)

/-- The instruction reads `word->strings[operand]` through a freed pointer (`OP_PUSH`,
`OP_DOT_QUOTE` and the file branch of `OP_CALL` after their test of the operand,
`OP_VARIABLE` without a test), or frees a pointer a second time (`OP_FORGET`, and
`OP_VARIABLE` through `addCompiledWord`). -/
def heapFault (instr : Instruction) (word : WordRef) (st : State) : Bool :=
  match instr.opcode with
  | OpCode.OP_PUSH =>
    decide (instr.operand < (wordOf st word).string_count) && readsFreed st word instr.operand
  | OpCode.OP_DOT_QUOTE =>
    decide (instr.operand < (wordOf st word).string_count) && readsFreed st word instr.operand
  | OpCode.OP_CALL =>
    !decide (0 ≤ instr.operand ∧ instr.operand < st.dict_count)
      && decide (instr.operand < (wordOf st word).string_count)
      && readsFreed st word instr.operand
  | OpCode.OP_VARIABLE =>
    decide (st.vars.length < VAR_SIZE)
      && (readsFreed st word instr.operand
          || match stringAt (wordOf st word) instr.operand with
             | some name => redefineFault name st
             | none => false)
  | OpCode.OP_FORGET =>
    decide (0 ≤ instr.operand ∧ instr.operand < st.dict_count)
      && forgetFault st instr.operand.toNat
  | _ => false

/-- C `exec_arith`. -/
def exec_arith (instr : Instruction) (st : State) : State :=
  match instr.opcode with
  | OpCode.OP_ADD =>
    let (a, st1) := pop st
    let (b, st2) := pop st1
    if !st2.error_flag then push (b + a) { st2 with result := b + a } else st2
  | OpCode.OP_SUB =>
    let (a, st1) := pop st
    let (b, st2) := pop st1
    if !st2.error_flag then push (b - a) { st2 with result := b - a } else st2
  | OpCode.OP_MUL =>
    let (a, st1) := pop st
    let (b, st2) := pop st1
    if !st2.error_flag then push (b * a) { st2 with result := b * a } else st2
  | OpCode.OP_DIV =>
    let (a, st1) := pop st
    let (b, st2) := pop st1
    if !st2.error_flag then
      if a ≠ 0 then push (mpz_div b a) { st2 with result := mpz_div b a }
      else set_error "Division by zero" st2
    else st2
  | _ => st

/-- The cases of the `switch` of `executeInstruction` other than `OP_CALL`, after the
entry test of `error_flag`.  The result is the new state and the new value of `*ip`
(before the `ip++` of the caller).  `word` is `*word`.  The cases that read a string of
the word or free strings are defined where `heapFault` is false, which
`executeInstruction` tests first. -/
def executePrimitive (instr : Instruction) (ip : Int) (word : CompiledWord) (st : State) :
    Option (State × Int) :=
  match instr.opcode with
  | OpCode.OP_PUSH =>
    match stringAt word instr.operand with
    | some s =>
      match mpz_set_str s with
      | some v => some (push v { st with result := v }, ip)
      | none =>
        let st1 := set_error "Failed to parse number" st
        some (push st1.result st1, ip)
    | none => some (push instr.operand { st with result := instr.operand }, ip)
  | OpCode.OP_ADD => some (exec_arith instr st, ip)
  | OpCode.OP_SUB => some (exec_arith instr st, ip)
  | OpCode.OP_MUL => some (exec_arith instr st, ip)
  | OpCode.OP_DIV => some (exec_arith instr st, ip)
  | OpCode.OP_DUP =>
    let (a, st1) := pop st
    if !st1.error_flag then some (push a (push a st1), ip) else some (st1, ip)
  | OpCode.OP_SWAP =>
    let (a, st1) := pop st
    let (b, st2) := pop st1
    if !st2.error_flag then some (push b (push a st2), ip) else some (st2, ip)
  | OpCode.OP_OVER =>
    let (a, st1) := pop st
    let (b, st2) := pop st1
    if !st2.error_flag then some (push b (push a (push b st2)), ip) else some (st2, ip)
  | OpCode.OP_ROT =>
    match st.stack with
    | x0 :: x1 :: x2 :: rest => some ({ st with stack := x2 :: x0 :: x1 :: rest, result := x0 }, ip)
    | _ => some (set_error "Stack underflow for ROT" st, ip)
  | OpCode.OP_DROP => some ((pop st).2, ip)
  | OpCode.OP_DOT =>
    let (a, st1) := pop st
    if !st1.error_flag then
      some ({ st1 with output := st1.output ++ [Output.num a, Output.text "\n"] }, ip)
    else some (st1, ip)
  | OpCode.OP_FLUSH => some ({ st with stack := [] }, ip)
  | OpCode.OP_EQ =>
    let (a, st1) := pop st
    let (b, st2) := pop st1
    if !st2.error_flag then
      let r : Int := if b = a then 1 else 0
      some (push r { st2 with result := r }, ip)
    else some (st2, ip)
  | OpCode.OP_LT =>
    let (a, st1) := pop st
    let (b, st2) := pop st1
    if !st2.error_flag then
      let r : Int := if b < a then 1 else 0
      some (push r { st2 with result := r }, ip)
    else some (st2, ip)
  | OpCode.OP_GT =>
    let (a, st1) := pop st
    let (b, st2) := pop st1
    if !st2.error_flag then
      let r : Int := if b > a then 1 else 0
      some (push r { st2 with result := r }, ip)
    else some (st2, ip)
  | OpCode.OP_AND =>
    let (a, st1) := pop st
    let (b, st2) := pop st1
    if !st2.error_flag then
      let r : Int := if b ≠ 0 ∧ a ≠ 0 then 1 else 0
      some (push r { st2 with result := r }, ip)
    else some (st2, ip)
  | OpCode.OP_OR =>
    let (a, st1) := pop st
    let (b, st2) := pop st1
    if !st2.error_flag then
      let r : Int := if b ≠ 0 ∨ a ≠ 0 then 1 else 0
      some (push r { st2 with result := r }, ip)
    else some (st2, ip)
  | OpCode.OP_NOT =>
    let (a, st1) := pop st
    if !st1.error_flag then
      let r : Int := if a = 0 then 1 else 0
      some (push r { st1 with result := r }, ip)
    else some (st1, ip)
  | OpCode.OP_I =>
    match st.loop_stack with
    | l :: _ => some (push l.index st, ip)
    | [] => some (set_error "I used outside of a loop" st, ip)
  | OpCode.OP_DO =>
    let (b, st1) := pop st
    let (a, st2) := pop st1
    if !st2.error_flag && decide (st2.loop_stack.length < LOOP_STACK_SIZE) then
      some ({ st2 with loop_stack :=
                { index := b, limit := a, addr := ip + 1 } :: st2.loop_stack }, ip)
    else if !st2.error_flag then some (set_error "Loop stack overflow" st2, ip)
    else some (st2, ip)
  | OpCode.OP_LOOP =>
    match st.loop_stack with
    | l :: ls =>
      if l.index + 1 < l.limit then
        some ({ st with loop_stack := { l with index := l.index + 1 } :: ls }, l.addr - 1)
      else some ({ st with loop_stack := ls }, ip)
    | [] => some (set_error "LOOP without DO" st, ip)
  | OpCode.OP_BRANCH_FALSE =>
    let (a, st1) := pop st
    if !st1.error_flag && decide (a = 0) then some (st1, instr.operand - 1) else some (st1, ip)
  | OpCode.OP_BRANCH => some (st, instr.operand - 1)
  | OpCode.OP_CALL => none
  | OpCode.OP_END => some (st, ip)
  | OpCode.OP_DOT_QUOTE =>
    match stringAt word instr.operand with
    | some s => some (print (String.mk s) st, ip)
    | none => some (set_error ("Invalid string index for ." ++ String.mk [dquote]) st, ip)
  | OpCode.OP_CR => some (print "\n" st, ip)
  | OpCode.OP_DOT_S =>
    some ({ st with output := st.output ++ [Output.text "Stack: "]
              ++ (st.stack.reverse.map (fun v => [Output.num v, Output.text " "])).flatten
              ++ [Output.text "\n"] }, ip)
  | OpCode.OP_CASE => some (st, ip)
  | OpCode.OP_OF =>
    let (a, st1) := pop st
    let (b, st2) := pop st1
    if !st2.error_flag && decide (a ≠ b) then some (push b st2, instr.operand - 1)
    else some (st2, ip)
  | OpCode.OP_ENDOF => some (st, instr.operand - 1)
  | OpCode.OP_ENDCASE => some ((pop st).2, ip)
  | OpCode.OP_EXIT => some (st, word.code_length - 1)
  | OpCode.OP_BEGIN => some (st, ip)
  | OpCode.OP_WHILE =>
    let (a, st1) := pop st
    if !st1.error_flag && decide (a = 0) then some (st1, instr.operand - 1) else some (st1, ip)
  | OpCode.OP_REPEAT => some (st, instr.operand - 1)
  | OpCode.OP_BIT_AND =>
    let (a, st1) := pop st
    let (b, st2) := pop st1
    if !st2.error_flag then some (push (Int.land b a) { st2 with result := Int.land b a }, ip)
    else some (st2, ip)
  | OpCode.OP_BIT_OR =>
    let (a, st1) := pop st
    let (b, st2) := pop st1
    if !st2.error_flag then some (push (Int.lor b a) { st2 with result := Int.lor b a }, ip)
    else some (st2, ip)
  | OpCode.OP_BIT_XOR =>
    let (a, st1) := pop st
    let (b, st2) := pop st1
    if !st2.error_flag then some (push (Int.xor b a) { st2 with result := Int.xor b a }, ip)
    else some (st2, ip)
  | OpCode.OP_BIT_NOT =>
    let (a, st1) := pop st
    if !st1.error_flag then some (push (Int.not a) { st1 with result := Int.not a }, ip)
    else some (st1, ip)
  | OpCode.OP_LSHIFT =>
    let (a, st1) := pop st
    let (b, st2) := pop st1
    if !st2.error_flag then
      let r := mpz_mul_2exp b (mpz_get_ui a)
      some (push r { st2 with result := r }, ip)
    else some (st2, ip)
  | OpCode.OP_RSHIFT =>
    let (a, st1) := pop st
    let (b, st2) := pop st1
    if !st2.error_flag then
      let r := mpz_tdiv_q_2exp b (mpz_get_ui a)
      some (push r { st2 with result := r }, ip)
    else some (st2, ip)
  | OpCode.OP_WORDS =>
    some ({ st with output := st.output
              ++ ((st.dictionary.take st.dict_count).map
                    (fun w => [Output.text (String.mk w.name), Output.text " "])).flatten
              ++ [Output.text "\n"] }, ip)
  | OpCode.OP_FORGET =>
    if 0 ≤ instr.operand ∧ instr.operand < st.dict_count then
      some ({ st with dict_count := instr.operand.toNat,
                      freed := forgetFreed st instr.operand.toNat }, ip)
    else some (set_error "FORGET: Word index out of range" st, ip)
  | OpCode.OP_VARIABLE =>
    if st.vars.length < VAR_SIZE then
      match stringAt word instr.operand with
      | none => none
      | some name =>
        let var_count : Int := st.vars.length
        let st1 := { st with vars := st.vars ++ [{ name := name, value := 0 }] }
        some (addCompiledWord name [{ opcode := OpCode.OP_PUSH, operand := var_count }] [] st1, ip)
    else some (set_error "Variable table full" st, ip)
  | OpCode.OP_FETCH =>
    let (a, st1) := pop st
    if !st1.error_flag && mpz_fits_slong_p a && decide (0 ≤ mpz_get_si a)
        && decide (mpz_get_si a < st1.vars.length) then
      match st1.vars[(mpz_get_si a).toNat]? with
      | some v => some (push v.value st1, ip)
      | none => none
    else if !st1.error_flag then some (set_error "FETCH: Invalid variable index" st1, ip)
    else some (st1, ip)
  | OpCode.OP_STORE =>
    let (a, st1) := pop st
    let (b, st2) := pop st1
    if !st2.error_flag && mpz_fits_slong_p b && decide (0 ≤ mpz_get_si b)
        && decide (mpz_get_si b < st2.vars.length) then
      match st2.vars[(mpz_get_si b).toNat]? with
      | some v => some ({ st2 with vars := st2.vars.set (mpz_get_si b).toNat { v with value := a } }, ip)
      | none => none
    else if !st2.error_flag then some (set_error "STORE: Invalid variable index" st2, ip)
    else some (st2, ip)
  | OpCode.OP_PICK =>
    let (a, st1) := pop st
    if !st1.error_flag then
      let n := mpz_get_si a
      if 0 ≤ n ∧ n < st1.stack.length then
        match st1.stack[n.toNat]? with
        | some r => some (push r { st1 with result := r }, ip)
        | none => none
      else some (push a (set_error "PICK: Stack underflow or invalid index" st1), ip)
    else some (st1, ip)

/-! ## Tokenizer -/

/-- The delimiter set `" \t\n"` of every `strtok_r` call. -/
def isDelim (c : Char) : Bool := c = ' ' || c = '\t' || c = '\n'

/-- C `strtok_r (NULL, " \t\n", &saveptr)` on the text `saveptr` points to: skip
delimiters, return the token and the new `saveptr` (just after the delimiter that ended
the token), or `none` for `NULL`. -/
def strtok_r (s : List Char) : Option (List Char × List Char) :=
  match s.dropWhile isDelim with
  | [] => none
  | c :: cs =>
    some ((c :: cs).takeWhile (fun x => !isDelim x),
          ((c :: cs).dropWhile (fun x => !isDelim x)).drop 1)

/-- C `strchr (start, '"')`: the text before the first double quote and the text after
it, or `none` when there is no double quote. -/
def splitAtQuote : List Char → Option (List Char × List Char)
  | [] => none
  | c :: cs =>
    if c = dquote then some ([], cs)
    else match splitAtQuote cs with
      | some (pre, post) => some (c :: pre, post)
      | none => none

/-- The tokens that both `compileToken` and `interpret` map to one instruction with
operand 0, with their opcode. -/
def primitiveOpcode (token : List Char) : Option OpCode :=
  if token = "+".toList then some OpCode.OP_ADD
  else if token = "-".toList then some OpCode.OP_SUB
  else if token = "*".toList then some OpCode.OP_MUL
  else if token = "/".toList then some OpCode.OP_DIV
  else if token = "DUP".toList then some OpCode.OP_DUP
  else if token = "SWAP".toList then some OpCode.OP_SWAP
  else if token = "OVER".toList then some OpCode.OP_OVER
  else if token = "ROT".toList then some OpCode.OP_ROT
  else if token = "DROP".toList then some OpCode.OP_DROP
  else if token = "=".toList then some OpCode.OP_EQ
  else if token = "<".toList then some OpCode.OP_LT
  else if token = ">".toList then some OpCode.OP_GT
  else if token = "AND".toList then some OpCode.OP_AND
  else if token = "OR".toList then some OpCode.OP_OR
  else if token = "NOT".toList then some OpCode.OP_NOT
  else if token = "I".toList then some OpCode.OP_I
  else if token = "CR".toList then some OpCode.OP_CR
  else if token = ".S".toList then some OpCode.OP_DOT_S
  else if token = ".".toList then some OpCode.OP_DOT
  else if token = "FLUSH".toList then some OpCode.OP_FLUSH
  else if token = "EXIT".toList then some OpCode.OP_EXIT
  else if token = "&".toList then some OpCode.OP_BIT_AND
  else if token = "|".toList then some OpCode.OP_BIT_OR
  else if token = "^".toList then some OpCode.OP_BIT_XOR
  else if token = "~".toList then some OpCode.OP_BIT_NOT
  else if token = "LSHIFT".toList then some OpCode.OP_LSHIFT
  else if token = "RSHIFT".toList then some OpCode.OP_RSHIFT
  else if token = "WORDS".toList then some OpCode.OP_WORDS
  else if token = "@".toList then some OpCode.OP_FETCH
  else if token = "!".toList then some OpCode.OP_STORE
  else if token = "PICK".toList then some OpCode.OP_PICK
  else none

/-! ## Compiler -/

/-- The statement `currentWord.code[currentWord.code_length++] = instr`. -/
def emit (instr : Instruction) (st : State) : Option State :=
  if st.currentWord.code.length < WORD_CODE_SIZE then
    some { st with currentWord := { st.currentWord with code := st.currentWord.code ++ [instr] } }
  else none

/-- The statement `currentWord.strings[currentWord.string_count++] = s`. -/
def addString (s : List Char) (st : State) : Option State :=
  if st.currentWord.strings.length < WORD_CODE_SIZE then
    some { st with currentWord :=
             { st.currentWord with strings := st.currentWord.strings ++ [s] } }
  else none

/-- The statement `control_stack[control_stack_top++] = (ControlEntry){type, addr}`. -/
def pushControl (type : ControlType) (addr : Int) (st : State) : Option State :=
  if st.control_stack.length < CONTROL_STACK_SIZE then
    some { st with control_stack := { type := type, addr := addr } :: st.control_stack }
  else none

/-- The assignment `code[addr].operand = value` on a code array of which only the first
`code_length` cells are kept. -/
def patchOperand (code : List Instruction) (addr : Int) (value : Int) : List Instruction :=
  if 0 ≤ addr then
    match code[addr.toNat]? with
    | some i => code.set addr.toNat { i with operand := value }
    | none => code
  else code

/-- The assignment `currentWord.code[addr].operand = currentWord.code_length`. -/
def patchHere (addr : Int) (st : State) : State :=
  { st with currentWord :=
      { st.currentWord with
          code := patchOperand st.currentWord.code addr st.currentWord.code_length } }

/-- The `while` loop of the `ENDCASE` case: patch and pop the `CT_ENDOF` entries on top
of the control stack. -/
def patchEndofs : List ControlEntry → State → State
  | [], st => { st with control_stack := [] }
  | e :: es, st =>
    if e.type = ControlType.CT_ENDOF then patchEndofs es (patchHere e.addr st)
    else { st with control_stack := e :: es }

/-- C `compileToken (token, &saveptr)`: the new state and the new `saveptr`.  The chain
of `strcmp` tests is on pairwise different constants, so the one-instruction tokens are
looked up first in `primitiveOpcode`. -/
def compileToken (token : List Char) (input_rest : List Char) (st : State) :
    Option (State × List Char) :=
  match primitiveOpcode token with
  | some op => (emit { opcode := op, operand := 0 } st).map (fun s => (s, input_rest))
  | none =>
  if token = "IF".toList then
    (emit { opcode := OpCode.OP_BRANCH_FALSE, operand := 0 } st).bind (fun st1 =>
      (pushControl ControlType.CT_IF (st1.currentWord.code_length - 1) st1).map
        (fun s => (s, input_rest)))
  else if token = "ELSE".toList then
    (emit { opcode := OpCode.OP_BRANCH, operand := 0 } st).bind (fun st1 =>
      match st1.control_stack with
      | e :: es =>
        if e.type = ControlType.CT_IF then
          let st2 := patchHere e.addr { st1 with control_stack := es }
          (pushControl ControlType.CT_IF (st2.currentWord.code_length - 1) st2).map
            (fun s => (s, input_rest))
        else some (st1, input_rest)
      | [] => some (st1, input_rest))
  else if token = "THEN".toList then
    match st.control_stack with
    | e :: es =>
      if e.type = ControlType.CT_IF then
        some (patchHere e.addr { st with control_stack := es }, input_rest)
      else some (st, input_rest)
    | [] => some (st, input_rest)
  else if token = "DO".toList then
    (emit { opcode := OpCode.OP_DO, operand := 0 } st).bind (fun st1 =>
      (pushControl ControlType.CT_DO (st1.currentWord.code_length - 1) st1).map
        (fun s => (s, input_rest)))
  else if token = "LOOP".toList then
    match st.control_stack with
    | e :: es =>
      if e.type = ControlType.CT_DO then
        (emit { opcode := OpCode.OP_LOOP, operand := 0 } st).map
          (fun st1 => ({ st1 with control_stack := es }, input_rest))
      else some (st, input_rest)
    | [] => some (st, input_rest)
  else if token = "LOAD".toList then
    let start := input_rest.dropWhile (fun c => c = ' ' || c = '\t')
    match start with
    | [] => some (print "LOAD expects a quoted filename\n" st, input_rest)
    | c :: start1 =>
      if c ≠ dquote then some (print "LOAD expects a quoted filename\n" st, input_rest)
      else match splitAtQuote start1 with
        | none => some (print "Missing closing quote for LOAD\n" st, input_rest)
        | some (filename, after) =>
          let operand := st.currentWord.string_count
          (addString filename st).bind (fun st1 =>
            (emit { opcode := OpCode.OP_CALL, operand := operand } st1).map
              (fun s => (s, after)))
  else if token = ['.', dquote] then
    match splitAtQuote input_rest with
    | none =>
      some (print ("Missing closing quote for ." ++ String.mk [dquote] ++ "\n") st, input_rest)
    | some (str, after) =>
      let operand := st.currentWord.string_count
      (addString str st).bind (fun st1 =>
        (emit { opcode := OpCode.OP_DOT_QUOTE, operand := operand } st1).map
          (fun s => (s, after)))
  else if token = "CASE".toList then
    (emit { opcode := OpCode.OP_CASE, operand := 0 } st).bind (fun st1 =>
      (pushControl ControlType.CT_CASE (st1.currentWord.code_length - 1) st1).map
        (fun s => (s, input_rest)))
  else if token = "OF".toList then
    (emit { opcode := OpCode.OP_OF, operand := 0 } st).bind (fun st1 =>
      (pushControl ControlType.CT_OF (st1.currentWord.code_length - 1) st1).map
        (fun s => (s, input_rest)))
  else if token = "ENDOF".toList then
    match st.control_stack with
    | e :: es =>
      if e.type = ControlType.CT_OF then
        (emit { opcode := OpCode.OP_ENDOF, operand := 0 } st).bind (fun st1 =>
          let st2 := patchHere e.addr { st1 with control_stack := es }
          (pushControl ControlType.CT_ENDOF (st2.currentWord.code_length - 1) st2).map
            (fun s => (s, input_rest)))
      else some (print "ENDOF without OF!\n" st, input_rest)
    | [] => some (print "ENDOF without OF!\n" st, input_rest)
  else if token = "ENDCASE".toList then
    match st.control_stack with
    | e :: _ =>
      if e.type = ControlType.CT_ENDOF then
        (emit { opcode := OpCode.OP_ENDCASE, operand := 0 } st).map (fun st1 =>
          let st2 := patchEndofs st1.control_stack st1
          match st2.control_stack with
          | e2 :: es2 =>
            if e2.type = ControlType.CT_CASE then ({ st2 with control_stack := es2 }, input_rest)
            else (st2, input_rest)
          | [] => (st2, input_rest))
      else some (print "ENDCASE without CASE!\n" st, input_rest)
    | [] => some (print "ENDCASE without CASE!\n" st, input_rest)
  else if token = "BEGIN".toList then
    (emit { opcode := OpCode.OP_BEGIN, operand := 0 } st).bind (fun st1 =>
      (pushControl ControlType.CT_DO (st1.currentWord.code_length - 1) st1).map
        (fun s => (s, input_rest)))
  else if token = "WHILE".toList then
    (emit { opcode := OpCode.OP_WHILE, operand := 0 } st).bind (fun st1 =>
      (pushControl ControlType.CT_IF (st1.currentWord.code_length - 1) st1).map
        (fun s => (s, input_rest)))
  else if token = "REPEAT".toList then
    match st.control_stack with
    | e1 :: e2 :: es =>
      (emit { opcode := OpCode.OP_REPEAT, operand := e2.addr } st).map (fun st1 =>
        (patchHere e1.addr { st1 with control_stack := es }, input_rest))
    | _ => none
  else if token = "FORGET".toList then
    match strtok_r input_rest with
    | none => some (print "FORGET requires a word name\n" st, [])
    | some (next_token, rest) =>
      let index := findCompiledWordIndex next_token st
      if 0 ≤ index then
        (emit { opcode := OpCode.OP_FORGET, operand := index } st).map (fun s => (s, rest))
      else
        some ({ st with output := st.output ++ [Output.text "FORGET: Unknown word: ",
                  Output.text (String.mk next_token), Output.text "\n"] }, rest)
  else if token = "VARIABLE".toList then
    match strtok_r input_rest with
    | none => some (print "VARIABLE requires a name\n" st, [])
    | some (next_token, rest) =>
      let operand := st.currentWord.string_count
      (addString next_token st).bind (fun st1 =>
        (emit { opcode := OpCode.OP_VARIABLE, operand := operand } st1).map
          (fun s => (s, rest)))
  else
    let index := findCompiledWordIndex token st
    if 0 ≤ index then
      (emit { opcode := OpCode.OP_CALL, operand := index } st).map (fun s => (s, input_rest))
    else
      match mpz_set_str token with
      | some _ =>
        let operand := st.currentWord.string_count
        (addString token st).bind (fun st1 =>
          (emit { opcode := OpCode.OP_PUSH, operand := operand } st1).map
            (fun s => (s, input_rest)))
      | none =>
        some ({ st with output := st.output ++ [Output.text "Unknown word: ",
                  Output.text (String.mk token), Output.text "\n"] }, input_rest)

/-! ## Bytecode interpreter and outer interpreter -/

/-- The local `temp` of `interpret` holding one instruction and its strings. -/
def tempWord (instr : Instruction) (strings : List (List Char)) : CompiledWord :=
  { name := [], code := [instr], strings := strings }

/-- The commit done at `;` after `OP_END` was appended: copy code and strings of
`currentWord` into `dictionary[current_word_index]` when that index is in range, then
leave compiling mode.  The pointers found in the cells that receive the strings are
freed first (`commitFault`). -/
def commitWord (st : State) : State :=
  let committed : CompiledWord :=
    { name := (st.dictionary.getD st.current_word_index.toNat emptyWord).name,
      code := st.currentWord.code, strings := st.currentWord.strings }
  let st1 :=
    if 0 ≤ st.current_word_index ∧ st.current_word_index < st.dict_count then
      { st with dictionary := st.dictionary.set st.current_word_index.toNat committed,
                freed := overwritten st.current_word_index.toNat
                  st.currentWord.strings.length st.freed }
    else st
  { st1 with compiling := false, current_word_index := -1 }

/-- The commit at `;` frees a pointer a second time: one of the cells
`dictionary[current_word_index].strings[i]`, `i < currentWord.string_count`, holds a
pointer that `FORGET` or `addCompiledWord` freed and left there. -/
def commitFault (st : State) : Bool :=
  decide (0 ≤ st.current_word_index ∧ st.current_word_index < st.dict_count)
    && st.freed.any
         (fun p => decide (p.1 = st.current_word_index.toNat
                            ∧ p.2 < st.currentWord.strings.length))

/-- The case `:` of `interpret` once the name was read: open a definition. -/
def beginDefinition (name : List Char) (st : State) : State :=
  let st1 := { st with compiling := true,
                       currentWord := { name := name, code := [], strings := [] } }
  let st2 := addCompiledWord name [] [] st1
  { st2 with current_word_index := (st2.dict_count : Int) - 1 }

mutual
/-- C `executeInstruction (instr, stack, &ip, word)`: the new state and the new `*ip`. -/
def executeInstruction (fs : List Char → Option (List (List Char))) :
    Nat → Instruction → Int → WordRef → State → Option (State × Int)
  | 0, _, _, _, _ => none
  | fuel + 1, instr, ip, word, st =>
    if st.error_flag then some (st, ip)
    else if heapFault instr word st then none
    else if instr.opcode = OpCode.OP_CALL then
      if 0 ≤ instr.operand ∧ instr.operand < st.dict_count then
        match execLoop fs fuel (WordRef.dict instr.operand.toNat) 0 st with
        | some st1 => some (st1, ip)
        | none => none
      else
        match stringAt (wordOf st word) instr.operand with
        | some filename =>
          match fs filename with
          | none => some (set_error "Cannot open file" st, ip)
          | some lines =>
            match interpretLines fs fuel lines st with
            | some st1 => some (st1, ip)
            | none => none
        | none => some (set_error "Invalid CALL index" st, ip)
    else executePrimitive instr ip (wordOf st word) st
/-- The `while` loop of C `executeCompiledWord (word, stack)` from instruction `ip` on. -/
def execLoop (fs : List Char → Option (List (List Char))) :
    Nat → WordRef → Int → State → Option State
  | 0, _, _, _ => none
  | fuel + 1, word, ip, st =>
    if ip < (wordOf st word).code_length ∧ st.error_flag = false then
      if ip < 0 then none
      else
        match (wordOf st word).code[ip.toNat]? with
        | none => none
        | some instr =>
          match executeInstruction fs fuel instr ip word st with
          | some (st1, ip1) => execLoop fs fuel word (ip1 + 1) st1
          | none => none
    else some st
/-- The `while (token && !error_flag)` loop of C `interpret`; the argument is the result
of the last `strtok_r`: the token and `saveptr`. -/
def interpretLoop (fs : List Char → Option (List (List Char))) :
    Nat → Option (List Char × List Char) → State → Option State
  | 0, _, _ => none
  | _ + 1, none, st => some st
  | fuel + 1, some (token, saveptr), st =>
    if st.error_flag then some st
    else if st.compiling then
      if token = ";".toList then
        match emit { opcode := OpCode.OP_END, operand := 0 } st with
        | some st1 =>
          if commitFault st1 then none
          else interpretLoop fs fuel (strtok_r saveptr) (commitWord st1)
        | none => none
      else
        match compileToken token saveptr st with
        | some (st1, saveptr1) => interpretLoop fs fuel (strtok_r saveptr1) st1
        | none => none
    else
      match mpz_set_str token with
      | some big_value => interpretLoop fs fuel (strtok_r saveptr) (push big_value st)
      | none =>
        if token = ":".toList then
          match strtok_r saveptr with
          | some (name, saveptr1) =>
            if redefineFault name st then none
            else interpretLoop fs fuel (strtok_r saveptr1) (beginDefinition name st)
          | none => some st
        else if token = "LOAD".toList then
          match saveptr.dropWhile (fun c => c = ' ' || c = '\t') with
          | [] => some (print "LOAD expects a quoted filename\n" st)
          | c :: start1 =>
            if c ≠ dquote then some (print "LOAD expects a quoted filename\n" st)
            else
              match splitAtQuote start1 with
              | none => some (print "Missing closing quote for LOAD\n" st)
              | some (filename, after) =>
                if MAX_STRING_SIZE ≤ filename.length then none
                else
                  match fs filename with
                  | none =>
                    interpretLoop fs fuel (strtok_r after)
                      { st with output := st.output ++ [Output.text "Cannot open file: ",
                          Output.text (String.mk filename), Output.text "\n"] }
                  | some lines =>
                    match interpretLines fs fuel lines st with
                    | some st1 => interpretLoop fs fuel (strtok_r after) st1
                    | none => none
        else if token = ['.', dquote] then
          match splitAtQuote saveptr with
          | none =>
            some (print ("Missing closing quote for ." ++ String.mk [dquote] ++ "\n") st)
          | some (str, after) =>
            match execLoop fs fuel
                (WordRef.temp (tempWord { opcode := OpCode.OP_DOT_QUOTE, operand := 0 } [str]))
                0 st with
            | some st1 => interpretLoop fs fuel (strtok_r after) st1
            | none => none
        else
          match primitiveOpcode token with
          | some op =>
            match execLoop fs fuel
                (WordRef.temp (tempWord { opcode := op, operand := 0 } [])) 0 st with
            | some st1 => interpretLoop fs fuel (strtok_r saveptr) st1
            | none => none
          | none =>
            if token = "FORGET".toList then
              match strtok_r saveptr with
              | none => some (print "FORGET requires a word name\n" st)
              | some (next_token, saveptr1) =>
                let index := findCompiledWordIndex next_token st
                if 0 ≤ index then
                  match execLoop fs fuel
                      (WordRef.temp (tempWord { opcode := OpCode.OP_FORGET, operand := index } []))
                      0 st with
                  | some st1 => interpretLoop fs fuel (strtok_r saveptr1) st1
                  | none => none
                else
                  interpretLoop fs fuel (strtok_r saveptr1)
                    { st with output := st.output ++ [Output.text "FORGET: Unknown word: ",
                        Output.text (String.mk next_token), Output.text "\n"] }
            else if token = "VARIABLE".toList then
              match strtok_r saveptr with
              | none => some (print "VARIABLE requires a name\n" st)
              | some (next_token, saveptr1) =>
                match execLoop fs fuel
                    (WordRef.temp
                      (tempWord { opcode := OpCode.OP_VARIABLE, operand := 0 } [next_token]))
                    0 st with
                | some st1 => interpretLoop fs fuel (strtok_r saveptr1) st1
                | none => none
            else
              let index := findCompiledWordIndex token st
              if 0 ≤ index then
                match execLoop fs fuel
                    (WordRef.temp (tempWord { opcode := OpCode.OP_CALL, operand := index } []))
                    0 st with
                | some st1 => interpretLoop fs fuel (strtok_r saveptr) st1
                | none => none
              else
                interpretLoop fs fuel (strtok_r saveptr)
                  { st with output := st.output ++ [Output.text "Unknown word: ",
                      Output.text (String.mk token), Output.text "\n"] }
/-- The `while (fgets (...))` loop of file inclusion: `interpret` on each line. -/
def interpretLines (fs : List Char → Option (List (List Char))) :
    Nat → List (List Char) → State → Option State
  | 0, _, _ => none
  | _ + 1, [], st => some st
  | fuel + 1, line :: lines, st =>
    match interpretLoop fs fuel (strtok_r line) { st with error_flag := false } with
    | some st1 => interpretLines fs fuel lines st1
    | none => none
end

/-- C `executeCompiledWord (word, stack)`. -/
def executeCompiledWord (fs : List Char → Option (List (List Char))) (fuel : Nat)
    (word : WordRef) (st : State) : Option State :=
  execLoop fs fuel word 0 st

/-- C `interpret (input, stack)`: clear `error_flag`, read the first token, run the loop. -/
def interpret (fs : List Char → Option (List (List Char))) (fuel : Nat)
    (input : List Char) (st : State) : Option State :=
  interpretLoop fs fuel (strtok_r input) { st with error_flag := false }

/-- A file system without files: every `fopen` fails. -/
def noFiles : List Char → Option (List (List Char)) := fun _ => none

/-- Interpret the lines of a session one after the other, as `main` does. -/
def session (fs : List Char → Option (List (List Char))) (fuel : Nat) :
    List (List Char) → State → Option State
  | [], st => some st
  | line :: lines, st =>
    match interpret fs fuel line st with
    | some st1 => session fs fuel lines st1
    | none => none

/-- The output of printing `0, 1, ..., n-1` with `.`: each number followed by a new line. -/
def numberLines (n : Nat) : List Output :=
  ((List.range n).map (fun i => [Output.num (i : Int), Output.text "\n"])).flatten

/-- A token as `strtok_r` delivers it: not empty and free of the delimiters. -/
def isToken (t : List Char) : Bool := !t.isEmpty && t.all (fun c => !isDelim c)

/-- A token that `interpret` looks up in the dictionary in immediate mode: it is not a
number, not `:`, `LOAD`, `."`, `FORGET` or `VARIABLE`, and not a primitive. -/
def isWordName (nm : List Char) : Bool :=
  isToken nm && (mpz_set_str nm).isNone && decide (nm ≠ ":".toList)
    && decide (nm ≠ "LOAD".toList) && decide (nm ≠ ['.', dquote])
    && (primitiveOpcode nm).isNone
    && decide (nm ≠ "FORGET".toList) && decide (nm ≠ "VARIABLE".toList)

/-- The entry `compileToken` builds for
`: SIGN DUP 0 < IF DROP -1 ELSE 0 > IF 1 ELSE 0 THEN THEN ;` (checked against the compiler
in the proof of C8). -/
def signWord : CompiledWord :=
  { name := "SIGN".toList,
    code := [{ opcode := OpCode.OP_DUP, operand := 0 },
            { opcode := OpCode.OP_PUSH, operand := 0 },
            { opcode := OpCode.OP_LT, operand := 0 },
            { opcode := OpCode.OP_BRANCH_FALSE, operand := 7 },
            { opcode := OpCode.OP_DROP, operand := 0 },
            { opcode := OpCode.OP_PUSH, operand := 1 },
            { opcode := OpCode.OP_BRANCH, operand := 13 },
            { opcode := OpCode.OP_PUSH, operand := 2 },
            { opcode := OpCode.OP_GT, operand := 0 },
            { opcode := OpCode.OP_BRANCH_FALSE, operand := 12 },
            { opcode := OpCode.OP_PUSH, operand := 3 },
            { opcode := OpCode.OP_BRANCH, operand := 13 },
            { opcode := OpCode.OP_PUSH, operand := 4 },
            { opcode := OpCode.OP_END, operand := 0 }],
    strings := [['0'], ['-', '1'], ['0'], ['1'], ['0']] }

/-- The entry `compileToken` builds for `: FACT 1 SWAP 1 + 1 DO I * LOOP ;` (checked
against the compiler in the proof of C6). -/
def factWord : CompiledWord :=
  { name := "FACT".toList,
    code := [{ opcode := OpCode.OP_PUSH, operand := 0 },
             { opcode := OpCode.OP_SWAP, operand := 0 },
             { opcode := OpCode.OP_PUSH, operand := 1 },
             { opcode := OpCode.OP_ADD, operand := 0 },
             { opcode := OpCode.OP_PUSH, operand := 2 },
             { opcode := OpCode.OP_DO, operand := 0 },
             { opcode := OpCode.OP_I, operand := 0 },
             { opcode := OpCode.OP_MUL, operand := 0 },
             { opcode := OpCode.OP_LOOP, operand := 0 },
             { opcode := OpCode.OP_END, operand := 0 }],
    strings := [['1'], ['1'], ['1']] }

/-- The entry `compileToken` builds for `: FIB 0 1 ROT 0 DO OVER + SWAP LOOP DROP ;`
(checked against the compiler in the proof of C7). -/
def fibWord : CompiledWord :=
  { name := "FIB".toList,
    code := [{ opcode := OpCode.OP_PUSH, operand := 0 },
             { opcode := OpCode.OP_PUSH, operand := 1 },
             { opcode := OpCode.OP_ROT, operand := 0 },
             { opcode := OpCode.OP_PUSH, operand := 2 },
             { opcode := OpCode.OP_DO, operand := 0 },
             { opcode := OpCode.OP_OVER, operand := 0 },
             { opcode := OpCode.OP_ADD, operand := 0 },
             { opcode := OpCode.OP_SWAP, operand := 0 },
             { opcode := OpCode.OP_LOOP, operand := 0 },
             { opcode := OpCode.OP_DROP, operand := 0 },
             { opcode := OpCode.OP_END, operand := 0 }],
    strings := [['0'], ['1'], ['0']] }

/-- The state of a fresh session after one input line (`initState` if the line does not
come to an end within 50 units of fuel). -/
def stateAfter (line : List Char) : State :=
  (interpret noFiles 50 line initState).getD initState

/-- The opcodes of straight-line code: the instructions compiled from numbers, from
`."` and from the primitive tokens other than `EXIT`.  They neither move `ip` nor touch
the loop stack or the dictionary. -/
def isStraight (op : OpCode) : Bool :=
  match op with
  | OpCode.OP_PUSH | OpCode.OP_ADD | OpCode.OP_SUB | OpCode.OP_MUL | OpCode.OP_DIV
  | OpCode.OP_DUP | OpCode.OP_SWAP | OpCode.OP_OVER | OpCode.OP_ROT | OpCode.OP_DROP
  | OpCode.OP_EQ | OpCode.OP_LT | OpCode.OP_GT | OpCode.OP_AND | OpCode.OP_OR
  | OpCode.OP_NOT | OpCode.OP_I | OpCode.OP_DOT_QUOTE | OpCode.OP_CR | OpCode.OP_DOT_S
  | OpCode.OP_FLUSH | OpCode.OP_DOT | OpCode.OP_BIT_AND | OpCode.OP_BIT_OR
  | OpCode.OP_BIT_XOR | OpCode.OP_BIT_NOT | OpCode.OP_LSHIFT | OpCode.OP_RSHIFT
  | OpCode.OP_WORDS | OpCode.OP_FETCH | OpCode.OP_STORE | OpCode.OP_PICK => true
  | _ => false

/-- The state after one straight-line instruction (`*ip` is not used by these cases). -/
def straightStep (instr : Instruction) (word : CompiledWord) (st : State) : State :=
  ((executePrimitive instr 0 word st).getD (st, 0)).1

/-- Execute a list of straight-line instructions once, one after the other, stopping as
`executeCompiledWord` does when `error_flag` is set. -/
def runStraight (word : CompiledWord) : List Instruction → State → State
  | [], st => st
  | instr :: rest, st =>
    if st.error_flag then st else runStraight word rest (straightStep instr word st)

/-- The state `OP_DO` at instruction `ip` leaves when it pops `start` and `limit`: the
rest of the value stack and a new loop entry. -/
def doEntered (st : State) (start limit : Int) (rest : List Int) (ip : Int) : State :=
  { st with stack := rest,
            loop_stack := { index := start, limit := limit, addr := ip + 1 } :: st.loop_stack }

/-- The names of the live dictionary entries (indices below `dict_count`), in index
order. -/
def liveNames (st : State) : List (List Char) :=
  (st.dictionary.take st.dict_count).map (fun w => w.name)

/-- The dictionary invariant: the live entries have pairwise distinct names, the array
has its `DICT_SIZE` slots and `dict_count` does not exceed them. -/
def DictOK (st : State) : Prop :=
  (liveNames st).Nodup ∧ st.dictionary.length = DICT_SIZE ∧ st.dict_count ≤ DICT_SIZE

/-- The heap invariant: no string of a live dictionary entry (a cell below
`string_count` of an entry below `dict_count`) holds a freed pointer. -/
def HeapOK (st : State) : Prop :=
  ∀ p ∈ st.freed, p.1 < st.dict_count →
    (st.dictionary.getD p.1 emptyWord).strings.length ≤ p.2

/-- The state `st1` has the dictionary, the `dict_count` and the freed cells of `st`. -/
def SameDict (st st1 : State) : Prop :=
  st1.dictionary = st.dictionary ∧ st1.dict_count = st.dict_count ∧ st1.freed = st.freed

/-- The states reachable from the initial state (empty dictionary) through calls of
`interpret` that return, whatever the files and the input lines. -/
inductive Reachable : State → Prop
  | init : Reachable initState
  | step (fs : List Char → Option (List (List Char))) (fuel : Nat) (line : List Char)
      (st st1 : State) : Reachable st → interpret fs fuel line st = some st1 → Reachable st1

/-- The state `st1` differs from `st` at most in `currentWord`, `control_stack` and the
output: what `compileToken` writes to. -/
def CompileFrame (st st1 : State) : Prop :=
  st1 = { st with currentWord := st1.currentWord, control_stack := st1.control_stack,
                  output := st1.output }

/-- The messages with which the value stack reports that it is empty or full: those of
`pop` and `push`, of `OP_ROT` and of `OP_PICK`. -/
def isStackFaultMessage (m : String) : Bool :=
  m = "Stack underflow" || m = "Stack overflow" || m = "Stack underflow for ROT"
    || m = "PICK: Stack underflow or invalid index"

/-- The last thing printed is the report `Error: m` of `set_error` with `m` one of the
messages of `isStackFaultMessage`. -/
def endsWithStackFault (st : State) : Bool :=
  match st.output.reverse with
  | Output.text nl :: Output.text m :: Output.text e :: _ =>
    decide (nl = "\n") && decide (e = "Error: ") && isStackFaultMessage m
  | _ => false

/-- The instructions that pop two operands with two calls of `pop`. -/
def popsTwo (op : OpCode) : Bool :=
  match op with
  | OpCode.OP_ADD | OpCode.OP_SUB | OpCode.OP_MUL | OpCode.OP_DIV | OpCode.OP_SWAP
  | OpCode.OP_OVER | OpCode.OP_EQ | OpCode.OP_LT | OpCode.OP_GT | OpCode.OP_AND
  | OpCode.OP_OR | OpCode.OP_DO | OpCode.OP_OF | OpCode.OP_BIT_AND | OpCode.OP_BIT_OR
  | OpCode.OP_BIT_XOR | OpCode.OP_LSHIFT | OpCode.OP_RSHIFT | OpCode.OP_STORE => true
  | _ => false

/-- The word `interpret` commits for `: W t ;` with `t` a numeric literal: the text `t`
in the string pool, an `OP_PUSH` of its index and the final `OP_END`. -/
def literalWord (name t : List Char) : CompiledWord :=
  { name := name,
    code := [{ opcode := OpCode.OP_PUSH, operand := 0 }, { opcode := OpCode.OP_END, operand := 0 }],
    strings := [t] }

/-- The state `interpret` leaves after `: W t ;` when `W` is a new name and the
dictionary has room: `literalWord W t` appended to the dictionary (and left in
`currentWord`), immediate mode again. -/
def definedLiteral (name t : List Char) (st : State) : State :=
  { st with error_flag := false,
            dictionary := st.dictionary.set st.dict_count (literalWord name t),
            dict_count := st.dict_count + 1,
            currentWord := literalWord name t,
            compiling := false,
            current_word_index := -1 }

/-- The accessor word `OP_VARIABLE` adds to the dictionary for variable number `k`. -/
def accessorWord (name : List Char) (k : Nat) : CompiledWord :=
  { name := name, code := [{ opcode := OpCode.OP_PUSH, operand := (k : Int) }], strings := [] }

/-- The state `VARIABLE name` leaves when the name is new, the variable table and the
dictionary have room: the variable appended with value 0, its accessor word appended to
the dictionary. -/
def variableAdded (name : List Char) (st : State) : State :=
  { st with vars := st.vars ++ [{ name := name, value := 0 }],
            dictionary := st.dictionary.set st.dict_count (accessorWord name st.vars.length),
            dict_count := st.dict_count + 1 }

/-- The state of a fresh session after `: W LOAD "f" ;`. -/
def loadWordState : State :=
  stateAfter (": W LOAD ".toList ++ [dquote] ++ "f".toList ++ [dquote] ++ " ;".toList)

/-- The state `st` with the code of `currentWord` and the control stack replaced: what
the control words of `compileToken` change. -/
def withCode (st : State) (code : List Instruction) (cs : List ControlEntry) : State :=
  { st with currentWord := { st.currentWord with code := code }, control_stack := cs }

/-- The instructions at the addresses `addrs` patched, one after the other, to the
operand `v`. -/
def patchAll (code : List Instruction) (addrs : List Int) (v : Int) : List Instruction :=
  addrs.foldl (fun c a => patchOperand c a v) code

/-- One pass of a loop with a straight-line body that goes round again: the body, then
the increment of the index of the innermost loop entry by `OP_LOOP` (not reached when the
body set the error flag). -/
def loopPass (word : CompiledWord) (body : List Instruction) (st : State) : State :=
  if (runStraight word body st).error_flag then runStraight word body st
  else
    match (runStraight word body st).loop_stack with
    | l :: ls =>
      { runStraight word body st with loop_stack := { l with index := l.index + 1 } :: ls }
    | [] => runStraight word body st

/-- The state after `k` passes that go round again. -/
def loopPasses (word : CompiledWord) (body : List Instruction) : Nat → State → State
  | 0, st => st
  | k + 1, st => loopPasses word body k (loopPass word body st)

/-- The state in which `OP_LOOP` leaves the loop: the innermost loop entry popped (not
reached when the body set the error flag). -/
def loopExit (ls : List LoopControl) (st : State) : State :=
  if st.error_flag then st else { st with loop_stack := ls }

/-- The number of times `DO body LOOP` runs its body: the test of `OP_LOOP` comes after
the body. -/
def loopCount (start limit : Int) : Nat :=
  if start < limit then (limit - start).toNat else 1

/-- The input line made of the tokens `ts`, each followed by a blank, and then `more`. -/
def tokenLine (ts : List (List Char)) (more : List Char) : List Char :=
  ts.foldr (fun t acc => t ++ ' ' :: acc) more

/-- A one-instruction token of `compileToken` whose instruction is straight-line: the
primitive tokens other than `EXIT`. -/
def isPrimToken (t : List Char) : Bool :=
  match primitiveOpcode t with
  | some op => isStraight op
  | none => false

/-- The instructions `compileToken` appends for a sequence of one-instruction tokens. -/
def primCode (ts : List (List Char)) : List Instruction :=
  ts.filterMap (fun t => (primitiveOpcode t).map (fun op => { opcode := op, operand := 0 }))

/-- The code `compileToken` appends for `IF A ELSE B THEN` at index `p`, with `A` and `B`
sequences of one-instruction tokens: `BRANCH_FALSE` to the first instruction of `B`, the
code of `A`, `BRANCH` to the instruction after `B`, the code of `B`. -/
def ifElseCode (p : Nat) (A B : List (List Char)) : List Instruction :=
  [{ opcode := OpCode.OP_BRANCH_FALSE, operand := ((p + A.length + 2 : Nat) : Int) }]
    ++ primCode A
    ++ [{ opcode := OpCode.OP_BRANCH, operand := ((p + A.length + B.length + 2 : Nat) : Int) }]
    ++ primCode B

/-- The word committed for `: W IF A ELSE B THEN ;`. -/
def ifElseWord (W : List Char) (A B : List (List Char)) : CompiledWord :=
  { name := W, code := ifElseCode 0 A B ++ [{ opcode := OpCode.OP_END, operand := 0 }],
    strings := [] }

/-- The state `interpret` leaves after `: W ... ;` when `W` is a new name, the dictionary
has room and the control stack is as before: the word `w` appended to the dictionary (and
left in `currentWord`), immediate mode again. -/
def definedWord (w : CompiledWord) (st : State) : State :=
  { st with error_flag := false,
            dictionary := st.dictionary.set st.dict_count w,
            dict_count := st.dict_count + 1,
            currentWord := w,
            compiling := false,
            current_word_index := -1 }

/-- The code `compileToken` builds for `BEGIN C WHILE B REPEAT` at index `p`, with `cC`
and `cB` the code of `C` and `B`: `REPEAT` has the index of `BEGIN`, `WHILE` the index of
the instruction after `REPEAT`. -/
def whileCode (p : Nat) (cC cB : List Instruction) : List Instruction :=
  [{ opcode := OpCode.OP_BEGIN, operand := 0 }] ++ cC
    ++ [{ opcode := OpCode.OP_WHILE, operand := ((p + cC.length + cB.length + 3 : Nat) : Int) }]
    ++ cB ++ [{ opcode := OpCode.OP_REPEAT, operand := (p : Int) }]

/-- One pass of `BEGIN C WHILE B REPEAT` that goes round again: the code of `C`, the pop
of the flag by `WHILE`, the code of `B`. -/
def whilePass (word : CompiledWord) (cC cB : List Instruction) (st : State) : State :=
  runStraight word cB (pop (runStraight word cC st)).2

/-- The state after `k` passes that go round again. -/
def whilePasses (word : CompiledWord) (cC cB : List Instruction) : Nat → State → State
  | 0, st => st
  | k + 1, st => whilePasses word cC cB k (whilePass word cC cB st)

/-- The tokens with which `compileToken` pushes or pops control-stack entries. -/
inductive ControlWord
  | wIf | wElse | wThen | wDo | wLoop | wCase | wOf | wEndof | wEndcase | wBegin | wWhile
  | wRepeat
  deriving DecidableEq, Repr

/-- The control word a token spells, if any: the `strcmp` tests of `compileToken` that
lead to a case touching the control stack. -/
def controlWord (t : List Char) : Option ControlWord :=
  if t = "IF".toList then some ControlWord.wIf
  else if t = "ELSE".toList then some ControlWord.wElse
  else if t = "THEN".toList then some ControlWord.wThen
  else if t = "DO".toList then some ControlWord.wDo
  else if t = "LOOP".toList then some ControlWord.wLoop
  else if t = "CASE".toList then some ControlWord.wCase
  else if t = "OF".toList then some ControlWord.wOf
  else if t = "ENDOF".toList then some ControlWord.wEndof
  else if t = "ENDCASE".toList then some ControlWord.wEndcase
  else if t = "BEGIN".toList then some ControlWord.wBegin
  else if t = "WHILE".toList then some ControlWord.wWhile
  else if t = "REPEAT".toList then some ControlWord.wRepeat
  else none

/-- The control stack the `while` loop of the `ENDCASE` case leaves: the `CT_ENDOF`
entries on top are popped. -/
def dropEndofs : List ControlEntry → List ControlEntry
  | [] => []
  | e :: es => if e.type = ControlType.CT_ENDOF then dropEndofs es else e :: es

/-- The control stack `compileToken` leaves for a token, from the control stack `cs` and
the `code_length` `len` it finds. -/
def controlAfter (k : Option ControlWord) (len : Int) (cs : List ControlEntry) :
    List ControlEntry :=
  match k with
  | none => cs
  | some ControlWord.wIf => { type := ControlType.CT_IF, addr := len } :: cs
  | some ControlWord.wElse =>
    match cs with
    | e :: es => if e.type = ControlType.CT_IF then { type := ControlType.CT_IF, addr := len } :: es
                 else cs
    | [] => cs
  | some ControlWord.wThen =>
    match cs with
    | e :: es => if e.type = ControlType.CT_IF then es else cs
    | [] => cs
  | some ControlWord.wDo => { type := ControlType.CT_DO, addr := len } :: cs
  | some ControlWord.wLoop =>
    match cs with
    | e :: es => if e.type = ControlType.CT_DO then es else cs
    | [] => cs
  | some ControlWord.wCase => { type := ControlType.CT_CASE, addr := len } :: cs
  | some ControlWord.wOf => { type := ControlType.CT_OF, addr := len } :: cs
  | some ControlWord.wEndof =>
    match cs with
    | e :: es => if e.type = ControlType.CT_OF then { type := ControlType.CT_ENDOF, addr := len } :: es
                 else cs
    | [] => cs
  | some ControlWord.wEndcase =>
    match cs with
    | e :: _ =>
      if e.type = ControlType.CT_ENDOF then
        match dropEndofs cs with
        | e2 :: es2 => if e2.type = ControlType.CT_CASE then es2 else e2 :: es2
        | [] => []
      else cs
    | [] => cs
  | some ControlWord.wBegin => { type := ControlType.CT_DO, addr := len } :: cs
  | some ControlWord.wWhile => { type := ControlType.CT_IF, addr := len } :: cs
  | some ControlWord.wRepeat => cs.drop 2

/-- `compileToken` called on the tokens of a sequence one after the other, each with the
rest of the input it is given: the state after the last call, `none` when a call has no
result. -/
def compileSeq : List (List Char × List Char) → State → Option State
  | [], st => some st
  | (t, r) :: ts, st =>
    match compileToken t r st with
    | some (st1, _) => compileSeq ts st1
    | none => none

/-- A control structure that is open while a token sequence is read, named after the
part of it read so far; `inCase k` is a `CASE` with `k` complete `OF … ENDOF` clauses. -/
inductive OpenControl
  | afterIf | afterElse | afterDo | afterBegin | afterWhile | inCase (clauses : Nat)
  | afterOf
  deriving DecidableEq, Repr

/-- The types of the control-stack entries of an open control structure, top first. -/
def OpenControl.entries : OpenControl → List ControlType
  | OpenControl.afterIf => [ControlType.CT_IF]
  | OpenControl.afterElse => [ControlType.CT_IF]
  | OpenControl.afterDo => [ControlType.CT_DO]
  | OpenControl.afterBegin => [ControlType.CT_DO]
  | OpenControl.afterWhile => [ControlType.CT_IF, ControlType.CT_DO]
  | OpenControl.inCase k => List.replicate k ControlType.CT_ENDOF ++ [ControlType.CT_CASE]
  | OpenControl.afterOf => [ControlType.CT_OF]

/-- Reading one token with the structures `s` open, innermost first: the structures open
afterwards, or `none` when a control word does not continue the innermost one. -/
def nestStep (k : Option ControlWord) (s : List OpenControl) : Option (List OpenControl) :=
  match k, s with
  | none, s => some s
  | some ControlWord.wIf, s => some (OpenControl.afterIf :: s)
  | some ControlWord.wElse, OpenControl.afterIf :: s => some (OpenControl.afterElse :: s)
  | some ControlWord.wThen, OpenControl.afterIf :: s => some s
  | some ControlWord.wThen, OpenControl.afterElse :: s => some s
  | some ControlWord.wDo, s => some (OpenControl.afterDo :: s)
  | some ControlWord.wLoop, OpenControl.afterDo :: s => some s
  | some ControlWord.wBegin, s => some (OpenControl.afterBegin :: s)
  | some ControlWord.wWhile, OpenControl.afterBegin :: s => some (OpenControl.afterWhile :: s)
  | some ControlWord.wRepeat, OpenControl.afterWhile :: s => some s
  | some ControlWord.wCase, s => some (OpenControl.inCase 0 :: s)
  | some ControlWord.wOf, OpenControl.inCase k :: s =>
    some (OpenControl.afterOf :: OpenControl.inCase k :: s)
  | some ControlWord.wEndof, OpenControl.afterOf :: OpenControl.inCase k :: s =>
    some (OpenControl.inCase (k + 1) :: s)
  | some ControlWord.wEndcase, OpenControl.inCase (_ + 1) :: s => some s
  | _, _ => none

/-- The control tokens of a token sequence are properly nested, with the structures `s`
open at its start: `IF [ELSE] THEN`, `DO LOOP`, `BEGIN WHILE REPEAT`, `CASE` with one or
more `OF … ENDOF` clauses then `ENDCASE`, each closed in the structure it was opened in,
and nothing left open at the end. -/
def properlyNested : List OpenControl → List (List Char) → Bool
  | s, [] => s.isEmpty
  | s, t :: ts =>
    match nestStep (controlWord t) s with
    | some s1 => properlyNested s1 ts
    | none => false

/-- The control stack `cs` holds, on top of `base`, the entries of the open structures
`s`, innermost first. -/
def Shadow (base : List ControlEntry) : List OpenControl → List ControlEntry → Prop
  | [], cs => cs = base
  | o :: s, cs =>
    ∃ top rest, cs = top ++ rest ∧ top.map (fun e => e.type) = o.entries ∧ Shadow base s rest

/-- The tokens of
`IF DUP ELSE CASE 1 OF 2 ENDOF 3 OF 4 ENDOF ENDCASE THEN BEGIN DUP WHILE 1 - REPEAT 5 0 DO I LOOP`,
each with an empty rest of input. -/
def nestedTokens : List (List Char × List Char) :=
  ["IF", "DUP", "ELSE", "CASE", "1", "OF", "2", "ENDOF", "3", "OF", "4", "ENDOF", "ENDCASE",
   "THEN", "BEGIN", "DUP", "WHILE", "1", "-", "REPEAT", "5", "0", "DO", "I", "LOOP"].map
    (fun t => (t.toList, []))

/-- The initial state with one entry on the control stack, as an earlier definition that
was not closed properly leaves it. -/
def staleState : State :=
  { initState with control_stack := [{ type := ControlType.CT_ENDOF, addr := 7 }] }

/-- The instruction at index `p` of the definition under way is `x`, the string at index
`k` of its pool is `t`, and no entry of the control stack holds the index `p`: no
`ELSE`, `THEN`, `ENDOF`, `ENDCASE` or `REPEAT` to come will patch the instruction. -/
def LitInv (p : Nat) (x : Instruction) (k : Nat) (t : List Char) (st : State) : Prop :=
  st.currentWord.code[p]? = some x ∧ st.currentWord.strings[k]? = some t
    ∧ ∀ e ∈ st.control_stack, e.addr ≠ (p : Int)

/-- The state `compileToken` leaves for a numeric literal `t`: `t` appended to the string
pool and an `OP_PUSH` of its index appended to the code. -/
def literalAdded (t : List Char) (st : State) : State :=
  { st with currentWord :=
      { name := st.currentWord.name,
        code := st.currentWord.code
          ++ [{ opcode := OpCode.OP_PUSH, operand := (st.currentWord.strings.length : Int) }],
        strings := st.currentWord.strings ++ [t] } }

/-- The state of a fresh session after `: A 1 ;` and `FORGET A`: the dictionary is empty
and the string of `A` is freed, its pointer still in slot 0. -/
def forgottenState : State :=
  (session noFiles 50 [": A 1 ;".toList, "FORGET A".toList] initState).getD initState

/-- One pass through the body of the `while (token && !error_flag)` loop of C `interpret`,
for the token `token` with `saveptr` the rest of the line: the state after the token and
where the line goes on, `some sp` when the loop comes to its last statement
`token = strtok_r (NULL, ..., &saveptr)` with `saveptr = sp`, `none` when the body ends
the function (`return`, or `:` without a name). -/
def tokenStep (fs : List Char → Option (List (List Char))) (fuel : Nat)
    (token saveptr : List Char) (st : State) : Option (State × Option (List Char)) :=
  if st.compiling then
    if token = ";".toList then
      match emit { opcode := OpCode.OP_END, operand := 0 } st with
      | some st1 =>
        if commitFault st1 then none
        else some (commitWord st1, some saveptr)
      | none => none
    else
      match compileToken token saveptr st with
      | some (st1, saveptr1) => some (st1, some saveptr1)
      | none => none
  else
    match mpz_set_str token with
    | some big_value => some (push big_value st, some saveptr)
    | none =>
      if token = ":".toList then
        match strtok_r saveptr with
        | some (name, saveptr1) =>
          if redefineFault name st then none
          else some (beginDefinition name st, some saveptr1)
        | none => some (st, none)
      else if token = "LOAD".toList then
        match saveptr.dropWhile (fun c => c = ' ' || c = '\t') with
        | [] => some (print "LOAD expects a quoted filename\n" st, none)
        | c :: start1 =>
          if c ≠ dquote then some (print "LOAD expects a quoted filename\n" st, none)
          else
            match splitAtQuote start1 with
            | none => some (print "Missing closing quote for LOAD\n" st, none)
            | some (filename, after) =>
              if MAX_STRING_SIZE ≤ filename.length then none
              else
                match fs filename with
                | none =>
                  some ({ st with output := st.output ++ [Output.text "Cannot open file: ",
                      Output.text (String.mk filename), Output.text "\n"] }, some after)
                | some lines =>
                  match interpretLines fs fuel lines st with
                  | some st1 => some (st1, some after)
                  | none => none
      else if token = ['.', dquote] then
        match splitAtQuote saveptr with
        | none =>
          some (print ("Missing closing quote for ." ++ String.mk [dquote] ++ "\n") st, none)
        | some (str, after) =>
          match execLoop fs fuel
              (WordRef.temp (tempWord { opcode := OpCode.OP_DOT_QUOTE, operand := 0 } [str]))
              0 st with
          | some st1 => some (st1, some after)
          | none => none
      else
        match primitiveOpcode token with
        | some op =>
          match execLoop fs fuel
              (WordRef.temp (tempWord { opcode := op, operand := 0 } [])) 0 st with
          | some st1 => some (st1, some saveptr)
          | none => none
        | none =>
          if token = "FORGET".toList then
            match strtok_r saveptr with
            | none => some (print "FORGET requires a word name\n" st, none)
            | some (next_token, saveptr1) =>
              let index := findCompiledWordIndex next_token st
              if 0 ≤ index then
                match execLoop fs fuel
                    (WordRef.temp (tempWord { opcode := OpCode.OP_FORGET, operand := index } []))
                    0 st with
                | some st1 => some (st1, some saveptr1)
                | none => none
              else
                some ({ st with output := st.output ++ [Output.text "FORGET: Unknown word: ",
                    Output.text (String.mk next_token), Output.text "\n"] }, some saveptr1)
          else if token = "VARIABLE".toList then
            match strtok_r saveptr with
            | none => some (print "VARIABLE requires a name\n" st, none)
            | some (next_token, saveptr1) =>
              match execLoop fs fuel
                  (WordRef.temp
                    (tempWord { opcode := OpCode.OP_VARIABLE, operand := 0 } [next_token]))
                  0 st with
              | some st1 => some (st1, some saveptr1)
              | none => none
          else
            let index := findCompiledWordIndex token st
            if 0 ≤ index then
              match execLoop fs fuel
                  (WordRef.temp (tempWord { opcode := OpCode.OP_CALL, operand := index } []))
                  0 st with
              | some st1 => some (st1, some saveptr)
              | none => none
            else
              some ({ st with output := st.output ++ [Output.text "Unknown word: ",
                  Output.text (String.mk token), Output.text "\n"] }, some saveptr)

/-- The file system of the examples: the file `f` with the lines `1 0 / 9` and `2`, and
the file `g` with the lines `3` and `1 0 / 9`. -/
def errorFile : List Char → Option (List (List Char)) :=
  fun name =>
    if name = "f".toList then some ["1 0 / 9".toList, "2".toList]
    else if name = "g".toList then some ["3".toList, "1 0 / 9".toList]
    else none

/-! ## Theorems -/

/-! ### Basic lemmas on the instruction dispatcher -/

@[simp] theorem overwritten_zero (i : Nat) (freed : List (Nat × Nat)) :
    overwritten i 0 freed = freed := by
  simp [overwritten]

/-- Nothing is taken from the freed cells when none of them is overwritten. -/
theorem overwritten_of_any (i n : Nat) (freed : List (Nat × Nat))
    (h : freed.any (fun p => decide (p.1 = i ∧ p.2 < n)) = false) :
    overwritten i n freed = freed := by
  unfold overwritten
  rw [List.filter_eq_self]
  intro p hp
  have h1 := List.any_eq_false.1 h p hp
  simp only [decide_eq_true_eq] at h1
  simp only [Bool.not_eq_true', decide_eq_false_iff_not]
  exact h1

/-- Outside `OP_CALL`, with `error_flag` clear and no access to freed memory,
`executeInstruction` is the `switch` case of the opcode. -/
theorem executeInstruction_primitive (fs : List Char → Option (List (List Char)))
    (fuel : Nat) (instr : Instruction) (ip : Int) (word : WordRef) (st : State)
    (herr : st.error_flag = false) (hop : instr.opcode ≠ OpCode.OP_CALL)
    (hheap : heapFault instr word st = false) :
    executeInstruction fs (fuel + 1) instr ip word st
      = executePrimitive instr ip (wordOf st word) st := by
  rw [executeInstruction]
  simp [herr, hop, hheap]

/-- An instruction that returns with `error_flag` clear at entry touched no freed
memory. -/
theorem heapFault_of_some (fs : List Char → Option (List (List Char)))
    (fuel : Nat) (instr : Instruction) (ip : Int) (word : WordRef) (st : State)
    (r : State × Int) (herr : st.error_flag = false)
    (h : executeInstruction fs (fuel + 1) instr ip word st = some r) :
    heapFault instr word st = false := by
  cases hh : heapFault instr word st with
  | false => rfl
  | true =>
    rw [executeInstruction] at h
    simp [herr, hh] at h

/-- The instructions that neither read a string of their word nor free one. -/
theorem heapFault_other (instr : Instruction) (word : WordRef) (st : State)
    (h1 : instr.opcode ≠ OpCode.OP_PUSH) (h2 : instr.opcode ≠ OpCode.OP_DOT_QUOTE)
    (h3 : instr.opcode ≠ OpCode.OP_CALL) (h4 : instr.opcode ≠ OpCode.OP_VARIABLE)
    (h5 : instr.opcode ≠ OpCode.OP_FORGET) : heapFault instr word st = false := by
  obtain ⟨op, operand⟩ := instr
  cases op <;> first | rfl | (exfalso; simp at h1 h2 h3 h4 h5)

/-- The local `temp` of `interpret` is not read after being freed. -/
theorem heapFault_temp (instr : Instruction) (w : CompiledWord) (st : State)
    (h4 : instr.opcode ≠ OpCode.OP_VARIABLE) (h5 : instr.opcode ≠ OpCode.OP_FORGET) :
    heapFault instr (WordRef.temp w) st = false := by
  obtain ⟨op, operand⟩ := instr
  cases op <;> first | rfl | (simp [heapFault, readsFreed]; done) | (exfalso; simp at h4 h5)

/-- A word none of whose string cells was freed reads no freed memory. -/
theorem heapFault_clean (instr : Instruction) (i : Nat) (st : State)
    (hclean : ∀ p ∈ st.freed, p.1 ≠ i)
    (h4 : instr.opcode ≠ OpCode.OP_VARIABLE) (h5 : instr.opcode ≠ OpCode.OP_FORGET) :
    heapFault instr (WordRef.dict i) st = false := by
  have hr : ∀ k : Int, readsFreed st (WordRef.dict i) k = false := by
    intro k
    simp only [readsFreed, Bool.and_eq_false_imp, decide_eq_true_eq]
    intro _
    cases hc : st.freed.contains (i, k.toNat) with
    | false => rfl
    | true =>
      exfalso
      have hm : (i, k.toNat) ∈ st.freed := by simpa using hc
      exact hclean _ hm rfl
  obtain ⟨op, operand⟩ := instr
  cases op <;> first | rfl | (simp [heapFault, hr]; done) | (exfalso; simp at h4 h5)

/-- With `error_flag` set, `executeInstruction` returns at once. -/
theorem executeInstruction_error (fs : List Char → Option (List (List Char)))
    (fuel : Nat) (instr : Instruction) (ip : Int) (word : WordRef) (st : State)
    (herr : st.error_flag = true) :
    executeInstruction fs (fuel + 1) instr ip word st = some (st, ip) := by
  rw [executeInstruction]
  simp [herr]

/-- The remainder of GMP's floor division lies between the divisor and zero when the
divisor is negative. -/
theorem fmod_neg_range (b : Int) {a : Int} (ha : a < 0) :
    a < Int.fmod b a ∧ Int.fmod b a ≤ 0 := by
  rcases a with (_ | n) | n
  · simp at ha
  · exfalso
    have : (0 : Int) ≤ Int.ofNat (n + 1) := Int.ofNat_nonneg _
    omega
  · have e : Int.negSucc n = -((n : Int) + 1) := rfl
    rcases b with (_ | m) | m
    · simp [Int.fmod]
      omega
    · have h := Nat.mod_lt m (Nat.succ_pos n)
      simp only [Int.fmod, Int.subNatNat_eq_coe]
      rw [e]
      omega
    · have h := Nat.mod_lt (m + 1) (Nat.succ_pos n)
      simp only [Int.fmod]
      rw [e]
      have : ((Int.ofNat ((m + 1) % (n + 1)) : Int)) = (((m + 1) % (n + 1) : Nat) : Int) := rfl
      simp only [Nat.succ_eq_add_one] at *
      omega

/-- The quotient `mpz_div` computes is the floor of the rational quotient. -/
theorem mpz_div_eq_floor (b a : Int) (ha : a ≠ 0) :
    mpz_div b a = ⌊(b : ℚ) / (a : ℚ)⌋ := by
  unfold mpz_div
  symm
  rw [Int.floor_eq_iff]
  have key := Int.fmod_add_fdiv b a
  have hq : (b : ℚ) = (Int.fmod b a : ℚ) + (a : ℚ) * (Int.fdiv b a : ℚ) := by
    exact_mod_cast key.symm
  have ha' : (a : ℚ) ≠ 0 := by exact_mod_cast ha
  have e : (b : ℚ) / (a : ℚ) = (Int.fdiv b a : ℚ) + (Int.fmod b a : ℚ) / (a : ℚ) := by
    rw [hq]
    field_simp
    ring
  rw [e]
  rcases lt_or_gt_of_ne ha with h | h
  · obtain ⟨h1, h2⟩ := fmod_neg_range b h
    have h1' : (a : ℚ) < (Int.fmod b a : ℚ) := by exact_mod_cast h1
    have h2' : (Int.fmod b a : ℚ) ≤ 0 := by exact_mod_cast h2
    have h' : (a : ℚ) < 0 := by exact_mod_cast h
    constructor
    · have := div_nonneg_of_nonpos h2' h'.le
      linarith
    · have : (Int.fmod b a : ℚ) / (a : ℚ) < 1 := by
        rw [div_lt_one_of_neg h']
        exact h1'
      linarith
  · have h1 := Int.fmod_nonneg' b h
    have h2 := Int.fmod_lt_of_pos b h
    have h1' : (0 : ℚ) ≤ (Int.fmod b a : ℚ) := by exact_mod_cast h1
    have h2' : (Int.fmod b a : ℚ) < (a : ℚ) := by exact_mod_cast h2
    have h' : (0 : ℚ) < (a : ℚ) := by exact_mod_cast h
    constructor
    · have := div_nonneg h1' h'.le
      linarith
    · have : (Int.fmod b a : ℚ) / (a : ℚ) < 1 := by
        rw [div_lt_one h']
        exact h2'
      linarith

/-! ### Tokenizer and outer interpreter lemmas -/

theorem takeWhile_token (t rest : List Char) (h : t.all (fun c => !isDelim c) = true) :
    (t ++ ' ' :: rest).takeWhile (fun x => !isDelim x) = t := by
  induction t with
  | nil => simp [List.takeWhile, isDelim]
  | cons c cs ih =>
    simp only [List.all_cons, Bool.and_eq_true] at h
    simp [List.takeWhile, h.1, ih h.2]

theorem dropWhile_token (t rest : List Char) (h : t.all (fun c => !isDelim c) = true) :
    (t ++ ' ' :: rest).dropWhile (fun x => !isDelim x) = ' ' :: rest := by
  induction t with
  | nil => simp [List.dropWhile, isDelim]
  | cons c cs ih =>
    simp only [List.all_cons, Bool.and_eq_true] at h
    simp [List.dropWhile, h.1, ih h.2]

theorem takeWhile_token_end (t : List Char) (h : t.all (fun c => !isDelim c) = true) :
    t.takeWhile (fun x => !isDelim x) = t := by
  induction t with
  | nil => rfl
  | cons c cs ih =>
    simp only [List.all_cons, Bool.and_eq_true] at h
    simp [List.takeWhile, h.1, ih h.2]

theorem dropWhile_token_end (t : List Char) (h : t.all (fun c => !isDelim c) = true) :
    t.dropWhile (fun x => !isDelim x) = [] := by
  induction t with
  | nil => rfl
  | cons c cs ih =>
    simp only [List.all_cons, Bool.and_eq_true] at h
    simp [List.dropWhile, h.1, ih h.2]

theorem strtok_r_token (t rest : List Char) (ht : isToken t = true) :
    strtok_r (t ++ ' ' :: rest) = some (t, rest) := by
  unfold isToken at ht
  simp only [Bool.and_eq_true] at ht
  obtain ⟨hne, hall⟩ := ht
  cases t with
  | nil => simp at hne
  | cons c cs =>
    have hc : isDelim c = false := by
      simp only [List.all_cons, Bool.and_eq_true] at hall
      simpa using hall.1
    have h1 := takeWhile_token (c :: cs) rest hall
    have h2 := dropWhile_token (c :: cs) rest hall
    have hd : (c :: cs ++ ' ' :: rest).dropWhile isDelim = c :: (cs ++ ' ' :: rest) := by
      simp [List.dropWhile, hc]
    simp only [List.cons_append] at h1 h2
    unfold strtok_r
    rw [hd]
    simp only [h1, h2, List.drop_one, List.tail_cons]

theorem strtok_r_last (t : List Char) (ht : isToken t = true) :
    strtok_r t = some (t, []) := by
  unfold isToken at ht
  simp only [Bool.and_eq_true] at ht
  obtain ⟨hne, hall⟩ := ht
  cases t with
  | nil => simp at hne
  | cons c cs =>
    have hc : isDelim c = false := by
      simp only [List.all_cons, Bool.and_eq_true] at hall
      simpa using hall.1
    have h1 := takeWhile_token_end (c :: cs) hall
    have h2 := dropWhile_token_end (c :: cs) hall
    have hd : (c :: cs).dropWhile isDelim = c :: cs := by
      simp [List.dropWhile, hc]
    unfold strtok_r
    rw [hd]
    simp only [h1, h2, List.drop_nil]

theorem strtok_r_nil : strtok_r [] = none := rfl

theorem execLoop_done (fs : List Char → Option (List (List Char))) (fuel : Nat)
    (word : WordRef) (ip : Int) (st : State)
    (h : (wordOf st word).code_length ≤ ip ∨ st.error_flag = true) :
    execLoop fs (fuel + 1) word ip st = some st := by
  rw [execLoop]
  rcases h with h | h
  · rw [if_neg]
    omega
  · rw [if_neg]
    simp [h]

theorem interpretLoop_none (fs : List Char → Option (List (List Char))) (fuel : Nat)
    (st : State) : interpretLoop fs (fuel + 1) none st = some st := by
  rw [interpretLoop]

theorem interpretLoop_number (fs : List Char → Option (List (List Char))) (fuel : Nat)
    (t sp : List Char) (n : Int) (st : State)
    (herr : st.error_flag = false) (hcomp : st.compiling = false)
    (hp : mpz_set_str t = some n) :
    interpretLoop fs (fuel + 1) (some (t, sp)) st
      = interpretLoop fs fuel (strtok_r sp) (push n st) := by
  rw [interpretLoop]
  simp only [herr, hcomp, hp, Bool.false_eq_true, if_false]

theorem interpretLoop_call (fs : List Char → Option (List (List Char))) (fuel : Nat)
    (nm sp : List Char) (i : Int) (st : State)
    (herr : st.error_flag = false) (hcomp : st.compiling = false)
    (hnm : isWordName nm = true)
    (hfind : findCompiledWordIndex nm st = i) (hi : 0 ≤ i) (hdc : i < st.dict_count) :
    interpretLoop fs (fuel + 3) (some (nm, sp)) st
      = (execLoop fs fuel (WordRef.dict i.toNat) 0 st).bind
          (fun st2 => interpretLoop fs (fuel + 2) (strtok_r sp) st2) := by
  unfold isWordName at hnm
  simp only [Bool.and_eq_true, decide_eq_true_eq, Option.isNone_iff_eq_none] at hnm
  obtain ⟨⟨⟨⟨⟨⟨⟨h1, h2⟩, h3⟩, h4⟩, h5⟩, h6⟩, h7⟩, h8⟩ := hnm
  rw [interpretLoop]
  simp only [herr, hcomp, Bool.false_eq_true, if_false, h2, h3, h4, h5, h6, h7, h8, hfind, hi,
    if_true]
  rw [execLoop]
  simp only [wordOf, tempWord, CompiledWord.code_length, List.length_singleton, Nat.cast_one,
    zero_lt_one, and_self, if_true, lt_self_iff_false, if_false, Int.toNat_zero,
    List.getElem?_cons_zero, herr]
  rw [executeInstruction]
  simp only [heapFault, readsFreed, Bool.and_false, herr, Bool.false_eq_true, if_false,
    if_true, hi, hdc, and_self]
  cases hex : execLoop fs fuel (WordRef.dict i.toNat) 0 st with
  | none => rfl
  | some st2 =>
    simp only [Option.some_bind]
    rw [execLoop_done fs fuel _ _ _ (Or.inl (by simp [wordOf, CompiledWord.code_length]))]

/-- Interpreting a line made of a number and a dictionary word: the number is pushed
and the word is run. -/
theorem interpret_number_word (fs : List Char → Option (List (List Char))) (fuel : Nat)
    (t nm : List Char) (n i : Int) (st : State)
    (ht : isToken t = true) (hp : mpz_set_str t = some n) (hnm : isWordName nm = true)
    (hcomp : st.compiling = false) (hroom : st.stack.length < STACK_SIZE)
    (hfind : findCompiledWordIndex nm st = i) (hi : 0 ≤ i) (hdc : i < st.dict_count) :
    interpret fs (fuel + 4) (t ++ ' ' :: nm) st
      = execLoop fs fuel (WordRef.dict i.toNat) 0
          { st with error_flag := false, stack := n :: st.stack } := by
  have hnm1 : isToken nm = true := by
    unfold isWordName at hnm
    simp only [Bool.and_eq_true] at hnm
    exact hnm.1.1.1.1.1.1.1
  have hpush : push n { st with error_flag := false }
      = { st with error_flag := false, stack := n :: st.stack } := by
    simp [push, hroom]
  unfold interpret
  rw [strtok_r_token t nm ht,
    interpretLoop_number fs _ t nm n { st with error_flag := false } rfl hcomp hp,
    strtok_r_last nm hnm1, hpush,
    interpretLoop_call fs fuel nm [] i { st with error_flag := false, stack := n :: st.stack }
      rfl hcomp hnm hfind hi hdc]
  cases hex : execLoop fs fuel (WordRef.dict i.toNat) 0
      { st with error_flag := false, stack := n :: st.stack } with
  | none => rfl
  | some st2 =>
    simp only [Option.some_bind, strtok_r_nil]
    rw [interpretLoop_none]

/-! ### Symbolic execution of compiled words -/

/-- One iteration of the loop of `executeCompiledWord`, with two units of fuel or more. -/
theorem execLoop_unfold (fs : List Char → Option (List (List Char))) (fuel : Nat)
    (word : WordRef) (ip : Int) (st : State) :
    execLoop fs (fuel + 2) word ip st
      = if ip < (wordOf st word).code_length ∧ st.error_flag = false then
          if ip < 0 then none
          else
            match (wordOf st word).code[ip.toNat]? with
            | none => none
            | some instr =>
              if heapFault instr word st then none
              else if instr.opcode = OpCode.OP_CALL then
                (executeInstruction fs (fuel + 1) instr ip word st).bind
                  (fun r => execLoop fs (fuel + 1) word (r.2 + 1) r.1)
              else
                (executePrimitive instr ip (wordOf st word) st).bind
                  (fun r => execLoop fs (fuel + 1) word (r.2 + 1) r.1)
        else some st := by
  rw [execLoop]
  by_cases h : ip < (wordOf st word).code_length ∧ st.error_flag = false
  · rw [if_pos h, if_pos h]
    by_cases h2 : ip < 0
    · rw [if_pos h2, if_pos h2]
    · rw [if_neg h2, if_neg h2]
      cases hcode : (wordOf st word).code[ip.toNat]? with
      | none => rfl
      | some instr =>
        dsimp only
        by_cases hheap : heapFault instr word st = true
        · rw [if_pos hheap, executeInstruction]
          simp [h.2, hheap]
        · rw [if_neg hheap]
          have hheap1 : heapFault instr word st = false := by simpa using hheap
          by_cases hop : instr.opcode = OpCode.OP_CALL
          · simp only [hop, if_true]
            cases executeInstruction fs (fuel + 1) instr ip word st <;> rfl
          · simp only [hop, if_false]
            rw [executeInstruction_primitive fs fuel instr ip word st h.2 hop hheap1]
            cases executePrimitive instr ip (wordOf st word) st <;> rfl
  · rw [if_neg h, if_neg h]

theorem parse0 : mpz_set_str ['0'] = some 0 := by decide
theorem parse1 : mpz_set_str ['1'] = some 1 := by decide
theorem parsem1 : mpz_set_str ['-', '1'] = some (-1) := by decide

/-- Running the compiled `SIGN` on `s·n`. -/
theorem sign_exec (fs : List Char → Option (List (List Char))) (fuel : Nat) (i : Nat)
    (st : State) (n : Int) (s : List Int)
    (hw : st.dictionary.getD i emptyWord = signWord)
    (herr : st.error_flag = false) (hfree : st.freed = [])
    (hs : s.length + 3 ≤ STACK_SIZE) :
    ∃ r, execLoop fs (fuel + 20) (WordRef.dict i) 0 { st with stack := n :: s }
      = some { st with stack := (if n < 0 then -1 else if n = 0 then 0 else 1) :: s, result := r } := by
  have h1 : s.length < 1000 := by simp only [STACK_SIZE] at hs; omega
  have h2 : s.length + 1 < 1000 := by simp only [STACK_SIZE] at hs; omega
  have h3 : s.length + 1 + 1 < 1000 := by simp only [STACK_SIZE] at hs; omega
  obtain ⟨stk, cs, ls, dict, dc, vars, cw, comp, cwi, err, res, out, fr⟩ := st
  simp only at hw herr hfree
  subst herr
  subst hfree
  rcases lt_trichotomy n 0 with h | h | h
  · simp only [h, if_true]
    repeat
      rw [execLoop_unfold]
      simp only [wordOf, hw]
      simp [heapFault, readsFreed, signWord, CompiledWord.code_length, executePrimitive, pop, push, h1, h2, h3, stringAt, parse0, parse1, parsem1, h]
  · subst h
    simp only [lt_self_iff_false, if_false, if_true]
    repeat
      rw [execLoop_unfold]
      simp only [wordOf, hw]
      simp [heapFault, readsFreed, signWord, CompiledWord.code_length, executePrimitive, pop, push, h1, h2, h3, stringAt, parse0, parse1, parsem1]
  · have hn : ¬ n < 0 := by omega
    have hn0 : n ≠ 0 := by omega
    simp only [hn, hn0, if_false]
    repeat
      rw [execLoop_unfold]
      simp only [wordOf, hw]
      simp [heapFault, readsFreed, signWord, CompiledWord.code_length, executePrimitive, pop, push, h1, h2, h3, stringAt, parse0, parse1, parsem1, h, hn, hn0]


/-- The loop of the compiled `FACT`, entered with index `j` and accumulator `(j-1)!`. -/
theorem fact_loop (fs : List Char → Option (List (List Char))) (F : Nat) (i : Nat)
    (st : State) (m : Nat) (s : List Int)
    (hw : st.dictionary.getD i emptyWord = factWord)
    (herr : st.error_flag = false) (hfree : st.freed = [])
    (hs : s.length + 2 ≤ STACK_SIZE) :
    ∀ (k j : Nat) (res : Int), 1 ≤ j → j + k = m →
      execLoop fs (F + 3 * (k + 1) + 1) (WordRef.dict i) 6
          { st with stack := ((j - 1).factorial : Int) :: s,
                    loop_stack := { index := j, limit := (m : Int) + 1, addr := 6 }
                                    :: st.loop_stack,
                    result := res }
        = execLoop fs (F + 1) (WordRef.dict i) 9
            { st with stack := (m.factorial : Int) :: s, result := (m.factorial : Int) } := by
  have h1 : s.length < 1000 := by simp only [STACK_SIZE] at hs; omega
  have h2 : s.length + 1 < 1000 := by simp only [STACK_SIZE] at hs; omega
  obtain ⟨stk, cs, ls, dict, dc, vars, cw, comp, cwi, err, res0, out, fr⟩ := st
  simp only at hw herr hfree
  subst herr
  subst hfree
  intro k
  induction k with
  | zero =>
    intro j res hj hjm
    have hjm' : j = m := by omega
    subst hjm'
    have hfac : ((j - 1).factorial : Int) * (j : Int) = (j.factorial : Int) := by
      have := Nat.mul_factorial_pred (Nat.lt_of_lt_of_le Nat.zero_lt_one hj)
      rw [mul_comm]
      exact_mod_cast this
    rw [show F + 3 * (0 + 1) + 1 = (F + 1) + 3 from by ring]
    iterate 3
      rw [execLoop_unfold]
      simp only [wordOf, hw]
      simp [heapFault, readsFreed, factWord, CompiledWord.code_length, executePrimitive, exec_arith, pop, push, h1, h2, hfac]
  | succ k ih =>
    intro j res hj hjm
    have hfac : ((j - 1).factorial : Int) * (j : Int) = (j.factorial : Int) := by
      have := Nat.mul_factorial_pred (Nat.lt_of_lt_of_le Nat.zero_lt_one hj)
      rw [mul_comm]
      exact_mod_cast this
    have hlt : (j : Int) < (m : Int) := by
      have : j < m := by omega
      exact_mod_cast this
    rw [show F + 3 * (k + 1 + 1) + 1 = (F + 3 * (k + 1) + 1) + 3 from by ring]
    iterate 3
      rw [execLoop_unfold]
      simp only [wordOf, hw]
      simp [heapFault, readsFreed, factWord, CompiledWord.code_length, executePrimitive, exec_arith, pop, push, h1, h2, hfac, hlt]
    have := ih (j + 1) (j.factorial : Int) (by omega) (by omega)
    simp only [Nat.add_sub_cancel, Nat.cast_add, Nat.cast_one] at this
    exact this

/-- Running the compiled `FACT` on `s·m`. -/
theorem fact_exec (fs : List Char → Option (List (List Char))) (F : Nat) (i : Nat)
    (st : State) (m : Nat) (s : List Int)
    (hw : st.dictionary.getD i emptyWord = factWord)
    (herr : st.error_flag = false) (hfree : st.freed = [])
    (hloop : st.loop_stack.length < LOOP_STACK_SIZE)
    (hs : s.length + 3 ≤ STACK_SIZE) :
    execLoop fs (F + 3 * m + 11) (WordRef.dict i) 0 { st with stack := (m : Int) :: s }
      = some { st with stack := (m.factorial : Int) :: s, result := (m.factorial : Int) } := by
  have h1 : s.length < 1000 := by simp only [STACK_SIZE] at hs; omega
  have h2 : s.length + 1 < 1000 := by simp only [STACK_SIZE] at hs; omega
  have h3 : s.length + 1 + 1 < 1000 := by simp only [STACK_SIZE] at hs; omega
  have hl : st.loop_stack.length < 100 := hloop
  rcases Nat.eq_zero_or_pos m with hm | hm
  · subst hm
    obtain ⟨stk, cs, ls, dict, dc, vars, cw, comp, cwi, err, res0, out, fr⟩ := st
    simp only at hw herr hfree hl
    subst herr
    subst hfree
    rw [show F + 3 * 0 + 11 = (F + 1) + 10 from by ring]
    iterate 10
      rw [execLoop_unfold]
      simp only [wordOf, hw]
      simp [heapFault, readsFreed, factWord, CompiledWord.code_length, executePrimitive, exec_arith, pop, push, h1, h2, h3, hl,
        stringAt, parse1]
    rw [execLoop_done _ _ _ _ _ (Or.inl (by simp only [wordOf, hw]; decide))]
  · have hloopl := fact_loop fs (F + 3 + 1) i st m s hw herr hfree (by simp only [STACK_SIZE] at hs ⊢; omega)
      (m - 1) 1 1 (le_refl 1) (by omega)
    obtain ⟨stk, cs, ls, dict, dc, vars, cw, comp, cwi, err, res0, out, fr⟩ := st
    simp only at hw herr hfree hl hloopl
    subst herr
    subst hfree
    rw [show F + 3 * m + 11 = (F + 3 + 1 + 3 * (m - 1 + 1) + 1) + 6 from by
      have : m - 1 + 1 = m := by omega
      rw [this]
      ring]
    iterate 6
      rw [execLoop_unfold]
      simp only [wordOf, hw]
      simp [heapFault, readsFreed, factWord, CompiledWord.code_length, executePrimitive, exec_arith, pop, push, h1, h2, h3, hl,
        stringAt, parse1]
    simp only [Nat.sub_self, Nat.factorial_zero, Nat.cast_one] at hloopl
    rw [hloopl]
    rw [execLoop_unfold]
    simp only [wordOf, hw]
    simp [heapFault, readsFreed, factWord, CompiledWord.code_length, executePrimitive]
    rw [execLoop_done _ _ _ _ _ (Or.inl (by simp only [wordOf, hw]; decide))]

/-- The recurrence of the Fibonacci numbers, read backwards. -/
theorem fib_pred (j : Nat) :
    ((Nat.fib (j + 1 + 1) : Int)) - (Nat.fib (j + 1) : Int) = (Nat.fib j : Int) := by
  rw [Nat.fib_add_two]
  push_cast
  ring

/-- The loop of the compiled `FIB`, entered after `j` iterations. -/
theorem fib_loop (fs : List Char → Option (List (List Char))) (F : Nat) (i : Nat)
    (st : State) (m : Nat) (s : List Int)
    (hw : st.dictionary.getD i emptyWord = fibWord)
    (herr : st.error_flag = false) (hfree : st.freed = [])
    (hs : s.length + 3 ≤ STACK_SIZE) :
    ∀ (k j : Nat) (res : Int), j + k + 1 = m →
      execLoop fs (F + 4 * (k + 1) + 1) (WordRef.dict i) 5
          { st with stack := ((Nat.fib (j + 1) : Int) - (Nat.fib j : Int)) :: (Nat.fib j : Int) :: s,
                    loop_stack := { index := j, limit := (m : Int), addr := 5 }
                                    :: st.loop_stack,
                    result := res }
        = execLoop fs (F + 1) (WordRef.dict i) 9
            { st with stack := ((Nat.fib (m + 1) : Int) - (Nat.fib m : Int)) :: (Nat.fib m : Int) :: s,
                      result := (Nat.fib m : Int) } := by
  have h1 : s.length < 1000 := by simp only [STACK_SIZE] at hs; omega
  have h2 : s.length + 1 < 1000 := by simp only [STACK_SIZE] at hs; omega
  have h3 : s.length + 1 + 1 < 1000 := by simp only [STACK_SIZE] at hs; omega
  obtain ⟨stk, cs, ls, dict, dc, vars, cw, comp, cwi, err, res0, out, fr⟩ := st
  simp only at hw herr hfree
  subst herr
  subst hfree
  intro k
  induction k with
  | zero =>
    intro j res hjm
    have hjm' : m = j + 1 := by omega
    subst hjm'
    rw [show F + 4 * (0 + 1) + 1 = (F + 1) + 4 from by ring]
    iterate 4
      rw [execLoop_unfold]
      simp only [wordOf, hw]
      simp [heapFault, readsFreed, fibWord, CompiledWord.code_length, executePrimitive, exec_arith, pop, push, h1, h2, h3]
    rw [fib_pred j]
  | succ k ih =>
    intro j res hjm
    have hlt : (j : Int) + 1 < (m : Int) := by
      have : j + 1 < m := by omega
      exact_mod_cast this
    rw [show F + 4 * (k + 1 + 1) + 1 = (F + 4 * (k + 1) + 1) + 4 from by ring]
    iterate 4
      rw [execLoop_unfold]
      simp only [wordOf, hw]
      simp [heapFault, readsFreed, fibWord, CompiledWord.code_length, executePrimitive, exec_arith, pop, push, h1, h2, h3, hlt]
    have := ih (j + 1) (Nat.fib (j + 1) : Int) (by omega)
    rw [fib_pred j] at this
    simp only [Nat.cast_add, Nat.cast_one] at this
    exact this

/-- Running the compiled `FIB` on `s·m`. -/
theorem fib_exec (fs : List Char → Option (List (List Char))) (F : Nat) (i : Nat)
    (st : State) (m : Nat) (s : List Int) (hm : 1 ≤ m)
    (hw : st.dictionary.getD i emptyWord = fibWord)
    (herr : st.error_flag = false) (hfree : st.freed = [])
    (hloop : st.loop_stack.length < LOOP_STACK_SIZE)
    (hs : s.length + 4 ≤ STACK_SIZE) :
    execLoop fs (F + 4 * m + 8) (WordRef.dict i) 0 { st with stack := (m : Int) :: s }
      = some { st with stack := (Nat.fib m : Int) :: s, result := (Nat.fib m : Int) } := by
  have h1 : s.length < 1000 := by simp only [STACK_SIZE] at hs; omega
  have h2 : s.length + 1 < 1000 := by simp only [STACK_SIZE] at hs; omega
  have h3 : s.length + 1 + 1 < 1000 := by simp only [STACK_SIZE] at hs; omega
  have h4 : s.length + 1 + 1 + 1 < 1000 := by simp only [STACK_SIZE] at hs; omega
  have hl : st.loop_stack.length < 100 := hloop
  have hloopl := fib_loop fs (F + 2) i st m s hw herr hfree (by simp only [STACK_SIZE] at hs ⊢; omega)
      (m - 1) 0 0 (by omega)
  obtain ⟨stk, cs, ls, dict, dc, vars, cw, comp, cwi, err, res0, out, fr⟩ := st
  simp only at hw herr hfree hl hloopl
  subst herr
  subst hfree
  rw [show F + 4 * m + 8 = (F + 2 + 4 * (m - 1 + 1) + 1) + 5 from by
    have : m - 1 + 1 = m := by omega
    rw [this]
    ring]
  iterate 5
    rw [execLoop_unfold]
    simp only [wordOf, hw]
    simp [heapFault, readsFreed, fibWord, CompiledWord.code_length, executePrimitive, exec_arith, pop, push, h1, h2, h3, h4, hl,
      stringAt, parse0, parse1]
  simp only [Nat.fib_zero, Nat.fib_one, zero_add, Nat.cast_one, Nat.cast_zero, sub_zero] at hloopl
  rw [hloopl]
  iterate 2
    rw [execLoop_unfold]
    simp only [wordOf, hw]
    simp [heapFault, readsFreed, fibWord, CompiledWord.code_length, executePrimitive, pop]
  rw [execLoop_done _ _ _ _ _ (Or.inl (by simp only [wordOf, hw]; decide))]

/-! ### Straight-line code -/

@[simp] theorem set_error_dictionary (msg : String) (st : State) :
    (set_error msg st).dictionary = st.dictionary := rfl
@[simp] theorem set_error_dict_count (msg : String) (st : State) :
    (set_error msg st).dict_count = st.dict_count := rfl
@[simp] theorem set_error_loop_stack (msg : String) (st : State) :
    (set_error msg st).loop_stack = st.loop_stack := rfl
@[simp] theorem print_dictionary (msg : String) (st : State) :
    (print msg st).dictionary = st.dictionary := rfl
@[simp] theorem print_dict_count (msg : String) (st : State) :
    (print msg st).dict_count = st.dict_count := rfl
@[simp] theorem print_loop_stack (msg : String) (st : State) :
    (print msg st).loop_stack = st.loop_stack := rfl
@[simp] theorem push_dictionary (v : Int) (st : State) :
    (push v st).dictionary = st.dictionary := by
  unfold push; split <;> rfl
@[simp] theorem push_dict_count (v : Int) (st : State) :
    (push v st).dict_count = st.dict_count := by
  unfold push; split <;> rfl
@[simp] theorem push_loop_stack (v : Int) (st : State) :
    (push v st).loop_stack = st.loop_stack := by
  unfold push; split <;> rfl
@[simp] theorem pop_dictionary (st : State) :
    (pop st).2.dictionary = st.dictionary := by
  unfold pop; split <;> rfl
@[simp] theorem pop_dict_count (st : State) :
    (pop st).2.dict_count = st.dict_count := by
  unfold pop; split <;> rfl
@[simp] theorem pop_loop_stack (st : State) :
    (pop st).2.loop_stack = st.loop_stack := by
  unfold pop; split <;> rfl
@[simp] theorem set_error_freed (msg : String) (st : State) :
    (set_error msg st).freed = st.freed := rfl
@[simp] theorem set_error_vars (msg : String) (st : State) :
    (set_error msg st).vars = st.vars := rfl
@[simp] theorem print_freed (msg : String) (st : State) :
    (print msg st).freed = st.freed := rfl
@[simp] theorem print_vars (msg : String) (st : State) :
    (print msg st).vars = st.vars := rfl
@[simp] theorem push_freed (v : Int) (st : State) :
    (push v st).freed = st.freed := by
  unfold push; split <;> rfl
@[simp] theorem push_vars (v : Int) (st : State) :
    (push v st).vars = st.vars := by
  unfold push; split <;> rfl
@[simp] theorem pop_freed (st : State) :
    (pop st).2.freed = st.freed := by
  unfold pop; split <;> rfl
@[simp] theorem pop_vars (st : State) :
    (pop st).2.vars = st.vars := by
  unfold pop; split <;> rfl

/-- A straight-line instruction succeeds and leaves `*ip` alone. -/
theorem straight_ip (instr : Instruction) (ip : Int) (word : CompiledWord) (st : State)
    (h : isStraight instr.opcode = true) :
    executePrimitive instr ip word st = some (straightStep instr word st, ip) := by
  obtain ⟨op, operand⟩ := instr
  unfold straightStep
  cases op <;> simp only [isStraight] at h <;> try (exact absurd h (by decide))
  all_goals simp only [executePrimitive]
  all_goals (repeat' split)
  all_goals (first | rfl | simp_all)



@[simp] theorem exec_arith_dictionary (instr : Instruction) (st : State) :
    (exec_arith instr st).dictionary = st.dictionary := by
  obtain ⟨op, operand⟩ := instr
  cases op <;> simp only [exec_arith] <;> (repeat' split) <;> simp
@[simp] theorem exec_arith_loop_stack (instr : Instruction) (st : State) :
    (exec_arith instr st).loop_stack = st.loop_stack := by
  obtain ⟨op, operand⟩ := instr
  cases op <;> simp only [exec_arith] <;> (repeat' split) <;> simp
@[simp] theorem exec_arith_dict_count (instr : Instruction) (st : State) :
    (exec_arith instr st).dict_count = st.dict_count := by
  obtain ⟨op, operand⟩ := instr
  cases op <;> simp only [exec_arith] <;> (repeat' split) <;> simp
@[simp] theorem exec_arith_freed (instr : Instruction) (st : State) :
    (exec_arith instr st).freed = st.freed := by
  obtain ⟨op, operand⟩ := instr
  cases op <;> simp only [exec_arith] <;> (repeat' split) <;> simp
@[simp] theorem exec_arith_vars (instr : Instruction) (st : State) :
    (exec_arith instr st).vars = st.vars := by
  obtain ⟨op, operand⟩ := instr
  cases op <;> simp only [exec_arith] <;> (repeat' split) <;> simp

theorem straight_dictionary (instr : Instruction) (word : CompiledWord) (st : State)
    (h : isStraight instr.opcode = true) :
    (straightStep instr word st).dictionary = st.dictionary := by
  obtain ⟨op, operand⟩ := instr
  unfold straightStep
  cases op <;> simp only [isStraight] at h <;> try (exact absurd h (by decide))
  all_goals simp only [executePrimitive]
  all_goals (repeat' split)
  all_goals (first | rfl | simp_all)

theorem straight_loop_stack (instr : Instruction) (word : CompiledWord) (st : State)
    (h : isStraight instr.opcode = true) :
    (straightStep instr word st).loop_stack = st.loop_stack := by
  obtain ⟨op, operand⟩ := instr
  unfold straightStep
  cases op <;> simp only [isStraight] at h <;> try (exact absurd h (by decide))
  all_goals simp only [executePrimitive]
  all_goals (repeat' split)
  all_goals (first | rfl | simp_all)

theorem straight_wordOf (instr : Instruction) (word : CompiledWord) (st : State)
    (wr : WordRef) (h : isStraight instr.opcode = true) :
    wordOf (straightStep instr word st) wr = wordOf st wr := by
  cases wr with
  | temp w => rfl
  | dict i =>
    simp only [wordOf]
    rw [straight_dictionary instr word st h]

/-- What `heapFault` looks at in the state. -/
theorem heapFault_congr (instr : Instruction) (wr : WordRef) (st st1 : State)
    (h1 : st1.dictionary = st.dictionary) (h2 : st1.dict_count = st.dict_count)
    (h3 : st1.freed = st.freed) (h4 : st1.vars.length = st.vars.length) :
    heapFault instr wr st1 = heapFault instr wr st := by
  have hw : wordOf st1 wr = wordOf st wr := by
    cases wr with
    | temp w => rfl
    | dict i => simp only [wordOf, h1]
  have hr : ∀ k, readsFreed st1 wr k = readsFreed st wr k := by
    intro k
    cases wr with
    | temp w => rfl
    | dict i => simp only [readsFreed, h3]
  have hf : ∀ i, freesTwice st1 i = freesTwice st i := by
    intro i
    simp only [freesTwice, h1, h3]
  have hd : ∀ nm, redefineFault nm st1 = redefineFault nm st := by
    intro nm
    simp only [redefineFault, findCompiledWordIndex, h1, h2, hf]
  have hf2 : ∀ k, forgetFault st1 k = forgetFault st k := by
    intro k
    simp only [forgetFault, h2, funext hf]
  obtain ⟨op, operand⟩ := instr
  cases op <;> simp only [heapFault, hw, hr, hd, hf2, h2, h4]

theorem straight_heap (instr : Instruction) (word : CompiledWord) (st : State)
    (h : isStraight instr.opcode = true) :
    (straightStep instr word st).dict_count = st.dict_count
    ∧ (straightStep instr word st).freed = st.freed
    ∧ (straightStep instr word st).vars.length = st.vars.length := by
  obtain ⟨op, operand⟩ := instr
  unfold straightStep
  cases op <;> simp only [isStraight] at h <;> try (exact absurd h (by decide))
  all_goals simp only [executePrimitive]
  all_goals (repeat' split)
  all_goals (first | exact ⟨rfl, rfl, rfl⟩ | simp_all)

theorem straight_heapFault (instr j : Instruction) (word : CompiledWord) (wr : WordRef)
    (st : State) (h : isStraight instr.opcode = true) :
    heapFault j wr (straightStep instr word st) = heapFault j wr st := by
  obtain ⟨h2, h3, h4⟩ := straight_heap instr word st h
  exact heapFault_congr j wr st _ (straight_dictionary instr word st h) h2 h3 h4

theorem runStraight_heapFault (word : CompiledWord) (wr : WordRef) (j : Instruction)
    (body : List Instruction) :
    ∀ st : State, (∀ i ∈ body, isStraight i.opcode = true) →
      heapFault j wr (runStraight word body st) = heapFault j wr st := by
  induction body with
  | nil => intro st _; rfl
  | cons i is ih =>
    intro st h
    simp only [runStraight]
    split
    · rfl
    · rw [ih _ (fun x hx => h x (List.mem_cons_of_mem _ hx)),
        straight_heapFault i j word wr st (h i (List.mem_cons_self _ _))]

theorem pop_heapFault (j : Instruction) (wr : WordRef) (st : State) :
    heapFault j wr (pop st).2 = heapFault j wr st :=
  heapFault_congr j wr st _ (pop_dictionary st) (pop_dict_count st) (pop_freed st)
    (by rw [pop_vars])

theorem loopPass_heapFault (word : CompiledWord) (wr : WordRef) (j : Instruction)
    (body : List Instruction) (st : State) (h : ∀ i ∈ body, isStraight i.opcode = true) :
    heapFault j wr (loopPass word body st) = heapFault j wr st := by
  unfold loopPass
  split
  · exact runStraight_heapFault word wr j body st h
  · split
    · exact (heapFault_congr j wr (runStraight word body st) _ rfl rfl rfl rfl).trans
        (runStraight_heapFault word wr j body st h)
    · exact runStraight_heapFault word wr j body st h

theorem loopPasses_heapFault (word : CompiledWord) (wr : WordRef) (j : Instruction)
    (body : List Instruction) (h : ∀ i ∈ body, isStraight i.opcode = true) (k : Nat) :
    ∀ st : State, heapFault j wr (loopPasses word body k st) = heapFault j wr st := by
  induction k with
  | zero => intro st; rfl
  | succ k ih =>
    intro st
    simp only [loopPasses]
    rw [ih, loopPass_heapFault word wr j body st h]

theorem whilePass_heapFault (word : CompiledWord) (wr : WordRef) (j : Instruction)
    (cC cB : List Instruction) (st : State) (hC : ∀ i ∈ cC, isStraight i.opcode = true)
    (hB : ∀ i ∈ cB, isStraight i.opcode = true) :
    heapFault j wr (whilePass word cC cB st) = heapFault j wr st := by
  unfold whilePass
  rw [runStraight_heapFault word wr j cB _ hB, pop_heapFault,
    runStraight_heapFault word wr j cC _ hC]

theorem whilePasses_heapFault (word : CompiledWord) (wr : WordRef) (j : Instruction)
    (cC cB : List Instruction) (hC : ∀ i ∈ cC, isStraight i.opcode = true)
    (hB : ∀ i ∈ cB, isStraight i.opcode = true) (k : Nat) :
    ∀ st : State, heapFault j wr (whilePasses word cC cB k st) = heapFault j wr st := by
  induction k with
  | zero => intro st; rfl
  | succ k ih =>
    intro st
    simp only [whilePasses]
    rw [ih, whilePass_heapFault word wr j cC cB st hC hB]

theorem runStraight_loop_stack (word : CompiledWord) (body : List Instruction) :
    ∀ st : State, (∀ i ∈ body, isStraight i.opcode = true) →
      (runStraight word body st).loop_stack = st.loop_stack := by
  induction body with
  | nil => intro st _; rfl
  | cons i is ih =>
    intro st h
    simp only [runStraight]
    split
    · rfl
    · rw [ih _ (fun x hx => h x (List.mem_cons_of_mem _ hx)),
        straight_loop_stack i word st (h i (List.mem_cons_self _ _))]

theorem runStraight_wordOf (word : CompiledWord) (wr : WordRef) (body : List Instruction) :
    ∀ st : State, (∀ i ∈ body, isStraight i.opcode = true) →
      wordOf (runStraight word body st) wr = wordOf st wr := by
  induction body with
  | nil => intro st _; rfl
  | cons i is ih =>
    intro st h
    simp only [runStraight]
    split
    · rfl
    · rw [ih _ (fun x hx => h x (List.mem_cons_of_mem _ hx)),
        straight_wordOf i word st wr (h i (List.mem_cons_self _ _))]

/-- One step of the loop of `executeCompiledWord` on an instruction other than `OP_CALL`. -/
theorem execLoop_step (fs : List Char → Option (List (List Char))) (fuel : Nat)
    (wr : WordRef) (ip : Int) (st : State) (instr : Instruction) (st1 : State) (ip1 : Int)
    (hip : 0 ≤ ip) (hcode : (wordOf st wr).code[ip.toNat]? = some instr)
    (herr : st.error_flag = false) (hop : instr.opcode ≠ OpCode.OP_CALL)
    (hex : executePrimitive instr ip (wordOf st wr) st = some (st1, ip1))
    (hheap : heapFault instr wr st = false) :
    execLoop fs (fuel + 2) wr ip st = execLoop fs (fuel + 1) wr (ip1 + 1) st1 := by
  have hlen : ip < (wordOf st wr).code_length := by
    obtain ⟨h, _⟩ := List.getElem?_eq_some.1 hcode
    unfold CompiledWord.code_length
    omega
  rw [execLoop_unfold]
  simp only [hlen, herr, and_self, if_true, hcode, hop, if_false, hex, Option.some_bind,
    hheap, Bool.false_eq_true]
  rw [if_neg (by omega)]

/-- A straight-line segment of a word is executed by the loop of `executeCompiledWord`
as `runStraight` does, one instruction per unit of fuel. -/
theorem execLoop_straight (fs : List Char → Option (List (List Char))) (fuel : Nat)
    (wr : WordRef) (body : List Instruction) :
    ∀ (pre post : List Instruction) (st : State),
      (wordOf st wr).code = pre ++ body ++ post →
      (∀ i ∈ body, isStraight i.opcode = true) →
      (∀ i ∈ body, heapFault i wr st = false) →
      execLoop fs (fuel + 1 + body.length) wr pre.length st
        = execLoop fs (fuel + 1) wr (pre.length + body.length : Nat)
            (runStraight (wordOf st wr) body st) := by
  induction body with
  | nil =>
    intro pre post st _ _ _
    simp [runStraight]
  | cons i is ih =>
    intro pre post st hcode hstr hheap
    have hi : isStraight i.opcode = true := hstr i (List.mem_cons_self _ _)
    have his : ∀ x ∈ is, isStraight x.opcode = true :=
      fun x hx => hstr x (List.mem_cons_of_mem _ hx)
    have hheap1 : ∀ x ∈ is, heapFault x wr (straightStep i (wordOf st wr) st) = false :=
      fun x hx => by
        rw [straight_heapFault i x _ wr st hi]
        exact hheap x (List.mem_cons_of_mem _ hx)
    by_cases herr : st.error_flag = true
    · simp only [runStraight, herr, if_true]
      rw [show fuel + 1 + (i :: is).length = (fuel + 1 + is.length) + 1 from by
        simp only [List.length_cons]; omega]
      rw [execLoop_done fs _ wr _ st (Or.inr herr), execLoop_done fs _ wr _ st (Or.inr herr)]
    · have herr' : st.error_flag = false := by simpa using herr
      have hget : (wordOf st wr).code[(pre.length : Int).toNat]? = some i := by
        rw [hcode]
        simp only [Int.toNat_ofNat, List.append_assoc]
        rw [List.getElem?_append_right (le_refl _)]
        simp
      have hlen : ((pre.length : Nat) : Int) < (wordOf st wr).code_length := by
        unfold CompiledWord.code_length
        rw [hcode]
        simp only [List.length_append, List.length_cons]
        omega
      have hop : i.opcode ≠ OpCode.OP_CALL := by
        intro hc
        rw [hc] at hi
        exact absurd hi (by decide)
      rw [show fuel + 1 + (i :: is).length = (fuel + is.length) + 2 from by
        simp only [List.length_cons]; omega]
      rw [execLoop_step fs _ wr _ st i _ _ (by omega) hget herr' hop (straight_ip i _ _ st hi)
        (hheap i (List.mem_cons_self _ _))]
      have hw1 : wordOf (straightStep i (wordOf st wr) st) wr = wordOf st wr :=
        straight_wordOf i _ st wr hi
      have hcode1 : (wordOf (straightStep i (wordOf st wr) st) wr).code
          = (pre ++ [i]) ++ is ++ post := by
        rw [hw1, hcode]
        simp
      have := ih (pre ++ [i]) post (straightStep i (wordOf st wr) st) hcode1 his hheap1
      simp only [List.length_append, List.length_singleton] at this
      rw [show fuel + is.length + 1 = fuel + 1 + is.length from by omega]
      rw [show ((pre.length : Nat) : Int) + 1 = ((pre.length + 1 : Nat) : Int) from by
        push_cast; rfl]
      rw [this, hw1]
      simp only [runStraight, herr', Bool.false_eq_true, if_false, List.length_cons]
      rw [show pre.length + 1 + is.length = pre.length + (is.length + 1) from by omega]


/-! ### The dictionary invariant -/

theorem DictOK_of_eq {st st1 : State} (h1 : st1.dictionary = st.dictionary)
    (h2 : st1.dict_count = st.dict_count) (h : DictOK st) : DictOK st1 := by
  unfold DictOK liveNames at *
  rw [h1, h2]
  exact h

theorem findIndexFrom_neg (name : List Char) (l : List CompiledWord) :
    ∀ i0 : Int, 0 ≤ i0 → findIndexFrom name l i0 < 0 →
      name ∉ l.map (fun w => w.name) := by
  induction l with
  | nil => intro i0 _ _; simp
  | cons w ws ih =>
    intro i0 h0 h
    simp only [findIndexFrom] at h
    split at h
    · omega
    · rename_i hne
      simp only [List.map_cons, List.mem_cons, not_or]
      exact ⟨fun e => hne e.symm, ih (i0 + 1) (by omega) h⟩

theorem findIndexFrom_nonneg (name : List Char) (l : List CompiledWord) :
    ∀ i0 : Int, 0 ≤ i0 → 0 ≤ findIndexFrom name l i0 →
      i0 ≤ findIndexFrom name l i0
      ∧ (findIndexFrom name l i0 - i0).toNat < l.length
      ∧ (l.map (fun w => w.name))[(findIndexFrom name l i0 - i0).toNat]? = some name := by
  induction l with
  | nil =>
    intro i0 _ h
    simp [findIndexFrom] at h
  | cons w ws ih =>
    intro i0 h0 h
    simp only [findIndexFrom] at h ⊢
    split
    · rename_i he
      simp [he]
    · rename_i hne
      simp only [hne, if_false] at h
      obtain ⟨h1, h2, h3⟩ := ih (i0 + 1) (by omega) h
      refine ⟨by omega, ?_, ?_⟩
      · simp only [List.length_cons]
        omega
      · have e : (findIndexFrom name ws (i0 + 1) - i0).toNat
            = (findIndexFrom name ws (i0 + 1) - (i0 + 1)).toNat + 1 := by omega
        rw [e]
        simpa using h3

theorem findIndexFrom_not_mem (name : List Char) (l : List CompiledWord) :
    ∀ i0 : Int, name ∉ l.map (fun w => w.name) → findIndexFrom name l i0 = -1 := by
  induction l with
  | nil => intro i0 _; rfl
  | cons w ws ih =>
    intro i0 h
    simp only [List.map_cons, List.mem_cons, not_or] at h
    simp only [findIndexFrom]
    rw [if_neg (fun e => h.1 e.symm)]
    exact ih _ h.2

theorem findIndexFrom_nodup (name : List Char) (l : List CompiledWord) :
    ∀ (i0 : Int) (i : Nat), (l.map (fun w => w.name)).Nodup →
      (l.map (fun w => w.name))[i]? = some name → findIndexFrom name l i0 = i0 + i := by
  induction l with
  | nil => intro i0 i _ h; simp at h
  | cons w ws ih =>
    intro i0 i hnd h
    simp only [List.map_cons, List.nodup_cons] at hnd
    cases i with
    | zero =>
      simp only [List.map_cons, List.getElem?_cons_zero, Option.some.injEq] at h
      simp [findIndexFrom, h]
    | succ j =>
      simp only [List.map_cons, List.getElem?_cons_succ] at h
      have hmem : name ∈ ws.map (fun w => w.name) := List.getElem?_mem h
      have hne : ¬ w.name = name := by
        intro e
        rw [e] at hnd
        exact hnd.1 hmem
      simp only [findIndexFrom, hne, if_false]
      rw [ih (i0 + 1) j hnd.2 h]
      push_cast
      ring


theorem liveNames_set_same (dict : List CompiledWord) (dc k : Nat) (w : CompiledWord)
    (hk : ((dict.take dc).map (fun w => w.name))[k]? = some w.name) :
    ((dict.set k w).take dc).map (fun w => w.name) = (dict.take dc).map (fun w => w.name) := by
  apply List.ext_getElem?
  intro n
  simp only [List.getElem?_map, List.getElem?_take, List.getElem?_set] at hk ⊢
  by_cases hn : n < dc
  · simp only [hn, if_true]
    by_cases hkn : k = n
    · subst hkn
      simp only [if_true, hn] at hk ⊢
      by_cases hl : k < dict.length
      · simp only [hl, if_true, Option.map_some']
        exact hk.symm
      · rw [List.getElem?_eq_none (by omega)] at hk
        simp at hk
    · simp only [hkn, if_false]
  · simp only [hn, if_false]

theorem liveNames_append (dict : List CompiledWord) (dc : Nat) (w : CompiledWord)
    (hdc : dc < dict.length) :
    ((dict.set dc w).take (dc + 1)).map (fun w => w.name)
      = (dict.take dc).map (fun w => w.name) ++ [w.name] := by
  apply List.ext_getElem?
  intro n
  simp only [List.getElem?_map, List.getElem?_take, List.getElem?_set, List.getElem?_append,
    List.length_map, List.length_take]
  have hmin : min dc dict.length = dc := by omega
  rw [hmin]
  by_cases hn : n < dc
  · have h1 : n < dc + 1 := by omega
    have h2 : ¬ dc = n := by omega
    simp only [hn, h1, h2, if_true, if_false]
  · by_cases hn2 : n = dc
    · subst hn2
      simp [hdc]
    · have h1 : ¬ n < dc + 1 := by omega
      have h3 : n - dc ≠ 0 := by omega
      simp only [hn, h1, if_false]
      cases hnd : n - dc with
      | zero => omega
      | succ j => simp

theorem addCompiledWord_DictOK (name : List Char) (code : List Instruction)
    (strings : List (List Char)) (st : State) (h : DictOK st) :
    DictOK (addCompiledWord name code strings st) := by
  obtain ⟨hnd, hlen, hdc⟩ := h
  unfold addCompiledWord
  simp only
  split
  · rename_i hfound
    obtain ⟨_, h2, h3⟩ := findIndexFrom_nonneg name (st.dictionary.take st.dict_count) 0
      (le_refl _) hfound
    simp only [sub_zero] at h2 h3
    refine ⟨?_, ?_, hdc⟩
    · unfold liveNames at hnd ⊢
      simp only
      unfold findCompiledWordIndex
      rw [liveNames_set_same st.dictionary st.dict_count _
        { name := name, code := code, strings := strings } h3]
      exact hnd
    · simp only [List.length_set]
      exact hlen
  · rename_i hnot
    split
    · rename_i hroom
      have hnm : name ∉ liveNames st :=
        findIndexFrom_neg name _ 0 (le_refl _) (by unfold findCompiledWordIndex at hnot; omega)
      refine ⟨?_, ?_, ?_⟩
      · unfold liveNames at hnd hnm ⊢
        simp only
        rw [liveNames_append st.dictionary st.dict_count _ (by omega)]
        rw [List.nodup_append]
        refine ⟨hnd, List.nodup_singleton _, ?_⟩
        intro a ha hb
        simp only [List.mem_singleton] at hb
        subst hb
        exact hnm ha
      · simp only [List.length_set]
        exact hlen
      · simp only
        omega
    · exact ⟨hnd, hlen, hdc⟩



theorem executePrimitive_dict (instr : Instruction) (ip : Int) (w : CompiledWord)
    (st st1 : State) (ip1 : Int)
    (h : executePrimitive instr ip w st = some (st1, ip1))
    (h1 : instr.opcode ≠ OpCode.OP_FORGET) (h2 : instr.opcode ≠ OpCode.OP_VARIABLE) :
    st1.dictionary = st.dictionary ∧ st1.dict_count = st.dict_count := by
  obtain ⟨op, operand⟩ := instr
  cases op <;> simp only [executePrimitive] at h
  all_goals (try (exact absurd rfl h1))
  all_goals (try (exact absurd rfl h2))
  all_goals (repeat' split at h)
  all_goals (first | (cases h; simp) | (simp at h))


theorem DictOK_forget (st : State) (k : Nat) (hk : k ≤ st.dict_count) (h : DictOK st) :
    DictOK { st with dict_count := k } := by
  obtain ⟨hnd, hlen, hdc⟩ := h
  refine ⟨?_, hlen, le_trans hk hdc⟩
  unfold liveNames at hnd ⊢
  simp only
  have e : st.dictionary.take k = (st.dictionary.take st.dict_count).take k := by
    rw [List.take_take, min_eq_left hk]
  rw [e, List.map_take]
  exact hnd.sublist (List.take_sublist _ _)

theorem executePrimitive_DictOK (instr : Instruction) (ip : Int) (w : CompiledWord)
    (st st1 : State) (ip1 : Int)
    (h : executePrimitive instr ip w st = some (st1, ip1)) (hok : DictOK st) :
    DictOK st1 := by
  by_cases h1 : instr.opcode = OpCode.OP_FORGET
  · obtain ⟨op, operand⟩ := instr
    simp only at h1
    subst h1
    simp only [executePrimitive] at h
    split at h
    · rename_i hr
      cases h
      exact DictOK_forget st _ (by omega) hok
    · cases h
      exact hok
  · by_cases h2 : instr.opcode = OpCode.OP_VARIABLE
    · obtain ⟨op, operand⟩ := instr
      simp only at h2
      subst h2
      simp only [executePrimitive] at h
      split at h
      · split at h
        · cases h
        · cases h
          exact addCompiledWord_DictOK _ _ _ _ (DictOK_of_eq rfl rfl hok)
      · cases h
        exact hok
    · obtain ⟨hd, hc⟩ := executePrimitive_dict instr ip w st st1 ip1 h h1 h2
      exact DictOK_of_eq hd hc hok


@[simp] theorem patchHere_dictionary (addr : Int) (st : State) :
    (patchHere addr st).dictionary = st.dictionary := rfl
@[simp] theorem patchHere_dict_count (addr : Int) (st : State) :
    (patchHere addr st).dict_count = st.dict_count := rfl

@[simp] theorem patchEndofs_dictionary (cs : List ControlEntry) :
    ∀ st : State, (patchEndofs cs st).dictionary = st.dictionary := by
  induction cs with
  | nil => intro st; rfl
  | cons e es ih =>
    intro st
    simp only [patchEndofs]
    split
    · rw [ih]
      rfl
    · rfl

@[simp] theorem patchEndofs_dict_count (cs : List ControlEntry) :
    ∀ st : State, (patchEndofs cs st).dict_count = st.dict_count := by
  induction cs with
  | nil => intro st; rfl
  | cons e es ih =>
    intro st
    simp only [patchEndofs]
    split
    · rw [ih]
      rfl
    · rfl


theorem SameDict.refl (st : State) : SameDict st st := ⟨rfl, rfl, rfl⟩

theorem SameDict.trans {a b c : State} (h1 : SameDict a b) (h2 : SameDict b c) :
    SameDict a c := ⟨h2.1.trans h1.1, h2.2.1.trans h1.2.1, h2.2.2.trans h1.2.2⟩

theorem DictOK_of_same {st st1 : State} (h : SameDict st st1) (hok : DictOK st) :
    DictOK st1 := DictOK_of_eq h.1 h.2.1 hok

@[simp] theorem patchHere_freed (addr : Int) (st : State) :
    (patchHere addr st).freed = st.freed := rfl

@[simp] theorem patchEndofs_freed (cs : List ControlEntry) :
    ∀ st : State, (patchEndofs cs st).freed = st.freed := by
  induction cs with
  | nil => intro st; rfl
  | cons e es ih =>
    intro st
    simp only [patchEndofs]
    split
    · rw [ih]
      rfl
    · rfl

theorem emit_same {i : Instruction} {st st1 : State} (h : emit i st = some st1) :
    SameDict st st1 := by
  unfold emit at h
  split at h
  · cases h
    exact ⟨rfl, rfl, rfl⟩
  · cases h

theorem addString_same {x : List Char} {st st1 : State} (h : addString x st = some st1) :
    SameDict st st1 := by
  unfold addString at h
  split at h
  · cases h
    exact ⟨rfl, rfl, rfl⟩
  · cases h

theorem pushControl_same {ty : ControlType} {addr : Int} {st st1 : State}
    (h : pushControl ty addr st = some st1) : SameDict st st1 := by
  unfold pushControl at h
  split at h
  · cases h
    exact ⟨rfl, rfl, rfl⟩
  · cases h

theorem patchEndofs_same (cs : List ControlEntry) (st : State) :
    SameDict st (patchEndofs cs st) :=
  ⟨patchEndofs_dictionary cs st, patchEndofs_dict_count cs st, patchEndofs_freed cs st⟩

theorem same_of_map {st st1 : State} {rest1 : List Char} {o : Option State}
    {F : State → State × List Char}
    (h : o.map F = some (st1, rest1)) (ho : ∀ a, o = some a → SameDict st a)
    (hF : ∀ a, SameDict a (F a).1) : SameDict st st1 := by
  obtain ⟨a, ha, hb⟩ := Option.map_eq_some'.1 h
  have := hF a
  rw [hb] at this
  exact (ho a ha).trans this

theorem same_of_bind {st st1 : State} {rest1 : List Char} {o : Option State}
    {F : State → Option (State × List Char)}
    (h : o.bind F = some (st1, rest1)) (ho : ∀ a, o = some a → SameDict st a)
    (hF : ∀ a r, F a = some r → SameDict a r.1) : SameDict st st1 := by
  obtain ⟨a, ha, hb⟩ := Option.bind_eq_some.1 h
  exact (ho a ha).trans (hF a _ hb)

/-- `compileToken` leaves `dictionary` and `dict_count` alone. -/
theorem compileToken_same (token rest : List Char) (st st1 : State) (rest1 : List Char)
    (h : compileToken token rest st = some (st1, rest1)) : SameDict st st1 := by
  unfold compileToken at h
  split at h
  · exact same_of_map h (fun a => emit_same) (fun a => SameDict.refl _)
  · by_cases hc0 : token = "IF".toList
    · rw [if_pos hc0] at h
      exact same_of_bind h (fun a => emit_same)
        (fun a r hr => same_of_map hr (fun b => pushControl_same) (fun b => SameDict.refl _))
    rw [if_neg hc0] at h
    by_cases hc1 : token = "ELSE".toList
    · rw [if_pos hc1] at h
      refine same_of_bind h (fun a => emit_same) (fun a r hr => ?_)
      split at hr
      · split at hr
        · exact same_of_map hr (fun b => pushControl_same) (fun b => SameDict.refl _)
        · cases hr
          exact SameDict.refl _
      · cases hr
        exact SameDict.refl _
    rw [if_neg hc1] at h
    by_cases hc2 : token = "THEN".toList
    · rw [if_pos hc2] at h
      split at h
      · split at h
        · cases h
          exact ⟨rfl, rfl, rfl⟩
        · cases h
          exact SameDict.refl _
      · cases h
        exact SameDict.refl _
    rw [if_neg hc2] at h
    by_cases hc3 : token = "DO".toList
    · rw [if_pos hc3] at h
      exact same_of_bind h (fun a => emit_same)
        (fun a r hr => same_of_map hr (fun b => pushControl_same) (fun b => SameDict.refl _))
    rw [if_neg hc3] at h
    by_cases hc4 : token = "LOOP".toList
    · rw [if_pos hc4] at h
      split at h
      · split at h
        · exact same_of_map h (fun a => emit_same) (fun a => ⟨rfl, rfl, rfl⟩)
        · cases h
          exact SameDict.refl _
      · cases h
        exact SameDict.refl _
    rw [if_neg hc4] at h
    by_cases hc5 : token = "LOAD".toList
    · rw [if_pos hc5] at h
      dsimp only at h
      split at h
      · cases h
        exact ⟨rfl, rfl, rfl⟩
      · split at h
        · cases h
          exact ⟨rfl, rfl, rfl⟩
        · split at h
          · cases h
            exact ⟨rfl, rfl, rfl⟩
          · exact same_of_bind h (fun a => addString_same)
              (fun a r hr => same_of_map hr (fun b => emit_same) (fun b => SameDict.refl _))
    rw [if_neg hc5] at h
    by_cases hc6 : token = ['.', dquote]
    · rw [if_pos hc6] at h
      split at h
      · cases h
        exact ⟨rfl, rfl, rfl⟩
      · exact same_of_bind h (fun a => addString_same)
          (fun a r hr => same_of_map hr (fun b => emit_same) (fun b => SameDict.refl _))
    rw [if_neg hc6] at h
    by_cases hc7 : token = "CASE".toList
    · rw [if_pos hc7] at h
      exact same_of_bind h (fun a => emit_same)
        (fun a r hr => same_of_map hr (fun b => pushControl_same) (fun b => SameDict.refl _))
    rw [if_neg hc7] at h
    by_cases hc8 : token = "OF".toList
    · rw [if_pos hc8] at h
      exact same_of_bind h (fun a => emit_same)
        (fun a r hr => same_of_map hr (fun b => pushControl_same) (fun b => SameDict.refl _))
    rw [if_neg hc8] at h
    by_cases hc9 : token = "ENDOF".toList
    · rw [if_pos hc9] at h
      split at h
      · split at h
        · refine same_of_bind h (fun a => emit_same) (fun a r hr => ?_)
          have h2 := same_of_map hr (fun b => pushControl_same) (fun b => SameDict.refl _)
          exact SameDict.trans ⟨rfl, rfl, rfl⟩ h2
        · cases h
          exact ⟨rfl, rfl, rfl⟩
      · cases h
        exact ⟨rfl, rfl, rfl⟩
    rw [if_neg hc9] at h
    by_cases hc10 : token = "ENDCASE".toList
    · rw [if_pos hc10] at h
      split at h
      · split at h
        · refine same_of_map h (fun a => emit_same) (fun a => ?_)
          simp only
          split
          · split
            · exact SameDict.trans (patchEndofs_same _ _) ⟨rfl, rfl, rfl⟩
            · exact patchEndofs_same _ _
          · exact patchEndofs_same _ _
        · cases h
          exact ⟨rfl, rfl, rfl⟩
      · cases h
        exact ⟨rfl, rfl, rfl⟩
    rw [if_neg hc10] at h
    by_cases hc11 : token = "BEGIN".toList
    · rw [if_pos hc11] at h
      exact same_of_bind h (fun a => emit_same)
        (fun a r hr => same_of_map hr (fun b => pushControl_same) (fun b => SameDict.refl _))
    rw [if_neg hc11] at h
    by_cases hc12 : token = "WHILE".toList
    · rw [if_pos hc12] at h
      exact same_of_bind h (fun a => emit_same)
        (fun a r hr => same_of_map hr (fun b => pushControl_same) (fun b => SameDict.refl _))
    rw [if_neg hc12] at h
    by_cases hc13 : token = "REPEAT".toList
    · rw [if_pos hc13] at h
      split at h
      · exact same_of_map h (fun a => emit_same) (fun a => ⟨rfl, rfl, rfl⟩)
      · cases h
    rw [if_neg hc13] at h
    by_cases hc14 : token = "FORGET".toList
    · rw [if_pos hc14] at h
      split at h
      · cases h
        exact ⟨rfl, rfl, rfl⟩
      · dsimp only at h
        split at h
        · exact same_of_map h (fun a => emit_same) (fun a => SameDict.refl _)
        · cases h
          exact ⟨rfl, rfl, rfl⟩
    rw [if_neg hc14] at h
    by_cases hc15 : token = "VARIABLE".toList
    · rw [if_pos hc15] at h
      split at h
      · cases h
        exact ⟨rfl, rfl, rfl⟩
      · exact same_of_bind h (fun a => addString_same)
          (fun a r hr => same_of_map hr (fun b => emit_same) (fun b => SameDict.refl _))
    rw [if_neg hc15] at h
    by_cases hc16 : 0 ≤ findCompiledWordIndex token st
    · rw [if_pos hc16] at h
      exact same_of_map h (fun a => emit_same) (fun a => SameDict.refl _)
    rw [if_neg hc16] at h
    split at h
    · exact same_of_bind h (fun a => addString_same)
        (fun a r hr => same_of_map hr (fun b => emit_same) (fun b => SameDict.refl _))
    · cases h
      exact ⟨rfl, rfl, rfl⟩


theorem commitWord_DictOK (st : State) (h : DictOK st) : DictOK (commitWord st) := by
  obtain ⟨hnd, hlen, hdc⟩ := h
  unfold commitWord
  simp only
  split
  · rename_i hidx
    refine ⟨?_, ?_, hdc⟩
    · unfold liveNames at hnd ⊢
      simp only
      rw [liveNames_set_same]
      · exact hnd
      · simp only [List.getElem?_map, List.getElem?_take]
        have h1 : st.current_word_index.toNat < st.dict_count := by omega
        have h2 : st.current_word_index.toNat < st.dictionary.length := by
          rw [hlen]
          omega
        simp [h1, h2, List.getD_eq_getElem?_getD]
    · simp only [List.length_set]
      exact hlen
  · exact ⟨hnd, hlen, hdc⟩

theorem beginDefinition_DictOK (name : List Char) (st : State) (h : DictOK st) :
    DictOK (beginDefinition name st) := by
  unfold beginDefinition
  simp only
  have h1 : DictOK { st with compiling := true,
                             currentWord := { name := name, code := [], strings := [] } } :=
    DictOK_of_eq rfl rfl h
  exact DictOK_of_eq rfl rfl (addCompiledWord_DictOK name [] [] _ h1)


/-- Every function of the interpreter keeps the dictionary well formed. -/
theorem DictOK_preserved (fs : List Char → Option (List (List Char))) : ∀ fuel : Nat,
    (∀ instr ip wr st r, executeInstruction fs fuel instr ip wr st = some r →
        DictOK st → DictOK r.1)
    ∧ (∀ wr ip st st1, execLoop fs fuel wr ip st = some st1 → DictOK st → DictOK st1)
    ∧ (∀ tok st st1, interpretLoop fs fuel tok st = some st1 → DictOK st → DictOK st1)
    ∧ (∀ lines st st1, interpretLines fs fuel lines st = some st1 →
        DictOK st → DictOK st1) := by
  intro fuel
  induction fuel with
  | zero =>
    refine ⟨?_, ?_, ?_, ?_⟩
    · intro instr ip wr st r h
      rw [executeInstruction] at h
      cases h
    · intro wr ip st st1 h
      rw [execLoop] at h
      cases h
    · intro tok st st1 h
      rw [interpretLoop] at h
      cases h
    · intro lines st st1 h
      rw [interpretLines] at h
      cases h
  | succ fuel ih =>
    obtain ⟨ih1, ih2, ih3, ih4⟩ := ih
    refine ⟨?_, ?_, ?_, ?_⟩
    · intro instr ip wr st r h hok
      rw [executeInstruction] at h
      repeat' split at h
      all_goals first
        | (cases h; done)
        | (cases h; exact hok)
        | (cases h; exact ih2 _ _ _ _ ‹_› hok)
        | (cases h; exact ih4 _ _ _ ‹_› hok)
        | exact executePrimitive_DictOK _ _ _ _ _ _ h hok
    · intro wr ip st st1 h hok
      rw [execLoop] at h
      repeat' split at h
      all_goals first
        | (cases h; done)
        | (cases h; exact hok)
        | exact ih2 _ _ _ _ h (ih1 _ _ _ _ _ ‹_› hok)
    · intro tok st st1 h hok
      cases tok with
      | none =>
        rw [interpretLoop] at h
        cases h
        exact hok
      | some p =>
        obtain ⟨token, saveptr⟩ := p
        rw [interpretLoop] at h
        repeat' (first | split at h | (dsimp only at h; split at h))
        all_goals first
          | (cases h; done)
          | (cases h; exact hok)
          | exact ih3 _ _ _ h (commitWord_DictOK _ (DictOK_of_same (emit_same ‹_›) hok))
          | exact ih3 _ _ _ h (DictOK_of_same (compileToken_same _ _ _ _ _ ‹_›) hok)
          | exact ih3 _ _ _ h (beginDefinition_DictOK _ _ hok)
          | exact ih3 _ _ _ h (DictOK_of_eq (by simp) (by simp) hok)
          | exact ih3 _ _ _ h (ih2 _ _ _ _ ‹_› hok)
          | exact ih3 _ _ _ h (ih4 _ _ _ ‹_› hok)
    · intro lines st st1 h hok
      cases lines with
      | nil =>
        rw [interpretLines] at h
        cases h
        exact hok
      | cons line lines =>
        rw [interpretLines] at h
        split at h
        · rename_i hline
          exact ih4 _ _ _ h (ih3 _ _ _ hline (DictOK_of_eq rfl rfl hok))
        · cases h


theorem initState_DictOK : DictOK initState := by
  refine ⟨?_, ?_, ?_⟩
  · simp [liveNames, initState]
  · simp [initState]
  · simp [initState]

theorem interpret_DictOK (fs : List Char → Option (List (List Char))) (fuel : Nat)
    (line : List Char) (st st1 : State) (h : interpret fs fuel line st = some st1)
    (hok : DictOK st) : DictOK st1 :=
  (DictOK_preserved fs fuel).2.2.1 _ _ _ h (DictOK_of_eq rfl rfl hok)

theorem Reachable_DictOK (st : State) (h : Reachable st) : DictOK st := by
  induction h with
  | init => exact initState_DictOK
  | step fs fuel line st st1 _ hstep ih => exact interpret_DictOK fs fuel line st st1 hstep ih


/-! ### The heap invariant -/

theorem HeapOK_of_eq {st st1 : State} (h1 : st1.dictionary = st.dictionary)
    (h2 : st1.dict_count = st.dict_count) (h3 : st1.freed = st.freed) (h : HeapOK st) :
    HeapOK st1 := by
  unfold HeapOK at *
  rw [h1, h2, h3]
  exact h

theorem mem_overwritten {i n : Nat} {freed : List (Nat × Nat)} {p : Nat × Nat}
    (h : p ∈ overwritten i n freed) : p ∈ freed ∧ (p.1 = i → n ≤ p.2) := by
  unfold overwritten at h
  rw [List.mem_filter] at h
  refine ⟨h.1, ?_⟩
  intro e
  have h2 := h.2
  simp only [Bool.not_eq_true', decide_eq_false_iff_not, not_and, not_lt] at h2
  exact h2 e

theorem mem_freeStrings {st : State} {i : Nat} {p : Nat × Nat}
    (h : p ∈ freeStrings st i) : p.1 = i := by
  unfold freeStrings at h
  rw [List.mem_map] at h
  obtain ⟨j, _, e⟩ := h
  rw [← e]

theorem getD_set_strings (dict : List CompiledWord) (k i : Nat) (w : CompiledWord) :
    ((dict.set k w).getD i emptyWord).strings.length
      = if i = k then (if k < dict.length then w.strings.length else 0)
        else (dict.getD i emptyWord).strings.length := by
  simp only [List.getD_eq_getElem?_getD, List.getElem?_set]
  by_cases hik : i = k
  · subst hik
    simp only [if_true]
    by_cases hl : i < dict.length
    · simp [hl]
    · simp [hl, emptyWord]
  · have hki : ¬ k = i := fun e => hik e.symm
    simp [hik, hki]

theorem addCompiledWord_HeapOK (name : List Char) (code : List Instruction)
    (strings : List (List Char)) (st : State) (h : HeapOK st) :
    HeapOK (addCompiledWord name code strings st) := by
  unfold addCompiledWord
  simp only
  split
  · intro p hp hlive
    simp only at hp hlive ⊢
    obtain ⟨hmem, hcell⟩ := mem_overwritten hp
    rw [getD_set_strings]
    by_cases hpe : p.1 = (findCompiledWordIndex name st).toNat
    · rw [if_pos hpe]
      split
      · exact hcell hpe
      · exact Nat.zero_le _
    · rw [if_neg hpe]
      rw [List.mem_append] at hmem
      rcases hmem with hm | hm
      · exact h p hm hlive
      · exact absurd (mem_freeStrings hm) hpe
  · split
    · intro p hp hlive
      simp only at hp hlive ⊢
      obtain ⟨hmem, hcell⟩ := mem_overwritten hp
      rw [getD_set_strings]
      by_cases hpe : p.1 = st.dict_count
      · rw [if_pos hpe]
        split
        · exact hcell hpe
        · exact Nat.zero_le _
      · rw [if_neg hpe]
        exact h p hmem (by omega)
    · exact h

theorem commitWord_HeapOK (st : State) (h : HeapOK st) : HeapOK (commitWord st) := by
  unfold commitWord
  simp only
  split
  · intro p hp hlive
    simp only at hp hlive ⊢
    obtain ⟨hmem, hcell⟩ := mem_overwritten hp
    rw [getD_set_strings]
    by_cases hpe : p.1 = st.current_word_index.toNat
    · rw [if_pos hpe]
      split
      · exact hcell hpe
      · exact Nat.zero_le _
    · rw [if_neg hpe]
      exact h p hmem hlive
  · exact h

theorem beginDefinition_HeapOK (name : List Char) (st : State) (h : HeapOK st) :
    HeapOK (beginDefinition name st) := by
  unfold beginDefinition
  simp only
  have h1 : HeapOK { st with compiling := true,
                             currentWord := { name := name, code := [], strings := [] } } :=
    HeapOK_of_eq rfl rfl rfl h
  exact HeapOK_of_eq rfl rfl rfl (addCompiledWord_HeapOK name [] [] _ h1)

theorem mem_forgetFreed {st : State} {k : Nat} {p : Nat × Nat}
    (h : p ∈ forgetFreed st k) : p ∈ st.freed ∨ k ≤ p.1 := by
  unfold forgetFreed at h
  rw [List.mem_append] at h
  rcases h with h | h
  · exact Or.inl h
  · right
    rw [List.mem_flatten] at h
    obtain ⟨l, hl, hpl⟩ := h
    rw [List.mem_map] at hl
    obtain ⟨i, hi, e⟩ := hl
    rw [← e] at hpl
    rw [mem_freeStrings hpl]
    rw [List.mem_range'_1] at hi
    exact hi.1

theorem HeapOK_forget (st : State) (k : Nat) (hk : k ≤ st.dict_count) (h : HeapOK st) :
    HeapOK { st with dict_count := k, freed := forgetFreed st k } := by
  intro p hp hlive
  simp only at hp hlive ⊢
  rcases mem_forgetFreed hp with hm | hm
  · exact h p hm (by omega)
  · omega

/-- In a state that satisfies the heap invariant `OP_FORGET` frees no pointer twice. -/
theorem forgetFault_of_HeapOK (st : State) (k : Nat) (h : HeapOK st) :
    forgetFault st k = false := by
  unfold forgetFault
  rw [List.any_eq_false]
  intro i hi
  rw [List.mem_range'_1] at hi
  unfold freesTwice
  rw [Bool.not_eq_true, List.any_eq_false]
  intro p hp
  simp only [decide_eq_true_eq, not_and, not_lt]
  intro e
  have := h p hp (by omega)
  rw [e] at this
  exact this

theorem executePrimitive_freed (instr : Instruction) (ip : Int) (w : CompiledWord)
    (st st1 : State) (ip1 : Int)
    (h : executePrimitive instr ip w st = some (st1, ip1))
    (h1 : instr.opcode ≠ OpCode.OP_FORGET) (h2 : instr.opcode ≠ OpCode.OP_VARIABLE) :
    st1.freed = st.freed := by
  obtain ⟨op, operand⟩ := instr
  cases op <;> simp only [executePrimitive] at h
  all_goals (try (exact absurd rfl h1))
  all_goals (try (exact absurd rfl h2))
  all_goals (repeat' split at h)
  all_goals (first | (cases h; simp) | (simp at h))

theorem executePrimitive_HeapOK (instr : Instruction) (ip : Int) (w : CompiledWord)
    (st st1 : State) (ip1 : Int)
    (h : executePrimitive instr ip w st = some (st1, ip1)) (hok : HeapOK st) :
    HeapOK st1 := by
  by_cases h1 : instr.opcode = OpCode.OP_FORGET
  · obtain ⟨op, operand⟩ := instr
    simp only at h1
    subst h1
    simp only [executePrimitive] at h
    split at h
    · rename_i hr
      cases h
      exact HeapOK_forget st _ (by omega) hok
    · cases h
      exact hok
  · by_cases h2 : instr.opcode = OpCode.OP_VARIABLE
    · obtain ⟨op, operand⟩ := instr
      simp only at h2
      subst h2
      simp only [executePrimitive] at h
      split at h
      · split at h
        · cases h
        · cases h
          exact addCompiledWord_HeapOK _ _ _ _ (HeapOK_of_eq rfl rfl rfl hok)
      · cases h
        exact hok
    · obtain ⟨hd, hc⟩ := executePrimitive_dict instr ip w st st1 ip1 h h1 h2
      exact HeapOK_of_eq hd hc (executePrimitive_freed instr ip w st st1 ip1 h h1 h2) hok

theorem HeapOK_of_same {st st1 : State} (h : SameDict st st1) (hok : HeapOK st) :
    HeapOK st1 := HeapOK_of_eq h.1 h.2.1 h.2.2 hok

/-- Every function of the interpreter keeps the heap invariant. -/
theorem HeapOK_preserved (fs : List Char → Option (List (List Char))) : ∀ fuel : Nat,
    (∀ instr ip wr st r, executeInstruction fs fuel instr ip wr st = some r →
        HeapOK st → HeapOK r.1)
    ∧ (∀ wr ip st st1, execLoop fs fuel wr ip st = some st1 → HeapOK st → HeapOK st1)
    ∧ (∀ tok st st1, interpretLoop fs fuel tok st = some st1 → HeapOK st → HeapOK st1)
    ∧ (∀ lines st st1, interpretLines fs fuel lines st = some st1 →
        HeapOK st → HeapOK st1) := by
  intro fuel
  induction fuel with
  | zero =>
    refine ⟨?_, ?_, ?_, ?_⟩
    · intro instr ip wr st r h
      rw [executeInstruction] at h
      cases h
    · intro wr ip st st1 h
      rw [execLoop] at h
      cases h
    · intro tok st st1 h
      rw [interpretLoop] at h
      cases h
    · intro lines st st1 h
      rw [interpretLines] at h
      cases h
  | succ fuel ih =>
    obtain ⟨ih1, ih2, ih3, ih4⟩ := ih
    refine ⟨?_, ?_, ?_, ?_⟩
    · intro instr ip wr st r h hok
      rw [executeInstruction] at h
      repeat' split at h
      all_goals first
        | (cases h; done)
        | (cases h; exact hok)
        | (cases h; exact ih2 _ _ _ _ ‹_› hok)
        | (cases h; exact ih4 _ _ _ ‹_› hok)
        | exact executePrimitive_HeapOK _ _ _ _ _ _ h hok
    · intro wr ip st st1 h hok
      rw [execLoop] at h
      repeat' split at h
      all_goals first
        | (cases h; done)
        | (cases h; exact hok)
        | exact ih2 _ _ _ _ h (ih1 _ _ _ _ _ ‹_› hok)
    · intro tok st st1 h hok
      cases tok with
      | none =>
        rw [interpretLoop] at h
        cases h
        exact hok
      | some p =>
        obtain ⟨token, saveptr⟩ := p
        rw [interpretLoop] at h
        repeat' (first | split at h | (dsimp only at h; split at h))
        all_goals first
          | (cases h; done)
          | (cases h; exact hok)
          | exact ih3 _ _ _ h (commitWord_HeapOK _ (HeapOK_of_same (emit_same ‹_›) hok))
          | exact ih3 _ _ _ h (HeapOK_of_same (compileToken_same _ _ _ _ _ ‹_›) hok)
          | exact ih3 _ _ _ h (beginDefinition_HeapOK _ _ hok)
          | exact ih3 _ _ _ h (HeapOK_of_eq (by simp) (by simp) (by simp) hok)
          | exact ih3 _ _ _ h (ih2 _ _ _ _ ‹_› hok)
          | exact ih3 _ _ _ h (ih4 _ _ _ ‹_› hok)
    · intro lines st st1 h hok
      cases lines with
      | nil =>
        rw [interpretLines] at h
        cases h
        exact hok
      | cons line lines =>
        rw [interpretLines] at h
        split at h
        · rename_i hline
          exact ih4 _ _ _ h (ih3 _ _ _ hline (HeapOK_of_eq rfl rfl rfl hok))
        · cases h

theorem initState_HeapOK : HeapOK initState := by
  intro p hp
  simp [initState] at hp

theorem Reachable_HeapOK (st : State) (h : Reachable st) : HeapOK st := by
  induction h with
  | init => exact initState_HeapOK
  | step fs fuel line st st1 _ hstep ih =>
    exact (HeapOK_preserved fs fuel).2.2.1 _ _ _ hstep (HeapOK_of_eq rfl rfl rfl ih)

/-- The immediate-mode case `FORGET` of `interpret` on a name found at index `i`. -/
theorem interpretLoop_forget (fs : List Char → Option (List (List Char))) (fuel : Nat)
    (w sp sp1 : List Char) (i : Nat) (st : State)
    (herr : st.error_flag = false) (hcomp : st.compiling = false)
    (hsp : strtok_r sp = some (w, sp1))
    (hfind : findCompiledWordIndex w st = i) (hdc : i < st.dict_count)
    (hheap : forgetFault st i = false) :
    interpretLoop fs (fuel + 3) (some ("FORGET".toList, sp)) st
      = interpretLoop fs (fuel + 2) (strtok_r sp1)
          { st with dict_count := i, freed := forgetFreed st i } := by
  have e0 : mpz_set_str "FORGET".toList = none := by decide
  have e1 : ¬ "FORGET".toList = ":".toList := by decide
  have e2 : ¬ "FORGET".toList = "LOAD".toList := by decide
  have e3 : ¬ "FORGET".toList = ['.', dquote] := by decide
  have e4 : primitiveOpcode "FORGET".toList = none := by decide
  have hi : (0 : Int) ≤ (i : Int) := Int.ofNat_nonneg i
  have hdc1 : (i : Int) < (st.dict_count : Int) := by exact_mod_cast hdc
  rw [interpretLoop]
  simp only [herr, hcomp, Bool.false_eq_true, if_false, e0, e1, e2, e3, e4, hsp, hfind, hi,
    if_true]
  rw [execLoop]
  simp only [wordOf, tempWord, CompiledWord.code_length, List.length_singleton, Nat.cast_one,
    zero_lt_one, and_self, if_true, lt_self_iff_false, if_false, Int.toNat_zero,
    List.getElem?_cons_zero, herr]
  rw [executeInstruction_primitive fs fuel _ _ _ _ herr (by simp)
    (by simp [heapFault, hheap])]
  simp only [executePrimitive, hi, hdc1, and_self, if_true, Int.toNat_ofNat]
  rw [execLoop_done fs fuel _ _ _ (Or.inl (by simp [wordOf, CompiledWord.code_length]))]
  simp only [herr, hcomp]

/-- A live name does not occur below its own index. -/
theorem findCompiledWordIndex_forgotten (st : State) (w : List Char) (i : Nat)
    (hok : DictOK st) (hi : i < st.dict_count)
    (hname : (st.dictionary.getD i emptyWord).name = w) :
    findCompiledWordIndex w st = i
    ∧ findCompiledWordIndex w { st with error_flag := false, dict_count := i } = -1 := by
  obtain ⟨hnd, hlen, hdc⟩ := hok
  have hi2 : i < st.dictionary.length := by
    rw [hlen]
    omega
  have hget : (liveNames st)[i]? = some w := by
    unfold liveNames
    simp [List.getElem?_map, List.getElem?_take, hi, hi2, ← hname, List.getD_eq_getElem?_getD]
  constructor
  · unfold findCompiledWordIndex
    have h := findIndexFrom_nodup w (st.dictionary.take st.dict_count) 0 i hnd hget
    simpa using h
  · unfold findCompiledWordIndex
    apply findIndexFrom_not_mem
    simp only
    have hsplit : liveNames st = (st.dictionary.take i).map (fun w => w.name)
        ++ (liveNames st).drop i := by
      have e : st.dictionary.take i = (st.dictionary.take st.dict_count).take i := by
        rw [List.take_take, Nat.min_eq_left (le_of_lt hi)]
      rw [e, List.map_take]
      exact (List.take_append_drop i _).symm
    rw [hsplit] at hnd
    have hdis := (List.nodup_append.1 hnd).2.2
    intro hmem
    apply hdis hmem
    have hd : ((liveNames st).drop i)[0]? = some w := by
      rw [List.getElem?_drop]
      simpa using hget
    exact List.getElem?_mem hd

/-! ### C1 : redefinition of a word that is not the last entry -/

/-- C1 (the code at the failing input): in a session that defined `A` (index 0) and then
`B` (index 1), interpreting `: A 3 ;` keeps `dict_count` at 2, but the entry of `A` is
left with empty code and the new body `3` is stored in the entry of `B`; interpreting
`A B` afterwards pushes 3 once, where the claim promises 3 (from `A`) and then 2 (from
`B`). -/
theorem C1_redefinition_commits_to_last_entry :
    (session noFiles 50 [": A 1 ;".toList, ": B 2 ;".toList, ": A 3 ;".toList] initState).map
        (fun st => (st.dict_count, st.dictionary.take 2))
      = some (2, [{ name := "A".toList, code := [], strings := [] },
                  { name := "B".toList,
                    code := [{ opcode := OpCode.OP_PUSH, operand := 0 },
                             { opcode := OpCode.OP_END, operand := 0 }],
                    strings := ["3".toList] }])
    ∧ (session noFiles 50
          [": A 1 ;".toList, ": B 2 ;".toList, ": A 3 ;".toList, "A B".toList] initState).map
        (fun st => (st.stack, st.error_flag))
      = some ([3], false) := by
  decide!

/-! ### C2 : `FORGET w` in immediate mode -/

/-- C2 (counterexample): the session `: A IF ;`, `: B VARIABLE Q THEN ." x y" ;`, `B`
reaches, in immediate mode, a dictionary of three entries whose entry at index 2 is named
`x y` (the `THEN` of `B` patches the operand of its `VARIABLE` through the control entry
left by `A`, so running `B` names the variable after the second string of `B`).
Interpreting `FORGET x y` in that state leaves `dict_count` at 3, not 2, and the lookup of
`x y` still returns 2, not -1. -/
theorem C2_forget_misses_name_with_blank :
    (session noFiles 50
        [": A IF ;".toList,
         ": B VARIABLE Q THEN .".toList ++ [dquote] ++ " x y".toList ++ [dquote] ++ " ;".toList,
         "B".toList] initState).map
        (fun st => (st.compiling, st.dict_count, (st.dictionary.getD 2 emptyWord).name))
      = some (false, 3, "x y".toList)
    ∧ (session noFiles 50
        [": A IF ;".toList,
         ": B VARIABLE Q THEN .".toList ++ [dquote] ++ " x y".toList ++ [dquote] ++ " ;".toList,
         "B".toList, "FORGET ".toList ++ "x y".toList] initState).map
        (fun st => (st.dict_count, findCompiledWordIndex "x y".toList st))
      = some (3, 2) := by
  constructor <;> decide!

/-- C2 (amended): in every state reachable from the initial one through `interpret` and
in immediate mode, if the entry at index `i < dict_count` is named `w` and `w` is a token
(not empty, free of blank, tab and new line), then interpreting `FORGET w` (with at least
3 units of fuel) returns the state with `dict_count = i`, the error flag clear, the
strings of the entries `i .. dict_count - 1` freed (`forgetFreed`) and nothing else
changed, so all dictionary entries, those at indices `0..i-1` among them, are unchanged;
and in that state `findCompiledWordIndex w` is -1. -/
theorem C2_forget_token_name (fs : List Char → Option (List (List Char))) (fuel : Nat)
    (st : State) (w : List Char) (i : Nat)
    (hreach : Reachable st) (himm : st.compiling = false) (hi : i < st.dict_count)
    (hname : (st.dictionary.getD i emptyWord).name = w) (htok : isToken w = true)
    (hfuel : 3 ≤ fuel) :
    interpret fs fuel ("FORGET ".toList ++ w) st
        = some { st with error_flag := false, dict_count := i, freed := forgetFreed st i }
    ∧ findCompiledWordIndex w
        { st with error_flag := false, dict_count := i, freed := forgetFreed st i } = -1 := by
  have hok := Reachable_DictOK st hreach
  have hheap : forgetFault { st with error_flag := false } i = false :=
    forgetFault_of_HeapOK _ i (HeapOK_of_eq rfl rfl rfl (Reachable_HeapOK st hreach))
  obtain ⟨hfind, hgone⟩ := findCompiledWordIndex_forgotten st w i hok hi hname
  refine ⟨?_, hgone⟩
  obtain ⟨f, rfl⟩ : ∃ f, fuel = f + 3 := ⟨fuel - 3, by omega⟩
  unfold interpret
  rw [show "FORGET ".toList ++ w = "FORGET".toList ++ ' ' :: w from rfl,
    strtok_r_token _ _ (by decide),
    interpretLoop_forget fs f w w [] i { st with error_flag := false } rfl himm
      (strtok_r_last w htok) hfind hi hheap,
    strtok_r_nil, interpretLoop_none]
  rfl

/-- C2 (witness): after `: A 1 ;` in a fresh session, `FORGET A` empties the dictionary,
the string of `A` is freed and `A` is no longer found. -/
theorem C2_forget_token_name_witness :
    Reachable (stateAfter ": A 1 ;".toList)
    ∧ (stateAfter ": A 1 ;".toList).compiling = false
    ∧ 0 < (stateAfter ": A 1 ;".toList).dict_count
    ∧ ((stateAfter ": A 1 ;".toList).dictionary.getD 0 emptyWord).name = "A".toList
    ∧ isToken "A".toList = true ∧ 3 ≤ 3
    ∧ forgetFreed (stateAfter ": A 1 ;".toList) 0 = [(0, 0)]
    ∧ interpret noFiles 3 ("FORGET ".toList ++ "A".toList) (stateAfter ": A 1 ;".toList)
        = some { stateAfter ": A 1 ;".toList with
                   error_flag := false, dict_count := 0,
                   freed := forgetFreed (stateAfter ": A 1 ;".toList) 0 }
    ∧ findCompiledWordIndex "A".toList
        { stateAfter ": A 1 ;".toList with
            error_flag := false, dict_count := 0,
            freed := forgetFreed (stateAfter ": A 1 ;".toList) 0 } = -1 :=
  ⟨Reachable.step noFiles 50 ": A 1 ;".toList initState _ Reachable.init (by decide!),
   by decide!, by decide!, by decide!, by decide, by decide, by decide!,
   C2_forget_token_name noFiles 3 (stateAfter ": A 1 ;".toList) "A".toList 0
     (Reachable.step noFiles 50 ": A 1 ;".toList initState _ Reachable.init (by decide!))
     (by decide!) (by decide!) (by decide!) (by decide) (by decide)⟩

/-! ### C3 : `VARIABLE X` and the operand order of `!` -/

/-- C3 (counterexample): in a fresh session, after `VARIABLE X` the line `42 0 ! 0 @ .`
sets the error flag at `!` and prints only the error message, never 42; the accessor
form `42 X ! X @ .` does the same.  `!` takes the value on top and the index beneath, so
here it is asked to store 0 into variable 42. -/
theorem C3_value_below_index_is_rejected :
    (session noFiles 50 ["VARIABLE X".toList, "42 0 ! 0 @ .".toList] initState).map
        (fun st => (st.error_flag, st.output))
      = some (true, [Output.text "Error: ", Output.text "STORE: Invalid variable index",
                     Output.text "\n"])
    ∧ (session noFiles 50 ["VARIABLE X".toList, "42 X ! X @ .".toList] initState).map
        (fun st => (st.error_flag, st.output))
      = some (true, [Output.text "Error: ", Output.text "STORE: Invalid variable index",
                     Output.text "\n"]) := by
  decide!

/-- C3 (amended): in a fresh session, after `VARIABLE X` the line `0 42 ! 0 @ .` (index
first, value on top) prints 42 and leaves the error flag clear, the stack empty and
variable 0 holding 42; so does the accessor form `X 42 ! X @ .`. -/
theorem C3_index_below_value_prints_42 :
    (session noFiles 50 ["VARIABLE X".toList, "0 42 ! 0 @ .".toList] initState).map
        (fun st => (st.error_flag, st.output, st.stack, st.vars))
      = some (false, [Output.num 42, Output.text "\n"], [],
              [{ name := "X".toList, value := 42 }])
    ∧ (session noFiles 50 ["VARIABLE X".toList, "X 42 ! X @ .".toList] initState).map
        (fun st => (st.error_flag, st.output, st.stack, st.vars))
      = some (false, [Output.num 42, Output.text "\n"], [],
              [{ name := "X".toList, value := 42 }]) := by
  constructor <;> decide!

/-! ### C4 : `DO ... LOOP` entered with start equal to limit -/

/-- C4 (counterexample): after `: T 5 5 DO 7 LOOP ;` in a fresh session, interpreting `T`
enters the loop with start = limit = 5 and leaves 7 on the value stack: the body `7` was
executed, the stack is not the (empty) one left by `DO`. -/
theorem C4_equal_bounds_body_runs :
    (session noFiles 50 [": T 5 5 DO 7 LOOP ;".toList, "T".toList] initState).map
        (fun st => (st.stack, st.error_flag, st.loop_stack))
      = some ([7], false, []) := by
  decide!

/-- C4 (amended): a compiled `DO body LOOP` with straight-line `body` (no instruction of
which reads a string of the word through a freed pointer), entered with the
error flag clear, room on the loop stack and start equal to limit (both `s`, on top of
`rest`), executes the body exactly once: the loop of `executeCompiledWord` started at the
`DO` reaches the instruction after `LOOP` in the state that one run of `body` produces
from the state left by `DO` (value stack `rest`, loop entry with index and limit `s`),
with the loop entry popped again unless the body set the error flag. -/
theorem C4_equal_bounds_body_runs_once (fs : List Char → Option (List (List Char)))
    (fuel : Nat) (wr : WordRef) (st : State) (pre body post : List Instruction)
    (d l s : Int) (rest : List Int)
    (hcode : (wordOf st wr).code
        = pre ++ [{ opcode := OpCode.OP_DO, operand := d }] ++ body
            ++ ({ opcode := OpCode.OP_LOOP, operand := l } :: post))
    (hbody : ∀ i ∈ body, isStraight i.opcode = true)
    (hheap : ∀ i ∈ body, heapFault i wr st = false)
    (herr : st.error_flag = false) (hstack : st.stack = s :: s :: rest)
    (hroom : st.loop_stack.length < LOOP_STACK_SIZE) :
    execLoop fs (fuel + 3 + body.length) wr pre.length st
      = execLoop fs (fuel + 1) wr (pre.length + body.length + 2 : Nat)
          (if (runStraight (wordOf st wr) body (doEntered st s s rest pre.length)).error_flag
           then runStraight (wordOf st wr) body (doEntered st s s rest pre.length)
           else { runStraight (wordOf st wr) body (doEntered st s s rest pre.length)
                  with loop_stack := st.loop_stack }) := by
  generalize hst1 : doEntered st s s rest pre.length = st1
  have hw1 : wordOf st1 wr = wordOf st wr := by
    subst hst1
    cases wr <;> rfl
  have hl1 : st1.loop_stack
      = { index := s, limit := s, addr := (pre.length : Int) + 1 } :: st.loop_stack := by
    subst hst1
    rfl
  have hget : (wordOf st wr).code[(pre.length : Int).toNat]?
      = some { opcode := OpCode.OP_DO, operand := d } := by
    rw [hcode]
    simp only [Int.toNat_ofNat, List.append_assoc]
    rw [List.getElem?_append_right (le_refl _)]
    simp
  have hdo : executePrimitive { opcode := OpCode.OP_DO, operand := d } (pre.length : Int)
      (wordOf st wr) st = some (st1, (pre.length : Int)) := by
    subst hst1
    have hr : st.loop_stack.length < 100 := hroom
    simp [executePrimitive, pop, hstack, herr, hr, doEntered]
  rw [show fuel + 3 + body.length = (fuel + 1 + body.length) + 2 from by omega,
    execLoop_step fs _ wr _ st _ _ _ (by omega) hget herr (by simp) hdo (by rfl)]
  have hcode1 : (wordOf st1 wr).code
      = (pre ++ [{ opcode := OpCode.OP_DO, operand := d }]) ++ body
          ++ ({ opcode := OpCode.OP_LOOP, operand := l } :: post) := by
    rw [hw1, hcode]
  have hheap1 : ∀ i ∈ body, heapFault i wr st1 = false := fun i hi => by
    rw [← hst1]
    exact (heapFault_congr i wr st _ rfl rfl rfl rfl).trans (hheap i hi)
  have hseg := execLoop_straight fs (fuel + 1) wr body
    (pre ++ [{ opcode := OpCode.OP_DO, operand := d }])
    ({ opcode := OpCode.OP_LOOP, operand := l } :: post) st1 hcode1 hbody hheap1
  simp only [List.length_append, List.length_singleton] at hseg
  rw [show ((pre.length : Nat) : Int) + 1 = ((pre.length + 1 : Nat) : Int) from by
      push_cast; rfl,
    show fuel + 1 + body.length + 1 = fuel + 1 + 1 + body.length from by omega, hseg, hw1]
  generalize hst2 : runStraight (wordOf st wr) body st1 = st2
  have hw2 : wordOf st2 wr = wordOf st wr := by
    rw [← hst2, ← hw1, runStraight_wordOf _ wr body st1 hbody]
  have hl2 : st2.loop_stack
      = { index := s, limit := s, addr := (pre.length : Int) + 1 } :: st.loop_stack := by
    rw [← hst2, runStraight_loop_stack _ body st1 hbody, hl1]
  by_cases he : st2.error_flag = true
  · simp only [he, if_true]
    rw [execLoop_done fs _ wr _ st2 (Or.inr he), execLoop_done fs _ wr _ st2 (Or.inr he)]
  · have he' : st2.error_flag = false := by simpa using he
    simp only [he', Bool.false_eq_true, if_false]
    have hget2 : (wordOf st2 wr).code[((pre.length + 1 + body.length : Nat) : Int).toNat]?
        = some { opcode := OpCode.OP_LOOP, operand := l } := by
      rw [hw2, hcode]
      simp only [Int.toNat_ofNat]
      rw [List.getElem?_append_right (by
        simp only [List.length_append, List.length_singleton]
        omega)]
      simp only [List.length_append, List.length_singleton, Nat.sub_self,
        List.getElem?_cons_zero]
    have hloop : executePrimitive { opcode := OpCode.OP_LOOP, operand := l }
        ((pre.length + 1 + body.length : Nat) : Int) (wordOf st2 wr) st2
        = some ({ st2 with loop_stack := st.loop_stack },
                ((pre.length + 1 + body.length : Nat) : Int)) := by
      simp [executePrimitive, hl2]
    rw [execLoop_step fs _ wr _ st2 _ _ _ (by omega) hget2 he' (by simp) hloop (by rfl)]
    rw [show ((pre.length + 1 + body.length : Nat) : Int) + 1
        = ((pre.length + body.length + 2 : Nat) : Int) from by push_cast; ring]
    rw [he']

/-- C4 (witness): the three instructions `DO`, `PUSH 7`, `LOOP` entered with 5 and 5 on
the stack leave 7: the body ran once. -/
theorem C4_equal_bounds_body_runs_once_witness :
    (wordOf { initState with stack := [5, 5] }
        (WordRef.temp { name := [], code := [{ opcode := OpCode.OP_DO, operand := 0 },
                                             { opcode := OpCode.OP_PUSH, operand := 7 },
                                             { opcode := OpCode.OP_LOOP, operand := 0 }],
                        strings := [] })).code
      = [] ++ [{ opcode := OpCode.OP_DO, operand := 0 }]
           ++ [{ opcode := OpCode.OP_PUSH, operand := 7 }]
           ++ ({ opcode := OpCode.OP_LOOP, operand := 0 } :: [])
    ∧ (∀ i ∈ [({ opcode := OpCode.OP_PUSH, operand := 7 } : Instruction)],
          isStraight i.opcode = true)
    ∧ (∀ i ∈ [({ opcode := OpCode.OP_PUSH, operand := 7 } : Instruction)],
          heapFault i
            (WordRef.temp { name := [], code := [{ opcode := OpCode.OP_DO, operand := 0 },
                                                 { opcode := OpCode.OP_PUSH, operand := 7 },
                                                 { opcode := OpCode.OP_LOOP, operand := 0 }],
                            strings := [] })
            { initState with stack := [5, 5] } = false)
    ∧ ({ initState with stack := [5, 5] } : State).error_flag = false
    ∧ ({ initState with stack := [5, 5] } : State).stack = 5 :: 5 :: []
    ∧ ({ initState with stack := [5, 5] } : State).loop_stack.length < LOOP_STACK_SIZE
    ∧ execLoop noFiles
        (0 + 3 + [({ opcode := OpCode.OP_PUSH, operand := 7 } : Instruction)].length)
        (WordRef.temp { name := [], code := [{ opcode := OpCode.OP_DO, operand := 0 },
                                             { opcode := OpCode.OP_PUSH, operand := 7 },
                                             { opcode := OpCode.OP_LOOP, operand := 0 }],
                        strings := [] })
        ([] : List Instruction).length { initState with stack := [5, 5] }
      = some { initState with stack := [7], result := 7 } :=
  ⟨rfl, by decide, by decide, rfl, rfl, by decide,
   by rw [C4_equal_bounds_body_runs_once noFiles 0
            (WordRef.temp { name := [], code := [{ opcode := OpCode.OP_DO, operand := 0 },
                                                 { opcode := OpCode.OP_PUSH, operand := 7 },
                                                 { opcode := OpCode.OP_LOOP, operand := 0 }],
                            strings := [] })
            { initState with stack := [5, 5] } []
            [{ opcode := OpCode.OP_PUSH, operand := 7 }] [] 0 0 5 []
            rfl (by decide) (by decide) rfl rfl (by decide)]
      decide!⟩

/-! ### C5 : `DO ... LOOP` typed at top level -/

/-- C5 (counterexample): interpreting `100 0 DO I . LOOP` in a fresh session, outside a
colon-definition, pushes 100 and 0, reports `DO` as an unknown word, and then `I` sets
the error flag (no loop is open); no integer is printed and `LOOP` is never reached. -/
theorem C5_top_level_loop_sets_error :
    (interpret noFiles 50 "100 0 DO I . LOOP".toList initState).map
        (fun st => (st.error_flag, st.stack, st.output))
      = some (true, [0, 100],
              [Output.text "Unknown word: ", Output.text "DO", Output.text "\n",
               Output.text "Error: ", Output.text "I used outside of a loop",
               Output.text "\n"]) := by
  decide!

/-- C5 (amended): compiled inside a colon-definition, the loop does what the claim says:
after `: T 100 0 DO I . LOOP ;` interpreting `T` prints the integers 0 through 99 in
increasing order, one per line, leaves the error flag clear and the value and loop
stacks empty. -/
theorem C5_compiled_loop_prints_0_to_99 :
    (session noFiles 400 [": T 100 0 DO I . LOOP ;".toList, "T".toList] initState).map
        (fun st => (st.error_flag, st.output, st.stack, st.loop_stack))
      = some (false, numberLines 100, [], []) := by
  decide!

/-! ### C6 : factorial -/

/-- C6: let `st0` be the state of a fresh session after `: FACT 1 SWAP 1 + 1 DO I * LOOP ;`.
For every integer `n >= 0` written as a decimal token `t`, and every stack `s` with room
for three more values, interpreting `t FACT` on `s` returns (given fuel `3n + 15` or
more) with the error flag clear and `n!` pushed on `s`, nothing else changed but the
scratch integer; and `20 FACT .` prints 2432902008176640000. -/
theorem C6_fact_computes_factorial (st0 : State) (t : List Char) (n : Int) (s : List Int)
    (fuel : Nat)
    (h0 : interpret noFiles 50 ": FACT 1 SWAP 1 + 1 DO I * LOOP ;".toList initState
          = some st0)
    (ht : isToken t = true) (hp : mpz_set_str t = some n) (hn : 0 ≤ n)
    (hs : s.length + 3 ≤ STACK_SIZE) (hfuel : 3 * n.toNat + 15 ≤ fuel) :
    interpret noFiles fuel (t ++ " FACT".toList) { st0 with stack := s }
      = some { st0 with stack := (n.toNat.factorial : Int) :: s, error_flag := false,
                        result := (n.toNat.factorial : Int) }
    ∧ (interpret noFiles 100 "20 FACT .".toList st0).map
        (fun st => (st.output, st.error_flag, st.stack))
      = some ([Output.num 2432902008176640000, Output.text "\n"], false, []) := by
  have hfr : (interpret noFiles 50
            ": FACT 1 SWAP 1 + 1 DO I * LOOP ;".toList initState).map (fun st => st.freed)
      = some [] := by decide!
  have hc : (interpret noFiles 50
            ": FACT 1 SWAP 1 + 1 DO I * LOOP ;".toList initState).map
        (fun st => (st.compiling, st.error_flag, st.dict_count,
                    st.dictionary.getD 0 emptyWord, st.dictionary.take st.dict_count))
      = some (false, false, 1, factWord, [factWord]) := by decide!
  have hp20 : (interpret noFiles 50
            ": FACT 1 SWAP 1 + 1 DO I * LOOP ;".toList initState).bind
        (fun st1 => (interpret noFiles 100 "20 FACT .".toList st1).map
          (fun st => (st.output, st.error_flag, st.stack)))
      = some ([Output.num 2432902008176640000, Output.text "\n"], false, []) := by decide!
  have hlp : (interpret noFiles 50
            ": FACT 1 SWAP 1 + 1 DO I * LOOP ;".toList initState).map (fun st => st.loop_stack)
      = some [] := by decide!
  rw [h0] at hc hp20 hlp
  rw [h0] at hfr
  have hfree : st0.freed = [] := by simpa using hfr
  have hloop : st0.loop_stack = [] := by simpa using hlp
  simp only [Option.map_some', Option.some.injEq, Prod.mk.injEq] at hc
  obtain ⟨hcomp, herr, hdc, hw, htake⟩ := hc
  refine ⟨?_, hp20⟩
  obtain ⟨m, rfl⟩ := Int.eq_ofNat_of_zero_le hn
  simp only [Int.toNat_ofNat] at hfuel ⊢
  obtain ⟨F, rfl⟩ : ∃ F, fuel = F + 3 * m + 11 + 4 := ⟨fuel - (3 * m + 15), by omega⟩
  have hfind : findCompiledWordIndex "FACT".toList { st0 with stack := s } = 0 := by
    show findIndexFrom "FACT".toList (st0.dictionary.take st0.dict_count) 0 = 0
    rw [htake]
    decide
  have hsp : " FACT".toList = ' ' :: "FACT".toList := by decide
  rw [hsp, interpret_number_word noFiles (F + 3 * m + 11) t "FACT".toList m 0
    { st0 with stack := s } ht hp (by decide) hcomp
    (by simp only [STACK_SIZE] at hs ⊢; omega) hfind (le_refl _) (by simp [hdc])]
  exact fact_exec noFiles F 0 { st0 with error_flag := false, stack := s } m s hw rfl
    hfree (by simp [hloop]) hs

/-- C6 (witness): `3 FACT` on the empty stack after the definition of `FACT`. -/
theorem C6_fact_computes_factorial_witness :
    interpret noFiles 50 ": FACT 1 SWAP 1 + 1 DO I * LOOP ;".toList initState
      = some (stateAfter ": FACT 1 SWAP 1 + 1 DO I * LOOP ;".toList)
    ∧ isToken "3".toList = true ∧ mpz_set_str "3".toList = some 3 ∧ (0 : Int) ≤ 3
    ∧ ([] : List Int).length + 3 ≤ STACK_SIZE ∧ 3 * (3 : Int).toNat + 15 ≤ 24
    ∧ (interpret noFiles 24 ("3".toList ++ " FACT".toList)
          { stateAfter ": FACT 1 SWAP 1 + 1 DO I * LOOP ;".toList with stack := [] }).map
        (fun st => st.stack)
        = some [((3 : Int).toNat.factorial : Int)] :=
  ⟨by decide!, by decide, by decide, by decide, by decide, by decide,
   by rw [(C6_fact_computes_factorial
            (stateAfter ": FACT 1 SWAP 1 + 1 DO I * LOOP ;".toList) "3".toList 3 [] 24
            (by decide!) (by decide) (by decide) (by decide) (by decide) (by decide)).1]
      rfl⟩

/-! ### C7 : Fibonacci -/

/-- C7: let `st0` be the state of a fresh session after
`: FIB 0 1 ROT 0 DO OVER + SWAP LOOP DROP ;`.  For every integer `n >= 1` written as a
decimal token `t`, and every stack `s` with room for four more values, interpreting
`t FIB` on `s` returns (given fuel `4n + 12` or more) with the error flag clear and with
the `n`-th Fibonacci number (`fib 1 = fib 2 = 1`) in the place of `n`; and `10 FIB .`
prints 55. -/
theorem C7_fib_computes_fibonacci (st0 : State) (t : List Char) (n : Int) (s : List Int)
    (fuel : Nat)
    (h0 : interpret noFiles 50 ": FIB 0 1 ROT 0 DO OVER + SWAP LOOP DROP ;".toList initState
          = some st0)
    (ht : isToken t = true) (hp : mpz_set_str t = some n) (hn : 1 ≤ n)
    (hs : s.length + 4 ≤ STACK_SIZE) (hfuel : 4 * n.toNat + 12 ≤ fuel) :
    interpret noFiles fuel (t ++ " FIB".toList) { st0 with stack := s }
      = some { st0 with stack := (Nat.fib n.toNat : Int) :: s, error_flag := false,
                        result := (Nat.fib n.toNat : Int) }
    ∧ Nat.fib 1 = 1 ∧ Nat.fib 2 = 1
    ∧ (interpret noFiles 100 "10 FIB .".toList st0).map
        (fun st => (st.output, st.error_flag, st.stack))
      = some ([Output.num 55, Output.text "\n"], false, []) := by
  have hfr : (interpret noFiles 50
            ": FIB 0 1 ROT 0 DO OVER + SWAP LOOP DROP ;".toList initState).map (fun st => st.freed)
      = some [] := by decide!
  have hc : (interpret noFiles 50
            ": FIB 0 1 ROT 0 DO OVER + SWAP LOOP DROP ;".toList initState).map
        (fun st => (st.compiling, st.error_flag, st.dict_count,
                    st.dictionary.getD 0 emptyWord, st.dictionary.take st.dict_count))
      = some (false, false, 1, fibWord, [fibWord]) := by decide!
  have hp10 : (interpret noFiles 50
            ": FIB 0 1 ROT 0 DO OVER + SWAP LOOP DROP ;".toList initState).bind
        (fun st1 => (interpret noFiles 100 "10 FIB .".toList st1).map
          (fun st => (st.output, st.error_flag, st.stack)))
      = some ([Output.num 55, Output.text "\n"], false, []) := by decide!
  have hlp : (interpret noFiles 50
            ": FIB 0 1 ROT 0 DO OVER + SWAP LOOP DROP ;".toList initState).map
        (fun st => st.loop_stack)
      = some [] := by decide!
  rw [h0] at hc hp10 hlp
  rw [h0] at hfr
  have hfree : st0.freed = [] := by simpa using hfr
  have hloop : st0.loop_stack = [] := by simpa using hlp
  simp only [Option.map_some', Option.some.injEq, Prod.mk.injEq] at hc
  obtain ⟨hcomp, herr, hdc, hw, htake⟩ := hc
  refine ⟨?_, by decide, by decide, hp10⟩
  obtain ⟨m, rfl⟩ := Int.eq_ofNat_of_zero_le (le_trans (by decide) hn)
  simp only [Int.toNat_ofNat] at hfuel ⊢
  have hm : 1 ≤ m := by exact_mod_cast hn
  obtain ⟨F, rfl⟩ : ∃ F, fuel = F + 4 * m + 8 + 4 := ⟨fuel - (4 * m + 12), by omega⟩
  have hfind : findCompiledWordIndex "FIB".toList { st0 with stack := s } = 0 := by
    show findIndexFrom "FIB".toList (st0.dictionary.take st0.dict_count) 0 = 0
    rw [htake]
    decide
  have hsp : " FIB".toList = ' ' :: "FIB".toList := by decide
  rw [hsp, interpret_number_word noFiles (F + 4 * m + 8) t "FIB".toList m 0
    { st0 with stack := s } ht hp (by decide) hcomp
    (by simp only [STACK_SIZE] at hs ⊢; omega) hfind (le_refl _) (by simp [hdc])]
  exact fib_exec noFiles F 0 { st0 with error_flag := false, stack := s } m s hm hw rfl
    hfree (by simp [hloop]) hs

/-- C7 (witness): `6 FIB` on the empty stack after the definition of `FIB`. -/
theorem C7_fib_computes_fibonacci_witness :
    interpret noFiles 50 ": FIB 0 1 ROT 0 DO OVER + SWAP LOOP DROP ;".toList initState
      = some (stateAfter ": FIB 0 1 ROT 0 DO OVER + SWAP LOOP DROP ;".toList)
    ∧ isToken "6".toList = true ∧ mpz_set_str "6".toList = some 6 ∧ (1 : Int) ≤ 6
    ∧ ([] : List Int).length + 4 ≤ STACK_SIZE ∧ 4 * (6 : Int).toNat + 12 ≤ 36
    ∧ (interpret noFiles 36 ("6".toList ++ " FIB".toList)
          { stateAfter ": FIB 0 1 ROT 0 DO OVER + SWAP LOOP DROP ;".toList
              with stack := [] }).map (fun st => st.stack)
        = some [(Nat.fib (6 : Int).toNat : Int)] :=
  ⟨by decide!, by decide, by decide, by decide, by decide, by decide,
   by rw [(C7_fib_computes_fibonacci
            (stateAfter ": FIB 0 1 ROT 0 DO OVER + SWAP LOOP DROP ;".toList) "6".toList 6 [] 36 (by decide!) (by decide)
            (by decide) (by decide) (by decide) (by decide)).1]
      rfl⟩

/-! ### C8 : sign -/

/-- C8: let `st0` be the state of a fresh session after
`: SIGN DUP 0 < IF DROP -1 ELSE 0 > IF 1 ELSE 0 THEN THEN ;`.  For every integer `n`
written as a decimal token `t`, and every stack `s` with room for three more values,
interpreting `t SIGN` on `s` returns (given fuel 24 or more) with the error flag clear
and with -1, 0 or 1 in the place of `n` according to `n < 0`, `n = 0`, `n > 0`. -/
theorem C8_sign_word (st0 : State) (t : List Char) (n : Int) (s : List Int) (fuel : Nat)
    (h0 : interpret noFiles 50
            ": SIGN DUP 0 < IF DROP -1 ELSE 0 > IF 1 ELSE 0 THEN THEN ;".toList initState
          = some st0)
    (ht : isToken t = true) (hp : mpz_set_str t = some n)
    (hs : s.length + 3 ≤ STACK_SIZE) (hfuel : 24 ≤ fuel) :
    ∃ r, interpret noFiles fuel (t ++ " SIGN".toList) { st0 with stack := s }
      = some { st0 with stack := (if n < 0 then -1 else if n = 0 then 0 else 1) :: s,
                        error_flag := false, result := r } := by
  have hfr : (interpret noFiles 50
            ": SIGN DUP 0 < IF DROP -1 ELSE 0 > IF 1 ELSE 0 THEN THEN ;".toList initState).map (fun st => st.freed)
      = some [] := by decide!
  have hc : (interpret noFiles 50
            ": SIGN DUP 0 < IF DROP -1 ELSE 0 > IF 1 ELSE 0 THEN THEN ;".toList initState).map
        (fun st => (st.compiling, st.error_flag, st.dict_count,
                    st.dictionary.getD 0 emptyWord, st.dictionary.take st.dict_count))
      = some (false, false, 1, signWord, [signWord]) := by decide!
  rw [h0] at hc
  rw [h0] at hfr
  have hfree : st0.freed = [] := by simpa using hfr
  simp only [Option.map_some', Option.some.injEq, Prod.mk.injEq] at hc
  obtain ⟨hcomp, herr, hdc, hw, htake⟩ := hc
  obtain ⟨F, rfl⟩ : ∃ F, fuel = F + 20 + 4 := ⟨fuel - 24, by omega⟩
  have hfind : findCompiledWordIndex "SIGN".toList { st0 with stack := s } = 0 := by
    show findIndexFrom "SIGN".toList (st0.dictionary.take st0.dict_count) 0 = 0
    rw [htake]
    decide
  have hsp : " SIGN".toList = ' ' :: "SIGN".toList := by decide
  rw [hsp, interpret_number_word noFiles (F + 20) t "SIGN".toList n 0 { st0 with stack := s }
    ht hp (by decide) hcomp (by simp only [STACK_SIZE] at hs ⊢; omega) hfind (le_refl _)
    (by simp [hdc])]
  obtain ⟨r, hr⟩ :=
    sign_exec noFiles F 0 { st0 with error_flag := false, stack := s } n s hw rfl hfree hs
  exact ⟨r, hr⟩

/-- C8 (witness): `-7 SIGN` on the empty stack after the definition of `SIGN` leaves -1. -/
theorem C8_sign_word_witness :
    interpret noFiles 50
        ": SIGN DUP 0 < IF DROP -1 ELSE 0 > IF 1 ELSE 0 THEN THEN ;".toList initState
      = some (stateAfter ": SIGN DUP 0 < IF DROP -1 ELSE 0 > IF 1 ELSE 0 THEN THEN ;".toList)
    ∧ isToken "-7".toList = true ∧ mpz_set_str "-7".toList = some (-7)
    ∧ ([] : List Int).length + 3 ≤ STACK_SIZE ∧ 24 ≤ 24
    ∧ (interpret noFiles 24 ("-7".toList ++ " SIGN".toList)
          { stateAfter ": SIGN DUP 0 < IF DROP -1 ELSE 0 > IF 1 ELSE 0 THEN THEN ;".toList
              with stack := [] }).map (fun st => st.stack)
        = some [if (-7 : Int) < 0 then -1 else if (-7 : Int) = 0 then 0 else 1] :=
  ⟨by decide!, by decide, by decide, by decide, by decide,
   by obtain ⟨r, hr⟩ := C8_sign_word
        (stateAfter ": SIGN DUP 0 < IF DROP -1 ELSE 0 > IF 1 ELSE 0 THEN THEN ;".toList)
        "-7".toList (-7) [] 24 (by decide!) (by decide)
        (by decide) (by decide) (by decide)
      rw [hr]
      rfl⟩

/-! ### C9 : exact addition, subtraction and multiplication -/

/-- C9: for every stack `s` and integers `b`, `a` (`a` on top, the stack within its
capacity), executing `ADD`, `SUB` or `MUL` with the error flag clear replaces `b` and
`a` by `b + a`, `b - a` or `b * a` (unbounded integers), changes nothing else but the
scratch integer, and leaves the error flag clear; hence `ADD` gives the same state on
`s·a·b` as on `s·b·a`. -/
theorem C9_add_sub_mul_exact (fs : List Char → Option (List (List Char))) (fuel : Nat)
    (operand ip : Int) (word : WordRef) (st : State) (s : List Int) (a b : Int)
    (herr : st.error_flag = false) (hcap : (a :: b :: s).length ≤ STACK_SIZE) :
    executeInstruction fs (fuel + 1) { opcode := OpCode.OP_ADD, operand := operand } ip word
        { st with stack := a :: b :: s }
      = some ({ st with stack := (b + a) :: s, result := b + a, error_flag := false }, ip)
    ∧ executeInstruction fs (fuel + 1) { opcode := OpCode.OP_SUB, operand := operand } ip word
        { st with stack := a :: b :: s }
      = some ({ st with stack := (b - a) :: s, result := b - a, error_flag := false }, ip)
    ∧ executeInstruction fs (fuel + 1) { opcode := OpCode.OP_MUL, operand := operand } ip word
        { st with stack := a :: b :: s }
      = some ({ st with stack := (b * a) :: s, result := b * a, error_flag := false }, ip)
    ∧ executeInstruction fs (fuel + 1) { opcode := OpCode.OP_ADD, operand := operand } ip word
        { st with stack := a :: b :: s }
      = executeInstruction fs (fuel + 1) { opcode := OpCode.OP_ADD, operand := operand } ip word
        { st with stack := b :: a :: s } := by
  have h1 : s.length < 1000 := by
    simp only [List.length_cons, STACK_SIZE] at hcap
    omega
  have he : ({ st with stack := a :: b :: s } : State).error_flag = false := herr
  have he2 : ({ st with stack := b :: a :: s } : State).error_flag = false := herr
  refine ⟨?_, ?_, ?_, ?_⟩
  · rw [executeInstruction_primitive _ _ _ _ _ _ he (by simp) (by rfl)]
    simp [executePrimitive, exec_arith, pop, push, herr, h1]
  · rw [executeInstruction_primitive _ _ _ _ _ _ he (by simp) (by rfl)]
    simp [executePrimitive, exec_arith, pop, push, herr, h1]
  · rw [executeInstruction_primitive _ _ _ _ _ _ he (by simp) (by rfl)]
    simp [executePrimitive, exec_arith, pop, push, herr, h1]
  · rw [executeInstruction_primitive _ _ _ _ _ _ he (by simp) (by rfl),
      executeInstruction_primitive _ _ _ _ _ _ he2 (by simp) (by rfl)]
    simp [executePrimitive, exec_arith, pop, push, herr, h1, add_comm]

/-- C9 (witness): `3 2 +`, `3 2 -`, `3 2 *` on the empty stack of the initial state. -/
theorem C9_add_sub_mul_exact_witness :
    initState.error_flag = false ∧ ([2, 3] : List Int).length ≤ STACK_SIZE
    ∧ executeInstruction noFiles 1 { opcode := OpCode.OP_MUL, operand := 0 } 0
        (WordRef.temp emptyWord) { initState with stack := [2, 3] }
      = some ({ initState with stack := [3 * 2], result := 3 * 2, error_flag := false }, 0) :=
  ⟨rfl, by decide,
   (C9_add_sub_mul_exact noFiles 0 0 0 (WordRef.temp emptyWord) initState [] 2 3 rfl
      (by decide)).2.2.1⟩

/-! ### C10 : the rounding of `/` -/

/-- C10 (counterexample): `-7 2 /` leaves -4 and `7 -2 /` leaves -4, not the -3 that
truncation towards zero gives. -/
theorem C10_division_rounds_down :
    (interpret noFiles 50 "-7 2 /".toList initState).map (fun st => (st.stack, st.error_flag))
      = some ([-4], false)
    ∧ (interpret noFiles 50 "7 -2 /".toList initState).map (fun st => (st.stack, st.error_flag))
      = some ([-4], false)
    ∧ Int.tdiv (-7) 2 = -3 ∧ Int.tdiv 7 (-2) = -3 := by
  decide!

/-- C10 (amended): for every integer `b` and non-zero integer `a`, executing `DIV` on
`s·b·a` yields `s·q` where `q` is the quotient of `b` by `a` rounded towards minus
infinity, the floor of `b / a` (so `-7 2 /` and `7 -2 /` both leave -4); the error flag
stays clear. -/
theorem C10_division_is_floor (fs : List Char → Option (List (List Char))) (fuel : Nat)
    (operand ip : Int) (word : WordRef) (st : State) (s : List Int) (a b : Int)
    (herr : st.error_flag = false) (hcap : (a :: b :: s).length ≤ STACK_SIZE)
    (ha : a ≠ 0) :
    executeInstruction fs (fuel + 1) { opcode := OpCode.OP_DIV, operand := operand } ip word
        { st with stack := a :: b :: s }
      = some ({ st with stack := ⌊(b : ℚ) / (a : ℚ)⌋ :: s, result := ⌊(b : ℚ) / (a : ℚ)⌋,
                        error_flag := false }, ip) := by
  have h1 : s.length < 1000 := by
    simp only [List.length_cons, STACK_SIZE] at hcap
    omega
  have he : ({ st with stack := a :: b :: s } : State).error_flag = false := herr
  rw [executeInstruction_primitive _ _ _ _ _ _ he (by simp) (by rfl), ← mpz_div_eq_floor b a ha]
  simp [executePrimitive, exec_arith, pop, push, herr, h1, ha]

/-- C10 (witness): `-7 2 /` in the initial state leaves the floor of -7/2. -/
theorem C10_division_is_floor_witness :
    initState.error_flag = false ∧ ([2, -7] : List Int).length ≤ STACK_SIZE ∧ (2 : Int) ≠ 0
    ∧ executeInstruction noFiles 1 { opcode := OpCode.OP_DIV, operand := 0 } 0
        (WordRef.temp emptyWord) { initState with stack := [2, -7] }
      = some ({ initState with stack := [⌊((-7 : Int) : ℚ) / ((2 : Int) : ℚ)⌋],
                               result := ⌊((-7 : Int) : ℚ) / ((2 : Int) : ℚ)⌋,
                               error_flag := false }, 0) :=
  ⟨rfl, by decide, by decide,
   C10_division_is_floor noFiles 0 0 0 (WordRef.temp emptyWord) initState [] 2 (-7) rfl
     (by decide) (by decide)⟩

/-! ### Further lemmas on the instructions and the outer interpreter -/

/-- A value that fits a `long` is returned unchanged by `mpz_get_si`. -/
theorem mpz_get_si_of_fits (a : Int) (h : mpz_fits_slong_p a = true) : mpz_get_si a = a := by
  unfold mpz_fits_slong_p at h
  simp only [decide_eq_true_eq] at h
  obtain ⟨h1, h2⟩ := h
  unfold mpz_get_si
  split
  · have e : a.natAbs % 2 ^ 63 = a.natAbs := Nat.mod_eq_of_lt (by omega)
    rw [e]
    omega
  · split
    · have e : (a.natAbs - 1) % 2 ^ 63 = a.natAbs - 1 := Nat.mod_eq_of_lt (by omega)
      rw [e]
      omega
    · omega

/-- The immediate-mode case of `interpret` for a one-instruction token whose opcode is
straight-line: the instruction is run from a temporary word and the next token is read. -/
theorem interpretLoop_primitive (fs : List Char → Option (List (List Char))) (fuel : Nat)
    (tok sp : List Char) (op : OpCode) (st : State)
    (herr : st.error_flag = false) (hcomp : st.compiling = false)
    (hnum : mpz_set_str tok = none) (h1 : ¬ tok = ":".toList) (h2 : ¬ tok = "LOAD".toList)
    (h3 : ¬ tok = ['.', dquote]) (hop : primitiveOpcode tok = some op)
    (hs : isStraight op = true) :
    interpretLoop fs (fuel + 3) (some (tok, sp)) st
      = interpretLoop fs (fuel + 2) (strtok_r sp)
          (straightStep { opcode := op, operand := 0 }
            (tempWord { opcode := op, operand := 0 } []) st) := by
  have hcall : op ≠ OpCode.OP_CALL := by
    intro h
    subst h
    simp [isStraight] at hs
  rw [interpretLoop]
  simp only [herr, hcomp, Bool.false_eq_true, if_false, hnum, h1, h2, h3, hop]
  rw [execLoop_step fs fuel (WordRef.temp (tempWord { opcode := op, operand := 0 } [])) 0 st
      { opcode := op, operand := 0 } _ 0 (le_refl _) (by simp [wordOf, tempWord]) herr hcall
      (straight_ip _ 0 _ st hs)
      (heapFault_temp _ _ st
        (by intro h; simp only at h; subst h; simp [isStraight] at hs)
        (by intro h; simp only at h; subst h; simp [isStraight] at hs))]
  rw [execLoop_done fs fuel _ _ _ (Or.inl (by simp [wordOf, tempWord, CompiledWord.code_length]))]
  rfl

/-- The immediate-mode case of `interpret` for an unknown word: report it and read the
next token. -/
theorem interpretLoop_unknown (fs : List Char → Option (List (List Char))) (fuel : Nat)
    (t sp : List Char) (st : State)
    (herr : st.error_flag = false) (hcomp : st.compiling = false)
    (hw : isWordName t = true) (hfind : findCompiledWordIndex t st < 0) :
    interpretLoop fs (fuel + 1) (some (t, sp)) st
      = interpretLoop fs fuel (strtok_r sp)
          { st with output := st.output ++ [Output.text "Unknown word: ",
                      Output.text (String.mk t), Output.text "\n"] } := by
  unfold isWordName at hw
  simp only [Bool.and_eq_true, decide_eq_true_eq, Option.isNone_iff_eq_none] at hw
  obtain ⟨⟨⟨⟨⟨⟨⟨h1, h2⟩, h3⟩, h4⟩, h5⟩, h6⟩, h7⟩, h8⟩ := hw
  have hneg : ¬ (0 ≤ findCompiledWordIndex t st) := by omega
  rw [interpretLoop]
  simp only [herr, hcomp, Bool.false_eq_true, if_false, h2, h3, h4, h5, h6, h7, h8, hneg]

/-- For a non-negative argument `mpz_get_si` returns its low 63 bits. -/
theorem mpz_get_si_nonneg (a : Int) (h : 0 ≤ a) : mpz_get_si a = a % 2 ^ 63 := by
  unfold mpz_get_si
  split
  · have e : ((a.natAbs : Nat) : Int) = a := by omega
    rw [← e]
    norm_cast
  · have e : a = 0 := by omega
    subst e
    simp

/-- For a negative argument `mpz_get_si` is negative. -/
theorem mpz_get_si_neg (a : Int) (h : a < 0) : mpz_get_si a < 0 := by
  unfold mpz_get_si
  rw [if_neg (by omega), if_pos h]
  omega

/-- The case `OP_PICK` of `executeInstruction` on a stack `n :: xs` that is within its
capacity, in terms of the index `mpz_get_si n` the program computes. -/
theorem executePrimitive_pick (operand ip : Int) (w : CompiledWord) (st : State)
    (xs : List Int) (n : Int) (herr : st.error_flag = false)
    (hcap : (n :: xs).length ≤ STACK_SIZE) :
    executePrimitive { opcode := OpCode.OP_PICK, operand := operand } ip w
        { st with stack := n :: xs }
      = if 0 ≤ mpz_get_si n ∧ mpz_get_si n < xs.length then
          some ({ st with stack := xs.getD (mpz_get_si n).toNat 0 :: xs,
                          result := xs.getD (mpz_get_si n).toNat 0 }, ip)
        else
          some ({ st with stack := n :: xs, error_flag := true,
                          output := st.output ++ [Output.text "Error: ",
                            Output.text "PICK: Stack underflow or invalid index",
                            Output.text "\n"] }, ip) := by
  have h1 : xs.length < 1000 := by
    simp only [List.length_cons, STACK_SIZE] at hcap
    omega
  by_cases hc : 0 ≤ mpz_get_si n ∧ mpz_get_si n < xs.length
  · rw [if_pos hc]
    have hlt : (mpz_get_si n).toNat < xs.length := by omega
    obtain ⟨x, hx⟩ : ∃ x, xs[(mpz_get_si n).toNat]? = some x :=
      ⟨xs[(mpz_get_si n).toNat], List.getElem?_eq_getElem hlt⟩
    have hd : xs.getD (mpz_get_si n).toNat 0 = x := by
      rw [List.getD_eq_getElem?_getD, hx]
      rfl
    rw [hd]
    simp [executePrimitive, pop, push, herr, hc, hx, h1]
  · rw [if_neg hc]
    simp only [not_and, not_lt] at hc
    by_cases h0 : 0 ≤ mpz_get_si n
    · have := hc h0
      simp [executePrimitive, pop, push, herr, h0, this, h1, set_error]
    · simp [executePrimitive, pop, push, herr, h0, h1, set_error]

@[simp] theorem set_error_stack (msg : String) (st : State) :
    (set_error msg st).stack = st.stack := rfl

@[simp] theorem print_stack (msg : String) (st : State) : (print msg st).stack = st.stack := rfl

/-- C `push` keeps the depth within `STACK_SIZE`. -/
theorem push_stack_le (v : Int) (st : State) (h : st.stack.length ≤ STACK_SIZE) :
    (push v st).stack.length ≤ STACK_SIZE := by
  unfold push
  split
  · simp only [List.length_cons]
    omega
  · exact h

/-- C `pop` does not increase the depth. -/
theorem pop_stack_le (st : State) : (pop st).2.stack.length ≤ st.stack.length := by
  unfold pop
  split
  · rename_i x rest hs
    simp [hs]
  · simp

@[simp] theorem addCompiledWord_stack (name : List Char) (code : List Instruction)
    (strings : List (List Char)) (st : State) :
    (addCompiledWord name code strings st).stack = st.stack := by
  unfold addCompiledWord
  simp only
  split
  · rfl
  · split <;> rfl

/-- `exec_arith` keeps the depth within `STACK_SIZE`. -/
theorem exec_arith_stack_le (instr : Instruction) (st : State)
    (h : st.stack.length ≤ STACK_SIZE) : (exec_arith instr st).stack.length ≤ STACK_SIZE := by
  have h1 := pop_stack_le st
  have h2 := pop_stack_le (pop st).2
  obtain ⟨op, operand⟩ := instr
  cases op <;> simp only [exec_arith] <;> (try exact h)
  all_goals (repeat' split)
  all_goals first
    | (apply push_stack_le; simp only; omega)
    | (simp only [set_error_stack]; omega)
    | omega

/-- Every case of the `switch` other than `OP_CALL` keeps the depth of the value stack
within `STACK_SIZE`. -/
theorem executePrimitive_stack_le (instr : Instruction) (ip : Int) (w : CompiledWord)
    (st : State) (r : State × Int) (h : executePrimitive instr ip w st = some r)
    (hb : st.stack.length ≤ STACK_SIZE) : r.1.stack.length ≤ STACK_SIZE := by
  have h1 := pop_stack_le st
  have h2 := pop_stack_le (pop st).2
  have ha := exec_arith_stack_le instr st hb
  obtain ⟨op, operand⟩ := instr
  cases op <;> simp only [executePrimitive] at h
  all_goals (repeat' split at h)
  all_goals (try (cases h; done))
  all_goals (cases h)
  all_goals (try exact ha)
  all_goals (repeat apply push_stack_le)
  all_goals first
    | omega
    | (simp only [set_error_stack, print_stack, addCompiledWord_stack]; omega)
    | simp_all

theorem CompileFrame_refl (st : State) : CompileFrame st st := rfl

theorem CompileFrame_trans {a b c : State} (h1 : CompileFrame a b) (h2 : CompileFrame b c) :
    CompileFrame a c := by
  unfold CompileFrame at *
  rw [h2, h1]

theorem CompileFrame_stack {st st1 : State} (h : CompileFrame st st1) :
    st1.stack = st.stack := by
  unfold CompileFrame at h
  rw [h]

theorem emit_frame {i : Instruction} {st st1 : State} (h : emit i st = some st1) :
    CompileFrame st st1 := by
  unfold emit at h
  split at h
  · cases h
    exact CompileFrame_refl _
  · cases h

theorem addString_frame {x : List Char} {st st1 : State} (h : addString x st = some st1) :
    CompileFrame st st1 := by
  unfold addString at h
  split at h
  · cases h
    exact CompileFrame_refl _
  · cases h

theorem pushControl_frame {ty : ControlType} {addr : Int} {st st1 : State}
    (h : pushControl ty addr st = some st1) : CompileFrame st st1 := by
  unfold pushControl at h
  split at h
  · cases h
    exact CompileFrame_refl _
  · cases h

theorem patchEndofs_frame (cs : List ControlEntry) :
    ∀ st : State, CompileFrame st (patchEndofs cs st) := by
  induction cs with
  | nil =>
    intro st
    exact CompileFrame_refl _
  | cons e es ih =>
    intro st
    simp only [patchEndofs]
    split
    · exact CompileFrame_trans (CompileFrame_refl _) (ih (patchHere e.addr st))
    · exact CompileFrame_refl _

theorem frame_of_map {st st1 : State} {rest1 : List Char} {o : Option State}
    {F : State → State × List Char}
    (h : o.map F = some (st1, rest1)) (ho : ∀ a, o = some a → CompileFrame st a)
    (hF : ∀ a, CompileFrame a (F a).1) : CompileFrame st st1 := by
  obtain ⟨a, ha, hb⟩ := Option.map_eq_some'.1 h
  have := hF a
  rw [hb] at this
  exact CompileFrame_trans (ho a ha) this

theorem frame_of_bind {st st1 : State} {rest1 : List Char} {o : Option State}
    {F : State → Option (State × List Char)}
    (h : o.bind F = some (st1, rest1)) (ho : ∀ a, o = some a → CompileFrame st a)
    (hF : ∀ a r, F a = some r → CompileFrame a r.1) : CompileFrame st st1 := by
  obtain ⟨a, ha, hb⟩ := Option.bind_eq_some.1 h
  exact CompileFrame_trans (ho a ha) (hF a _ hb)

/-- `compileToken` writes to `currentWord`, `control_stack` and the output only. -/
theorem compileToken_frame (token rest : List Char) (st st1 : State) (rest1 : List Char)
    (h : compileToken token rest st = some (st1, rest1)) : CompileFrame st st1 := by
  unfold compileToken at h
  split at h
  · exact frame_of_map h (fun a => emit_frame) (fun a => CompileFrame_refl _)
  · by_cases hc0 : token = "IF".toList
    · rw [if_pos hc0] at h
      exact frame_of_bind h (fun a => emit_frame)
        (fun a r hr => frame_of_map hr (fun b => pushControl_frame) (fun b => CompileFrame_refl _))
    rw [if_neg hc0] at h
    by_cases hc1 : token = "ELSE".toList
    · rw [if_pos hc1] at h
      refine frame_of_bind h (fun a => emit_frame) (fun a r hr => ?_)
      split at hr
      · split at hr
        · exact frame_of_map hr (fun b => pushControl_frame) (fun b => CompileFrame_refl _)
        · cases hr
          exact CompileFrame_refl _
      · cases hr
        exact CompileFrame_refl _
    rw [if_neg hc1] at h
    by_cases hc2 : token = "THEN".toList
    · rw [if_pos hc2] at h
      split at h
      · split at h
        · cases h
          exact CompileFrame_refl _
        · cases h
          exact CompileFrame_refl _
      · cases h
        exact CompileFrame_refl _
    rw [if_neg hc2] at h
    by_cases hc3 : token = "DO".toList
    · rw [if_pos hc3] at h
      exact frame_of_bind h (fun a => emit_frame)
        (fun a r hr => frame_of_map hr (fun b => pushControl_frame) (fun b => CompileFrame_refl _))
    rw [if_neg hc3] at h
    by_cases hc4 : token = "LOOP".toList
    · rw [if_pos hc4] at h
      split at h
      · split at h
        · exact frame_of_map h (fun a => emit_frame) (fun a => CompileFrame_refl _)
        · cases h
          exact CompileFrame_refl _
      · cases h
        exact CompileFrame_refl _
    rw [if_neg hc4] at h
    by_cases hc5 : token = "LOAD".toList
    · rw [if_pos hc5] at h
      dsimp only at h
      split at h
      · cases h
        exact CompileFrame_refl _
      · split at h
        · cases h
          exact CompileFrame_refl _
        · split at h
          · cases h
            exact CompileFrame_refl _
          · exact frame_of_bind h (fun a => addString_frame)
              (fun a r hr => frame_of_map hr (fun b => emit_frame) (fun b => CompileFrame_refl _))
    rw [if_neg hc5] at h
    by_cases hc6 : token = ['.', dquote]
    · rw [if_pos hc6] at h
      split at h
      · cases h
        exact CompileFrame_refl _
      · exact frame_of_bind h (fun a => addString_frame)
          (fun a r hr => frame_of_map hr (fun b => emit_frame) (fun b => CompileFrame_refl _))
    rw [if_neg hc6] at h
    by_cases hc7 : token = "CASE".toList
    · rw [if_pos hc7] at h
      exact frame_of_bind h (fun a => emit_frame)
        (fun a r hr => frame_of_map hr (fun b => pushControl_frame) (fun b => CompileFrame_refl _))
    rw [if_neg hc7] at h
    by_cases hc8 : token = "OF".toList
    · rw [if_pos hc8] at h
      exact frame_of_bind h (fun a => emit_frame)
        (fun a r hr => frame_of_map hr (fun b => pushControl_frame) (fun b => CompileFrame_refl _))
    rw [if_neg hc8] at h
    by_cases hc9 : token = "ENDOF".toList
    · rw [if_pos hc9] at h
      split at h
      · split at h
        · refine frame_of_bind h (fun a => emit_frame) (fun a r hr => ?_)
          have h2 := frame_of_map hr (fun b => pushControl_frame) (fun b => CompileFrame_refl _)
          exact CompileFrame_trans (CompileFrame_refl _) h2
        · cases h
          exact CompileFrame_refl _
      · cases h
        exact CompileFrame_refl _
    rw [if_neg hc9] at h
    by_cases hc10 : token = "ENDCASE".toList
    · rw [if_pos hc10] at h
      split at h
      · split at h
        · refine frame_of_map h (fun a => emit_frame) (fun a => ?_)
          simp only
          split
          · split
            · exact CompileFrame_trans (patchEndofs_frame _ _) (CompileFrame_refl _)
            · exact patchEndofs_frame _ _
          · exact patchEndofs_frame _ _
        · cases h
          exact CompileFrame_refl _
      · cases h
        exact CompileFrame_refl _
    rw [if_neg hc10] at h
    by_cases hc11 : token = "BEGIN".toList
    · rw [if_pos hc11] at h
      exact frame_of_bind h (fun a => emit_frame)
        (fun a r hr => frame_of_map hr (fun b => pushControl_frame) (fun b => CompileFrame_refl _))
    rw [if_neg hc11] at h
    by_cases hc12 : token = "WHILE".toList
    · rw [if_pos hc12] at h
      exact frame_of_bind h (fun a => emit_frame)
        (fun a r hr => frame_of_map hr (fun b => pushControl_frame) (fun b => CompileFrame_refl _))
    rw [if_neg hc12] at h
    by_cases hc13 : token = "REPEAT".toList
    · rw [if_pos hc13] at h
      split at h
      · exact frame_of_map h (fun a => emit_frame) (fun a => CompileFrame_refl _)
      · cases h
    rw [if_neg hc13] at h
    by_cases hc14 : token = "FORGET".toList
    · rw [if_pos hc14] at h
      split at h
      · cases h
        exact CompileFrame_refl _
      · dsimp only at h
        split at h
        · exact frame_of_map h (fun a => emit_frame) (fun a => CompileFrame_refl _)
        · cases h
          exact CompileFrame_refl _
    rw [if_neg hc14] at h
    by_cases hc15 : token = "VARIABLE".toList
    · rw [if_pos hc15] at h
      split at h
      · cases h
        exact CompileFrame_refl _
      · exact frame_of_bind h (fun a => addString_frame)
          (fun a r hr => frame_of_map hr (fun b => emit_frame) (fun b => CompileFrame_refl _))
    rw [if_neg hc15] at h
    by_cases hc16 : 0 ≤ findCompiledWordIndex token st
    · rw [if_pos hc16] at h
      exact frame_of_map h (fun a => emit_frame) (fun a => CompileFrame_refl _)
    rw [if_neg hc16] at h
    split at h
    · exact frame_of_bind h (fun a => addString_frame)
        (fun a r hr => frame_of_map hr (fun b => emit_frame) (fun b => CompileFrame_refl _))
    · cases h
      exact CompileFrame_refl _

theorem commitWord_stack (st : State) : (commitWord st).stack = st.stack := by
  unfold commitWord
  simp only
  split <;> rfl

theorem beginDefinition_stack (name : List Char) (st : State) :
    (beginDefinition name st).stack = st.stack := by
  unfold beginDefinition
  simp only [addCompiledWord_stack]

/-- Every function of the interpreter keeps the depth of the value stack within
`STACK_SIZE`. -/
theorem stack_le_preserved (fs : List Char → Option (List (List Char))) : ∀ fuel : Nat,
    (∀ instr ip wr st r, executeInstruction fs fuel instr ip wr st = some r →
        st.stack.length ≤ STACK_SIZE → r.1.stack.length ≤ STACK_SIZE)
    ∧ (∀ wr ip st st1, execLoop fs fuel wr ip st = some st1 →
        st.stack.length ≤ STACK_SIZE → st1.stack.length ≤ STACK_SIZE)
    ∧ (∀ tok st st1, interpretLoop fs fuel tok st = some st1 →
        st.stack.length ≤ STACK_SIZE → st1.stack.length ≤ STACK_SIZE)
    ∧ (∀ lines st st1, interpretLines fs fuel lines st = some st1 →
        st.stack.length ≤ STACK_SIZE → st1.stack.length ≤ STACK_SIZE) := by
  intro fuel
  induction fuel with
  | zero =>
    refine ⟨?_, ?_, ?_, ?_⟩
    · intro instr ip wr st r h
      rw [executeInstruction] at h
      cases h
    · intro wr ip st st1 h
      rw [execLoop] at h
      cases h
    · intro tok st st1 h
      rw [interpretLoop] at h
      cases h
    · intro lines st st1 h
      rw [interpretLines] at h
      cases h
  | succ fuel ih =>
    obtain ⟨ih1, ih2, ih3, ih4⟩ := ih
    refine ⟨?_, ?_, ?_, ?_⟩
    · intro instr ip wr st r h hok
      rw [executeInstruction] at h
      repeat' split at h
      all_goals first
        | (cases h; done)
        | (cases h; exact hok)
        | (cases h; exact ih2 _ _ _ _ ‹_› hok)
        | (cases h; exact ih4 _ _ _ ‹_› hok)
        | exact executePrimitive_stack_le _ _ _ _ _ h hok
    · intro wr ip st st1 h hok
      rw [execLoop] at h
      repeat' split at h
      all_goals first
        | (cases h; done)
        | (cases h; exact hok)
        | exact ih2 _ _ _ _ h (ih1 _ _ _ _ _ ‹_› hok)
    · intro tok st st1 h hok
      cases tok with
      | none =>
        rw [interpretLoop] at h
        cases h
        exact hok
      | some p =>
        obtain ⟨token, saveptr⟩ := p
        rw [interpretLoop] at h
        repeat' (first | split at h | (dsimp only at h; split at h))
        all_goals first
          | (cases h; done)
          | (cases h; exact hok)
          | exact ih3 _ _ _ h (by
              rw [commitWord_stack, CompileFrame_stack (emit_frame ‹_›)]
              exact hok)
          | exact ih3 _ _ _ h (by
              rw [CompileFrame_stack (compileToken_frame _ _ _ _ _ ‹_›)]
              exact hok)
          | exact ih3 _ _ _ h (by
              rw [beginDefinition_stack]
              exact hok)
          | exact ih3 _ _ _ h (push_stack_le _ _ hok)
          | exact ih3 _ _ _ h hok
          | exact ih3 _ _ _ h (ih2 _ _ _ _ ‹_› hok)
          | exact ih3 _ _ _ h (ih4 _ _ _ ‹_› hok)
    · intro lines st st1 h hok
      cases lines with
      | nil =>
        rw [interpretLines] at h
        cases h
        exact hok
      | cons line lines =>
        rw [interpretLines] at h
        split at h
        · rename_i hline
          exact ih4 _ _ _ h (ih3 _ _ _ hline hok)
        · cases h

/-- Outside `OP_CALL`, the `switch` returns for every state, provided the operand of an
`OP_VARIABLE` indexes a string of the word. -/
theorem executePrimitive_isSome (instr : Instruction) (ip : Int) (w : CompiledWord)
    (st : State) (hcall : instr.opcode ≠ OpCode.OP_CALL)
    (hvar : instr.opcode = OpCode.OP_VARIABLE → (stringAt w instr.operand).isSome = true) :
    (executePrimitive instr ip w st).isSome = true := by
  obtain ⟨op, operand⟩ := instr
  cases op <;> simp only [executePrimitive]
  all_goals (repeat' split)
  all_goals (try rfl)
  all_goals first
    | (exact absurd rfl hcall)
    | simp_all [List.getElem?_eq_none_iff]

theorem stack_fault_empty (instr : Instruction) (ip : Int) (w : CompiledWord)
    (st : State) (r : State × Int)
    (herr : st.error_flag = false) (hs : st.stack = [])
    (h : executePrimitive instr ip w st = some r) (he : r.1.error_flag = true)
    (hf : endsWithStackFault r.1 = true) : r.1.stack = [] := by
  obtain ⟨op, operand⟩ := instr
  cases op <;> simp only [executePrimitive, exec_arith, pop, hs] at h
  all_goals (repeat' split at h)
  all_goals (try (cases h; done))
  all_goals (cases h)
  all_goals (try (exact hs))
  all_goals (try rfl)
  all_goals (simp_all [endsWithStackFault, isStackFaultMessage, set_error, push, print])

theorem stack_fault_one (instr : Instruction) (ip : Int) (w : CompiledWord)
    (st : State) (r : State × Int) (x : Int)
    (herr : st.error_flag = false) (hs : st.stack = [x])
    (h : executePrimitive instr ip w st = some r) (he : r.1.error_flag = true)
    (hf : endsWithStackFault r.1 = true) :
    r.1.stack = [x] ∨ (popsTwo instr.opcode = true ∧ r.1.stack = []) := by
  obtain ⟨op, operand⟩ := instr
  cases op <;> simp only [executePrimitive, exec_arith, pop, hs] at h
  all_goals (repeat' split at h)
  all_goals (try (cases h; done))
  all_goals (cases h)
  all_goals (simp_all [endsWithStackFault, isStackFaultMessage, set_error, push, print, popsTwo])

set_option maxHeartbeats 2000000 in
theorem stack_fault_more (instr : Instruction) (ip : Int) (w : CompiledWord)
    (st : State) (r : State × Int) (x y : Int) (rest : List Int)
    (herr : st.error_flag = false) (hs : st.stack = x :: y :: rest)
    (hb : st.stack.length ≤ STACK_SIZE)
    (h : executePrimitive instr ip w st = some r) (he : r.1.error_flag = true)
    (hf : endsWithStackFault r.1 = true) :
    r.1.stack = x :: y :: rest := by
  have h1 : rest.length < 1000 := by
    rw [hs] at hb
    simp only [List.length_cons, STACK_SIZE] at hb
    omega
  have h2 : rest.length + 1 < 1000 := by
    rw [hs] at hb
    simp only [List.length_cons, STACK_SIZE] at hb
    omega
  obtain ⟨op, operand⟩ := instr
  by_cases hfull : rest.length + 1 + 1 < STACK_SIZE
  · cases op <;> simp only [executePrimitive, exec_arith, pop, hs] at h
    all_goals (repeat' split at h)
    all_goals (try (cases h; done))
    all_goals (cases h)
    all_goals (simp_all [endsWithStackFault, isStackFaultMessage, set_error, push, print])
  · cases op <;> simp only [executePrimitive, exec_arith, pop, hs] at h
    all_goals (repeat' split at h)
    all_goals (try (cases h; done))
    all_goals (cases h)
    all_goals (try simp only [push, set_error, print, hs, List.length_cons, if_neg hfull]
      at he hf ⊢)
    any_goals (simp_all [endsWithStackFault, isStackFaultMessage, set_error, push, print])
    all_goals (rw [if_neg (not_lt.2 hfull)])

/-- A token that parses as a number differs from every text that does not. -/
theorem number_ne (t k : List Char) (n : Int) (hnum : mpz_set_str t = some n)
    (hk : mpz_set_str k = none) : ¬ t = k := by
  intro h
  rw [h, hk] at hnum
  cases hnum

/-- A token that parses as a number is none of the one-instruction tokens. -/
theorem primitiveOpcode_of_number (t : List Char) (n : Int) (hnum : mpz_set_str t = some n) :
    primitiveOpcode t = none := by
  unfold primitiveOpcode
  rw [if_neg (number_ne t "+".toList n hnum (by decide)),
    if_neg (number_ne t "-".toList n hnum (by decide)),
    if_neg (number_ne t "*".toList n hnum (by decide)),
    if_neg (number_ne t "/".toList n hnum (by decide)),
    if_neg (number_ne t "DUP".toList n hnum (by decide)),
    if_neg (number_ne t "SWAP".toList n hnum (by decide)),
    if_neg (number_ne t "OVER".toList n hnum (by decide)),
    if_neg (number_ne t "ROT".toList n hnum (by decide)),
    if_neg (number_ne t "DROP".toList n hnum (by decide)),
    if_neg (number_ne t "=".toList n hnum (by decide)),
    if_neg (number_ne t "<".toList n hnum (by decide)),
    if_neg (number_ne t ">".toList n hnum (by decide)),
    if_neg (number_ne t "AND".toList n hnum (by decide)),
    if_neg (number_ne t "OR".toList n hnum (by decide)),
    if_neg (number_ne t "NOT".toList n hnum (by decide)),
    if_neg (number_ne t "I".toList n hnum (by decide)),
    if_neg (number_ne t "CR".toList n hnum (by decide)),
    if_neg (number_ne t ".S".toList n hnum (by decide)),
    if_neg (number_ne t ".".toList n hnum (by decide)),
    if_neg (number_ne t "FLUSH".toList n hnum (by decide)),
    if_neg (number_ne t "EXIT".toList n hnum (by decide)),
    if_neg (number_ne t "&".toList n hnum (by decide)),
    if_neg (number_ne t "|".toList n hnum (by decide)),
    if_neg (number_ne t "^".toList n hnum (by decide)),
    if_neg (number_ne t "~".toList n hnum (by decide)),
    if_neg (number_ne t "LSHIFT".toList n hnum (by decide)),
    if_neg (number_ne t "RSHIFT".toList n hnum (by decide)),
    if_neg (number_ne t "WORDS".toList n hnum (by decide)),
    if_neg (number_ne t "@".toList n hnum (by decide)),
    if_neg (number_ne t "!".toList n hnum (by decide)),
    if_neg (number_ne t "PICK".toList n hnum (by decide))]

/-- The case of `compileToken` for a numeric literal: the text goes to the string pool of
`currentWord` and an `OP_PUSH` with the index of the text is appended to its code. -/
theorem compileToken_number (t rest : List Char) (n : Int) (st : State)
    (hnum : mpz_set_str t = some n) (hfind : findCompiledWordIndex t st < 0)
    (hcode : st.currentWord.code.length < WORD_CODE_SIZE)
    (hstr : st.currentWord.strings.length < WORD_CODE_SIZE) :
    compileToken t rest st
      = some ({ st with currentWord :=
                  { name := st.currentWord.name,
                    code := st.currentWord.code
                      ++ [{ opcode := OpCode.OP_PUSH,
                            operand := (st.currentWord.strings.length : Int) }],
                    strings := st.currentWord.strings ++ [t] } }, rest) := by
  have hneg : ¬ (0 ≤ findCompiledWordIndex t st) := by omega
  unfold compileToken
  rw [primitiveOpcode_of_number t n hnum]
  simp only
  rw [if_neg (number_ne t "IF".toList n hnum (by decide)),
    if_neg (number_ne t "ELSE".toList n hnum (by decide)),
    if_neg (number_ne t "THEN".toList n hnum (by decide)),
    if_neg (number_ne t "DO".toList n hnum (by decide)),
    if_neg (number_ne t "LOOP".toList n hnum (by decide)),
    if_neg (number_ne t "LOAD".toList n hnum (by decide)),
    if_neg (number_ne t ['.', dquote] n hnum (by decide)),
    if_neg (number_ne t "CASE".toList n hnum (by decide)),
    if_neg (number_ne t "OF".toList n hnum (by decide)),
    if_neg (number_ne t "ENDOF".toList n hnum (by decide)),
    if_neg (number_ne t "ENDCASE".toList n hnum (by decide)),
    if_neg (number_ne t "BEGIN".toList n hnum (by decide)),
    if_neg (number_ne t "WHILE".toList n hnum (by decide)),
    if_neg (number_ne t "REPEAT".toList n hnum (by decide)),
    if_neg (number_ne t "FORGET".toList n hnum (by decide)),
    if_neg (number_ne t "VARIABLE".toList n hnum (by decide)), if_neg hneg, hnum]
  simp [addString, emit, hcode, hstr, CompiledWord.string_count]

/-- An `OP_PUSH` whose operand indexes a string of the word pushes the number the string
parses to. -/
theorem executePrimitive_push_string (k ip : Int) (w : CompiledWord) (st : State)
    (t : List Char) (n : Int) (hk : stringAt w k = some t) (hnum : mpz_set_str t = some n)
    (hroom : st.stack.length < STACK_SIZE) :
    executePrimitive { opcode := OpCode.OP_PUSH, operand := k } ip w st
      = some ({ st with stack := n :: st.stack, result := n }, ip) := by
  simp [executePrimitive, hk, hnum, push, hroom]

/-- Appending a new name frees nothing. -/
theorem redefineFault_fresh (name : List Char) (st : State)
    (hfresh : findCompiledWordIndex name st < 0) : redefineFault name st = false := by
  have hneg : ¬ (0 ≤ findCompiledWordIndex name st) := by omega
  simp [redefineFault, hneg]

/-- A definition without strings frees nothing when it is committed. -/
theorem commitFault_nil (st : State) (h : st.currentWord.strings = []) :
    commitFault st = false := by
  simp [commitFault, h]

/-- A commit into an entry none of whose string cells was freed. -/
theorem commitFault_clean (st : State)
    (h : ∀ p ∈ st.freed, p.1 ≠ st.current_word_index.toNat) : commitFault st = false := by
  unfold commitFault
  rw [Bool.and_eq_false_imp]
  intro _
  rw [List.any_eq_false]
  intro p hp
  simp only [decide_eq_true_eq, not_and]
  intro e
  exact absurd e (h p hp)

/-- The case `:` of `interpret` in immediate mode. -/
theorem interpretLoop_colon (fs : List Char → Option (List (List Char))) (fuel : Nat)
    (sp name sp1 : List Char) (st : State)
    (herr : st.error_flag = false) (hcomp : st.compiling = false)
    (hsp : strtok_r sp = some (name, sp1)) (hheap : redefineFault name st = false) :
    interpretLoop fs (fuel + 1) (some (":".toList, sp)) st
      = interpretLoop fs fuel (strtok_r sp1) (beginDefinition name st) := by
  have e0 : mpz_set_str ":".toList = none := by decide
  rw [interpretLoop]
  simp only [herr, hcomp, Bool.false_eq_true, if_false, e0, if_true, hsp, hheap]

/-- The compile-mode case of `interpret` for a token other than `;`. -/
theorem interpretLoop_compile (fs : List Char → Option (List (List Char))) (fuel : Nat)
    (tok sp : List Char) (st : State)
    (herr : st.error_flag = false) (hcomp : st.compiling = true)
    (htok : ¬ tok = ";".toList) :
    interpretLoop fs (fuel + 1) (some (tok, sp)) st
      = (compileToken tok sp st).bind
          (fun r => interpretLoop fs fuel (strtok_r r.2) r.1) := by
  rw [interpretLoop]
  simp only [herr, hcomp, Bool.false_eq_true, if_false, if_true, htok]
  cases compileToken tok sp st with
  | none => rfl
  | some r => rfl

/-- The compile-mode case of `interpret` for `;`. -/
theorem interpretLoop_semicolon (fs : List Char → Option (List (List Char))) (fuel : Nat)
    (sp : List Char) (st : State)
    (herr : st.error_flag = false) (hcomp : st.compiling = true) :
    interpretLoop fs (fuel + 1) (some (";".toList, sp)) st
      = (emit { opcode := OpCode.OP_END, operand := 0 } st).bind
          (fun st1 => if commitFault st1 then none
                      else interpretLoop fs fuel (strtok_r sp) (commitWord st1)) := by
  rw [interpretLoop]
  simp only [herr, hcomp, Bool.false_eq_true, if_false, if_true]
  cases emit { opcode := OpCode.OP_END, operand := 0 } st with
  | none => rfl
  | some r => rfl

/-- The state `:` leaves for a new name when the dictionary has room. -/
theorem beginDefinition_fresh (name : List Char) (st : State)
    (hfresh : findCompiledWordIndex name st < 0) (hdc : st.dict_count < DICT_SIZE) :
    beginDefinition name st
      = { st with compiling := true,
                  currentWord := { name := name, code := [], strings := [] },
                  dictionary := st.dictionary.set st.dict_count
                    { name := name, code := [], strings := [] },
                  dict_count := st.dict_count + 1,
                  current_word_index := (st.dict_count : Int) } := by
  have hneg : ¬ (0 ≤ findCompiledWordIndex name st) := by omega
  have hf : findCompiledWordIndex name
      { st with compiling := true,
                currentWord := { name := name, code := [], strings := [] } }
      = findCompiledWordIndex name st := rfl
  unfold beginDefinition addCompiledWord
  simp only [hf, hneg, if_false, hdc, if_true]
  simp

/-- A name that is not in the dictionary and differs from the appended name is not in
the dictionary after the append. -/
theorem findCompiledWordIndex_append (t : List Char) (w : CompiledWord) (st st1 : State)
    (hdc : st.dict_count < st.dictionary.length)
    (hd : st1.dictionary = st.dictionary.set st.dict_count w)
    (hc : st1.dict_count = st.dict_count + 1)
    (hfresh : findCompiledWordIndex t st < 0) (hne : ¬ t = w.name) :
    findCompiledWordIndex t st1 = -1 := by
  unfold findCompiledWordIndex at hfresh ⊢
  apply findIndexFrom_not_mem
  rw [hd, hc, liveNames_append _ _ _ hdc]
  have h := findIndexFrom_neg t _ 0 (le_refl _) hfresh
  simp only [List.mem_append, List.mem_singleton, not_or]
  exact ⟨h, hne⟩

/-- C `addCompiledWord` for a new name when the dictionary has room. -/
theorem addCompiledWord_fresh (name : List Char) (code : List Instruction)
    (strings : List (List Char)) (st : State)
    (hfresh : findCompiledWordIndex name st < 0) (hdc : st.dict_count < DICT_SIZE) :
    addCompiledWord name code strings st
      = { st with dictionary := st.dictionary.set st.dict_count
                    { name := name, code := code, strings := strings },
                  dict_count := st.dict_count + 1,
                  freed := overwritten st.dict_count strings.length st.freed } := by
  have hneg : ¬ (0 ≤ findCompiledWordIndex name st) := by omega
  unfold addCompiledWord
  simp only [hneg, if_false, hdc, if_true]

/-- The case `OP_VARIABLE` for a new name. -/
theorem executePrimitive_variable (k ip : Int) (w : CompiledWord) (name : List Char)
    (st : State) (hname : stringAt w k = some name)
    (hfresh : findCompiledWordIndex name st < 0) (hdc : st.dict_count < DICT_SIZE)
    (hvars : st.vars.length < VAR_SIZE) :
    executePrimitive { opcode := OpCode.OP_VARIABLE, operand := k } ip w st
      = some (variableAdded name st, ip) := by
  have hf : findCompiledWordIndex name
      { st with vars := st.vars ++ [{ name := name, value := 0 }] } < 0 := hfresh
  simp only [executePrimitive, hvars, if_true, hname]
  rw [addCompiledWord_fresh name _ _ _ hf hdc]
  simp only [List.length_nil, overwritten_zero]
  rfl

/-- The immediate-mode case `VARIABLE` of `interpret` for a new name. -/
theorem interpretLoop_variable (fs : List Char → Option (List (List Char))) (fuel : Nat)
    (name sp sp1 : List Char) (st : State)
    (herr : st.error_flag = false) (hcomp : st.compiling = false)
    (hsp : strtok_r sp = some (name, sp1))
    (hfresh : findCompiledWordIndex name st < 0) (hdc : st.dict_count < DICT_SIZE)
    (hvars : st.vars.length < VAR_SIZE) :
    interpretLoop fs (fuel + 3) (some ("VARIABLE".toList, sp)) st
      = interpretLoop fs (fuel + 2) (strtok_r sp1) (variableAdded name st) := by
  have e0 : mpz_set_str "VARIABLE".toList = none := by decide
  have e1 : ¬ "VARIABLE".toList = ":".toList := by decide
  have e2 : ¬ "VARIABLE".toList = "LOAD".toList := by decide
  have e3 : ¬ "VARIABLE".toList = ['.', dquote] := by decide
  have e4 : primitiveOpcode "VARIABLE".toList = none := by decide
  have e5 : ¬ "VARIABLE".toList = "FORGET".toList := by decide
  rw [interpretLoop]
  simp only [herr, hcomp, Bool.false_eq_true, if_false, e0, e1, e2, e3, e4, e5, hsp, if_true]
  rw [execLoop_step fs fuel
      (WordRef.temp (tempWord { opcode := OpCode.OP_VARIABLE, operand := 0 } [name])) 0 st
      { opcode := OpCode.OP_VARIABLE, operand := 0 } (variableAdded name st) 0 (le_refl _)
      (by simp [wordOf, tempWord]) herr (by simp)
      (executePrimitive_variable 0 0 _ name st (by simp [wordOf, tempWord, stringAt])
        hfresh hdc hvars)
      (by simp [heapFault, readsFreed, wordOf, tempWord, stringAt,
            redefineFault_fresh name st hfresh])]
  rw [execLoop_done fs fuel _ _ _ (Or.inl (by simp [wordOf, tempWord, CompiledWord.code_length]))]

/-! ### C11 : division by zero -/

/-- C11: for every stack `s` and integer `b`, executing `DIV` on `s·b·0` with the error
flag clear pops both operands, pushes nothing (the stack left is `s`), reports
`Division by zero` and sets the error flag; nothing else changes. -/
theorem C11_division_by_zero_sets_error (fs : List Char → Option (List (List Char)))
    (fuel : Nat) (operand ip : Int) (word : WordRef) (st : State) (s : List Int) (b : Int)
    (herr : st.error_flag = false) :
    executeInstruction fs (fuel + 1) { opcode := OpCode.OP_DIV, operand := operand } ip word
        { st with stack := 0 :: b :: s }
      = some ({ st with stack := s, error_flag := true,
                        output := st.output ++ [Output.text "Error: ",
                          Output.text "Division by zero", Output.text "\n"] }, ip) := by
  have he : ({ st with stack := 0 :: b :: s } : State).error_flag = false := herr
  rw [executeInstruction_primitive _ _ _ _ _ _ he (by simp) (by rfl)]
  simp [executePrimitive, exec_arith, pop, set_error, herr]

/-- C11 (witness): `7 0 /` on the empty stack of the initial state. -/
theorem C11_division_by_zero_sets_error_witness :
    initState.error_flag = false
    ∧ executeInstruction noFiles 1 { opcode := OpCode.OP_DIV, operand := 0 } 0
        (WordRef.temp emptyWord) { initState with stack := [0, 7] }
      = some ({ initState with stack := [], error_flag := true,
                               output := initState.output ++ [Output.text "Error: ",
                                 Output.text "Division by zero", Output.text "\n"] }, 0) :=
  ⟨rfl, C11_division_by_zero_sets_error noFiles 0 0 0 (WordRef.temp emptyWord) initState
    [] 7 rfl⟩

/-! ### C12 : the bound on the value stack -/

/-- C12: the bound `-1 <= top < 1000`, that is a depth of at most `STACK_SIZE`, is
preserved by every instruction: for every opcode, operand and state within the bound,
the state `executeInstruction` returns is within the bound, also for `OP_CALL` whatever
it runs; every instruction other than `OP_CALL` that touches no freed memory does return
(an `OP_VARIABLE` provided its operand indexes a string of the word); and `push` on a full
stack (depth 1000) leaves the stack, hence the depth, as it was. -/
theorem C12_stack_bound_preserved (fs : List Char → Option (List (List Char)))
    (fuel : Nat) (instr : Instruction) (ip : Int) (wr : WordRef) (st : State)
    (hb : st.stack.length ≤ STACK_SIZE) :
    (∀ r, executeInstruction fs fuel instr ip wr st = some r →
        r.1.stack.length ≤ STACK_SIZE)
    ∧ (instr.opcode ≠ OpCode.OP_CALL → heapFault instr wr st = false →
        (instr.opcode = OpCode.OP_VARIABLE →
          (stringAt (wordOf st wr) instr.operand).isSome = true) →
        ∃ r, executeInstruction fs (fuel + 1) instr ip wr st = some r
          ∧ r.1.stack.length ≤ STACK_SIZE)
    ∧ (∀ v : Int, st.stack.length = STACK_SIZE →
        (push v st).stack = st.stack ∧ (push v st).stack.length = STACK_SIZE) := by
  refine ⟨?_, ?_, ?_⟩
  · intro r h
    exact (stack_le_preserved fs fuel).1 instr ip wr st r h hb
  · intro hcall hheap hvar
    cases hr : executeInstruction fs (fuel + 1) instr ip wr st with
    | some r => exact ⟨r, rfl, (stack_le_preserved fs (fuel + 1)).1 instr ip wr st r hr hb⟩
    | none =>
      exfalso
      cases he : st.error_flag with
      | true =>
        rw [executeInstruction_error fs fuel instr ip wr st he] at hr
        cases hr
      | false =>
        rw [executeInstruction_primitive fs fuel instr ip wr st he hcall hheap] at hr
        have h := executePrimitive_isSome instr ip (wordOf st wr) st hcall hvar
        rw [hr] at h
        cases h
  · intro v hfull
    have h : ¬ st.stack.length < STACK_SIZE := by omega
    unfold push
    rw [if_neg h]
    exact ⟨rfl, hfull⟩

/-- C12 (witness): `SWAP` on a stack of two values keeps the depth within the bound. -/
theorem C12_stack_bound_preserved_witness :
    ({ initState with stack := [1, 2] } : State).stack.length ≤ STACK_SIZE
    ∧ executeInstruction noFiles 1 { opcode := OpCode.OP_SWAP, operand := 0 } 0
        (WordRef.temp emptyWord) { initState with stack := [1, 2] }
      = some ({ initState with stack := [2, 1] }, 0)
    ∧ ({ initState with stack := [2, 1] } : State).stack.length ≤ STACK_SIZE :=
  ⟨by decide, by decide,
   (C12_stack_bound_preserved noFiles 1 { opcode := OpCode.OP_SWAP, operand := 0 } 0
      (WordRef.temp emptyWord) { initState with stack := [1, 2] } (by decide)).1
      ({ initState with stack := [2, 1] }, 0) (by decide)⟩

/-! ### C13 : the value stack after an underflow or overflow -/

/-- C13 (counterexample): `ADD` on the one-element stack `[5]` reports `Stack underflow`
and sets the error flag, and the stack afterwards is empty, not `[5]`: the first `pop`
took the 5 before the second one failed.  The line `5 +` shows the same. -/
theorem C13_underflow_consumes_operand :
    (executeInstruction noFiles 1 { opcode := OpCode.OP_ADD, operand := 0 } 0
        (WordRef.temp emptyWord) { initState with stack := [5] }).map
        (fun r => (r.1.stack, r.1.error_flag, r.1.output))
      = some ([], true,
          [Output.text "Error: ", Output.text "Stack underflow", Output.text "\n"])
    ∧ (interpret noFiles 50 "5 +".toList initState).map
        (fun r => (r.stack, r.error_flag, r.output))
      = some ([], true,
          [Output.text "Error: ", Output.text "Stack underflow", Output.text "\n"]) := by
  constructor <;> decide

/-- C13 (amended): for every instruction other than `OP_CALL` executed with the error flag
clear on a value stack within its capacity, if the instruction sets the error flag and
the last report is one of underflow or overflow of the value stack (`Stack underflow`,
`Stack overflow`, or the reports of `ROT` and `PICK`), then the value stack afterwards is
identical to the value stack before the instruction, except when an instruction that pops
two operands finds exactly one: that one has been popped and the stack is left empty. -/
theorem C13_stack_fault_keeps_or_empties_stack (fs : List Char → Option (List (List Char)))
    (fuel : Nat) (instr : Instruction) (ip : Int) (wr : WordRef) (st : State)
    (r : State × Int) (hcall : instr.opcode ≠ OpCode.OP_CALL)
    (herr : st.error_flag = false) (hb : st.stack.length ≤ STACK_SIZE)
    (h : executeInstruction fs (fuel + 1) instr ip wr st = some r)
    (he : r.1.error_flag = true) (hf : endsWithStackFault r.1 = true) :
    r.1.stack = st.stack
    ∨ (popsTwo instr.opcode = true ∧ st.stack.length = 1 ∧ r.1.stack = []) := by
  rw [executeInstruction_primitive fs fuel instr ip wr st herr hcall
    (heapFault_of_some fs fuel instr ip wr st r herr h)] at h
  rcases hs : st.stack with _ | ⟨x, _ | ⟨y, rest⟩⟩
  · left
    exact stack_fault_empty instr ip _ st r herr hs h he hf
  · rcases stack_fault_one instr ip _ st r x herr hs h he hf with h1 | ⟨h1, h2⟩
    · left
      exact h1
    · right
      exact ⟨h1, rfl, h2⟩
  · left
    exact stack_fault_more instr ip _ st r x y rest herr hs hb h he hf

/-- C13 (witness): `DUP` on the empty stack reports the underflow and leaves the stack
empty, as it was. -/
theorem C13_stack_fault_keeps_or_empties_stack_witness :
    ({ opcode := OpCode.OP_DUP, operand := 0 } : Instruction).opcode ≠ OpCode.OP_CALL
    ∧ initState.error_flag = false ∧ initState.stack.length ≤ STACK_SIZE
    ∧ executeInstruction noFiles 1 { opcode := OpCode.OP_DUP, operand := 0 } 0
        (WordRef.temp emptyWord) initState
      = some (set_error "Stack underflow" initState, 0)
    ∧ (set_error "Stack underflow" initState).error_flag = true
    ∧ endsWithStackFault (set_error "Stack underflow" initState) = true
    ∧ ((set_error "Stack underflow" initState).stack = initState.stack
      ∨ (popsTwo ({ opcode := OpCode.OP_DUP, operand := 0 } : Instruction).opcode = true
          ∧ initState.stack.length = 1
          ∧ (set_error "Stack underflow" initState).stack = [])) :=
  ⟨by decide, rfl, by decide, by decide, rfl, by decide,
   C13_stack_fault_keeps_or_empties_stack noFiles 0 { opcode := OpCode.OP_DUP, operand := 0 }
     0 (WordRef.temp emptyWord) initState (set_error "Stack underflow" initState, 0)
     (by decide) rfl (by decide) (by decide) rfl (by decide)⟩

/-! ### C14 : `PICK` -/

/-- C14: on a stack `n :: xs` within its capacity (`xs` is the stack below the index `n`,
its head the top) and with the error flag clear, `PICK` behaves as the claim says while
`n` fits a `long`: for `0 <= n < xs.length` it replaces `n` by the element `n` places
below the new top, without error; `0 PICK` on `x :: s` then leaves the stack that `DUP`
leaves; and for `n < 0` or `xs.length <= n < 2^63` it sets the error flag and leaves the
stack as it was.  But the index is read with `mpz_get_si` without the test
`mpz_fits_slong_p` that `FETCH` and `STORE` make: an index `n >= 2^63` whose low 63 bits
are below `xs.length` is accepted, and `7 9223372036854775808 PICK` duplicates the 7
instead of setting the error flag. -/
theorem C14_pick_accepts_index_beyond_long (fs : List Char → Option (List (List Char)))
    (fuel : Nat) (operand ip : Int) (word : WordRef) (st : State) (xs : List Int) (n : Int)
    (herr : st.error_flag = false) (hcap : (n :: xs).length ≤ STACK_SIZE) :
    (0 ≤ n ∧ n < xs.length →
      executeInstruction fs (fuel + 1) { opcode := OpCode.OP_PICK, operand := operand } ip word
          { st with stack := n :: xs }
        = some ({ st with stack := xs.getD n.toNat 0 :: xs,
                          result := xs.getD n.toNat 0 }, ip))
    ∧ (∀ (x : Int) (s : List Int), n = 0 → xs = x :: s →
        (executeInstruction fs (fuel + 1) { opcode := OpCode.OP_PICK, operand := operand } ip
            word { st with stack := n :: xs }).map (fun r => (r.1.stack, r.1.error_flag))
          = (executeInstruction fs (fuel + 1) { opcode := OpCode.OP_DUP, operand := operand } ip
              word { st with stack := xs }).map (fun r => (r.1.stack, r.1.error_flag)))
    ∧ (n < 0 ∨ ((xs.length : Int) ≤ n ∧ n < 2 ^ 63) →
      executeInstruction fs (fuel + 1) { opcode := OpCode.OP_PICK, operand := operand } ip word
          { st with stack := n :: xs }
        = some ({ st with stack := n :: xs, error_flag := true,
                          output := st.output ++ [Output.text "Error: ",
                            Output.text "PICK: Stack underflow or invalid index",
                            Output.text "\n"] }, ip))
    ∧ (2 ^ 63 ≤ n ∧ n % 2 ^ 63 < xs.length →
      executeInstruction fs (fuel + 1) { opcode := OpCode.OP_PICK, operand := operand } ip word
          { st with stack := n :: xs }
        = some ({ st with stack := xs.getD (n % 2 ^ 63).toNat 0 :: xs,
                          result := xs.getD (n % 2 ^ 63).toNat 0 }, ip))
    ∧ (interpret noFiles 50 "7 9223372036854775808 PICK".toList initState).map
        (fun r => (r.stack, r.error_flag))
      = some ([7, 7], false) := by
  have he : ({ st with stack := n :: xs } : State).error_flag = false := herr
  have hxs : xs.length < 1000 := by
    simp only [List.length_cons, STACK_SIZE] at hcap
    omega
  rw [executeInstruction_primitive _ _ _ _ _ _ he (by simp) (by rfl),
    executePrimitive_pick operand ip _ st xs n herr hcap]
  refine ⟨?_, ?_, ?_, ?_, ?_⟩
  · rintro ⟨h0, h1⟩
    have hsi : mpz_get_si n = n := by
      rw [mpz_get_si_nonneg n h0]
      exact Int.emod_eq_of_lt h0 (by omega)
    rw [hsi, if_pos ⟨h0, h1⟩]
  · intro x s h0 hx
    subst h0
    subst hx
    have he2 : ({ st with stack := x :: s } : State).error_flag = false := herr
    have hs : s.length < 1000 := by
      simp only [List.length_cons] at hxs
      omega
    have hs1 : s.length + 1 < 1000 := by
      simp only [List.length_cons, STACK_SIZE] at hcap
      omega
    rw [executeInstruction_primitive _ _ _ _ _ _ he2 (by simp) (by rfl)]
    simp [mpz_get_si, executePrimitive, pop, push, herr, hs, hs1]
  · intro h
    rw [if_neg]
    rcases h with h | ⟨h1, h2⟩
    · have := mpz_get_si_neg n h
      omega
    · have h0 : 0 ≤ n := by omega
      have hsi : mpz_get_si n = n := by
        rw [mpz_get_si_nonneg n h0]
        exact Int.emod_eq_of_lt h0 h2
      rw [hsi]
      omega
  · rintro ⟨h0, h1⟩
    have hn0 : 0 ≤ n := by omega
    rw [mpz_get_si_nonneg n hn0, if_pos ⟨Int.emod_nonneg n (by norm_num), h1⟩]
  · decide!

/-- C14 (witness): `8 9 1 PICK` picks the 8 below the top. -/
theorem C14_pick_accepts_index_beyond_long_witness :
    initState.error_flag = false ∧ ([1, 9, 8] : List Int).length ≤ STACK_SIZE
    ∧ ((0 : Int) ≤ 1 ∧ (1 : Int) < ([9, 8] : List Int).length)
    ∧ executeInstruction noFiles 1 { opcode := OpCode.OP_PICK, operand := 0 } 0
        (WordRef.temp emptyWord) { initState with stack := [1, 9, 8] }
      = some ({ initState with stack := [8, 9, 8], result := 8 }, 0) :=
  ⟨rfl, by decide, by decide,
   (C14_pick_accepts_index_beyond_long noFiles 0 0 0 (WordRef.temp emptyWord) initState
      [9, 8] 1 rfl (by decide)).1 (by decide)⟩

/-! ### C15 : shifts -/

/-- C16: for every stack `s` and integers `b`, `a` (`a` on top, the stack within its
capacity), executing `EQ`, `LT` or `GT` on `s·b·a` with the error flag clear yields `s·1`
when `b = a`, `b < a` or `b > a` respectively and `s·0` otherwise; hence, in immediate
mode, the line `DUP =` on `s·a` yields `s·1`. -/
theorem C16_comparisons (fs : List Char → Option (List (List Char))) (fuel : Nat)
    (operand ip : Int) (word : WordRef) (st : State) (s : List Int) (a b : Int)
    (herr : st.error_flag = false) (hcap : (a :: b :: s).length ≤ STACK_SIZE) :
    executeInstruction fs (fuel + 1) { opcode := OpCode.OP_EQ, operand := operand } ip word
        { st with stack := a :: b :: s }
      = some ({ st with stack := (if b = a then 1 else 0) :: s,
                        result := (if b = a then 1 else 0), error_flag := false }, ip)
    ∧ executeInstruction fs (fuel + 1) { opcode := OpCode.OP_LT, operand := operand } ip word
        { st with stack := a :: b :: s }
      = some ({ st with stack := (if b < a then 1 else 0) :: s,
                        result := (if b < a then 1 else 0), error_flag := false }, ip)
    ∧ executeInstruction fs (fuel + 1) { opcode := OpCode.OP_GT, operand := operand } ip word
        { st with stack := a :: b :: s }
      = some ({ st with stack := (if b > a then 1 else 0) :: s,
                        result := (if b > a then 1 else 0), error_flag := false }, ip)
    ∧ (st.compiling = false →
        interpret fs (fuel + 4) "DUP =".toList { st with stack := a :: s }
          = some { st with stack := 1 :: s, result := 1, error_flag := false }) := by
  have h1 : s.length < 1000 := by
    simp only [List.length_cons, STACK_SIZE] at hcap
    omega
  have h2 : s.length + 1 < 1000 := by
    simp only [List.length_cons, STACK_SIZE] at hcap
    omega
  have he : ({ st with stack := a :: b :: s } : State).error_flag = false := herr
  refine ⟨?_, ?_, ?_, ?_⟩
  · rw [executeInstruction_primitive _ _ _ _ _ _ he (by simp) (by rfl)]
    simp [executePrimitive, pop, push, herr, h1]
  · rw [executeInstruction_primitive _ _ _ _ _ _ he (by simp) (by rfl)]
    simp [executePrimitive, pop, push, herr, h1]
  · rw [executeInstruction_primitive _ _ _ _ _ _ he (by simp) (by rfl)]
    simp [executePrimitive, pop, push, herr, h1]
  · intro hcomp
    unfold interpret
    change interpretLoop fs (fuel + 1 + 3) (strtok_r "DUP =".toList)
      { st with stack := a :: s, error_flag := false } = _
    rw [show "DUP =".toList = "DUP".toList ++ ' ' :: "=".toList from rfl,
      strtok_r_token _ _ (by decide),
      interpretLoop_primitive fs (fuel + 1) "DUP".toList "=".toList OpCode.OP_DUP
        { st with stack := a :: s, error_flag := false } rfl hcomp (by decide)
        (by decide) (by decide) (by decide) (by decide) (by decide)]
    have hd : straightStep { opcode := OpCode.OP_DUP, operand := 0 }
        (tempWord { opcode := OpCode.OP_DUP, operand := 0 } [])
        { st with stack := a :: s, error_flag := false }
        = { st with stack := a :: a :: s, error_flag := false } := by
      simp [straightStep, executePrimitive, pop, push, h1, h2]
    rw [hd, strtok_r_last _ (by decide), show fuel + 1 + 2 = fuel + 3 from rfl,
      interpretLoop_primitive fs fuel "=".toList [] OpCode.OP_EQ
        { st with stack := a :: a :: s, error_flag := false } rfl hcomp (by decide)
        (by decide) (by decide) (by decide) (by decide) (by decide)]
    have hq : straightStep { opcode := OpCode.OP_EQ, operand := 0 }
        (tempWord { opcode := OpCode.OP_EQ, operand := 0 } [])
        { st with stack := a :: a :: s, error_flag := false }
        = { st with stack := 1 :: s, result := 1, error_flag := false } := by
      simp [straightStep, executePrimitive, pop, push, h1]
    rw [hq, strtok_r_nil, interpretLoop_none]

/-- C16 (witness): `3 5 <` leaves 1, on the empty stack of the initial state. -/
theorem C16_comparisons_witness :
    initState.error_flag = false ∧ ([5, 3] : List Int).length ≤ STACK_SIZE
    ∧ executeInstruction noFiles 1 { opcode := OpCode.OP_LT, operand := 0 } 0
        (WordRef.temp emptyWord) { initState with stack := [5, 3] }
      = some ({ initState with stack := [if (3 : Int) < 5 then 1 else 0],
                               result := (if (3 : Int) < 5 then 1 else 0),
                               error_flag := false }, 0) :=
  ⟨rfl, by decide,
   (C16_comparisons noFiles 0 0 0 (WordRef.temp emptyWord) initState [] 5 3 rfl
      (by decide)).2.1⟩

/-! ### C17 : numeric literals in a colon-definition -/

theorem LitInv_of_eq {p : Nat} {x : Instruction} {k : Nat} {t : List Char} {st st1 : State}
    (h1 : st1.currentWord = st.currentWord) (h2 : st1.control_stack = st.control_stack)
    (h : LitInv p x k t st) : LitInv p x k t st1 := by
  unfold LitInv at *
  rw [h1, h2]
  exact h

theorem emit_lit {p : Nat} {x : Instruction} {k : Nat} {t : List Char} {i : Instruction}
    {st st1 : State} (h : emit i st = some st1) (hinv : LitInv p x k t st) :
    LitInv p x k t st1 ∧ (p : Int) < st1.currentWord.code_length - 1
      ∧ st1.control_stack = st.control_stack := by
  unfold emit at h
  split at h
  · cases h
    obtain ⟨h1, h2, h3⟩ := hinv
    have hp : p < st.currentWord.code.length := (List.getElem?_eq_some.1 h1).1
    refine ⟨⟨?_, h2, h3⟩, ?_, rfl⟩
    · simp only
      rw [List.getElem?_append_left hp]
      exact h1
    · simp only [CompiledWord.code_length, List.length_append, List.length_singleton]
      push_cast
      omega
  · cases h

theorem addString_lit {p : Nat} {x : Instruction} {k : Nat} {t : List Char} {s : List Char}
    {st st1 : State} (h : addString s st = some st1) (hinv : LitInv p x k t st) :
    LitInv p x k t st1 := by
  unfold addString at h
  split at h
  · cases h
    obtain ⟨h1, h2, h3⟩ := hinv
    have hk : k < st.currentWord.strings.length := (List.getElem?_eq_some.1 h2).1
    refine ⟨h1, ?_, h3⟩
    simp only
    rw [List.getElem?_append_left hk]
    exact h2
  · cases h

theorem pushControl_lit {p : Nat} {x : Instruction} {k : Nat} {t : List Char}
    {ty : ControlType} {st st1 : State}
    (h : pushControl ty (st.currentWord.code_length - 1) st = some st1)
    (hinv : LitInv p x k t st) (hp : (p : Int) < st.currentWord.code_length - 1) :
    LitInv p x k t st1 := by
  unfold pushControl at h
  split at h
  · cases h
    obtain ⟨h1, h2, h3⟩ := hinv
    refine ⟨h1, h2, ?_⟩
    intro e he
    rcases List.mem_cons.1 he with rfl | he
    · simp only
      omega
    · exact h3 e he
  · cases h

theorem pop_lit {p : Nat} {x : Instruction} {k : Nat} {t : List Char} (st : State)
    {e : ControlEntry} {es : List ControlEntry} (hcs : st.control_stack = e :: es)
    (hinv : LitInv p x k t st) :
    LitInv p x k t { st with control_stack := es } ∧ e.addr ≠ (p : Int) := by
  obtain ⟨h1, h2, h3⟩ := hinv
  refine ⟨⟨h1, h2, ?_⟩, h3 e (by rw [hcs]; exact List.mem_cons_self _ _)⟩
  intro a ha
  exact h3 a (by rw [hcs]; exact List.mem_cons_of_mem _ ha)

theorem patchOperand_getElem? (code : List Instruction) (a v : Int) (p : Nat)
    (h : a ≠ (p : Int)) : (patchOperand code a v)[p]? = code[p]? := by
  unfold patchOperand
  split
  · split
    · rw [List.getElem?_set_ne]
      intro e
      apply h
      omega
    · rfl
  · rfl

theorem patchHere_lit {p : Nat} {x : Instruction} {k : Nat} {t : List Char} {st : State}
    (a : Int) (ha : a ≠ (p : Int)) (hinv : LitInv p x k t st) :
    LitInv p x k t (patchHere a st) := by
  obtain ⟨h1, h2, h3⟩ := hinv
  refine ⟨?_, h2, h3⟩
  simp only [patchHere]
  rw [patchOperand_getElem? _ _ _ _ ha]
  exact h1

theorem patchHere_code_length (a : Int) (st : State) :
    (patchHere a st).currentWord.code_length = st.currentWord.code_length := by
  simp only [patchHere, CompiledWord.code_length]
  unfold patchOperand
  split
  · split <;> simp
  · rfl

theorem patchEndofs_lit {p : Nat} {x : Instruction} {k : Nat} {t : List Char}
    (l : List ControlEntry) :
    ∀ st : State, LitInv p x k t { st with control_stack := l } →
      LitInv p x k t (patchEndofs l st) := by
  induction l with
  | nil =>
    intro st h
    exact h
  | cons e es ih =>
    intro st h
    simp only [patchEndofs]
    split
    · apply ih
      obtain ⟨h1, h2⟩ := pop_lit { st with control_stack := e :: es } rfl h
      exact patchHere_lit e.addr h2 h1
    · exact h

theorem emit_push_lit {p : Nat} {x : Instruction} {k : Nat} {t : List Char}
    {i : Instruction} {ty : ControlType} {st st1 : State} {r rest1 : List Char}
    (h : (emit i st).bind (fun s1 =>
        (pushControl ty (s1.currentWord.code_length - 1) s1).map (fun s => (s, r)))
      = some (st1, rest1))
    (hinv : LitInv p x k t st) : LitInv p x k t st1 := by
  obtain ⟨a, ha, hr⟩ := Option.bind_eq_some.1 h
  obtain ⟨b, hb1, hb2⟩ := Option.map_eq_some'.1 hr
  cases hb2
  have ia := emit_lit ha hinv
  exact pushControl_lit hb1 ia.1 ia.2.1

theorem emit_map_lit {p : Nat} {x : Instruction} {k : Nat} {t : List Char}
    {i : Instruction} {st st1 : State} {r rest1 : List Char}
    (h : (emit i st).map (fun s => (s, r)) = some (st1, rest1))
    (hinv : LitInv p x k t st) : LitInv p x k t st1 := by
  obtain ⟨a, ha, hb⟩ := Option.map_eq_some'.1 h
  cases hb
  exact (emit_lit ha hinv).1

theorem addString_emit_lit {p : Nat} {x : Instruction} {k : Nat} {t : List Char}
    {s : List Char} {i : Instruction} {st st1 : State} {r rest1 : List Char}
    (h : (addString s st).bind (fun s1 => (emit i s1).map (fun s => (s, r)))
      = some (st1, rest1))
    (hinv : LitInv p x k t st) : LitInv p x k t st1 := by
  obtain ⟨a, ha, hr⟩ := Option.bind_eq_some.1 h
  exact emit_map_lit hr (addString_lit ha hinv)

/-- One token of a definition leaves alone the instructions that no entry of the control
stack points at, and the strings of the pool. -/
theorem compileToken_lit (p : Nat) (x : Instruction) (k : Nat) (t : List Char)
    (token rest : List Char) (st st1 : State) (rest1 : List Char)
    (h : compileToken token rest st = some (st1, rest1)) (hinv : LitInv p x k t st) :
    LitInv p x k t st1 := by
  unfold compileToken at h
  split at h
  · exact emit_map_lit h hinv
  by_cases hc0 : token = "IF".toList
  · rw [if_pos hc0] at h
    exact emit_push_lit h hinv
  rw [if_neg hc0] at h
  by_cases hc1 : token = "ELSE".toList
  · rw [if_pos hc1] at h
    obtain ⟨a, ha, hr⟩ := Option.bind_eq_some.1 h
    have ia := emit_lit ha hinv
    split at hr
    · rename_i e es hcs
      split at hr
      · obtain ⟨b, hb1, hb2⟩ := Option.map_eq_some'.1 hr
        cases hb2
        obtain ⟨q1, q2⟩ := pop_lit _ hcs ia.1
        exact pushControl_lit hb1 (patchHere_lit e.addr q2 q1) (by
          rw [patchHere_code_length]
          exact ia.2.1)
      · cases hr
        exact ia.1
    · cases hr
      exact ia.1
  rw [if_neg hc1] at h
  by_cases hc2 : token = "THEN".toList
  · rw [if_pos hc2] at h
    split at h
    · rename_i e es hcs
      split at h
      · cases h
        obtain ⟨q1, q2⟩ := pop_lit _ hcs hinv
        exact patchHere_lit e.addr q2 q1
      · cases h
        exact hinv
    · cases h
      exact hinv
  rw [if_neg hc2] at h
  by_cases hc3 : token = "DO".toList
  · rw [if_pos hc3] at h
    exact emit_push_lit h hinv
  rw [if_neg hc3] at h
  by_cases hc4 : token = "LOOP".toList
  · rw [if_pos hc4] at h
    split at h
    · rename_i e es hcs
      split at h
      · obtain ⟨a, ha, hb⟩ := Option.map_eq_some'.1 h
        cases hb
        have ia := emit_lit ha hinv
        exact (pop_lit _ (ia.2.2.trans hcs) ia.1).1
      · cases h
        exact hinv
    · cases h
      exact hinv
  rw [if_neg hc4] at h
  by_cases hc5 : token = "LOAD".toList
  · rw [if_pos hc5] at h
    dsimp only at h
    split at h
    · cases h
      exact LitInv_of_eq rfl rfl hinv
    · split at h
      · cases h
        exact LitInv_of_eq rfl rfl hinv
      · split at h
        · cases h
          exact LitInv_of_eq rfl rfl hinv
        · exact addString_emit_lit h hinv
  rw [if_neg hc5] at h
  by_cases hc6 : token = ['.', dquote]
  · rw [if_pos hc6] at h
    split at h
    · cases h
      exact LitInv_of_eq rfl rfl hinv
    · exact addString_emit_lit h hinv
  rw [if_neg hc6] at h
  by_cases hc7 : token = "CASE".toList
  · rw [if_pos hc7] at h
    exact emit_push_lit h hinv
  rw [if_neg hc7] at h
  by_cases hc8 : token = "OF".toList
  · rw [if_pos hc8] at h
    exact emit_push_lit h hinv
  rw [if_neg hc8] at h
  by_cases hc9 : token = "ENDOF".toList
  · rw [if_pos hc9] at h
    split at h
    · rename_i e es hcs
      split at h
      · obtain ⟨a, ha, hr⟩ := Option.bind_eq_some.1 h
        have ia := emit_lit ha hinv
        obtain ⟨b, hb1, hb2⟩ := Option.map_eq_some'.1 hr
        cases hb2
        obtain ⟨q1, q2⟩ := pop_lit _ (ia.2.2.trans hcs) ia.1
        exact pushControl_lit hb1 (patchHere_lit e.addr q2 q1) (by
          rw [patchHere_code_length]
          exact ia.2.1)
      · cases h
        exact LitInv_of_eq rfl rfl hinv
    · cases h
      exact LitInv_of_eq rfl rfl hinv
  rw [if_neg hc9] at h
  by_cases hc10 : token = "ENDCASE".toList
  · rw [if_pos hc10] at h
    split at h
    · split at h
      · obtain ⟨a, ha, hb⟩ := Option.map_eq_some'.1 h
        have ia := emit_lit ha hinv
        have i2 : LitInv p x k t (patchEndofs a.control_stack a) :=
          patchEndofs_lit a.control_stack a (LitInv_of_eq rfl rfl ia.1)
        simp only at hb
        split at hb
        · rename_i e2 es2 hcs2
          split at hb
          · cases hb
            exact (pop_lit _ hcs2 i2).1
          · cases hb
            exact i2
        · cases hb
          exact i2
      · cases h
        exact LitInv_of_eq rfl rfl hinv
    · cases h
      exact LitInv_of_eq rfl rfl hinv
  rw [if_neg hc10] at h
  by_cases hc11 : token = "BEGIN".toList
  · rw [if_pos hc11] at h
    exact emit_push_lit h hinv
  rw [if_neg hc11] at h
  by_cases hc12 : token = "WHILE".toList
  · rw [if_pos hc12] at h
    exact emit_push_lit h hinv
  rw [if_neg hc12] at h
  by_cases hc13 : token = "REPEAT".toList
  · rw [if_pos hc13] at h
    split at h
    · rename_i e1 e2 es hcs
      obtain ⟨a, ha, hb⟩ := Option.map_eq_some'.1 h
      cases hb
      have ia := emit_lit ha hinv
      obtain ⟨p1, q1⟩ := pop_lit _ (ia.2.2.trans hcs) ia.1
      obtain ⟨p2, _⟩ := pop_lit { a with control_stack := e2 :: es } rfl p1
      exact patchHere_lit e1.addr q1 p2
    · cases h
  rw [if_neg hc13] at h
  by_cases hc14 : token = "FORGET".toList
  · rw [if_pos hc14] at h
    split at h
    · cases h
      exact LitInv_of_eq rfl rfl hinv
    · dsimp only at h
      split at h
      · exact emit_map_lit h hinv
      · cases h
        exact LitInv_of_eq rfl rfl hinv
  rw [if_neg hc14] at h
  by_cases hc15 : token = "VARIABLE".toList
  · rw [if_pos hc15] at h
    split at h
    · cases h
      exact LitInv_of_eq rfl rfl hinv
    · exact addString_emit_lit h hinv
  rw [if_neg hc15] at h
  by_cases hc16 : 0 ≤ findCompiledWordIndex token st
  · rw [if_pos hc16] at h
    exact emit_map_lit h hinv
  rw [if_neg hc16] at h
  split at h
  · exact addString_emit_lit h hinv
  · cases h
    exact LitInv_of_eq rfl rfl hinv

theorem compileSeq_lit (p : Nat) (x : Instruction) (k : Nat) (t : List Char)
    (ts : List (List Char × List Char)) :
    ∀ (st st1 : State), compileSeq ts st = some st1 → LitInv p x k t st →
      LitInv p x k t st1 := by
  induction ts with
  | nil =>
    intro st st1 h hinv
    simp only [compileSeq, Option.some.injEq] at h
    subst h
    exact hinv
  | cons q ts ih =>
    intro st st1 h hinv
    obtain ⟨tok, r⟩ := q
    simp only [compileSeq] at h
    cases hc : compileToken tok r st with
    | none => rw [hc] at h; cases h
    | some q =>
      obtain ⟨st2, r2⟩ := q
      rw [hc] at h
      exact ih st2 st1 h (compileToken_lit p x k t tok r st st2 r2 hc hinv)


/-- The entry that `;` writes: name kept, code and strings of `currentWord`. -/
theorem commitWord_getD (st : State) (h0 : 0 ≤ st.current_word_index)
    (h1 : st.current_word_index < st.dict_count)
    (h2 : st.current_word_index.toNat < st.dictionary.length) :
    (commitWord st).dictionary.getD st.current_word_index.toNat emptyWord
      = { name := (st.dictionary.getD st.current_word_index.toNat emptyWord).name,
          code := st.currentWord.code, strings := st.currentWord.strings } := by
  unfold commitWord
  simp [h0, h1, h2, List.getD_eq_getElem?_getD]

/-- The double free of the commit, for a definition appended at index `i` with `m`
strings. -/
theorem commitFault_eq (st : State) (i m : Nat) (h0 : st.current_word_index = (i : Int))
    (h1 : i < st.dict_count) (hm : st.currentWord.strings.length = m) :
    commitFault st = st.freed.any (fun p => decide (p.1 = i ∧ p.2 < m)) := by
  unfold commitFault
  have hd : decide ((0 : Int) ≤ (i : Int) ∧ (i : Int) < (st.dict_count : Int)) = true :=
    decide_eq_true ⟨Int.ofNat_nonneg i, by exact_mod_cast h1⟩
  rw [h0, hm, hd, Bool.true_and, Int.toNat_ofNat]

/-- The line `: W t ;` for a numeric literal `t` and a new name `W`: the definition is
committed unless the slot it is appended in holds a freed pointer in its first string
cell, which `;` would free again. -/
theorem interpret_literal_definition (fs : List Char → Option (List (List Char)))
    (fuel : Nat) (W t : List Char) (n : Int) (st : State)
    (hcomp : st.compiling = false) (hlen : st.dictionary.length = DICT_SIZE)
    (hdc : st.dict_count < DICT_SIZE)
    (hW : isToken W = true) (hWfresh : findCompiledWordIndex W st < 0)
    (ht : isToken t = true) (hnum : mpz_set_str t = some n) (htW : ¬ t = W)
    (htfresh : findCompiledWordIndex t st < 0) :
    interpret fs (fuel + 4) (": ".toList ++ W ++ " ".toList ++ t ++ " ;".toList) st
      = if st.freed.any (fun p => decide (p.1 = st.dict_count ∧ p.2 < 1)) = true then none
        else some (definedLiteral W t st) := by
  have hdl : st.dict_count < st.dictionary.length := by
    rw [hlen]
    exact hdc
  have hin : ": ".toList ++ W ++ " ".toList ++ t ++ " ;".toList
      = ":".toList ++ ' ' :: (W ++ ' ' :: (t ++ ' ' :: ";".toList)) := by
    simp
  have hsemi : ¬ t = ";".toList := number_ne t _ n hnum (by decide)
  have hW0 : findCompiledWordIndex W { st with error_flag := false } < 0 := hWfresh
  have hdc0 : ({ st with error_flag := false } : State).dict_count < DICT_SIZE := hdc
  have hfind2 : findCompiledWordIndex t
      { st with error_flag := false, compiling := true,
                currentWord := { name := W, code := [], strings := [] },
                dictionary := st.dictionary.set st.dict_count
                  { name := W, code := [], strings := [] },
                dict_count := st.dict_count + 1,
                current_word_index := (st.dict_count : Int) } < 0 := by
    rw [findCompiledWordIndex_append t { name := W, code := [], strings := [] } st
      _ hdl rfl rfl htfresh htW]
    decide
  unfold interpret
  rw [hin, strtok_r_token _ _ (by decide),
    interpretLoop_colon fs (fuel + 3) _ W _ { st with error_flag := false } rfl hcomp
      (strtok_r_token W _ hW) (redefineFault_fresh W _ hW0),
    strtok_r_token t _ ht, beginDefinition_fresh W _ hW0 hdc0,
    interpretLoop_compile fs (fuel + 2) t _ _ rfl rfl hsemi,
    compileToken_number t _ n _ hnum hfind2 (by simp) (by simp)]
  simp only [Option.some_bind]
  rw [strtok_r_last _ (by decide), interpretLoop_semicolon fs (fuel + 1) [] _ rfl rfl]
  unfold emit
  rw [if_pos (by simp)]
  simp only [Option.some_bind]
  rw [commitFault_eq _ st.dict_count 1 (by rfl) (by simp) (by rfl)]
  by_cases hany : st.freed.any (fun p => decide (p.1 = st.dict_count ∧ p.2 < 1)) = true
  · rw [if_pos hany, if_pos hany]
  · rw [if_neg hany, if_neg hany]
    have hany' : st.freed.any (fun p => decide (p.1 = st.dict_count ∧ p.2 < 1)) = false := by
      cases hq : st.freed.any (fun p => decide (p.1 = st.dict_count ∧ p.2 < 1)) with
      | false => rfl
      | true => exact absurd hq hany
    have hov := overwritten_of_any _ _ _ hany'
    rw [strtok_r_nil, interpretLoop_none]
    unfold commitWord
    simp only [List.append_assoc, List.nil_append, List.singleton_append,
      List.length_singleton, Int.toNat_ofNat, hov]
    simp [definedLiteral, literalWord, hdc, hdl]

/-- The condition of the double free at the commit of a one-string definition appended
at `dict_count`, in terms of membership. -/
theorem any_slot_false (st : State) (hslot : (st.dict_count, 0) ∉ st.freed) :
    st.freed.any (fun p => decide (p.1 = st.dict_count ∧ p.2 < 1)) = false := by
  rw [List.any_eq_false]
  intro p hp
  simp only [decide_eq_true_eq]
  rintro ⟨h1, h2⟩
  apply hslot
  have hp2 : p.2 = 0 := by omega
  have hpe : p = (st.dict_count, 0) := Prod.ext h1 hp2
  rw [← hpe]
  exact hp

/-- C17 (counterexample): a literal does not always survive.  (1) `: A IF ;` leaves the
entry of its `IF` on the control stack, with the address 0; in `: B 5 THEN 7 ;` the
literal `5` is compiled to `PUSH 0` at index 0 and `THEN` rewrites the operand of that
instruction to 1, the index of the text `7`: executing `B` pushes 7 twice and never 5,
although `5` is the name of no word.  (2) After `: A 1 ;` and `FORGET A` the string of
slot 0 is freed and its pointer is still there; `: B 2 ;` frees it a second time at `;`,
for every amount of fuel the definition has no result. -/
theorem C17_literal_patched_through_stale_entry :
    (session noFiles 50 [": A IF ;".toList, ": B 5 THEN 7 ;".toList, "B".toList] initState).map
        (fun st => (st.stack, st.error_flag, (st.dictionary.getD 1 emptyWord).code,
          (st.dictionary.getD 1 emptyWord).strings))
      = some ([7, 7], false,
          [{ opcode := OpCode.OP_PUSH, operand := 1 }, { opcode := OpCode.OP_PUSH, operand := 1 },
           { opcode := OpCode.OP_END, operand := 0 }],
          ["5".toList, "7".toList])
    ∧ mpz_set_str "5".toList = some 5
    ∧ (session noFiles 50 [": A IF ;".toList] initState).map
        (fun st => (decide (findCompiledWordIndex "5".toList st < 0), st.control_stack.map (fun e => e.addr)))
      = some (true, [0])
    ∧ (session noFiles 50 [": A 1 ;".toList, "FORGET A".toList] initState).map
        (fun st => (st.dict_count, st.freed)) = some (0, [(0, 0)])
    ∧ ∀ fuel, interpret noFiles fuel ": B 2 ;".toList forgottenState = none := by
  refine ⟨by decide!, by decide, by decide!, by decide!, ?_⟩
  intro fuel
  have hfacts : (forgottenState.compiling, forgottenState.dictionary.length,
      forgottenState.dict_count, forgottenState.freed,
      decide (findCompiledWordIndex "B".toList forgottenState < 0),
      decide (findCompiledWordIndex "2".toList forgottenState < 0))
      = (false, DICT_SIZE, 0, [(0, 0)], true, true) := by decide!
  simp only [Prod.mk.injEq, decide_eq_true_eq] at hfacts
  obtain ⟨h1, h2, h3, h4, h5, h6⟩ := hfacts
  match fuel with
  | 0 => rfl
  | 1 => decide!
  | 2 => decide!
  | 3 => decide!
  | k + 4 =>
    have h := interpret_literal_definition noFiles k "B".toList "2".toList 2 forgottenState
      h1 h2 (by rw [h3]; decide) (by decide) h5 (by decide) (by decide) (by decide) h6
    rw [h4, h3] at h
    exact h

/-- C17 (amended): let `t` be a token that parses to the integer `n` (of any magnitude).
(1) In any definition under way in which `t` is not the name of a dictionary word (a
numeric text is never the name of a primitive), `compileToken` appends `t` to the string
pool and an `OP_PUSH` of its index to the code; if no entry of the control stack holds the
index of that instruction, then after any further tokens compiled and the `END` of `;`
the instruction and the text are still at their places, in `currentWord` and, after the
commit, in the dictionary entry.  (2) An `OP_PUSH` whose operand indexes a string with the
text `t`, executed without touching freed memory on a stack with room, pushes exactly
`n`.  (3) In immediate mode, whatever the number of words in the dictionary as long as
it has room for a new name `W` different from `t`, and provided the pointer left in the
first string slot of the new entry is not a freed one, interpreting `: W t ;` returns and
commits `W` with the text `t` in its string pool and the code `PUSH 0, END`, and
executing the committed word on a stack `s` with room pushes exactly `n`. -/
theorem C17_numeric_literal_round_trip (fs : List Char → Option (List (List Char)))
    (fuel : Nat) (t : List Char) (n : Int) (hnum : mpz_set_str t = some n) :
    (∀ (st1 : State) (rest : List Char), findCompiledWordIndex t st1 < 0 →
        st1.currentWord.code.length < WORD_CODE_SIZE →
        st1.currentWord.strings.length < WORD_CODE_SIZE →
        compileToken t rest st1 = some (literalAdded t st1, rest)
        ∧ ((∀ e ∈ st1.control_stack, e.addr ≠ (st1.currentWord.code.length : Int)) →
            ∀ (ts : List (List Char × List Char)) (st3 st4 : State),
              compileSeq ts (literalAdded t st1) = some st3 →
              emit { opcode := OpCode.OP_END, operand := 0 } st3 = some st4 →
              st4.currentWord.code[st1.currentWord.code.length]?
                  = some { opcode := OpCode.OP_PUSH,
                           operand := (st1.currentWord.strings.length : Int) }
              ∧ st4.currentWord.strings[st1.currentWord.strings.length]? = some t
              ∧ (0 ≤ st4.current_word_index → st4.current_word_index < st4.dict_count →
                  st4.current_word_index.toNat < st4.dictionary.length →
                  ((commitWord st4).dictionary.getD st4.current_word_index.toNat
                      emptyWord).code[st1.currentWord.code.length]?
                    = some { opcode := OpCode.OP_PUSH,
                             operand := (st1.currentWord.strings.length : Int) }
                  ∧ ((commitWord st4).dictionary.getD st4.current_word_index.toNat
                      emptyWord).strings[st1.currentWord.strings.length]? = some t)))
    ∧ (∀ (wr : WordRef) (S : State) (ip k : Int), S.error_flag = false →
        stringAt (wordOf S wr) k = some t →
        heapFault { opcode := OpCode.OP_PUSH, operand := k } wr S = false →
        S.stack.length < STACK_SIZE →
        executeInstruction fs (fuel + 1) { opcode := OpCode.OP_PUSH, operand := k } ip wr S
          = some ({ S with stack := n :: S.stack, result := n }, ip))
    ∧ (∀ (W : List Char) (st : State) (s : List Int),
        st.compiling = false → st.dictionary.length = DICT_SIZE → st.dict_count < DICT_SIZE →
        isToken W = true → findCompiledWordIndex W st < 0 →
        isToken t = true → ¬ t = W → findCompiledWordIndex t st < 0 →
        (st.dict_count, 0) ∉ st.freed → s.length < STACK_SIZE →
        interpret fs (fuel + 4) (": ".toList ++ W ++ " ".toList ++ t ++ " ;".toList) st
          = some (definedLiteral W t st)
        ∧ (definedLiteral W t st).dictionary.getD st.dict_count emptyWord = literalWord W t
        ∧ executeCompiledWord fs (fuel + 3) (WordRef.dict st.dict_count)
            { definedLiteral W t st with stack := s }
          = some { definedLiteral W t st with stack := n :: s, result := n }) := by
  refine ⟨?_, ?_, ?_⟩
  · intro st1 rest hf1 hc1 hs1
    refine ⟨compileToken_number t rest n st1 hnum hf1 hc1 hs1, ?_⟩
    intro hcs ts st3 st4 hseq hemit
    have h0 : LitInv st1.currentWord.code.length
        { opcode := OpCode.OP_PUSH, operand := (st1.currentWord.strings.length : Int) }
        st1.currentWord.strings.length t (literalAdded t st1) := by
      refine ⟨?_, ?_, hcs⟩
      · simp [literalAdded]
      · simp [literalAdded]
    have h3 := compileSeq_lit _ _ _ _ ts _ st3 hseq h0
    have h4 := (emit_lit hemit h3).1
    refine ⟨h4.1, h4.2.1, ?_⟩
    intro hi0 hi1 hi2
    rw [commitWord_getD st4 hi0 hi1 hi2]
    exact ⟨h4.1, h4.2.1⟩
  · intro wr S ip k herr hk hheap hroom
    rw [executeInstruction_primitive fs fuel _ ip wr S herr (by simp) hheap]
    exact executePrimitive_push_string k ip _ S t n hk hnum hroom
  · intro W st s hcomp hlen hdc hW hWfresh ht htW htfresh hslot hs
    have hdl : st.dict_count < st.dictionary.length := by
      rw [hlen]
      exact hdc
    have hany := any_slot_false st hslot
    refine ⟨?_, ?_, ?_⟩
    · rw [interpret_literal_definition fs fuel W t n st hcomp hlen hdc hW hWfresh ht hnum htW
        htfresh, hany]
      rfl
    · simp [definedLiteral, hdl, List.getD_eq_getElem?_getD]
    · have hw : ∀ S : State, S.dictionary = (definedLiteral W t st).dictionary →
          wordOf S (WordRef.dict st.dict_count) = literalWord W t := by
        intro S hS
        simp [wordOf, hS, definedLiteral, hdl, List.getD_eq_getElem?_getD]
      have hwS := hw { definedLiteral W t st with stack := s } rfl
      have hwS1 := hw { definedLiteral W t st with stack := n :: s, result := n } rfl
      have hex1 : executePrimitive { opcode := OpCode.OP_PUSH, operand := 0 } 0
          (wordOf { definedLiteral W t st with stack := s } (WordRef.dict st.dict_count))
          { definedLiteral W t st with stack := s }
          = some ({ definedLiteral W t st with stack := n :: s, result := n }, 0) := by
        rw [hwS]
        exact executePrimitive_push_string 0 0 (literalWord W t)
          { definedLiteral W t st with stack := s } t n rfl hnum hs
      have hex2 : executePrimitive { opcode := OpCode.OP_END, operand := 0 } (0 + 1)
          (wordOf { definedLiteral W t st with stack := n :: s, result := n }
            (WordRef.dict st.dict_count))
          { definedLiteral W t st with stack := n :: s, result := n }
          = some ({ definedLiteral W t st with stack := n :: s, result := n }, 0 + 1) := rfl
      have hh1 : heapFault { opcode := OpCode.OP_PUSH, operand := 0 }
          (WordRef.dict st.dict_count) { definedLiteral W t st with stack := s } = false := by
        simp [heapFault, readsFreed, definedLiteral, hslot]
      unfold executeCompiledWord
      rw [show fuel + 3 = (fuel + 1) + 2 from rfl,
        execLoop_step fs (fuel + 1) _ 0 _ _ _ _ (le_refl _)
          (by rw [hwS]; rfl) rfl (by simp) hex1 hh1,
        execLoop_step fs fuel _ (0 + 1) _ _ _ _ (by decide)
          (by rw [hwS1]; rfl) rfl (by simp) hex2 (by rfl),
        execLoop_done fs fuel _ _ _ (Or.inl (by rw [hwS1]; simp [literalWord, CompiledWord.code_length]))]

/-- C17 (witness): in a fresh session `: W 123456789012345678901234567890 ;` commits a
word whose execution pushes that number, which does not fit 64 bits. -/
theorem C17_numeric_literal_round_trip_witness :
    mpz_set_str "123456789012345678901234567890".toList = some 123456789012345678901234567890
    ∧ interpret noFiles (0 + 4)
        (": ".toList ++ "W".toList ++ " ".toList ++ "123456789012345678901234567890".toList ++ " ;".toList) initState
      = some (definedLiteral "W".toList "123456789012345678901234567890".toList initState)
    ∧ executeCompiledWord noFiles (0 + 3) (WordRef.dict initState.dict_count)
        { definedLiteral "W".toList "123456789012345678901234567890".toList initState with stack := [] }
      = some { definedLiteral "W".toList "123456789012345678901234567890".toList initState with
                 stack := 123456789012345678901234567890 :: [], result := 123456789012345678901234567890 } :=
  ⟨by decide,
   ((C17_numeric_literal_round_trip noFiles 0 "123456789012345678901234567890".toList
      123456789012345678901234567890 (by decide)).2.2 "W".toList initState []
      rfl (by decide) (by decide) (by decide) (by decide) (by decide) (by decide)
      (by decide) (by decide) (by decide)).1,
   ((C17_numeric_literal_round_trip noFiles 0 "123456789012345678901234567890".toList
      123456789012345678901234567890 (by decide)).2.2 "W".toList initState []
      rfl (by decide) (by decide) (by decide) (by decide) (by decide) (by decide)
      (by decide) (by decide) (by decide)).2.2⟩

/-! ### C18 : `VARIABLE X` -/

/-- C18: in immediate mode, when `var_count = k < VAR_SIZE`, the dictionary is not full and
no word is named `X` (a token), interpreting `VARIABLE X` returns with `var_count = k + 1`,
variable `k` named `X` and holding 0, the variables `0..k-1` unchanged, and a word `X`
appended to the dictionary (the entries before it unchanged) whose code is the single
instruction `PUSH k`; executing that word on a stack `s` with room pushes `k`. -/
theorem C18_variable_adds_accessor (fs : List Char → Option (List (List Char)))
    (fuel : Nat) (X : List Char) (st : State) (s : List Int)
    (hcomp : st.compiling = false) (hlen : st.dictionary.length = DICT_SIZE)
    (hdc : st.dict_count < DICT_SIZE) (hX : isToken X = true)
    (hfresh : findCompiledWordIndex X st < 0) (hvars : st.vars.length < VAR_SIZE)
    (hs : s.length < STACK_SIZE) :
    interpret fs (fuel + 3) ("VARIABLE ".toList ++ X) st
      = some (variableAdded X { st with error_flag := false })
    ∧ (variableAdded X { st with error_flag := false }).vars.length = st.vars.length + 1
    ∧ (variableAdded X { st with error_flag := false }).vars[st.vars.length]?
        = some { name := X, value := 0 }
    ∧ (∀ j : Nat, j < st.vars.length →
        (variableAdded X { st with error_flag := false }).vars[j]? = st.vars[j]?)
    ∧ (variableAdded X { st with error_flag := false }).dict_count = st.dict_count + 1
    ∧ (variableAdded X { st with error_flag := false }).dictionary[st.dict_count]?
        = some { name := X,
                 code := [{ opcode := OpCode.OP_PUSH, operand := (st.vars.length : Int) }],
                 strings := [] }
    ∧ (∀ j : Nat, j < st.dict_count →
        (variableAdded X { st with error_flag := false }).dictionary[j]? = st.dictionary[j]?)
    ∧ executeCompiledWord fs (fuel + 2) (WordRef.dict st.dict_count)
        { variableAdded X { st with error_flag := false } with stack := s }
      = some { variableAdded X { st with error_flag := false } with
                 stack := (st.vars.length : Int) :: s, result := (st.vars.length : Int) } := by
  have hdl : st.dict_count < st.dictionary.length := by
    rw [hlen]
    exact hdc
  refine ⟨?_, ?_, ?_, ?_, ?_, ?_, ?_, ?_⟩
  · unfold interpret
    rw [show "VARIABLE ".toList ++ X = "VARIABLE".toList ++ ' ' :: X from rfl,
      strtok_r_token _ _ (by decide),
      interpretLoop_variable fs fuel X X [] { st with error_flag := false } rfl hcomp
        (strtok_r_last X hX) hfresh hdc hvars,
      strtok_r_nil, interpretLoop_none]
  · simp [variableAdded]
  · simp [variableAdded]
  · intro j hj
    simp [variableAdded, List.getElem?_append_left hj]
  · rfl
  · simp [variableAdded, accessorWord, hdl]
  · intro j hj
    have hne : st.dict_count ≠ j := by omega
    simp [variableAdded, List.getElem?_set, hne]
  · have hw : wordOf { variableAdded X { st with error_flag := false } with stack := s }
        (WordRef.dict st.dict_count) = accessorWord X st.vars.length := by
      simp [wordOf, variableAdded, hdl, List.getD_eq_getElem?_getD]
    have hex : executePrimitive
        { opcode := OpCode.OP_PUSH, operand := (st.vars.length : Int) } 0
        (wordOf { variableAdded X { st with error_flag := false } with stack := s }
          (WordRef.dict st.dict_count))
        { variableAdded X { st with error_flag := false } with stack := s }
        = some ({ variableAdded X { st with error_flag := false } with
                    stack := (st.vars.length : Int) :: s,
                    result := (st.vars.length : Int) }, 0) := by
      rw [hw]
      simp [executePrimitive, accessorWord, stringAt, push, hs]
    unfold executeCompiledWord
    rw [execLoop_step fs fuel _ 0 _ _ _ _ (le_refl _) (by rw [hw]; rfl) rfl (by simp) hex
        (by simp only [heapFault, hw]; simp [accessorWord, CompiledWord.string_count]),
      execLoop_done fs fuel _ _ _ (Or.inl (by
        have hw1 : wordOf { variableAdded X { st with error_flag := false } with
              stack := (st.vars.length : Int) :: s, result := (st.vars.length : Int) }
            (WordRef.dict st.dict_count) = accessorWord X st.vars.length := by
          simp [wordOf, variableAdded, hdl, List.getD_eq_getElem?_getD]
        rw [hw1]
        simp [accessorWord, CompiledWord.code_length]))]

/-- C18 (witness): `VARIABLE X` in a fresh session adds variable 0 and the word `X`, whose
execution pushes 0. -/
theorem C18_variable_adds_accessor_witness :
    initState.compiling = false ∧ initState.dictionary.length = DICT_SIZE
    ∧ initState.dict_count < DICT_SIZE ∧ isToken "X".toList = true
    ∧ findCompiledWordIndex "X".toList initState < 0 ∧ initState.vars.length < VAR_SIZE
    ∧ ([] : List Int).length < STACK_SIZE
    ∧ interpret noFiles (0 + 3) ("VARIABLE ".toList ++ "X".toList) initState
      = some (variableAdded "X".toList { initState with error_flag := false })
    ∧ executeCompiledWord noFiles (0 + 2) (WordRef.dict initState.dict_count)
        { variableAdded "X".toList { initState with error_flag := false } with stack := [] }
      = some { variableAdded "X".toList { initState with error_flag := false } with
                 stack := (initState.vars.length : Int) :: [],
                 result := (initState.vars.length : Int) } :=
  ⟨rfl, by decide, by decide, by decide, by decide, by decide, by decide,
   (C18_variable_adds_accessor noFiles 0 "X".toList initState [] rfl (by decide) (by decide)
      (by decide) (by decide) (by decide) (by decide)).1,
   (C18_variable_adds_accessor noFiles 0 "X".toList initState [] rfl (by decide) (by decide)
      (by decide) (by decide) (by decide) (by decide)).2.2.2.2.2.2.2⟩

/-! ### C19 : `STORE` and `FETCH` -/

/-- C19: `STORE` pops the value first (top) and the index second.  With the error flag
clear and at most `VAR_SIZE` variables: for every valid index `i` (`0 <= i < var_count`),
value `v` and stack `s`, executing `STORE` on `s·i·v` leaves the stack `s`, sets the value
of variable `i` to `v` and leaves its name and every other variable as they were, and a
subsequent `FETCH` on `s·i` yields `s·v`; an index outside `[0, var_count)` sets the error
flag and changes no variable. -/
theorem C19_store_then_fetch (fs : List Char → Option (List (List Char))) (fuel : Nat)
    (operand ip : Int) (word : WordRef) (st : State) (s : List Int) (i v : Int)
    (herr : st.error_flag = false) (hcap : (v :: i :: s).length ≤ STACK_SIZE)
    (hvars : st.vars.length ≤ VAR_SIZE) :
    (0 ≤ i ∧ i < st.vars.length →
      executeInstruction fs (fuel + 1) { opcode := OpCode.OP_STORE, operand := operand } ip word
          { st with stack := v :: i :: s }
        = some ({ st with stack := s,
                          vars := st.vars.set i.toNat
                            { name := (st.vars.getD i.toNat { name := [], value := 0 }).name,
                              value := v } }, ip)
      ∧ (st.vars.set i.toNat
            { name := (st.vars.getD i.toNat { name := [], value := 0 }).name,
              value := v })[i.toNat]?
          = some { name := (st.vars.getD i.toNat { name := [], value := 0 }).name, value := v }
      ∧ (∀ j : Nat, j ≠ i.toNat →
          (st.vars.set i.toNat
            { name := (st.vars.getD i.toNat { name := [], value := 0 }).name,
              value := v })[j]? = st.vars[j]?)
      ∧ executeInstruction fs (fuel + 1) { opcode := OpCode.OP_FETCH, operand := operand } ip word
          { st with stack := i :: s,
                    vars := st.vars.set i.toNat
                      { name := (st.vars.getD i.toNat { name := [], value := 0 }).name,
                        value := v } }
        = some ({ st with stack := v :: s,
                          vars := st.vars.set i.toNat
                            { name := (st.vars.getD i.toNat { name := [], value := 0 }).name,
                              value := v } }, ip))
    ∧ (¬ (0 ≤ i ∧ i < st.vars.length) →
      executeInstruction fs (fuel + 1) { opcode := OpCode.OP_STORE, operand := operand } ip word
          { st with stack := v :: i :: s }
        = some ({ st with stack := s, error_flag := true,
                          output := st.output ++ [Output.text "Error: ",
                            Output.text "STORE: Invalid variable index",
                            Output.text "\n"] }, ip)) := by
  have h1 : s.length < 1000 := by
    simp only [List.length_cons, STACK_SIZE] at hcap
    omega
  have he : ({ st with stack := v :: i :: s } : State).error_flag = false := herr
  constructor
  · rintro ⟨hi0, hi⟩
    have hv100 : st.vars.length ≤ 100 := hvars
    have hfit : mpz_fits_slong_p i = true := by
      unfold mpz_fits_slong_p
      simp only [decide_eq_true_eq]
      omega
    have hsi : mpz_get_si i = i := mpz_get_si_of_fits i hfit
    have hlt : i.toNat < st.vars.length := by omega
    obtain ⟨x, hx⟩ : ∃ x, st.vars[i.toNat]? = some x :=
      ⟨st.vars[i.toNat], List.getElem?_eq_getElem hlt⟩
    have hgetD : st.vars.getD i.toNat { name := [], value := 0 } = x := by
      simp [List.getD_eq_getElem?_getD, hx]
    rw [hgetD]
    refine ⟨?_, ?_, ?_, ?_⟩
    · rw [executeInstruction_primitive _ _ _ _ _ _ he (by simp) (by rfl)]
      simp [executePrimitive, pop, herr, hfit, hsi, hi0, hi, hx]
    · simp [List.getElem?_set, hlt]
    · intro j hj
      simp [List.getElem?_set, Ne.symm hj]
    · have he2 : ({ st with stack := i :: s,
                              vars := st.vars.set i.toNat { name := x.name, value := v } }
          : State).error_flag = false := herr
      rw [executeInstruction_primitive _ _ _ _ _ _ he2 (by simp) (by rfl)]
      simp [executePrimitive, pop, push, herr, hfit, hsi, hi0, hi, hlt, h1]
  · intro hout
    rw [executeInstruction_primitive _ _ _ _ _ _ he (by simp) (by rfl)]
    by_cases hfit : mpz_fits_slong_p i = true
    · have hsi : mpz_get_si i = i := mpz_get_si_of_fits i hfit
      have hc : ¬ (0 ≤ i ∧ i < (st.vars.length : Int)) := hout
      simp only [not_and, not_lt] at hc
      by_cases h0 : 0 ≤ i
      · have := hc h0
        simp [executePrimitive, pop, herr, hfit, hsi, h0, this, set_error]
      · simp [executePrimitive, pop, herr, hfit, hsi, h0, set_error]
    · simp [executePrimitive, pop, herr, hfit, set_error]

/-- C19 (witness): with one variable `X`, `STORE` on the stack `0 42` (42 on top) sets
the variable to 42 and empties the stack. -/
theorem C19_store_then_fetch_witness :
    ({ initState with vars := [{ name := "X".toList, value := 0 }] } : State).error_flag = false
    ∧ ([42, 0] : List Int).length ≤ STACK_SIZE
    ∧ ({ initState with vars := [{ name := "X".toList, value := 0 }] } : State).vars.length
        ≤ VAR_SIZE
    ∧ ((0 : Int) ≤ 0 ∧ (0 : Int)
        < ({ initState with vars := [{ name := "X".toList, value := 0 }] } : State).vars.length)
    ∧ (executeInstruction noFiles 1 { opcode := OpCode.OP_STORE, operand := 0 } 0
          (WordRef.temp emptyWord)
          { initState with vars := [{ name := "X".toList, value := 0 }], stack := [42, 0] }).map
        (fun r => (r.1.stack, r.1.vars, r.1.error_flag))
      = some ([], [{ name := "X".toList, value := 42 }], false) :=
  ⟨rfl, by decide, by decide, by decide,
   by rw [((C19_store_then_fetch noFiles 0 0 0 (WordRef.temp emptyWord)
            { initState with vars := [{ name := "X".toList, value := 0 }] } [] 0 42 rfl
            (by decide) (by decide)).1 (by decide)).1]
      rfl⟩

/-! ### C20 : unknown words in immediate mode -/

/-- C20: in immediate mode, a token `t` that is not a number, not `:`, `LOAD`, `."`,
`FORGET`, `VARIABLE` or a primitive, and not a dictionary name, only appends the report
`Unknown word: t` to the output: the value stack, the dictionary, the variables and the
error flag are as `interpret` found them, and the rest of the line is interpreted from
that state; so `2 FOO 3 +` leaves 5. -/
theorem C20_unknown_word_is_skipped (fs : List Char → Option (List (List Char)))
    (fuel : Nat) (t rest : List Char) (st : State)
    (hcomp : st.compiling = false) (hw : isWordName t = true)
    (hfind : findCompiledWordIndex t st < 0) :
    interpret fs (fuel + 1) (t ++ ' ' :: rest) st
      = interpret fs fuel rest
          { st with output := st.output ++ [Output.text "Unknown word: ",
                      Output.text (String.mk t), Output.text "\n"] }
    ∧ (interpret noFiles 50 "2 FOO 3 +".toList initState).map
        (fun r => (r.stack, r.error_flag, r.dict_count, r.vars))
      = some ([5], false, 0, []) := by
  have ht : isToken t = true := by
    unfold isWordName at hw
    simp only [Bool.and_eq_true] at hw
    exact hw.1.1.1.1.1.1.1
  constructor
  · unfold interpret
    rw [strtok_r_token t rest ht,
      interpretLoop_unknown fs fuel t rest { st with error_flag := false } rfl hcomp hw hfind]
  · decide!

/-- C20 (witness): `FOO 3` in the initial state is `3` after the report on `FOO`. -/
theorem C20_unknown_word_is_skipped_witness :
    initState.compiling = false ∧ isWordName "FOO".toList = true
    ∧ findCompiledWordIndex "FOO".toList initState < 0
    ∧ interpret noFiles (1 + 1) ("FOO".toList ++ ' ' :: "3".toList) initState
      = interpret noFiles 1 "3".toList
          { initState with output := initState.output ++ [Output.text "Unknown word: ",
                             Output.text (String.mk "FOO".toList), Output.text "\n"] } :=
  ⟨rfl, by decide, by decide,
   (C20_unknown_word_is_skipped noFiles 1 "FOO".toList "3".toList initState rfl
      (by decide) (by decide)).1⟩

/-! ### Lemmas on control flow and the compiler -/

/-- With `error_flag` set the token loop of `interpret` stops at once. -/
theorem interpretLoop_error (fs : List Char → Option (List (List Char))) (fuel : Nat)
    (tok : Option (List Char × List Char)) (st : State) (herr : st.error_flag = true) :
    interpretLoop fs (fuel + 1) tok st = some st := by
  cases tok with
  | none => rw [interpretLoop]
  | some p =>
    obtain ⟨t, sp⟩ := p
    rw [interpretLoop]
    simp only [herr, if_true]

/-- The one-instruction tokens of `compileToken`: the instruction is appended. -/
theorem compileToken_primitive (t rest : List Char) (op : OpCode) (st : State)
    (hop : primitiveOpcode t = some op)
    (hroom : st.currentWord.code.length < WORD_CODE_SIZE) :
    compileToken t rest st
      = some (withCode st (st.currentWord.code ++ [{ opcode := op, operand := 0 }])
                st.control_stack, rest) := by
  unfold compileToken
  rw [hop]
  simp [emit, hroom, withCode]

/-- The case `IF` of `compileToken`: a `BRANCH_FALSE` is appended and its index pushed. -/
theorem compileToken_IF (rest : List Char) (st : State)
    (hroom : st.currentWord.code.length < WORD_CODE_SIZE)
    (hcs : st.control_stack.length < CONTROL_STACK_SIZE) :
    compileToken "IF".toList rest st
      = some (withCode st (st.currentWord.code ++ [{ opcode := OpCode.OP_BRANCH_FALSE, operand := 0 }])
                ({ type := ControlType.CT_IF, addr := (st.currentWord.code.length : Int) }
                  :: st.control_stack), rest) := by
  unfold compileToken
  rw [show primitiveOpcode "IF".toList = none from by decide]
  simp only [if_false, if_true]
  simp [emit, pushControl, hroom, hcs, withCode, CompiledWord.code_length]

/-- The case `CASE` of `compileToken`: an `OP_CASE` is appended and its index pushed. -/
theorem compileToken_CASE (rest : List Char) (st : State)
    (hroom : st.currentWord.code.length < WORD_CODE_SIZE)
    (hcs : st.control_stack.length < CONTROL_STACK_SIZE) :
    compileToken "CASE".toList rest st
      = some (withCode st (st.currentWord.code ++ [{ opcode := OpCode.OP_CASE, operand := 0 }])
                ({ type := ControlType.CT_CASE, addr := (st.currentWord.code.length : Int) }
                  :: st.control_stack), rest) := by
  unfold compileToken
  rw [show primitiveOpcode "CASE".toList = none from by decide]
  simp only [show ¬ "CASE".toList = "IF".toList from by decide,
    show ¬ "CASE".toList = "ELSE".toList from by decide,
    show ¬ "CASE".toList = "THEN".toList from by decide,
    show ¬ "CASE".toList = "DO".toList from by decide,
    show ¬ "CASE".toList = "LOOP".toList from by decide,
    show ¬ "CASE".toList = "LOAD".toList from by decide,
    show ¬ "CASE".toList = ['.', dquote] from by decide, if_false, if_true]
  simp [emit, pushControl, hroom, hcs, withCode, CompiledWord.code_length]

/-- The case `OF` of `compileToken`: an `OP_OF` is appended and its index pushed. -/
theorem compileToken_OF (rest : List Char) (st : State)
    (hroom : st.currentWord.code.length < WORD_CODE_SIZE)
    (hcs : st.control_stack.length < CONTROL_STACK_SIZE) :
    compileToken "OF".toList rest st
      = some (withCode st (st.currentWord.code ++ [{ opcode := OpCode.OP_OF, operand := 0 }])
                ({ type := ControlType.CT_OF, addr := (st.currentWord.code.length : Int) }
                  :: st.control_stack), rest) := by
  unfold compileToken
  rw [show primitiveOpcode "OF".toList = none from by decide]
  simp only [show ¬ "OF".toList = "IF".toList from by decide,
    show ¬ "OF".toList = "ELSE".toList from by decide,
    show ¬ "OF".toList = "THEN".toList from by decide,
    show ¬ "OF".toList = "DO".toList from by decide,
    show ¬ "OF".toList = "LOOP".toList from by decide,
    show ¬ "OF".toList = "LOAD".toList from by decide,
    show ¬ "OF".toList = ['.', dquote] from by decide,
    show ¬ "OF".toList = "CASE".toList from by decide, if_false, if_true]
  simp [emit, pushControl, hroom, hcs, withCode, CompiledWord.code_length]

/-- The case `BEGIN` of `compileToken`: an `OP_BEGIN` is appended and its index pushed as a `CT_DO` entry. -/
theorem compileToken_BEGIN (rest : List Char) (st : State)
    (hroom : st.currentWord.code.length < WORD_CODE_SIZE)
    (hcs : st.control_stack.length < CONTROL_STACK_SIZE) :
    compileToken "BEGIN".toList rest st
      = some (withCode st (st.currentWord.code ++ [{ opcode := OpCode.OP_BEGIN, operand := 0 }])
                ({ type := ControlType.CT_DO, addr := (st.currentWord.code.length : Int) }
                  :: st.control_stack), rest) := by
  unfold compileToken
  rw [show primitiveOpcode "BEGIN".toList = none from by decide]
  simp only [show ¬ "BEGIN".toList = "IF".toList from by decide,
    show ¬ "BEGIN".toList = "ELSE".toList from by decide,
    show ¬ "BEGIN".toList = "THEN".toList from by decide,
    show ¬ "BEGIN".toList = "DO".toList from by decide,
    show ¬ "BEGIN".toList = "LOOP".toList from by decide,
    show ¬ "BEGIN".toList = "LOAD".toList from by decide,
    show ¬ "BEGIN".toList = ['.', dquote] from by decide,
    show ¬ "BEGIN".toList = "CASE".toList from by decide,
    show ¬ "BEGIN".toList = "OF".toList from by decide,
    show ¬ "BEGIN".toList = "ENDOF".toList from by decide,
    show ¬ "BEGIN".toList = "ENDCASE".toList from by decide, if_false, if_true]
  simp [emit, pushControl, hroom, hcs, withCode, CompiledWord.code_length]

/-- The case `WHILE` of `compileToken`: an `OP_WHILE` is appended and its index pushed as a `CT_IF` entry. -/
theorem compileToken_WHILE (rest : List Char) (st : State)
    (hroom : st.currentWord.code.length < WORD_CODE_SIZE)
    (hcs : st.control_stack.length < CONTROL_STACK_SIZE) :
    compileToken "WHILE".toList rest st
      = some (withCode st (st.currentWord.code ++ [{ opcode := OpCode.OP_WHILE, operand := 0 }])
                ({ type := ControlType.CT_IF, addr := (st.currentWord.code.length : Int) }
                  :: st.control_stack), rest) := by
  unfold compileToken
  rw [show primitiveOpcode "WHILE".toList = none from by decide]
  simp only [show ¬ "WHILE".toList = "IF".toList from by decide,
    show ¬ "WHILE".toList = "ELSE".toList from by decide,
    show ¬ "WHILE".toList = "THEN".toList from by decide,
    show ¬ "WHILE".toList = "DO".toList from by decide,
    show ¬ "WHILE".toList = "LOOP".toList from by decide,
    show ¬ "WHILE".toList = "LOAD".toList from by decide,
    show ¬ "WHILE".toList = ['.', dquote] from by decide,
    show ¬ "WHILE".toList = "CASE".toList from by decide,
    show ¬ "WHILE".toList = "OF".toList from by decide,
    show ¬ "WHILE".toList = "ENDOF".toList from by decide,
    show ¬ "WHILE".toList = "ENDCASE".toList from by decide,
    show ¬ "WHILE".toList = "BEGIN".toList from by decide, if_false, if_true]
  simp [emit, pushControl, hroom, hcs, withCode, CompiledWord.code_length]

/-- The case `DO` of `compileToken`: an `OP_DO` is appended and its index pushed. -/
theorem compileToken_DO (rest : List Char) (st : State)
    (hroom : st.currentWord.code.length < WORD_CODE_SIZE)
    (hcs : st.control_stack.length < CONTROL_STACK_SIZE) :
    compileToken "DO".toList rest st
      = some (withCode st (st.currentWord.code ++ [{ opcode := OpCode.OP_DO, operand := 0 }])
                ({ type := ControlType.CT_DO, addr := (st.currentWord.code.length : Int) }
                  :: st.control_stack), rest) := by
  unfold compileToken
  rw [show primitiveOpcode "DO".toList = none from by decide]
  simp only [show ¬ "DO".toList = "IF".toList from by decide,
    show ¬ "DO".toList = "ELSE".toList from by decide,
    show ¬ "DO".toList = "THEN".toList from by decide, if_false, if_true]
  simp [emit, pushControl, hroom, hcs, withCode, CompiledWord.code_length]

/-- Patching an operand keeps the length of the code. -/
@[simp] theorem patchOperand_length (code : List Instruction) (a v : Int) :
    (patchOperand code a v).length = code.length := by
  unfold patchOperand
  split
  · split <;> simp
  · rfl

/-- The case `ELSE` of `compileToken` with a `CT_IF` entry on top: a `BRANCH` is appended,
the instruction of the entry is patched to the index after it, and the index of the
`BRANCH` replaces the entry. -/
theorem compileToken_ELSE (rest : List Char) (st : State) (a : Int) (es : List ControlEntry)
    (hroom : st.currentWord.code.length < WORD_CODE_SIZE)
    (hcs : st.control_stack = { type := ControlType.CT_IF, addr := a } :: es)
    (hlen : es.length < CONTROL_STACK_SIZE) :
    compileToken "ELSE".toList rest st
      = some (withCode st
                (patchOperand (st.currentWord.code ++ [{ opcode := OpCode.OP_BRANCH, operand := 0 }])
                  a ((st.currentWord.code.length : Int) + 1))
                ({ type := ControlType.CT_IF, addr := (st.currentWord.code.length : Int) } :: es),
              rest) := by
  unfold compileToken
  rw [show primitiveOpcode "ELSE".toList = none from by decide]
  simp only [show ¬ "ELSE".toList = "IF".toList from by decide, if_false, if_true]
  simp [emit, pushControl, patchHere, hroom, hcs, hlen, withCode, CompiledWord.code_length,
    patchOperand_length]

/-- The case `THEN` of `compileToken` with a `CT_IF` entry on top: the instruction of the
entry is patched to the current end of the code and the entry is popped. -/
theorem compileToken_THEN (rest : List Char) (st : State) (a : Int) (es : List ControlEntry)
    (hcs : st.control_stack = { type := ControlType.CT_IF, addr := a } :: es) :
    compileToken "THEN".toList rest st
      = some (withCode st (patchOperand st.currentWord.code a st.currentWord.code.length) es,
              rest) := by
  unfold compileToken
  rw [show primitiveOpcode "THEN".toList = none from by decide]
  simp only [show ¬ "THEN".toList = "IF".toList from by decide,
    show ¬ "THEN".toList = "ELSE".toList from by decide, if_false, if_true]
  simp [patchHere, hcs, withCode, CompiledWord.code_length]

/-- The case `LOOP` of `compileToken` with a `CT_DO` entry on top. -/
theorem compileToken_LOOP (rest : List Char) (st : State) (a : Int) (es : List ControlEntry)
    (hroom : st.currentWord.code.length < WORD_CODE_SIZE)
    (hcs : st.control_stack = { type := ControlType.CT_DO, addr := a } :: es) :
    compileToken "LOOP".toList rest st
      = some (withCode st (st.currentWord.code ++ [{ opcode := OpCode.OP_LOOP, operand := 0 }])
                es, rest) := by
  unfold compileToken
  rw [show primitiveOpcode "LOOP".toList = none from by decide]
  simp only [show ¬ "LOOP".toList = "IF".toList from by decide,
    show ¬ "LOOP".toList = "ELSE".toList from by decide,
    show ¬ "LOOP".toList = "THEN".toList from by decide,
    show ¬ "LOOP".toList = "DO".toList from by decide, if_false, if_true]
  simp [emit, hroom, hcs, withCode]

/-- The case `ENDOF` of `compileToken` with a `CT_OF` entry on top: an `OP_ENDOF` is
appended, the instruction of the entry is patched to the index after the `OP_ENDOF`, and
the index of the `OP_ENDOF` replaces the entry as a `CT_ENDOF` entry. -/
theorem compileToken_ENDOF (rest : List Char) (st : State) (a : Int) (es : List ControlEntry)
    (hroom : st.currentWord.code.length < WORD_CODE_SIZE)
    (hcs : st.control_stack = { type := ControlType.CT_OF, addr := a } :: es)
    (hlen : es.length < CONTROL_STACK_SIZE) :
    compileToken "ENDOF".toList rest st
      = some (withCode st
                (patchOperand (st.currentWord.code ++ [{ opcode := OpCode.OP_ENDOF, operand := 0 }])
                  a ((st.currentWord.code.length : Int) + 1))
                ({ type := ControlType.CT_ENDOF, addr := (st.currentWord.code.length : Int) }
                  :: es),
              rest) := by
  unfold compileToken
  rw [show primitiveOpcode "ENDOF".toList = none from by decide]
  simp only [show ¬ "ENDOF".toList = "IF".toList from by decide,
    show ¬ "ENDOF".toList = "ELSE".toList from by decide,
    show ¬ "ENDOF".toList = "THEN".toList from by decide,
    show ¬ "ENDOF".toList = "DO".toList from by decide,
    show ¬ "ENDOF".toList = "LOOP".toList from by decide,
    show ¬ "ENDOF".toList = "LOAD".toList from by decide,
    show ¬ "ENDOF".toList = ['.', dquote] from by decide,
    show ¬ "ENDOF".toList = "CASE".toList from by decide,
    show ¬ "ENDOF".toList = "OF".toList from by decide, if_false, if_true]
  simp [emit, pushControl, patchHere, hroom, hcs, hlen, withCode, CompiledWord.code_length,
    patchOperand_length]

/-- The case `REPEAT` of `compileToken` with two entries on the control stack: an
`OP_REPEAT` whose operand is the address of the second entry is appended, the instruction
of the top entry is patched to the index after the `OP_REPEAT`, both entries are popped. -/
theorem compileToken_REPEAT (rest : List Char) (st : State) (e1 e2 : ControlEntry)
    (es : List ControlEntry)
    (hroom : st.currentWord.code.length < WORD_CODE_SIZE)
    (hcs : st.control_stack = e1 :: e2 :: es) :
    compileToken "REPEAT".toList rest st
      = some (withCode st
                (patchOperand
                  (st.currentWord.code ++ [{ opcode := OpCode.OP_REPEAT, operand := e2.addr }])
                  e1.addr ((st.currentWord.code.length : Int) + 1))
                es, rest) := by
  unfold compileToken
  rw [show primitiveOpcode "REPEAT".toList = none from by decide]
  simp only [show ¬ "REPEAT".toList = "IF".toList from by decide,
    show ¬ "REPEAT".toList = "ELSE".toList from by decide,
    show ¬ "REPEAT".toList = "THEN".toList from by decide,
    show ¬ "REPEAT".toList = "DO".toList from by decide,
    show ¬ "REPEAT".toList = "LOOP".toList from by decide,
    show ¬ "REPEAT".toList = "LOAD".toList from by decide,
    show ¬ "REPEAT".toList = ['.', dquote] from by decide,
    show ¬ "REPEAT".toList = "CASE".toList from by decide,
    show ¬ "REPEAT".toList = "OF".toList from by decide,
    show ¬ "REPEAT".toList = "ENDOF".toList from by decide,
    show ¬ "REPEAT".toList = "ENDCASE".toList from by decide,
    show ¬ "REPEAT".toList = "BEGIN".toList from by decide,
    show ¬ "REPEAT".toList = "WHILE".toList from by decide, if_false, if_true]
  simp [emit, patchHere, hroom, hcs, withCode, CompiledWord.code_length]

/-- Patching the operand of the instruction at a valid index. -/
theorem patchOperand_getElem (code : List Instruction) (a : Nat) (v : Int) (i : Instruction)
    (h : code[a]? = some i) :
    (patchOperand code (a : Int) v)[a]? = some { opcode := i.opcode, operand := v } := by
  have hlt : a < code.length := (List.getElem?_eq_some.1 h).1
  unfold patchOperand
  simp [h, hlt]

/-- Patching an operand leaves the other instructions alone. -/
theorem patchOperand_getElem_ne (code : List Instruction) (a : Int) (v : Int) (j : Nat)
    (h : (j : Int) ≠ a) : (patchOperand code a v)[j]? = code[j]? := by
  unfold patchOperand
  split
  · split
    · rename_i h0 i hi
      have hne : a.toNat ≠ j := by omega
      simp [List.getElem?_set, hne]
    · rfl
  · rfl

@[simp] theorem patchAll_length (addrs : List Int) (v : Int) :
    ∀ code : List Instruction, (patchAll code addrs v).length = code.length := by
  induction addrs with
  | nil => intro code; rfl
  | cons a as ih =>
    intro code
    simp only [patchAll, List.foldl_cons]
    exact (ih _).trans (patchOperand_length code a v)

/-- An instruction whose index is none of the patched addresses is left alone. -/
theorem patchAll_getElem_not_mem (addrs : List Int) (v : Int) (j : Nat)
    (h : (j : Int) ∉ addrs) :
    ∀ code : List Instruction, (patchAll code addrs v)[j]? = code[j]? := by
  induction addrs with
  | nil => intro code; rfl
  | cons a as ih =>
    intro code
    simp only [List.mem_cons, not_or] at h
    simp only [patchAll, List.foldl_cons]
    exact (ih h.2 _).trans (patchOperand_getElem_ne code a v j h.1)

/-- An instruction whose index is one of the patched addresses has the operand `v`. -/
theorem patchAll_getElem_mem (addrs : List Int) (v : Int) (j : Nat)
    (h : (j : Int) ∈ addrs) :
    ∀ (code : List Instruction) (i : Instruction), code[j]? = some i →
      (patchAll code addrs v)[j]? = some { opcode := i.opcode, operand := v } := by
  induction addrs with
  | nil => simp at h
  | cons a as ih =>
    intro code i hi
    simp only [patchAll, List.foldl_cons]
    by_cases hja : (j : Int) = a
    · have h1 : (patchOperand code a v)[j]? = some { opcode := i.opcode, operand := v } := by
        rw [← hja]
        exact patchOperand_getElem code j v i hi
      by_cases hmem : (j : Int) ∈ as
      · exact ih hmem _ { opcode := i.opcode, operand := v } h1
      · exact (patchAll_getElem_not_mem as v j hmem _).trans h1
    · have hmem : (j : Int) ∈ as := by
        rcases List.mem_cons.1 h with h0 | h0
        · exact absurd h0 hja
        · exact h0
      have h1 : (patchOperand code a v)[j]? = some i :=
        (patchOperand_getElem_ne code a v j hja).trans hi
      exact ih hmem _ _ h1

/-- The loop of `ENDCASE` on a control stack that starts with the `CT_ENDOF` entries
`endofs` followed by an entry of another type: the instructions of the entries are
patched to the current end of the code and the entries popped. -/
theorem patchEndofs_run (endofs : List ControlEntry) (e : ControlEntry)
    (es : List ControlEntry) (hall : ∀ x ∈ endofs, x.type = ControlType.CT_ENDOF)
    (he : e.type ≠ ControlType.CT_ENDOF) :
    ∀ st : State, patchEndofs (endofs ++ e :: es) st
      = withCode st
          (patchAll st.currentWord.code (endofs.map (fun x => x.addr))
            st.currentWord.code.length)
          (e :: es) := by
  induction endofs with
  | nil =>
    intro st
    simp only [List.nil_append, patchEndofs, he, if_false]
    rfl
  | cons x xs ih =>
    intro st
    have hx : x.type = ControlType.CT_ENDOF := hall x (List.mem_cons_self _ _)
    simp only [List.cons_append, patchEndofs, hx, if_true]
    have h := ih (fun y hy => hall y (List.mem_cons_of_mem _ hy)) (patchHere x.addr st)
    refine Eq.trans h ?_
    simp [withCode, patchHere, patchAll, CompiledWord.code_length]

/-- The case `ENDCASE` of `compileToken` when the top of the control stack is not a
`CT_ENDOF` entry: a diagnostic is printed and nothing else happens. -/
theorem compileToken_ENDCASE_refused (rest : List Char) (st : State)
    (htop : ∀ e es, st.control_stack = e :: es → e.type ≠ ControlType.CT_ENDOF) :
    compileToken "ENDCASE".toList rest st
      = some (print "ENDCASE without CASE!\n" st, rest) := by
  unfold compileToken
  rw [show primitiveOpcode "ENDCASE".toList = none from by decide]
  simp only [show ¬ "ENDCASE".toList = "IF".toList from by decide,
    show ¬ "ENDCASE".toList = "ELSE".toList from by decide,
    show ¬ "ENDCASE".toList = "THEN".toList from by decide,
    show ¬ "ENDCASE".toList = "DO".toList from by decide,
    show ¬ "ENDCASE".toList = "LOOP".toList from by decide,
    show ¬ "ENDCASE".toList = "LOAD".toList from by decide,
    show ¬ "ENDCASE".toList = ['.', dquote] from by decide,
    show ¬ "ENDCASE".toList = "CASE".toList from by decide,
    show ¬ "ENDCASE".toList = "OF".toList from by decide,
    show ¬ "ENDCASE".toList = "ENDOF".toList from by decide, if_false, if_true]
  cases hcs : st.control_stack with
  | nil => rfl
  | cons e es =>
    simp only [htop e es hcs, if_false]

/-- The case `ENDCASE` of `compileToken` on a control stack that starts with one or more
`CT_ENDOF` entries followed by a `CT_CASE` entry: an `OP_ENDCASE` is appended, the
instructions of the `CT_ENDOF` entries are patched to the index after it, and these
entries and the `CT_CASE` entry are popped. -/
theorem compileToken_ENDCASE (rest : List Char) (st : State) (x : ControlEntry)
    (xs : List ControlEntry) (c : ControlEntry) (es : List ControlEntry)
    (hroom : st.currentWord.code.length < WORD_CODE_SIZE)
    (hcs : st.control_stack = (x :: xs) ++ c :: es)
    (hall : ∀ y ∈ x :: xs, y.type = ControlType.CT_ENDOF)
    (hc : c.type = ControlType.CT_CASE) :
    compileToken "ENDCASE".toList rest st
      = some (withCode st
                (patchAll (st.currentWord.code ++ [{ opcode := OpCode.OP_ENDCASE, operand := 0 }])
                  ((x :: xs).map (fun y => y.addr)) ((st.currentWord.code.length : Int) + 1))
                es, rest) := by
  have hx : x.type = ControlType.CT_ENDOF := hall x (List.mem_cons_self _ _)
  have hne : c.type ≠ ControlType.CT_ENDOF := by
    rw [hc]
    decide
  unfold compileToken
  rw [show primitiveOpcode "ENDCASE".toList = none from by decide]
  simp only [show ¬ "ENDCASE".toList = "IF".toList from by decide,
    show ¬ "ENDCASE".toList = "ELSE".toList from by decide,
    show ¬ "ENDCASE".toList = "THEN".toList from by decide,
    show ¬ "ENDCASE".toList = "DO".toList from by decide,
    show ¬ "ENDCASE".toList = "LOOP".toList from by decide,
    show ¬ "ENDCASE".toList = "LOAD".toList from by decide,
    show ¬ "ENDCASE".toList = ['.', dquote] from by decide,
    show ¬ "ENDCASE".toList = "CASE".toList from by decide,
    show ¬ "ENDCASE".toList = "OF".toList from by decide,
    show ¬ "ENDCASE".toList = "ENDOF".toList from by decide, if_false, if_true]
  simp only [hcs, List.cons_append, hx, if_true, emit, hroom, Option.map_some']
  rw [show (x :: (xs ++ c :: es)) = (x :: xs) ++ c :: es from rfl,
    patchEndofs_run (x :: xs) c es hall hne]
  simp [withCode, hc]

/-- The case `OP_ENDOF` (and likewise every unconditional jump) in the loop of
`executeCompiledWord`: the next instruction is the one at the operand. -/
theorem execLoop_ENDOF (fs : List Char → Option (List (List Char))) (fuel : Nat)
    (wr : WordRef) (ip : Nat) (st : State) (t : Int)
    (herr : st.error_flag = false)
    (hcode : (wordOf st wr).code[ip]? = some { opcode := OpCode.OP_ENDOF, operand := t }) :
    execLoop fs (fuel + 2) wr ip st = execLoop fs (fuel + 1) wr t st := by
  rw [execLoop_step fs fuel wr ip st { opcode := OpCode.OP_ENDOF, operand := t } st (t - 1)
    (Int.ofNat_nonneg _) (by simpa using hcode) herr (by simp) rfl (by rfl)]
  rw [show t - 1 + 1 = t from by ring]

theorem runStraight_error (word : CompiledWord) (body : List Instruction) (st : State)
    (h : st.error_flag = true) : runStraight word body st = st := by
  cases body with
  | nil => rfl
  | cons i is => simp [runStraight, h]

theorem loopPass_error (word : CompiledWord) (body : List Instruction) (st : State)
    (h : st.error_flag = true) : loopPass word body st = st := by
  unfold loopPass
  rw [runStraight_error word body st h]
  simp [h]

theorem loopPasses_error (word : CompiledWord) (body : List Instruction) (k : Nat) :
    ∀ st : State, st.error_flag = true → loopPasses word body k st = st := by
  induction k with
  | zero => intro st _; rfl
  | succ k ih =>
    intro st h
    simp only [loopPasses]
    rw [loopPass_error word body st h]
    exact ih st h

theorem loopPass_wordOf (word : CompiledWord) (wr : WordRef) (body : List Instruction)
    (st : State) (hbody : ∀ i ∈ body, isStraight i.opcode = true) :
    wordOf (loopPass word body st) wr = wordOf st wr := by
  have h := runStraight_wordOf word wr body st hbody
  unfold loopPass
  split
  · exact h
  · split
    · rw [← h]
      cases wr <;> rfl
    · exact h

theorem loopPass_loop_stack (word : CompiledWord) (body : List Instruction) (st : State)
    (l : LoopControl) (ls : List LoopControl)
    (hbody : ∀ i ∈ body, isStraight i.opcode = true)
    (hl : st.loop_stack = l :: ls) (he : (loopPass word body st).error_flag = false) :
    (loopPass word body st).loop_stack = { l with index := l.index + 1 } :: ls := by
  have h := runStraight_loop_stack word body st hbody
  rw [hl] at h
  unfold loopPass at he ⊢
  split
  · rename_i h1
    rw [if_pos h1] at he
    rw [h1] at he
    exact absurd he (by decide)
  · simp only [h]

theorem loopPasses_loop_stack (word : CompiledWord) (body : List Instruction)
    (hbody : ∀ i ∈ body, isStraight i.opcode = true) (k : Nat) :
    ∀ (st : State) (l : LoopControl) (ls : List LoopControl),
      st.loop_stack = l :: ls → (loopPasses word body k st).error_flag = false →
      (loopPasses word body k st).loop_stack = { l with index := l.index + k } :: ls := by
  induction k with
  | zero =>
    intro st l ls hl _
    simp [loopPasses, hl]
  | succ k ih =>
    intro st l ls hl he
    simp only [loopPasses] at he ⊢
    have he1 : (loopPass word body st).error_flag = false := by
      by_contra hc
      have hc' : (loopPass word body st).error_flag = true := by simpa using hc
      rw [loopPasses_error word body k _ hc'] at he
      rw [he] at hc'
      exact absurd hc' (by decide)
    rw [ih _ _ _ (loopPass_loop_stack word body st l ls hbody hl he1) he]
    simp only [Nat.cast_add, Nat.cast_one]
    congr 2
    ring

/-- One pass of `DO body LOOP` from the first instruction of the body: the body, then
`OP_LOOP`, which goes back to the first instruction of the body when the index after
the increment is below the limit and leaves the loop otherwise. -/
theorem execLoop_pass (fs : List Char → Option (List (List Char))) (fuel : Nat)
    (wr : WordRef) (st : State) (pre body post : List Instruction) (d l idx limit : Int)
    (ls : List LoopControl)
    (hcode : (wordOf st wr).code
        = pre ++ [{ opcode := OpCode.OP_DO, operand := d }] ++ body
            ++ ({ opcode := OpCode.OP_LOOP, operand := l } :: post))
    (hbody : ∀ i ∈ body, isStraight i.opcode = true)
    (hheap : ∀ i ∈ body, heapFault i wr st = false)
    (hl : st.loop_stack = { index := idx, limit := limit, addr := (pre.length : Int) + 1 } :: ls) :
    execLoop fs (fuel + 2 + body.length) wr (pre.length + 1 : Nat) st
      = if idx + 1 < limit then
          execLoop fs (fuel + 1) wr (pre.length + 1 : Nat) (loopPass (wordOf st wr) body st)
        else
          execLoop fs (fuel + 1) wr (pre.length + body.length + 2 : Nat)
            (loopExit ls (runStraight (wordOf st wr) body st)) := by
  have hcode1 : (wordOf st wr).code
      = (pre ++ [{ opcode := OpCode.OP_DO, operand := d }]) ++ body
          ++ ({ opcode := OpCode.OP_LOOP, operand := l } :: post) := hcode
  have hseg := execLoop_straight fs (fuel + 1) wr body
    (pre ++ [{ opcode := OpCode.OP_DO, operand := d }])
    ({ opcode := OpCode.OP_LOOP, operand := l } :: post) st hcode1 hbody hheap
  simp only [List.length_append, List.length_singleton] at hseg
  rw [show fuel + 2 + body.length = fuel + 1 + 1 + body.length from by omega, hseg]
  have hl2 := runStraight_loop_stack (wordOf st wr) body st hbody
  have hw2 := runStraight_wordOf (wordOf st wr) wr body st hbody
  unfold loopPass loopExit
  generalize runStraight (wordOf st wr) body st = st2 at hl2 hw2 ⊢
  rw [hl] at hl2
  by_cases he : st2.error_flag = true
  · simp only [he, if_true]
    rw [execLoop_done fs _ wr _ st2 (Or.inr he), execLoop_done fs _ wr _ st2 (Or.inr he),
      execLoop_done fs _ wr _ st2 (Or.inr he)]
    simp
  · have he' : st2.error_flag = false := by simpa using he
    simp only [he', Bool.false_eq_true, if_false, hl2]
    have hget2 : (wordOf st2 wr).code[((pre.length + 1 + body.length : Nat) : Int).toNat]?
        = some { opcode := OpCode.OP_LOOP, operand := l } := by
      rw [hw2, hcode]
      simp only [Int.toNat_ofNat]
      rw [List.getElem?_append_right (by
        simp only [List.length_append, List.length_singleton]
        omega)]
      simp only [List.length_append, List.length_singleton, Nat.sub_self,
        List.getElem?_cons_zero]
    by_cases hlt : idx + 1 < limit
    · have hloop : executePrimitive { opcode := OpCode.OP_LOOP, operand := l }
          ((pre.length + 1 + body.length : Nat) : Int) (wordOf st2 wr) st2
          = some ({ st2 with loop_stack :=
                      { index := idx + 1, limit := limit, addr := (pre.length : Int) + 1 } :: ls },
                  (pre.length : Int) + 1 - 1) := by
        simp [executePrimitive, hl2, hlt]
      rw [execLoop_step fs _ wr _ st2 _ _ _ (by omega) hget2 he' (by simp) hloop (by rfl)]
      rw [if_pos hlt]
      rw [show (pre.length : Int) + 1 - 1 + 1 = ((pre.length + 1 : Nat) : Int) from by
        push_cast; ring]
      rw [he']
    · have hloop : executePrimitive { opcode := OpCode.OP_LOOP, operand := l }
          ((pre.length + 1 + body.length : Nat) : Int) (wordOf st2 wr) st2
          = some ({ st2 with loop_stack := ls },
                  ((pre.length + 1 + body.length : Nat) : Int)) := by
        simp [executePrimitive, hl2, hlt]
      rw [execLoop_step fs _ wr _ st2 _ _ _ (by omega) hget2 he' (by simp) hloop (by rfl)]
      rw [if_neg hlt]
      rw [show ((pre.length + 1 + body.length : Nat) : Int) + 1
          = ((pre.length + body.length + 2 : Nat) : Int) from by push_cast; ring]
      rw [he']

/-- The passes of `DO body LOOP` from the first instruction of the body, when `m` more
passes follow the one that starts. -/
theorem execLoop_passes (fs : List Char → Option (List (List Char))) (fuel : Nat)
    (wr : WordRef) (w : CompiledWord) (pre body post : List Instruction) (d l limit : Int)
    (ls : List LoopControl)
    (hcode : w.code
        = pre ++ [{ opcode := OpCode.OP_DO, operand := d }] ++ body
            ++ ({ opcode := OpCode.OP_LOOP, operand := l } :: post))
    (hbody : ∀ i ∈ body, isStraight i.opcode = true) (m : Nat) :
    ∀ (st : State) (idx : Int), wordOf st wr = w →
      (∀ i ∈ body, heapFault i wr st = false) →
      st.loop_stack = { index := idx, limit := limit, addr := (pre.length : Int) + 1 } :: ls →
      (m = 0 → limit ≤ idx + 1) → (0 < m → idx + m + 1 = limit) →
      execLoop fs (fuel + 1 + (m + 1) * (body.length + 1)) wr (pre.length + 1 : Nat) st
        = execLoop fs (fuel + 1) wr (pre.length + body.length + 2 : Nat)
            (loopExit ls (runStraight w body (loopPasses w body m st))) := by
  induction m with
  | zero =>
    intro st idx hw hheap hl h0 _
    have hlt : ¬ idx + 1 < limit := by
      have := h0 rfl
      omega
    rw [show fuel + 1 + (0 + 1) * (body.length + 1) = fuel + 2 + body.length from by omega,
      execLoop_pass fs fuel wr st pre body post d l idx limit ls (by rw [hw]; exact hcode)
        hbody hheap hl, if_neg hlt, hw]
    rfl
  | succ m ih =>
    intro st idx hw hheap hl _ h1
    have hlt : idx + 1 < limit := by
      have := h1 (Nat.succ_pos m)
      push_cast at this
      omega
    rw [show fuel + 1 + (m + 1 + 1) * (body.length + 1)
        = (fuel + (m + 1) * (body.length + 1)) + 2 + body.length from by ring,
      execLoop_pass fs _ wr st pre body post d l idx limit ls (by rw [hw]; exact hcode)
        hbody hheap hl, if_pos hlt, hw]
    simp only [loopPasses]
    by_cases he : (loopPass w body st).error_flag = true
    · rw [execLoop_done fs _ wr _ _ (Or.inr he), loopPasses_error w body m _ he,
        runStraight_error w body _ he]
      unfold loopExit
      rw [if_pos he, execLoop_done fs _ wr _ _ (Or.inr he)]
    · have he' : (loopPass w body st).error_flag = false := by simpa using he
      have hw1 : wordOf (loopPass w body st) wr = w := by
        rw [loopPass_wordOf w wr body st hbody, hw]
      have hl1 := loopPass_loop_stack w body st _ ls hbody hl he'
      rw [show fuel + (m + 1) * (body.length + 1) + 1
          = fuel + 1 + (m + 1) * (body.length + 1) from by ring]
      exact ih (loopPass w body st) (idx + 1) hw1
        (fun i hi => by rw [loopPass_heapFault w wr i body st hbody]; exact hheap i hi) hl1
        (fun hm => by
          have := h1 (Nat.succ_pos m)
          subst hm
          push_cast at this
          omega)
        (fun _ => by
          have := h1 (Nat.succ_pos m)
          push_cast at this
          omega)

theorem strtok_r_tokenLine (t : List Char) (ts : List (List Char)) (more : List Char)
    (ht : isToken t = true) :
    strtok_r (tokenLine (t :: ts) more) = some (t, tokenLine ts more) :=
  strtok_r_token t _ ht

theorem tokenLine_append (ts us : List (List Char)) (more : List Char) :
    tokenLine (ts ++ us) more = tokenLine ts (tokenLine us more) := by
  simp [tokenLine, List.foldr_append]

/-- The one-instruction tokens are tokens of `strtok_r` and differ from `;`. -/
theorem primitiveOpcode_token (t : List Char) (op : OpCode)
    (h : primitiveOpcode t = some op) : isToken t = true ∧ ¬ t = ";".toList := by
  unfold primitiveOpcode at h
  by_cases h0 : t = "+".toList
  · subst h0
    exact ⟨by decide, by decide⟩
  rw [if_neg h0] at h
  by_cases h1 : t = "-".toList
  · subst h1
    exact ⟨by decide, by decide⟩
  rw [if_neg h1] at h
  by_cases h2 : t = "*".toList
  · subst h2
    exact ⟨by decide, by decide⟩
  rw [if_neg h2] at h
  by_cases h3 : t = "/".toList
  · subst h3
    exact ⟨by decide, by decide⟩
  rw [if_neg h3] at h
  by_cases h4 : t = "DUP".toList
  · subst h4
    exact ⟨by decide, by decide⟩
  rw [if_neg h4] at h
  by_cases h5 : t = "SWAP".toList
  · subst h5
    exact ⟨by decide, by decide⟩
  rw [if_neg h5] at h
  by_cases h6 : t = "OVER".toList
  · subst h6
    exact ⟨by decide, by decide⟩
  rw [if_neg h6] at h
  by_cases h7 : t = "ROT".toList
  · subst h7
    exact ⟨by decide, by decide⟩
  rw [if_neg h7] at h
  by_cases h8 : t = "DROP".toList
  · subst h8
    exact ⟨by decide, by decide⟩
  rw [if_neg h8] at h
  by_cases h9 : t = "=".toList
  · subst h9
    exact ⟨by decide, by decide⟩
  rw [if_neg h9] at h
  by_cases h10 : t = "<".toList
  · subst h10
    exact ⟨by decide, by decide⟩
  rw [if_neg h10] at h
  by_cases h11 : t = ">".toList
  · subst h11
    exact ⟨by decide, by decide⟩
  rw [if_neg h11] at h
  by_cases h12 : t = "AND".toList
  · subst h12
    exact ⟨by decide, by decide⟩
  rw [if_neg h12] at h
  by_cases h13 : t = "OR".toList
  · subst h13
    exact ⟨by decide, by decide⟩
  rw [if_neg h13] at h
  by_cases h14 : t = "NOT".toList
  · subst h14
    exact ⟨by decide, by decide⟩
  rw [if_neg h14] at h
  by_cases h15 : t = "I".toList
  · subst h15
    exact ⟨by decide, by decide⟩
  rw [if_neg h15] at h
  by_cases h16 : t = "CR".toList
  · subst h16
    exact ⟨by decide, by decide⟩
  rw [if_neg h16] at h
  by_cases h17 : t = ".S".toList
  · subst h17
    exact ⟨by decide, by decide⟩
  rw [if_neg h17] at h
  by_cases h18 : t = ".".toList
  · subst h18
    exact ⟨by decide, by decide⟩
  rw [if_neg h18] at h
  by_cases h19 : t = "FLUSH".toList
  · subst h19
    exact ⟨by decide, by decide⟩
  rw [if_neg h19] at h
  by_cases h20 : t = "EXIT".toList
  · subst h20
    exact ⟨by decide, by decide⟩
  rw [if_neg h20] at h
  by_cases h21 : t = "&".toList
  · subst h21
    exact ⟨by decide, by decide⟩
  rw [if_neg h21] at h
  by_cases h22 : t = "|".toList
  · subst h22
    exact ⟨by decide, by decide⟩
  rw [if_neg h22] at h
  by_cases h23 : t = "^".toList
  · subst h23
    exact ⟨by decide, by decide⟩
  rw [if_neg h23] at h
  by_cases h24 : t = "~".toList
  · subst h24
    exact ⟨by decide, by decide⟩
  rw [if_neg h24] at h
  by_cases h25 : t = "LSHIFT".toList
  · subst h25
    exact ⟨by decide, by decide⟩
  rw [if_neg h25] at h
  by_cases h26 : t = "RSHIFT".toList
  · subst h26
    exact ⟨by decide, by decide⟩
  rw [if_neg h26] at h
  by_cases h27 : t = "WORDS".toList
  · subst h27
    exact ⟨by decide, by decide⟩
  rw [if_neg h27] at h
  by_cases h28 : t = "@".toList
  · subst h28
    exact ⟨by decide, by decide⟩
  rw [if_neg h28] at h
  by_cases h29 : t = "!".toList
  · subst h29
    exact ⟨by decide, by decide⟩
  rw [if_neg h29] at h
  by_cases h30 : t = "PICK".toList
  · subst h30
    exact ⟨by decide, by decide⟩
  rw [if_neg h30] at h
  exact absurd h (by simp)

theorem isPrimToken_opcode (t : List Char) (h : isPrimToken t = true) :
    ∃ op, primitiveOpcode t = some op ∧ isStraight op = true := by
  unfold isPrimToken at h
  cases hp : primitiveOpcode t with
  | none => rw [hp] at h; exact absurd h (by decide)
  | some op => rw [hp] at h; exact ⟨op, rfl, h⟩

theorem primCode_cons (t : List Char) (ts : List (List Char)) (op : OpCode)
    (h : primitiveOpcode t = some op) :
    primCode (t :: ts) = { opcode := op, operand := 0 } :: primCode ts := by
  simp [primCode, h]

theorem primCode_length (ts : List (List Char)) (h : ∀ t ∈ ts, isPrimToken t = true) :
    (primCode ts).length = ts.length := by
  induction ts with
  | nil => rfl
  | cons t ts ih =>
    obtain ⟨op, hop, _⟩ := isPrimToken_opcode t (h t (List.mem_cons_self _ _))
    rw [primCode_cons t ts op hop, List.length_cons, List.length_cons,
      ih (fun x hx => h x (List.mem_cons_of_mem _ hx))]

theorem primCode_straight (ts : List (List Char)) (h : ∀ t ∈ ts, isPrimToken t = true) :
    ∀ i ∈ primCode ts, isStraight i.opcode = true := by
  induction ts with
  | nil => intro i hi; simp [primCode] at hi
  | cons t ts ih =>
    obtain ⟨op, hop, hs⟩ := isPrimToken_opcode t (h t (List.mem_cons_self _ _))
    rw [primCode_cons t ts op hop]
    intro i hi
    rcases List.mem_cons.1 hi with rfl | hi
    · exact hs
    · exact ih (fun x hx => h x (List.mem_cons_of_mem _ hx)) i hi

/-- The instruction of a primitive token neither reads a string nor frees one. -/
theorem primitiveOpcode_heapFault (t : List Char) (op : OpCode)
    (h : primitiveOpcode t = some op) (operand : Int) (wr : WordRef) (st : State) :
    heapFault { opcode := op, operand := operand } wr st = false := by
  unfold primitiveOpcode at h
  by_cases c0 : t = "+".toList
  · rw [if_pos c0] at h
    injection h with h
    subst h
    rfl
  rw [if_neg c0] at h
  by_cases c1 : t = "-".toList
  · rw [if_pos c1] at h
    injection h with h
    subst h
    rfl
  rw [if_neg c1] at h
  by_cases c2 : t = "*".toList
  · rw [if_pos c2] at h
    injection h with h
    subst h
    rfl
  rw [if_neg c2] at h
  by_cases c3 : t = "/".toList
  · rw [if_pos c3] at h
    injection h with h
    subst h
    rfl
  rw [if_neg c3] at h
  by_cases c4 : t = "DUP".toList
  · rw [if_pos c4] at h
    injection h with h
    subst h
    rfl
  rw [if_neg c4] at h
  by_cases c5 : t = "SWAP".toList
  · rw [if_pos c5] at h
    injection h with h
    subst h
    rfl
  rw [if_neg c5] at h
  by_cases c6 : t = "OVER".toList
  · rw [if_pos c6] at h
    injection h with h
    subst h
    rfl
  rw [if_neg c6] at h
  by_cases c7 : t = "ROT".toList
  · rw [if_pos c7] at h
    injection h with h
    subst h
    rfl
  rw [if_neg c7] at h
  by_cases c8 : t = "DROP".toList
  · rw [if_pos c8] at h
    injection h with h
    subst h
    rfl
  rw [if_neg c8] at h
  by_cases c9 : t = "=".toList
  · rw [if_pos c9] at h
    injection h with h
    subst h
    rfl
  rw [if_neg c9] at h
  by_cases c10 : t = "<".toList
  · rw [if_pos c10] at h
    injection h with h
    subst h
    rfl
  rw [if_neg c10] at h
  by_cases c11 : t = ">".toList
  · rw [if_pos c11] at h
    injection h with h
    subst h
    rfl
  rw [if_neg c11] at h
  by_cases c12 : t = "AND".toList
  · rw [if_pos c12] at h
    injection h with h
    subst h
    rfl
  rw [if_neg c12] at h
  by_cases c13 : t = "OR".toList
  · rw [if_pos c13] at h
    injection h with h
    subst h
    rfl
  rw [if_neg c13] at h
  by_cases c14 : t = "NOT".toList
  · rw [if_pos c14] at h
    injection h with h
    subst h
    rfl
  rw [if_neg c14] at h
  by_cases c15 : t = "I".toList
  · rw [if_pos c15] at h
    injection h with h
    subst h
    rfl
  rw [if_neg c15] at h
  by_cases c16 : t = "CR".toList
  · rw [if_pos c16] at h
    injection h with h
    subst h
    rfl
  rw [if_neg c16] at h
  by_cases c17 : t = ".S".toList
  · rw [if_pos c17] at h
    injection h with h
    subst h
    rfl
  rw [if_neg c17] at h
  by_cases c18 : t = ".".toList
  · rw [if_pos c18] at h
    injection h with h
    subst h
    rfl
  rw [if_neg c18] at h
  by_cases c19 : t = "FLUSH".toList
  · rw [if_pos c19] at h
    injection h with h
    subst h
    rfl
  rw [if_neg c19] at h
  by_cases c20 : t = "EXIT".toList
  · rw [if_pos c20] at h
    injection h with h
    subst h
    rfl
  rw [if_neg c20] at h
  by_cases c21 : t = "&".toList
  · rw [if_pos c21] at h
    injection h with h
    subst h
    rfl
  rw [if_neg c21] at h
  by_cases c22 : t = "|".toList
  · rw [if_pos c22] at h
    injection h with h
    subst h
    rfl
  rw [if_neg c22] at h
  by_cases c23 : t = "^".toList
  · rw [if_pos c23] at h
    injection h with h
    subst h
    rfl
  rw [if_neg c23] at h
  by_cases c24 : t = "~".toList
  · rw [if_pos c24] at h
    injection h with h
    subst h
    rfl
  rw [if_neg c24] at h
  by_cases c25 : t = "LSHIFT".toList
  · rw [if_pos c25] at h
    injection h with h
    subst h
    rfl
  rw [if_neg c25] at h
  by_cases c26 : t = "RSHIFT".toList
  · rw [if_pos c26] at h
    injection h with h
    subst h
    rfl
  rw [if_neg c26] at h
  by_cases c27 : t = "WORDS".toList
  · rw [if_pos c27] at h
    injection h with h
    subst h
    rfl
  rw [if_neg c27] at h
  by_cases c28 : t = "@".toList
  · rw [if_pos c28] at h
    injection h with h
    subst h
    rfl
  rw [if_neg c28] at h
  by_cases c29 : t = "!".toList
  · rw [if_pos c29] at h
    injection h with h
    subst h
    rfl
  rw [if_neg c29] at h
  by_cases c30 : t = "PICK".toList
  · rw [if_pos c30] at h
    injection h with h
    subst h
    rfl
  rw [if_neg c30] at h
  exact absurd h (by simp)

theorem primCode_heapFault (ts : List (List Char)) (h : ∀ t ∈ ts, isPrimToken t = true)
    (wr : WordRef) (st : State) : ∀ i ∈ primCode ts, heapFault i wr st = false := by
  induction ts with
  | nil => intro i hi; simp [primCode] at hi
  | cons t ts ih =>
    obtain ⟨op, hop, hs⟩ := isPrimToken_opcode t (h t (List.mem_cons_self _ _))
    rw [primCode_cons t ts op hop]
    intro i hi
    rcases List.mem_cons.1 hi with rfl | hi
    · exact primitiveOpcode_heapFault t op hop _ wr st
    · exact ih (fun x hx => h x (List.mem_cons_of_mem _ hx)) i hi

/-- In compile mode a run of one-instruction tokens appends their instructions. -/
theorem interpretLoop_compile_prims (fs : List Char → Option (List (List Char)))
    (fuel : Nat) (more : List Char) (ts : List (List Char)) :
    ∀ st : State, st.error_flag = false → st.compiling = true →
      (∀ t ∈ ts, isPrimToken t = true) →
      st.currentWord.code.length + ts.length ≤ WORD_CODE_SIZE →
      interpretLoop fs (fuel + ts.length) (strtok_r (tokenLine ts more)) st
        = interpretLoop fs fuel (strtok_r more)
            (withCode st (st.currentWord.code ++ primCode ts) st.control_stack) := by
  induction ts with
  | nil =>
    intro st _ _ _ _
    simp [tokenLine, primCode, withCode]
  | cons t ts ih =>
    intro st herr hcomp hts hroom
    obtain ⟨op, hop, _⟩ := isPrimToken_opcode t (hts t (List.mem_cons_self _ _))
    obtain ⟨htok, hsemi⟩ := primitiveOpcode_token t op hop
    simp only [List.length_cons] at hroom
    rw [strtok_r_tokenLine t ts more htok,
      show fuel + (t :: ts).length = (fuel + ts.length) + 1 from rfl,
      interpretLoop_compile fs _ t _ st herr hcomp hsemi,
      compileToken_primitive t _ op st hop (by omega)]
    simp only [Option.some_bind]
    refine (ih (withCode st (st.currentWord.code ++ [{ opcode := op, operand := 0 }])
      st.control_stack) herr hcomp (fun x hx => hts x (List.mem_cons_of_mem _ hx)) (by
      simp only [withCode, List.length_append, List.length_singleton]
      omega)).trans ?_
    rw [primCode_cons t ts op hop]
    simp [withCode]

/-- Patching the operand of the instruction that follows the prefix `l1`. -/
theorem patchOperand_append_cons (l1 l2 : List Instruction) (i : Instruction) (v : Int) :
    patchOperand (l1 ++ i :: l2) (l1.length : Int) v
      = l1 ++ { opcode := i.opcode, operand := v } :: l2 := by
  have h : (l1 ++ i :: l2)[(l1.length : Int).toNat]? = some i := by
    rw [Int.toNat_ofNat, List.getElem?_append_right (le_refl _)]
    simp
  unfold patchOperand
  rw [if_pos (by omega), h]
  simp

@[simp] theorem withCode_code (st : State) (c : List Instruction) (cs : List ControlEntry) :
    (withCode st c cs).currentWord.code = c := rfl

@[simp] theorem withCode_strings (st : State) (c : List Instruction) (cs : List ControlEntry) :
    (withCode st c cs).currentWord.strings = st.currentWord.strings := rfl

@[simp] theorem withCode_control_stack (st : State) (c : List Instruction)
    (cs : List ControlEntry) : (withCode st c cs).control_stack = cs := rfl

@[simp] theorem withCode_error_flag (st : State) (c : List Instruction)
    (cs : List ControlEntry) : (withCode st c cs).error_flag = st.error_flag := rfl

@[simp] theorem withCode_compiling (st : State) (c : List Instruction)
    (cs : List ControlEntry) : (withCode st c cs).compiling = st.compiling := rfl

@[simp] theorem withCode_withCode (st : State) (c c1 : List Instruction)
    (cs cs1 : List ControlEntry) :
    withCode (withCode st c cs) c1 cs1 = withCode st c1 cs1 := rfl

/-- In compile mode `IF A ELSE B THEN`, with `A` and `B` runs of one-instruction tokens,
appends `ifElseCode` and leaves the control stack as it was. -/
theorem interpretLoop_if_else_then (fs : List Char → Option (List (List Char)))
    (fuel : Nat) (more : List Char) (A B : List (List Char)) (st : State)
    (herr : st.error_flag = false) (hcomp : st.compiling = true)
    (hA : ∀ t ∈ A, isPrimToken t = true) (hB : ∀ t ∈ B, isPrimToken t = true)
    (hroom : st.currentWord.code.length + A.length + B.length + 2 ≤ WORD_CODE_SIZE)
    (hcs : st.control_stack.length < CONTROL_STACK_SIZE) :
    interpretLoop fs (fuel + (A.length + B.length + 3))
        (strtok_r (tokenLine ("IF".toList :: (A ++ "ELSE".toList :: (B ++ ["THEN".toList])))
          more)) st
      = interpretLoop fs fuel (strtok_r more)
          (withCode st (st.currentWord.code ++ ifElseCode st.currentWord.code.length A B)
            st.control_stack) := by
  have hlA := primCode_length A hA
  have hlB := primCode_length B hB
  -- IF
  rw [strtok_r_tokenLine _ _ _ (by decide),
    show fuel + (A.length + B.length + 3) = (fuel + B.length + 2 + A.length) + 1 from by omega,
    interpretLoop_compile fs _ "IF".toList _ st herr hcomp (by decide),
    compileToken_IF _ st (by omega) hcs]
  simp only [Option.some_bind]
  generalize hS1 : withCode st
    (st.currentWord.code ++ [{ opcode := OpCode.OP_BRANCH_FALSE, operand := 0 }])
    ({ type := ControlType.CT_IF, addr := (st.currentWord.code.length : Int) }
      :: st.control_stack) = S1
  have e1 : S1.error_flag = false := by rw [← hS1]; exact herr
  have c1 : S1.compiling = true := by rw [← hS1]; exact hcomp
  have k1 : S1.currentWord.code
      = st.currentWord.code ++ [{ opcode := OpCode.OP_BRANCH_FALSE, operand := 0 }] := by
    rw [← hS1]; rfl
  have s1 : S1.control_stack
      = { type := ControlType.CT_IF, addr := (st.currentWord.code.length : Int) }
          :: st.control_stack := by
    rw [← hS1]; rfl
  -- A
  rw [tokenLine_append,
    interpretLoop_compile_prims fs (fuel + B.length + 2) _ A S1 e1 c1 hA (by
      rw [k1]
      simp only [List.length_append, List.length_singleton]
      omega)]
  generalize hS2 : withCode S1 (S1.currentWord.code ++ primCode A) S1.control_stack = S2
  have e2 : S2.error_flag = false := by rw [← hS2]; exact e1
  have c2 : S2.compiling = true := by rw [← hS2]; exact c1
  have k2 : S2.currentWord.code
      = st.currentWord.code ++ [{ opcode := OpCode.OP_BRANCH_FALSE, operand := 0 }]
          ++ primCode A := by
    rw [← hS2, withCode_code, k1]
  have s2 : S2.control_stack
      = { type := ControlType.CT_IF, addr := (st.currentWord.code.length : Int) }
          :: st.control_stack := by
    rw [← hS2, withCode_control_stack, s1]
  have l2 : S2.currentWord.code.length = st.currentWord.code.length + 1 + A.length := by
    rw [k2]
    simp only [List.length_append, List.length_singleton, hlA]
  -- ELSE
  rw [strtok_r_tokenLine _ _ _ (by decide),
    show fuel + B.length + 2 = (fuel + 1 + B.length) + 1 from by omega,
    interpretLoop_compile fs _ "ELSE".toList _ S2 e2 c2 (by decide),
    compileToken_ELSE _ S2 (st.currentWord.code.length : Int) st.control_stack (by omega) s2
      (by omega)]
  simp only [Option.some_bind]
  generalize hS3 : withCode S2
    (patchOperand (S2.currentWord.code ++ [{ opcode := OpCode.OP_BRANCH, operand := 0 }])
      (st.currentWord.code.length : Int) ((S2.currentWord.code.length : Int) + 1))
    ({ type := ControlType.CT_IF, addr := (S2.currentWord.code.length : Int) }
      :: st.control_stack) = S3
  have e3 : S3.error_flag = false := by rw [← hS3]; exact e2
  have c3 : S3.compiling = true := by rw [← hS3]; exact c2
  have k3 : S3.currentWord.code
      = st.currentWord.code
          ++ { opcode := OpCode.OP_BRANCH_FALSE,
               operand := ((st.currentWord.code.length + A.length + 2 : Nat) : Int) }
          :: (primCode A ++ [{ opcode := OpCode.OP_BRANCH, operand := 0 }]) := by
    rw [← hS3, withCode_code, l2, k2]
    rw [show st.currentWord.code ++ [{ opcode := OpCode.OP_BRANCH_FALSE, operand := 0 }]
          ++ primCode A ++ [{ opcode := OpCode.OP_BRANCH, operand := 0 }]
        = st.currentWord.code ++ { opcode := OpCode.OP_BRANCH_FALSE, operand := 0 }
          :: (primCode A ++ [{ opcode := OpCode.OP_BRANCH, operand := 0 }]) from by simp,
      patchOperand_append_cons]
    congr 3
    push_cast
    ring
  have s3 : S3.control_stack
      = { type := ControlType.CT_IF, addr := (S2.currentWord.code.length : Int) }
          :: st.control_stack := by
    rw [← hS3]; rfl
  have l3 : S3.currentWord.code.length = st.currentWord.code.length + A.length + 2 := by
    rw [k3]
    simp only [List.length_append, List.length_cons, List.length_nil]
    omega
  -- B
  rw [tokenLine_append,
    interpretLoop_compile_prims fs (fuel + 1) _ B S3 e3 c3 hB (by omega)]
  generalize hS4 : withCode S3 (S3.currentWord.code ++ primCode B) S3.control_stack = S4
  have e4 : S4.error_flag = false := by rw [← hS4]; exact e3
  have c4 : S4.compiling = true := by rw [← hS4]; exact c3
  have k4 : S4.currentWord.code = S3.currentWord.code ++ primCode B := by
    rw [← hS4]; rfl
  have s4 : S4.control_stack
      = { type := ControlType.CT_IF, addr := (S2.currentWord.code.length : Int) }
          :: st.control_stack := by
    rw [← hS4, withCode_control_stack, s3]
  -- THEN
  rw [show tokenLine ["THEN".toList] more = tokenLine ("THEN".toList :: []) more from rfl,
    strtok_r_tokenLine _ _ _ (by decide),
    interpretLoop_compile fs _ "THEN".toList _ S4 e4 c4 (by decide),
    compileToken_THEN _ S4 (S2.currentWord.code.length : Int) st.control_stack s4]
  simp only [Option.some_bind]
  have hw : ∀ x, withCode S4 x st.control_stack = withCode st x st.control_stack := by
    intro x
    rw [← hS4, ← hS3, ← hS2, ← hS1]
    rfl
  rw [hw, k4, k3, l2]
  congr 2
  rw [show st.currentWord.code
          ++ { opcode := OpCode.OP_BRANCH_FALSE,
               operand := ((st.currentWord.code.length + A.length + 2 : Nat) : Int) }
          :: (primCode A ++ [{ opcode := OpCode.OP_BRANCH, operand := 0 }]) ++ primCode B
        = (st.currentWord.code
          ++ { opcode := OpCode.OP_BRANCH_FALSE,
               operand := ((st.currentWord.code.length + A.length + 2 : Nat) : Int) }
          :: primCode A) ++ { opcode := OpCode.OP_BRANCH, operand := 0 } :: primCode B from by
        simp]
  rw [show ((st.currentWord.code.length + 1 + A.length : Nat) : Int)
        = (((st.currentWord.code
          ++ { opcode := OpCode.OP_BRANCH_FALSE,
               operand := ((st.currentWord.code.length + A.length + 2 : Nat) : Int) }
          :: primCode A).length : Nat) : Int) from by
        simp only [List.length_append, List.length_cons, hlA]
        push_cast
        ring,
    patchOperand_append_cons]
  simp only [ifElseCode, List.length_append, List.length_cons, hlA, List.append_assoc,
    List.singleton_append, List.cons_append, List.nil_append]
  rw [hlB, show st.currentWord.code.length + (A.length + (B.length + 1) + 1)
    = st.currentWord.code.length + A.length + B.length + 2 from by omega]

/-- The run of a compiled `IF A ELSE B THEN` with straight-line `cA` and `cB`, entered
with the flag `f` on top of `s`: the loop of `executeCompiledWord` started at the
`BRANCH_FALSE` reaches the instruction after `cB` in the state `cA` produces from `s` when
`f` is not 0 and in the state `cB` produces from `s` when `f` is 0. -/
theorem execLoop_if_else (fs : List Char → Option (List (List Char))) (fuel : Nat)
    (wr : WordRef) (st : State) (pre cA cB post : List Instruction) (f : Int) (s : List Int)
    (hcode : (wordOf st wr).code
        = pre ++ [{ opcode := OpCode.OP_BRANCH_FALSE,
                    operand := ((pre.length + cA.length + 2 : Nat) : Int) }] ++ cA
            ++ [{ opcode := OpCode.OP_BRANCH,
                  operand := ((pre.length + cA.length + cB.length + 2 : Nat) : Int) }] ++ cB
            ++ post)
    (hA : ∀ i ∈ cA, isStraight i.opcode = true) (hB : ∀ i ∈ cB, isStraight i.opcode = true)
    (hhA : ∀ i ∈ cA, heapFault i wr st = false) (hhB : ∀ i ∈ cB, heapFault i wr st = false)
    (herr : st.error_flag = false) (hstack : st.stack = f :: s) :
    (f ≠ 0 →
      execLoop fs (fuel + cA.length + 3) wr pre.length st
        = execLoop fs (fuel + 1) wr (pre.length + cA.length + cB.length + 2 : Nat)
            (runStraight (wordOf st wr) cA { st with stack := s }))
    ∧ (f = 0 →
      execLoop fs (fuel + cB.length + 2) wr pre.length st
        = execLoop fs (fuel + 1) wr (pre.length + cA.length + cB.length + 2 : Nat)
            (runStraight (wordOf st wr) cB { st with stack := s })) := by
  have hw1 : wordOf { st with stack := s } wr = wordOf st wr := by
    cases wr <;> rfl
  have hget : (wordOf st wr).code[(pre.length : Int).toNat]?
      = some { opcode := OpCode.OP_BRANCH_FALSE,
               operand := ((pre.length + cA.length + 2 : Nat) : Int) } := by
    rw [hcode]
    simp only [Int.toNat_ofNat, List.append_assoc]
    rw [List.getElem?_append_right (le_refl _)]
    simp
  constructor
  · intro hf
    have hbf : executePrimitive
        { opcode := OpCode.OP_BRANCH_FALSE,
          operand := ((pre.length + cA.length + 2 : Nat) : Int) } (pre.length : Int)
        (wordOf st wr) st = some ({ st with stack := s }, (pre.length : Int)) := by
      simp [executePrimitive, pop, hstack, herr, hf]
    rw [show fuel + cA.length + 3 = (fuel + 1 + cA.length) + 2 from by omega,
      execLoop_step fs _ wr _ st _ _ _ (by omega) hget herr (by simp) hbf (by rfl)]
    have hcode1 : (wordOf { st with stack := s } wr).code
        = (pre ++ [{ opcode := OpCode.OP_BRANCH_FALSE,
                     operand := ((pre.length + cA.length + 2 : Nat) : Int) }]) ++ cA
            ++ ({ opcode := OpCode.OP_BRANCH,
                  operand := ((pre.length + cA.length + cB.length + 2 : Nat) : Int) }
                :: (cB ++ post)) := by
      rw [hw1, hcode]
      simp
    have hseg := execLoop_straight fs (fuel + 1) wr cA _ _ { st with stack := s } hcode1 hA
      (fun i hi => (heapFault_congr i wr st _ rfl rfl rfl rfl).trans (hhA i hi))
    simp only [List.length_append, List.length_singleton] at hseg
    rw [show ((pre.length : Nat) : Int) + 1 = ((pre.length + 1 : Nat) : Int) from by
        push_cast; rfl,
      show fuel + 1 + cA.length + 1 = fuel + 1 + 1 + cA.length from by omega, hseg, hw1]
    generalize hst2 : runStraight (wordOf st wr) cA { st with stack := s } = st2
    have hw2 : wordOf st2 wr = wordOf st wr := by
      rw [← hst2, ← hw1, runStraight_wordOf _ wr cA _ hA]
    by_cases he : st2.error_flag = true
    · rw [execLoop_done fs _ wr _ st2 (Or.inr he), execLoop_done fs _ wr _ st2 (Or.inr he)]
    · have he' : st2.error_flag = false := by simpa using he
      have hget2 : (wordOf st2 wr).code[((pre.length + 1 + cA.length : Nat) : Int).toNat]?
          = some { opcode := OpCode.OP_BRANCH,
                   operand := ((pre.length + cA.length + cB.length + 2 : Nat) : Int) } := by
        rw [hw2, hcode]
        simp only [Int.toNat_ofNat, List.append_assoc]
        rw [List.getElem?_append_right (by omega)]
        rw [List.singleton_append, List.getElem?_cons,
          if_neg (by omega)]
        rw [List.getElem?_append_right (by omega)]
        rw [show pre.length + 1 + cA.length - pre.length - 1 - cA.length = 0 from by omega]
        simp
      have hbr : executePrimitive
          { opcode := OpCode.OP_BRANCH,
            operand := ((pre.length + cA.length + cB.length + 2 : Nat) : Int) }
          ((pre.length + 1 + cA.length : Nat) : Int) (wordOf st2 wr) st2
          = some (st2, ((pre.length + cA.length + cB.length + 2 : Nat) : Int) - 1) := rfl
      rw [execLoop_step fs _ wr _ st2 _ _ _ (by omega) hget2 he' (by simp) hbr (by rfl)]
      rw [show ((pre.length + cA.length + cB.length + 2 : Nat) : Int) - 1 + 1
          = ((pre.length + cA.length + cB.length + 2 : Nat) : Int) from by ring]
  · intro hf
    have hbf : executePrimitive
        { opcode := OpCode.OP_BRANCH_FALSE,
          operand := ((pre.length + cA.length + 2 : Nat) : Int) } (pre.length : Int)
        (wordOf st wr) st
        = some ({ st with stack := s }, ((pre.length + cA.length + 2 : Nat) : Int) - 1) := by
      simp [executePrimitive, pop, hstack, herr, hf]
    rw [show fuel + cB.length + 2 = (fuel + cB.length) + 2 from by omega,
      execLoop_step fs _ wr _ st _ _ _ (by omega) hget herr (by simp) hbf (by rfl)]
    have hcode1 : (wordOf { st with stack := s } wr).code
        = (pre ++ [{ opcode := OpCode.OP_BRANCH_FALSE,
                     operand := ((pre.length + cA.length + 2 : Nat) : Int) }] ++ cA
            ++ [{ opcode := OpCode.OP_BRANCH,
                  operand := ((pre.length + cA.length + cB.length + 2 : Nat) : Int) }])
            ++ cB ++ post := by
      rw [hw1, hcode]
    have hseg := execLoop_straight fs fuel wr cB _ _ { st with stack := s } hcode1 hB
      (fun i hi => (heapFault_congr i wr st _ rfl rfl rfl rfl).trans (hhB i hi))
    simp only [List.length_append, List.length_singleton] at hseg
    rw [show ((pre.length + cA.length + 2 : Nat) : Int) - 1 + 1
          = ((pre.length + 1 + cA.length + 1 : Nat) : Int) from by push_cast; ring,
      show fuel + cB.length + 1 = fuel + 1 + cB.length from by omega, hseg, hw1,
      show pre.length + 1 + cA.length + 1 + cB.length
          = pre.length + cA.length + cB.length + 2 from by omega]

theorem getElem?_append_cons_at (l1 l2 : List Instruction) (x : Instruction) (n : Nat)
    (h : n = l1.length) : (l1 ++ x :: l2)[n]? = some x := by
  subst h
  rw [List.getElem?_append_right (le_refl _)]
  simp

theorem pop_wordOf (st : State) (wr : WordRef) : wordOf (pop st).2 wr = wordOf st wr := by
  unfold pop
  split <;> cases wr <;> rfl

theorem pop_error_flag (st : State) (h : (pop st).2.error_flag = false) :
    st.error_flag = false := by
  unfold pop at h
  split at h
  · exact h
  · simp [set_error] at h

theorem runStraight_error_flag (word : CompiledWord) (body : List Instruction) (st : State)
    (h : (runStraight word body st).error_flag = false) : st.error_flag = false := by
  by_contra hc
  have hc' : st.error_flag = true := by simpa using hc
  rw [runStraight_error word body st hc'] at h
  rw [h] at hc'
  exact absurd hc' (by decide)

/-- One pass of `BEGIN C WHILE B REPEAT` from the `BEGIN`: the code of `C`, then `WHILE`
pops the flag; a flag other than 0 lets the code of `B` run and `REPEAT` go back to the
`BEGIN`, the flag 0 leads to the instruction after `REPEAT`. -/
theorem execLoop_while_pass (fs : List Char → Option (List (List Char))) (fuel : Nat)
    (wr : WordRef) (st : State) (pre cC cB post : List Instruction)
    (hcode : (wordOf st wr).code = pre ++ whileCode pre.length cC cB ++ post)
    (hC : ∀ i ∈ cC, isStraight i.opcode = true) (hB : ∀ i ∈ cB, isStraight i.opcode = true)
    (hhC : ∀ i ∈ cC, heapFault i wr st = false) (hhB : ∀ i ∈ cB, heapFault i wr st = false)
    (hpop : (pop (runStraight (wordOf st wr) cC st)).2.error_flag = false) :
    ((pop (runStraight (wordOf st wr) cC st)).1 ≠ 0 →
      execLoop fs (fuel + 1 + (cC.length + cB.length + 3)) wr pre.length st
        = execLoop fs (fuel + 1) wr pre.length (whilePass (wordOf st wr) cC cB st))
    ∧ ((pop (runStraight (wordOf st wr) cC st)).1 = 0 →
      execLoop fs (fuel + cC.length + 3) wr pre.length st
        = execLoop fs (fuel + 1) wr (pre.length + cC.length + cB.length + 3 : Nat)
            (pop (runStraight (wordOf st wr) cC st)).2) := by
  have hX := pop_error_flag _ hpop
  have herr := runStraight_error_flag _ _ _ hX
  have hA : (wordOf st wr).code
      = (pre ++ [{ opcode := OpCode.OP_BEGIN, operand := 0 }]) ++ cC
        ++ ({ opcode := OpCode.OP_WHILE,
              operand := ((pre.length + cC.length + cB.length + 3 : Nat) : Int) }
            :: (cB ++ { opcode := OpCode.OP_REPEAT, operand := (pre.length : Int) } :: post)) := by
    rw [hcode]
    simp [whileCode]
  have hget : (wordOf st wr).code[(pre.length : Int).toNat]?
      = some { opcode := OpCode.OP_BEGIN, operand := 0 } := by
    rw [hcode, Int.toNat_ofNat]
    simp only [whileCode, List.append_assoc, List.singleton_append, List.cons_append]
    exact getElem?_append_cons_at _ _ _ _ rfl
  have hseg := fun F => execLoop_straight fs F wr cC _ _ st hA hC hhC
  simp only [List.length_append, List.length_singleton] at hseg
  have hwX := runStraight_wordOf (wordOf st wr) wr cC st hC
  have hgetW : (wordOf (runStraight (wordOf st wr) cC st) wr).code[
      ((pre.length + 1 + cC.length : Nat) : Int).toNat]?
      = some { opcode := OpCode.OP_WHILE,
               operand := ((pre.length + cC.length + cB.length + 3 : Nat) : Int) } := by
    rw [hwX, hA, Int.toNat_ofNat]
    exact getElem?_append_cons_at _ _ _ _ (by
      simp only [List.length_append, List.length_singleton])
  constructor
  · intro hf
    have hwh : executePrimitive
        { opcode := OpCode.OP_WHILE,
          operand := ((pre.length + cC.length + cB.length + 3 : Nat) : Int) }
        ((pre.length + 1 + cC.length : Nat) : Int)
        (wordOf (runStraight (wordOf st wr) cC st) wr) (runStraight (wordOf st wr) cC st)
        = some ((pop (runStraight (wordOf st wr) cC st)).2,
                ((pre.length + 1 + cC.length : Nat) : Int)) := by
      simp only [executePrimitive]
      simp [hpop, hf]
    have hw1 : wordOf (pop (runStraight (wordOf st wr) cC st)).2 wr = wordOf st wr := by
      rw [pop_wordOf, hwX]
    have hB2 : (wordOf (pop (runStraight (wordOf st wr) cC st)).2 wr).code
        = (pre ++ [{ opcode := OpCode.OP_BEGIN, operand := 0 }] ++ cC
          ++ [{ opcode := OpCode.OP_WHILE,
                operand := ((pre.length + cC.length + cB.length + 3 : Nat) : Int) }]) ++ cB
          ++ ({ opcode := OpCode.OP_REPEAT, operand := (pre.length : Int) } :: post) := by
      rw [hw1, hcode]
      simp [whileCode]
    have hsegB := execLoop_straight fs (fuel + 1) wr cB _ _ _ hB2 hB
      (fun i hi => by
        rw [pop_heapFault, runStraight_heapFault _ wr i cC st hC]
        exact hhB i hi)
    simp only [List.length_append, List.length_singleton] at hsegB
    rw [show fuel + 1 + (cC.length + cB.length + 3)
          = (fuel + cB.length + 2 + cC.length) + 2 from by omega,
      execLoop_step fs _ wr _ st _ st _ (by omega) hget herr (by simp) rfl (by rfl),
      show ((pre.length : Nat) : Int) + 1 = ((pre.length + 1 : Nat) : Int) from by
        push_cast; rfl,
      show fuel + cB.length + 2 + cC.length + 1
          = fuel + cB.length + 2 + 1 + cC.length from by omega, hseg,
      show fuel + cB.length + 2 + 1 = (fuel + cB.length + 1) + 2 from by omega,
      execLoop_step fs _ wr _ _ _ _ _ (by omega) hgetW hX (by simp) hwh (by rfl),
      show ((pre.length + 1 + cC.length : Nat) : Int) + 1
          = ((pre.length + 1 + cC.length + 1 : Nat) : Int) from by push_cast; rfl,
      show fuel + cB.length + 1 + 1 = fuel + 1 + 1 + cB.length from by omega, hsegB, hw1]
    unfold whilePass
    have hwY : wordOf (runStraight (wordOf st wr) cB
        (pop (runStraight (wordOf st wr) cC st)).2) wr = wordOf st wr := by
      rw [runStraight_wordOf (wordOf st wr) wr cB _ hB, hw1]
    generalize runStraight (wordOf st wr) cB (pop (runStraight (wordOf st wr) cC st)).2 = Y
      at hwY
    by_cases he : Y.error_flag = true
    · rw [execLoop_done fs _ wr _ Y (Or.inr he), execLoop_done fs _ wr _ Y (Or.inr he)]
    · have he' : Y.error_flag = false := by simpa using he
      have hgetR : (wordOf Y wr).code[((pre.length + 1 + cC.length + 1 + cB.length : Nat)
          : Int).toNat]? = some { opcode := OpCode.OP_REPEAT, operand := (pre.length : Int) } := by
        rw [hwY, ← hw1, hB2, Int.toNat_ofNat]
        exact getElem?_append_cons_at _ _ _ _ (by
          simp only [List.length_append, List.length_singleton])
      rw [execLoop_step fs _ wr _ Y _ Y ((pre.length : Int) - 1) (by omega) hgetR he'
        (by simp) rfl (by rfl)]
      rw [show (pre.length : Int) - 1 + 1 = (pre.length : Int) from by ring]
  · intro hf
    have hwh : executePrimitive
        { opcode := OpCode.OP_WHILE,
          operand := ((pre.length + cC.length + cB.length + 3 : Nat) : Int) }
        ((pre.length + 1 + cC.length : Nat) : Int)
        (wordOf (runStraight (wordOf st wr) cC st) wr) (runStraight (wordOf st wr) cC st)
        = some ((pop (runStraight (wordOf st wr) cC st)).2,
                ((pre.length + cC.length + cB.length + 3 : Nat) : Int) - 1) := by
      simp only [executePrimitive]
      simp [hpop, hf]
    rw [show fuel + cC.length + 3 = (fuel + 1 + cC.length) + 2 from by omega,
      execLoop_step fs _ wr _ st _ st _ (by omega) hget herr (by simp) rfl (by rfl),
      show ((pre.length : Nat) : Int) + 1 = ((pre.length + 1 : Nat) : Int) from by
        push_cast; rfl,
      show fuel + 1 + cC.length + 1 = fuel + 1 + 1 + cC.length from by omega, hseg,
      execLoop_step fs _ wr _ _ _ _ _ (by omega) hgetW hX (by simp) hwh (by rfl)]
    rw [show ((pre.length + cC.length + cB.length + 3 : Nat) : Int) - 1 + 1
        = ((pre.length + cC.length + cB.length + 3 : Nat) : Int) from by ring]

theorem whilePass_wordOf (word : CompiledWord) (wr : WordRef) (cC cB : List Instruction)
    (st : State) (hC : ∀ i ∈ cC, isStraight i.opcode = true)
    (hB : ∀ i ∈ cB, isStraight i.opcode = true) :
    wordOf (whilePass word cC cB st) wr = wordOf st wr := by
  unfold whilePass
  rw [runStraight_wordOf word wr cB _ hB, pop_wordOf, runStraight_wordOf word wr cC _ hC]

/-- The run of `BEGIN C WHILE B REPEAT` from the `BEGIN` when `C` leaves a flag other than
0 in the first `n` passes and the flag 0 in the next one: `n` passes of `C` and `B`, then
`C` once more, and the instruction after `REPEAT` is reached. -/
theorem execLoop_while (fs : List Char → Option (List (List Char))) (fuel : Nat)
    (wr : WordRef) (w : CompiledWord) (pre cC cB post : List Instruction)
    (hcode : w.code = pre ++ whileCode pre.length cC cB ++ post)
    (hC : ∀ i ∈ cC, isStraight i.opcode = true) (hB : ∀ i ∈ cB, isStraight i.opcode = true)
    (n : Nat) :
    ∀ st : State, wordOf st wr = w →
      (∀ i ∈ cC, heapFault i wr st = false) → (∀ i ∈ cB, heapFault i wr st = false) →
      (∀ j, j ≤ n →
        (pop (runStraight w cC (whilePasses w cC cB j st))).2.error_flag = false) →
      (∀ j, j < n → (pop (runStraight w cC (whilePasses w cC cB j st))).1 ≠ 0) →
      (pop (runStraight w cC (whilePasses w cC cB n st))).1 = 0 →
      execLoop fs (fuel + n * (cC.length + cB.length + 3) + cC.length + 3) wr pre.length st
        = execLoop fs (fuel + 1) wr (pre.length + cC.length + cB.length + 3 : Nat)
            (pop (runStraight w cC (whilePasses w cC cB n st))).2 := by
  induction n with
  | zero =>
    intro st hw hhC hhB hpop _ hstop
    have h := (execLoop_while_pass fs fuel wr st pre cC cB post (by rw [hw]; exact hcode)
      hC hB hhC hhB (by rw [hw]; exact hpop 0 (le_refl _))).2 (by rw [hw]; exact hstop)
    rw [hw] at h
    rw [show fuel + 0 * (cC.length + cB.length + 3) + cC.length + 3 = fuel + cC.length + 3
      from by omega]
    exact h
  | succ n ih =>
    intro st hw hhC hhB hpop hgo hstop
    have h := (execLoop_while_pass fs (fuel + n * (cC.length + cB.length + 3) + cC.length + 2)
      wr st pre cC cB post (by rw [hw]; exact hcode)
      hC hB hhC hhB (by rw [hw]; exact hpop 0 (Nat.zero_le _))).1
      (by rw [hw]; exact hgo 0 (Nat.succ_pos n))
    rw [hw] at h
    rw [show fuel + (n + 1) * (cC.length + cB.length + 3) + cC.length + 3
        = fuel + n * (cC.length + cB.length + 3) + cC.length + 2 + 1
          + (cC.length + cB.length + 3) from by ring, h,
      show fuel + n * (cC.length + cB.length + 3) + cC.length + 2 + 1
        = fuel + n * (cC.length + cB.length + 3) + cC.length + 3 from by omega]
    exact ih (whilePass w cC cB st)
      (by rw [whilePass_wordOf w wr cC cB st hC hB, hw])
      (fun i hi => by rw [whilePass_heapFault w wr i cC cB st hC hB]; exact hhC i hi)
      (fun i hi => by rw [whilePass_heapFault w wr i cC cB st hC hB]; exact hhB i hi)
      (fun j hj => hpop (j + 1) (Nat.succ_le_succ hj))
      (fun j hj => hgo (j + 1) (Nat.succ_lt_succ hj))
      hstop

/-- In compile mode `BEGIN C WHILE B REPEAT`, with `C` and `B` runs of one-instruction
tokens, appends `whileCode` and leaves the control stack as it was. -/
theorem interpretLoop_begin_while_repeat (fs : List Char → Option (List (List Char)))
    (fuel : Nat) (more : List Char) (C B : List (List Char)) (st : State)
    (herr : st.error_flag = false) (hcomp : st.compiling = true)
    (hC : ∀ t ∈ C, isPrimToken t = true) (hB : ∀ t ∈ B, isPrimToken t = true)
    (hroom : st.currentWord.code.length + C.length + B.length + 3 ≤ WORD_CODE_SIZE)
    (hcs : st.control_stack.length + 1 < CONTROL_STACK_SIZE) :
    interpretLoop fs (fuel + (C.length + B.length + 3))
        (strtok_r (tokenLine ("BEGIN".toList :: (C ++ "WHILE".toList
          :: (B ++ ["REPEAT".toList]))) more)) st
      = interpretLoop fs fuel (strtok_r more)
          (withCode st
            (st.currentWord.code ++ whileCode st.currentWord.code.length (primCode C) (primCode B))
            st.control_stack) := by
  have hlC := primCode_length C hC
  have hlB := primCode_length B hB
  -- BEGIN
  rw [strtok_r_tokenLine _ _ _ (by decide),
    show fuel + (C.length + B.length + 3) = (fuel + B.length + 2 + C.length) + 1 from by omega,
    interpretLoop_compile fs _ "BEGIN".toList _ st herr hcomp (by decide),
    compileToken_BEGIN _ st (by omega) (by omega)]
  simp only [Option.some_bind]
  generalize hS1 : withCode st
    (st.currentWord.code ++ [{ opcode := OpCode.OP_BEGIN, operand := 0 }])
    ({ type := ControlType.CT_DO, addr := (st.currentWord.code.length : Int) }
      :: st.control_stack) = S1
  have e1 : S1.error_flag = false := by rw [← hS1]; exact herr
  have c1 : S1.compiling = true := by rw [← hS1]; exact hcomp
  have k1 : S1.currentWord.code
      = st.currentWord.code ++ [{ opcode := OpCode.OP_BEGIN, operand := 0 }] := by
    rw [← hS1]; rfl
  have s1 : S1.control_stack
      = { type := ControlType.CT_DO, addr := (st.currentWord.code.length : Int) }
          :: st.control_stack := by
    rw [← hS1]; rfl
  -- C
  rw [tokenLine_append,
    interpretLoop_compile_prims fs (fuel + B.length + 2) _ C S1 e1 c1 hC (by
      rw [k1]
      simp only [List.length_append, List.length_singleton]
      omega)]
  generalize hS2 : withCode S1 (S1.currentWord.code ++ primCode C) S1.control_stack = S2
  have e2 : S2.error_flag = false := by rw [← hS2]; exact e1
  have c2 : S2.compiling = true := by rw [← hS2]; exact c1
  have k2 : S2.currentWord.code
      = st.currentWord.code ++ [{ opcode := OpCode.OP_BEGIN, operand := 0 }]
          ++ primCode C := by
    rw [← hS2, withCode_code, k1]
  have s2 : S2.control_stack
      = { type := ControlType.CT_DO, addr := (st.currentWord.code.length : Int) }
          :: st.control_stack := by
    rw [← hS2, withCode_control_stack, s1]
  have l2 : S2.currentWord.code.length = st.currentWord.code.length + 1 + C.length := by
    rw [k2]
    simp only [List.length_append, List.length_singleton, hlC]
  -- WHILE
  rw [strtok_r_tokenLine _ _ _ (by decide),
    show fuel + B.length + 2 = (fuel + 1 + B.length) + 1 from by omega,
    interpretLoop_compile fs _ "WHILE".toList _ S2 e2 c2 (by decide),
    compileToken_WHILE _ S2 (by omega) (by
      rw [s2]
      simp only [List.length_cons]
      omega)]
  simp only [Option.some_bind]
  generalize hS3 : withCode S2
    (S2.currentWord.code ++ [{ opcode := OpCode.OP_WHILE, operand := 0 }])
    ({ type := ControlType.CT_IF, addr := (S2.currentWord.code.length : Int) }
      :: S2.control_stack) = S3
  have e3 : S3.error_flag = false := by rw [← hS3]; exact e2
  have c3 : S3.compiling = true := by rw [← hS3]; exact c2
  have k3 : S3.currentWord.code
      = S2.currentWord.code ++ [{ opcode := OpCode.OP_WHILE, operand := 0 }] := by
    rw [← hS3]; rfl
  have s3 : S3.control_stack
      = { type := ControlType.CT_IF, addr := (S2.currentWord.code.length : Int) }
          :: { type := ControlType.CT_DO, addr := (st.currentWord.code.length : Int) }
          :: st.control_stack := by
    rw [← hS3, withCode_control_stack, s2]
  have l3 : S3.currentWord.code.length = st.currentWord.code.length + C.length + 2 := by
    rw [k3, List.length_append, l2]
    simp only [List.length_singleton]
    omega
  -- B
  rw [tokenLine_append,
    interpretLoop_compile_prims fs (fuel + 1) _ B S3 e3 c3 hB (by omega)]
  generalize hS4 : withCode S3 (S3.currentWord.code ++ primCode B) S3.control_stack = S4
  have e4 : S4.error_flag = false := by rw [← hS4]; exact e3
  have c4 : S4.compiling = true := by rw [← hS4]; exact c3
  have k4 : S4.currentWord.code = S3.currentWord.code ++ primCode B := by
    rw [← hS4]; rfl
  have s4 : S4.control_stack
      = { type := ControlType.CT_IF, addr := (S2.currentWord.code.length : Int) }
          :: { type := ControlType.CT_DO, addr := (st.currentWord.code.length : Int) }
          :: st.control_stack := by
    rw [← hS4, withCode_control_stack, s3]
  have l4 : S4.currentWord.code.length
      = st.currentWord.code.length + C.length + B.length + 2 := by
    rw [k4, List.length_append, l3, hlB]
    omega
  -- REPEAT
  rw [show tokenLine ["REPEAT".toList] more = tokenLine ("REPEAT".toList :: []) more from rfl,
    strtok_r_tokenLine _ _ _ (by decide),
    interpretLoop_compile fs _ "REPEAT".toList _ S4 e4 c4 (by decide),
    compileToken_REPEAT _ S4 _ _ st.control_stack (by omega) s4]
  simp only [Option.some_bind]
  have hw : ∀ x, withCode S4 x st.control_stack = withCode st x st.control_stack := by
    intro x
    rw [← hS4, ← hS3, ← hS2, ← hS1]
    rfl
  rw [hw, l4, k4, k3, l2, k2]
  congr 2
  rw [show st.currentWord.code ++ [{ opcode := OpCode.OP_BEGIN, operand := 0 }] ++ primCode C
          ++ [{ opcode := OpCode.OP_WHILE, operand := 0 }] ++ primCode B
          ++ [{ opcode := OpCode.OP_REPEAT, operand := (st.currentWord.code.length : Int) }]
        = (st.currentWord.code ++ [{ opcode := OpCode.OP_BEGIN, operand := 0 }] ++ primCode C)
          ++ { opcode := OpCode.OP_WHILE, operand := 0 }
          :: (primCode B
          ++ [{ opcode := OpCode.OP_REPEAT, operand := (st.currentWord.code.length : Int) }])
        from by simp]
  rw [show ((st.currentWord.code.length + 1 + C.length : Nat) : Int)
        = (((st.currentWord.code ++ [Instruction.mk OpCode.OP_BEGIN 0]
            ++ primCode C).length : Nat) : Int) from by
        simp only [List.length_append, List.length_singleton, hlC],
    patchOperand_append_cons]
  simp only [whileCode, List.append_assoc, List.singleton_append, List.cons_append,
    List.nil_append, hlC, hlB]
  rw [show ((st.currentWord.code.length + C.length + B.length + 2 : Nat) : Int) + 1
    = ((st.currentWord.code.length + C.length + B.length + 3 : Nat) : Int) from by
      push_cast; ring]

theorem CompileFrame_error_flag {st st1 : State} (h : CompileFrame st st1) :
    st1.error_flag = st.error_flag := by
  unfold CompileFrame at h
  rw [h]

theorem CompileFrame_compiling {st st1 : State} (h : CompileFrame st st1) :
    st1.compiling = st.compiling := by
  unfold CompileFrame at h
  rw [h]

theorem CompileFrame_dictionary {st st1 : State} (h : CompileFrame st st1) :
    st1.dictionary = st.dictionary ∧ st1.dict_count = st.dict_count
      ∧ st1.current_word_index = st.current_word_index := by
  unfold CompileFrame at h
  refine ⟨?_, ?_, ?_⟩ <;> rw [h]

theorem liveNames_getElem? (st : State) (hlen : st.dict_count ≤ st.dictionary.length)
    (i : Nat) (hi : i < st.dict_count) :
    (liveNames st)[i]? = some (st.dictionary.getD i emptyWord).name := by
  have h1 : i < st.dictionary.length := by omega
  simp [liveNames, List.getElem?_take, hi, h1, List.getD_eq_getElem?_getD]

theorem liveNames_length (st : State) (hlen : st.dict_count ≤ st.dictionary.length) :
    (liveNames st).length = st.dict_count := by
  simp [liveNames, hlen]

theorem emit_eq {i : Instruction} {st a : State} (h : emit i st = some a) :
    a = withCode st (st.currentWord.code ++ [i]) st.control_stack := by
  unfold emit at h
  split at h
  · cases h
    rfl
  · cases h

theorem pushControl_eq {ty : ControlType} {ad : Int} {st b : State}
    (h : pushControl ty ad st = some b) :
    b = { st with control_stack := { type := ty, addr := ad } :: st.control_stack } := by
  unfold pushControl at h
  split at h
  · cases h
    rfl
  · cases h

theorem addString_eq {x : List Char} {st a : State} (h : addString x st = some a) :
    a = { st with currentWord :=
            { st.currentWord with strings := st.currentWord.strings ++ [x] } } := by
  unfold addString at h
  split at h
  · cases h
    rfl
  · cases h

theorem patchEndofs_control_stack (l : List ControlEntry) :
    ∀ st : State, (patchEndofs l st).control_stack = dropEndofs l
      ∧ (patchEndofs l st).currentWord.code.length = st.currentWord.code.length
      ∧ (patchEndofs l st).currentWord.strings = st.currentWord.strings := by
  induction l with
  | nil => intro st; exact ⟨rfl, rfl, rfl⟩
  | cons e es ih =>
    intro st
    simp only [patchEndofs, dropEndofs]
    split
    · obtain ⟨h1, h2, h3⟩ := ih (patchHere e.addr st)
      refine ⟨h1, ?_, ?_⟩
      · rw [h2]
        simp [patchHere]
      · rw [h3]
        rfl
    · exact ⟨rfl, rfl, rfl⟩

/-- The one-instruction tokens are not control words. -/
theorem controlWord_primitive (t : List Char) (op : OpCode)
    (h : primitiveOpcode t = some op) : controlWord t = none := by
  unfold primitiveOpcode at h
  by_cases h0 : t = "+".toList
  · subst h0
    decide
  rw [if_neg h0] at h
  by_cases h1 : t = "-".toList
  · subst h1
    decide
  rw [if_neg h1] at h
  by_cases h2 : t = "*".toList
  · subst h2
    decide
  rw [if_neg h2] at h
  by_cases h3 : t = "/".toList
  · subst h3
    decide
  rw [if_neg h3] at h
  by_cases h4 : t = "DUP".toList
  · subst h4
    decide
  rw [if_neg h4] at h
  by_cases h5 : t = "SWAP".toList
  · subst h5
    decide
  rw [if_neg h5] at h
  by_cases h6 : t = "OVER".toList
  · subst h6
    decide
  rw [if_neg h6] at h
  by_cases h7 : t = "ROT".toList
  · subst h7
    decide
  rw [if_neg h7] at h
  by_cases h8 : t = "DROP".toList
  · subst h8
    decide
  rw [if_neg h8] at h
  by_cases h9 : t = "=".toList
  · subst h9
    decide
  rw [if_neg h9] at h
  by_cases h10 : t = "<".toList
  · subst h10
    decide
  rw [if_neg h10] at h
  by_cases h11 : t = ">".toList
  · subst h11
    decide
  rw [if_neg h11] at h
  by_cases h12 : t = "AND".toList
  · subst h12
    decide
  rw [if_neg h12] at h
  by_cases h13 : t = "OR".toList
  · subst h13
    decide
  rw [if_neg h13] at h
  by_cases h14 : t = "NOT".toList
  · subst h14
    decide
  rw [if_neg h14] at h
  by_cases h15 : t = "I".toList
  · subst h15
    decide
  rw [if_neg h15] at h
  by_cases h16 : t = "CR".toList
  · subst h16
    decide
  rw [if_neg h16] at h
  by_cases h17 : t = ".S".toList
  · subst h17
    decide
  rw [if_neg h17] at h
  by_cases h18 : t = ".".toList
  · subst h18
    decide
  rw [if_neg h18] at h
  by_cases h19 : t = "FLUSH".toList
  · subst h19
    decide
  rw [if_neg h19] at h
  by_cases h20 : t = "EXIT".toList
  · subst h20
    decide
  rw [if_neg h20] at h
  by_cases h21 : t = "&".toList
  · subst h21
    decide
  rw [if_neg h21] at h
  by_cases h22 : t = "|".toList
  · subst h22
    decide
  rw [if_neg h22] at h
  by_cases h23 : t = "^".toList
  · subst h23
    decide
  rw [if_neg h23] at h
  by_cases h24 : t = "~".toList
  · subst h24
    decide
  rw [if_neg h24] at h
  by_cases h25 : t = "LSHIFT".toList
  · subst h25
    decide
  rw [if_neg h25] at h
  by_cases h26 : t = "RSHIFT".toList
  · subst h26
    decide
  rw [if_neg h26] at h
  by_cases h27 : t = "WORDS".toList
  · subst h27
    decide
  rw [if_neg h27] at h
  by_cases h28 : t = "@".toList
  · subst h28
    decide
  rw [if_neg h28] at h
  by_cases h29 : t = "!".toList
  · subst h29
    decide
  rw [if_neg h29] at h
  by_cases h30 : t = "PICK".toList
  · subst h30
    decide
  rw [if_neg h30] at h
  exact absurd h (by simp)

theorem effect_emit_map {i : Instruction} {st st1 : State} {r rest1 : List Char}
    {k : Option ControlWord}
    (h : (emit i st).map (fun s => (s, r)) = some (st1, rest1)) (hk : k = none) :
    st1.control_stack = controlAfter k st.currentWord.code.length st.control_stack
      ∧ st1.currentWord.code.length ≤ st.currentWord.code.length + 1
      ∧ st1.currentWord.strings.length ≤ st.currentWord.strings.length + 1 := by
  obtain ⟨a, ha, hb⟩ := Option.map_eq_some'.1 h
  cases hb
  rw [emit_eq ha, hk]
  simp [controlAfter, withCode]

theorem effect_emit_push {i : Instruction} {ty : ControlType} {st st1 : State}
    {r rest1 : List Char} {k : Option ControlWord}
    (h : (emit i st).bind (fun s1 =>
        (pushControl ty (s1.currentWord.code_length - 1) s1).map (fun s => (s, r)))
      = some (st1, rest1))
    (hka : ∀ (len : Int) (cs : List ControlEntry),
      controlAfter k len cs = { type := ty, addr := len } :: cs) :
    st1.control_stack = controlAfter k st.currentWord.code.length st.control_stack
      ∧ st1.currentWord.code.length ≤ st.currentWord.code.length + 1
      ∧ st1.currentWord.strings.length ≤ st.currentWord.strings.length + 1 := by
  obtain ⟨a, ha, hr⟩ := Option.bind_eq_some.1 h
  obtain ⟨b, hb1, hb2⟩ := Option.map_eq_some'.1 hr
  cases hb2
  rw [pushControl_eq hb1, emit_eq ha, hka]
  simp [withCode, CompiledWord.code_length]

theorem effect_addString_emit {x : List Char} {i : Instruction} {st st1 : State}
    {r rest1 : List Char} {k : Option ControlWord}
    (h : (addString x st).bind (fun s1 => (emit i s1).map (fun s => (s, r)))
      = some (st1, rest1)) (hk : k = none) :
    st1.control_stack = controlAfter k st.currentWord.code.length st.control_stack
      ∧ st1.currentWord.code.length ≤ st.currentWord.code.length + 1
      ∧ st1.currentWord.strings.length ≤ st.currentWord.strings.length + 1 := by
  obtain ⟨a, ha, hr⟩ := Option.bind_eq_some.1 h
  obtain ⟨b, hb1, hb2⟩ := Option.map_eq_some'.1 hr
  cases hb2
  rw [emit_eq hb1, addString_eq ha, hk]
  simp [controlAfter, withCode]

theorem effect_same {st st1 : State} {k : Option ControlWord}
    (hcs : st1.control_stack = st.control_stack)
    (hcw : st1.currentWord = st.currentWord)
    (hk : controlAfter k st.currentWord.code.length st.control_stack = st.control_stack) :
    st1.control_stack = controlAfter k st.currentWord.code.length st.control_stack
      ∧ st1.currentWord.code.length ≤ st.currentWord.code.length + 1
      ∧ st1.currentWord.strings.length ≤ st.currentWord.strings.length + 1 := by
  rw [hk, hcs, hcw]
  exact ⟨rfl, Nat.le_succ _, Nat.le_succ _⟩

/-- What one call of `compileToken` does to the control stack and to the sizes of the
code and of the string pool of `currentWord`. -/
theorem compileToken_effect (token rest : List Char) (st st1 : State) (rest1 : List Char)
    (h : compileToken token rest st = some (st1, rest1)) :
    st1.control_stack
        = controlAfter (controlWord token) st.currentWord.code.length st.control_stack
      ∧ st1.currentWord.code.length ≤ st.currentWord.code.length + 1
      ∧ st1.currentWord.strings.length ≤ st.currentWord.strings.length + 1 := by
  unfold compileToken at h
  split at h
  · rename_i op hop
    exact effect_emit_map h (controlWord_primitive token op hop)
  by_cases hc0 : token = "IF".toList
  · rw [if_pos hc0] at h
    subst hc0
    exact effect_emit_push h (fun _ _ => rfl)
  rw [if_neg hc0] at h
  by_cases hc1 : token = "ELSE".toList
  · rw [if_pos hc1] at h
    subst hc1
    obtain ⟨a, ha, hr⟩ := Option.bind_eq_some.1 h
    have ea := emit_eq ha
    subst ea
    rw [show controlWord "ELSE".toList = some ControlWord.wElse from by decide]
    simp only [withCode_control_stack] at hr
    split at hr
    · rename_i e es hcs
      split at hr
      · rename_i hty
        obtain ⟨b, hb1, hb2⟩ := Option.map_eq_some'.1 hr
        cases hb2
        rw [pushControl_eq hb1, hcs]
        simp [controlAfter, hty, withCode, patchHere, CompiledWord.code_length]
      · rename_i hty
        cases hr
        rw [hcs]
        simp [controlAfter, hty, withCode]
    · rename_i hcs
      cases hr
      rw [hcs]
      simp [controlAfter, withCode]
  rw [if_neg hc1] at h
  by_cases hc2 : token = "THEN".toList
  · rw [if_pos hc2] at h
    subst hc2
    rw [show controlWord "THEN".toList = some ControlWord.wThen from by decide]
    split at h
    · rename_i e es hcs
      split at h
      · rename_i hty
        cases h
        rw [hcs]
        simp [controlAfter, hty, patchHere]
      · rename_i hty
        cases h
        rw [hcs]
        simp [controlAfter, hty]
    · rename_i hcs
      cases h
      rw [hcs]
      simp [controlAfter]
  rw [if_neg hc2] at h
  by_cases hc3 : token = "DO".toList
  · rw [if_pos hc3] at h
    subst hc3
    exact effect_emit_push h (fun _ _ => rfl)
  rw [if_neg hc3] at h
  by_cases hc4 : token = "LOOP".toList
  · rw [if_pos hc4] at h
    subst hc4
    rw [show controlWord "LOOP".toList = some ControlWord.wLoop from by decide]
    split at h
    · rename_i e es hcs
      split at h
      · rename_i hty
        obtain ⟨a, ha, hb⟩ := Option.map_eq_some'.1 h
        cases hb
        rw [emit_eq ha, hcs]
        simp [controlAfter, hty, withCode]
      · rename_i hty
        cases h
        rw [hcs]
        simp [controlAfter, hty]
    · rename_i hcs
      cases h
      rw [hcs]
      simp [controlAfter]
  rw [if_neg hc4] at h
  by_cases hc5 : token = "LOAD".toList
  · rw [if_pos hc5] at h
    subst hc5
    have hk : controlWord "LOAD".toList = none := by decide
    dsimp only at h
    split at h
    · cases h
      exact effect_same rfl rfl (by rw [hk]; rfl)
    · split at h
      · cases h
        exact effect_same rfl rfl (by rw [hk]; rfl)
      · split at h
        · cases h
          exact effect_same rfl rfl (by rw [hk]; rfl)
        · exact effect_addString_emit h hk
  rw [if_neg hc5] at h
  by_cases hc6 : token = ['.', dquote]
  · rw [if_pos hc6] at h
    subst hc6
    have hk : controlWord ['.', dquote] = none := by decide
    split at h
    · cases h
      exact effect_same rfl rfl (by rw [hk]; rfl)
    · exact effect_addString_emit h hk
  rw [if_neg hc6] at h
  by_cases hc7 : token = "CASE".toList
  · rw [if_pos hc7] at h
    subst hc7
    exact effect_emit_push h (fun _ _ => rfl)
  rw [if_neg hc7] at h
  by_cases hc8 : token = "OF".toList
  · rw [if_pos hc8] at h
    subst hc8
    exact effect_emit_push h (fun _ _ => rfl)
  rw [if_neg hc8] at h
  by_cases hc9 : token = "ENDOF".toList
  · rw [if_pos hc9] at h
    subst hc9
    rw [show controlWord "ENDOF".toList = some ControlWord.wEndof from by decide]
    split at h
    · rename_i e es hcs
      split at h
      · rename_i hty
        obtain ⟨a, ha, hr⟩ := Option.bind_eq_some.1 h
        obtain ⟨b, hb1, hb2⟩ := Option.map_eq_some'.1 hr
        cases hb2
        rw [pushControl_eq hb1, emit_eq ha, hcs]
        simp [controlAfter, hty, withCode, patchHere, CompiledWord.code_length]
      · rename_i hty
        cases h
        rw [hcs]
        simp [controlAfter, hty, print, hcs]
    · rename_i hcs
      cases h
      rw [hcs]
      simp [controlAfter, print, hcs]
  rw [if_neg hc9] at h
  by_cases hc10 : token = "ENDCASE".toList
  · rw [if_pos hc10] at h
    subst hc10
    rw [show controlWord "ENDCASE".toList = some ControlWord.wEndcase from by decide]
    split at h
    · rename_i e es hcs
      split at h
      · rename_i hty
        obtain ⟨a, ha, hb⟩ := Option.map_eq_some'.1 h
        have ea := emit_eq ha
        subst ea
        obtain ⟨p1, p2, p3⟩ := patchEndofs_control_stack st.control_stack
          (withCode st (st.currentWord.code ++ [{ opcode := OpCode.OP_ENDCASE, operand := 0 }])
            st.control_stack)
        simp only [withCode_control_stack] at hb
        split at hb
        · rename_i e2 es2 hcs2
          have hd : dropEndofs (e :: es) = e2 :: es2 := by
            rw [← hcs]
            exact p1.symm.trans hcs2
          split at hb
          · rename_i hty2
            cases hb
            refine ⟨?_, ?_, ?_⟩
            · simp [controlAfter, hcs, hty, hd, hty2]
            · show (patchEndofs _ _).currentWord.code.length ≤ _
              rw [p2]
              simp [withCode]
            · show (patchEndofs _ _).currentWord.strings.length ≤ _
              rw [p3]
              simp [withCode]
          · rename_i hty2
            cases hb
            refine ⟨?_, ?_, ?_⟩
            · rw [hcs2]
              simp [controlAfter, hcs, hty, hd, hty2]
            · rw [p2]
              simp [withCode]
            · rw [p3]
              simp [withCode]
        · rename_i hcs2
          have hd : dropEndofs (e :: es) = [] := by
            rw [← hcs]
            exact p1.symm.trans hcs2
          cases hb
          refine ⟨?_, ?_, ?_⟩
          · rw [hcs2]
            simp [controlAfter, hcs, hty, hd]
          · rw [p2]
            simp [withCode]
          · rw [p3]
            simp [withCode]
      · rename_i hty
        cases h
        rw [hcs]
        simp [controlAfter, hty, print, hcs]
    · rename_i hcs
      cases h
      rw [hcs]
      simp [controlAfter, print, hcs]
  rw [if_neg hc10] at h
  by_cases hc11 : token = "BEGIN".toList
  · rw [if_pos hc11] at h
    subst hc11
    exact effect_emit_push h (fun _ _ => rfl)
  rw [if_neg hc11] at h
  by_cases hc12 : token = "WHILE".toList
  · rw [if_pos hc12] at h
    subst hc12
    exact effect_emit_push h (fun _ _ => rfl)
  rw [if_neg hc12] at h
  by_cases hc13 : token = "REPEAT".toList
  · rw [if_pos hc13] at h
    subst hc13
    rw [show controlWord "REPEAT".toList = some ControlWord.wRepeat from by decide]
    split at h
    · rename_i e1 e2 es hcs
      obtain ⟨a, ha, hb⟩ := Option.map_eq_some'.1 h
      cases hb
      rw [emit_eq ha, hcs]
      simp [controlAfter, withCode, patchHere]
    · cases h
  rw [if_neg hc13] at h
  have hk : controlWord token = none := by
    unfold controlWord
    rw [if_neg hc0, if_neg hc1, if_neg hc2, if_neg hc3, if_neg hc4, if_neg hc7, if_neg hc8,
      if_neg hc9, if_neg hc10, if_neg hc11, if_neg hc12, if_neg hc13]
  by_cases hc14 : token = "FORGET".toList
  · rw [if_pos hc14] at h
    split at h
    · cases h
      exact effect_same rfl rfl (by rw [hk]; rfl)
    · dsimp only at h
      split at h
      · exact effect_emit_map h hk
      · cases h
        exact effect_same rfl rfl (by rw [hk]; rfl)
  rw [if_neg hc14] at h
  by_cases hc15 : token = "VARIABLE".toList
  · rw [if_pos hc15] at h
    split at h
    · cases h
      exact effect_same rfl rfl (by rw [hk]; rfl)
    · exact effect_addString_emit h hk
  rw [if_neg hc15] at h
  by_cases hc16 : 0 ≤ findCompiledWordIndex token st
  · rw [if_pos hc16] at h
    exact effect_emit_map h hk
  rw [if_neg hc16] at h
  split at h
  · exact effect_addString_emit h hk
  · cases h
    exact effect_same rfl rfl (by rw [hk]; rfl)

/-- With room for one more instruction, string and control-stack entry, and with two
entries on the control stack when the token is `REPEAT`, `compileToken` has a result. -/
theorem compileToken_isSome (token rest : List Char) (st : State)
    (hcode : st.currentWord.code.length < WORD_CODE_SIZE)
    (hstr : st.currentWord.strings.length < WORD_CODE_SIZE)
    (hcs : st.control_stack.length < CONTROL_STACK_SIZE)
    (hrep : controlWord token = some ControlWord.wRepeat → 2 ≤ st.control_stack.length) :
    (compileToken token rest st).isSome = true := by
  unfold compileToken
  split
  · simp [emit, hcode]
  by_cases hc0 : token = "IF".toList
  · rw [if_pos hc0]
    simp [emit, pushControl, hcode, hcs]
  rw [if_neg hc0]
  by_cases hc1 : token = "ELSE".toList
  · rw [if_pos hc1]
    simp only [emit, hcode, if_true, Option.some_bind]
    split
    · rename_i e es hes
      have hl : es.length < CONTROL_STACK_SIZE := by
        have : st.control_stack = e :: es := hes
        rw [this] at hcs
        simp only [List.length_cons] at hcs
        omega
      split
      · simp [pushControl, patchHere, hl]
      · rfl
    · rfl
  rw [if_neg hc1]
  by_cases hc2 : token = "THEN".toList
  · rw [if_pos hc2]
    split
    · split <;> rfl
    · rfl
  rw [if_neg hc2]
  by_cases hc3 : token = "DO".toList
  · rw [if_pos hc3]
    simp [emit, pushControl, hcode, hcs]
  rw [if_neg hc3]
  by_cases hc4 : token = "LOOP".toList
  · rw [if_pos hc4]
    split
    · split
      · simp [emit, hcode]
      · rfl
    · rfl
  rw [if_neg hc4]
  by_cases hc5 : token = "LOAD".toList
  · rw [if_pos hc5]
    dsimp only
    split
    · rfl
    · split
      · rfl
      · split
        · rfl
        · simp [addString, emit, hcode, hstr]
  rw [if_neg hc5]
  by_cases hc6 : token = ['.', dquote]
  · rw [if_pos hc6]
    split
    · rfl
    · simp [addString, emit, hcode, hstr]
  rw [if_neg hc6]
  by_cases hc7 : token = "CASE".toList
  · rw [if_pos hc7]
    simp [emit, pushControl, hcode, hcs]
  rw [if_neg hc7]
  by_cases hc8 : token = "OF".toList
  · rw [if_pos hc8]
    simp [emit, pushControl, hcode, hcs]
  rw [if_neg hc8]
  by_cases hc9 : token = "ENDOF".toList
  · rw [if_pos hc9]
    split
    · rename_i e es hes
      have hl : es.length < CONTROL_STACK_SIZE := by
        rw [hes] at hcs
        simp only [List.length_cons] at hcs
        omega
      split
      · simp [emit, hcode, pushControl, patchHere, hl]
      · rfl
    · rfl
  rw [if_neg hc9]
  by_cases hc10 : token = "ENDCASE".toList
  · rw [if_pos hc10]
    split
    · split
      · simp [emit, hcode]
      · rfl
    · rfl
  rw [if_neg hc10]
  by_cases hc11 : token = "BEGIN".toList
  · rw [if_pos hc11]
    simp [emit, pushControl, hcode, hcs]
  rw [if_neg hc11]
  by_cases hc12 : token = "WHILE".toList
  · rw [if_pos hc12]
    simp [emit, pushControl, hcode, hcs]
  rw [if_neg hc12]
  by_cases hc13 : token = "REPEAT".toList
  · rw [if_pos hc13]
    have h2 := hrep (by rw [hc13]; decide)
    split
    · simp [emit, hcode]
    · rename_i hne
      match hst : st.control_stack, h2, hne with
      | [], h2, _ => simp [hst] at h2
      | [_], h2, _ => simp [hst] at h2
      | e1 :: e2 :: es, _, hne => exact absurd rfl (hne e1 e2 es)
  rw [if_neg hc13]
  by_cases hc14 : token = "FORGET".toList
  · rw [if_pos hc14]
    split
    · rfl
    · dsimp only
      split
      · simp [emit, hcode]
      · rfl
  rw [if_neg hc14]
  by_cases hc15 : token = "VARIABLE".toList
  · rw [if_pos hc15]
    split
    · rfl
    · simp [addString, emit, hcode, hstr]
  rw [if_neg hc15]
  dsimp only
  split
  · simp [emit, hcode]
  · split
    · simp [addString, emit, hcode, hstr]
    · rfl

theorem Shadow_length (base : List ControlEntry) (s : List OpenControl) :
    ∀ cs, Shadow base s cs → base.length ≤ cs.length := by
  induction s with
  | nil => intro cs h; rw [show cs = base from h]
  | cons o s ih =>
    intro cs h
    obtain ⟨top, rest, rfl, _, h2⟩ := h
    have := ih rest h2
    simp only [List.length_append]
    omega

theorem map_type_one (top : List ControlEntry) (t : ControlType)
    (h : top.map (fun e => e.type) = [t]) : ∃ e, top = [e] ∧ e.type = t := by
  match top, h with
  | [e], h => exact ⟨e, rfl, by simpa using h⟩

theorem map_type_two (top : List ControlEntry) (t1 t2 : ControlType)
    (h : top.map (fun e => e.type) = [t1, t2]) :
    ∃ e1 e2, top = [e1, e2] ∧ e1.type = t1 ∧ e2.type = t2 := by
  match top, h with
  | [e1, e2], h =>
    simp only [List.map_cons, List.map_nil, List.cons.injEq, and_true] at h
    exact ⟨e1, e2, rfl, h.1, h.2⟩

theorem map_type_case (top : List ControlEntry) (k : Nat)
    (h : top.map (fun e => e.type)
      = List.replicate k ControlType.CT_ENDOF ++ [ControlType.CT_CASE]) :
    ∃ endofs c, top = endofs ++ [c] ∧ endofs.length = k
      ∧ (∀ x ∈ endofs, x.type = ControlType.CT_ENDOF) ∧ c.type = ControlType.CT_CASE := by
  obtain ⟨l1, l2, rfl, h1, h2⟩ := List.map_eq_append_iff.1 h
  obtain ⟨c, rfl, hc⟩ := map_type_one l2 _ h2
  refine ⟨l1, c, rfl, ?_, ?_, hc⟩
  · have := congrArg List.length h1
    simpa using this
  · intro x hx
    have : x.type ∈ l1.map (fun e => e.type) := List.mem_map_of_mem _ hx
    rw [h1] at this
    exact (List.mem_replicate.1 this).2

theorem dropEndofs_append (endofs : List ControlEntry) (c : ControlEntry)
    (rest : List ControlEntry) (hall : ∀ x ∈ endofs, x.type = ControlType.CT_ENDOF)
    (hc : c.type ≠ ControlType.CT_ENDOF) :
    dropEndofs (endofs ++ c :: rest) = c :: rest := by
  induction endofs with
  | nil => simp [dropEndofs, hc]
  | cons x xs ih =>
    simp only [List.cons_append, dropEndofs, hall x (List.mem_cons_self _ _), if_true]
    exact ih (fun y hy => hall y (List.mem_cons_of_mem _ hy))

/-- One token keeps the control stack in step with the open structures. -/
theorem Shadow_step (base : List ControlEntry) (k : Option ControlWord) (len : Int)
    (s s1 : List OpenControl) (cs : List ControlEntry)
    (hstep : nestStep k s = some s1) (hsh : Shadow base s cs) :
    Shadow base s1 (controlAfter k len cs) := by
  unfold nestStep at hstep
  split at hstep <;> cases hstep
  · exact hsh
  · exact ⟨[_], cs, rfl, rfl, hsh⟩
  · obtain ⟨top, rest, rfl, h1, h2⟩ := hsh
    obtain ⟨e, rfl, he⟩ := map_type_one top _ h1
    refine ⟨[{ type := ControlType.CT_IF, addr := len }], rest, ?_, rfl, h2⟩
    simp [controlAfter, he]
  · obtain ⟨top, rest, rfl, h1, h2⟩ := hsh
    obtain ⟨e, rfl, he⟩ := map_type_one top _ h1
    simpa [controlAfter, he] using h2
  · obtain ⟨top, rest, rfl, h1, h2⟩ := hsh
    obtain ⟨e, rfl, he⟩ := map_type_one top _ h1
    simpa [controlAfter, he] using h2
  · exact ⟨[_], cs, rfl, rfl, hsh⟩
  · obtain ⟨top, rest, rfl, h1, h2⟩ := hsh
    obtain ⟨e, rfl, he⟩ := map_type_one top _ h1
    simpa [controlAfter, he] using h2
  · exact ⟨[_], cs, rfl, rfl, hsh⟩
  · obtain ⟨top, rest, rfl, h1, h2⟩ := hsh
    obtain ⟨e, rfl, he⟩ := map_type_one top _ h1
    exact ⟨[{ type := ControlType.CT_IF, addr := len }, e], rest, rfl, by simp [OpenControl.entries, he], h2⟩
  · obtain ⟨top, rest, rfl, h1, h2⟩ := hsh
    obtain ⟨e1, e2, rfl, _, _⟩ := map_type_two top _ _ h1
    simpa [controlAfter] using h2
  · exact ⟨[_], cs, rfl, rfl, hsh⟩
  · exact ⟨[_], cs, rfl, rfl, hsh⟩
  · obtain ⟨top, rest, rfl, h1, top2, rest2, rfl, h3, h4⟩ := hsh
    obtain ⟨e, rfl, he⟩ := map_type_one top _ h1
    refine ⟨{ type := ControlType.CT_ENDOF, addr := len } :: top2, rest2, ?_, ?_, h4⟩
    · simp [controlAfter, he]
    · simp only [List.map_cons, h3, OpenControl.entries, List.replicate_succ, List.cons_append]
  · obtain ⟨top, rest, rfl, h1, h2⟩ := hsh
    obtain ⟨endofs, c, rfl, hl, hall, hc⟩ := map_type_case top _ h1
    match endofs, hl, hall with
    | x :: xs, _, hall =>
      have hx := hall x (List.mem_cons_self _ _)
      have hd : dropEndofs (x :: (xs ++ c :: rest)) = c :: rest := by
        have := dropEndofs_append (x :: xs) c rest hall (by rw [hc]; decide)
        simpa using this
      simpa [controlAfter, hx, hd, hc] using h2

theorem dropEndofs_length (l : List ControlEntry) : (dropEndofs l).length ≤ l.length := by
  induction l with
  | nil => exact Nat.le_refl _
  | cons e es ih =>
    simp only [dropEndofs]
    split
    · simp only [List.length_cons]
      omega
    · exact Nat.le_refl _

theorem controlAfter_length (k : Option ControlWord) (len : Int) (cs : List ControlEntry) :
    (controlAfter k len cs).length ≤ cs.length + 1 := by
  cases k with
  | none => simp [controlAfter]
  | some w =>
    cases w
    case wEndcase =>
      cases cs with
      | nil => simp [controlAfter]
      | cons e es =>
        simp only [controlAfter]
        split
        · have := dropEndofs_length (e :: es)
          generalize dropEndofs (e :: es) = d at this
          cases d with
          | nil => simp
          | cons e2 es2 =>
            simp only [List.length_cons] at this ⊢
            split
            · omega
            · simp only [List.length_cons]
              omega
        · omega
    all_goals simp only [controlAfter]
    all_goals (try split)
    all_goals (try split)
    all_goals (simp only [List.length_cons, List.length_nil, List.length_drop]; omega)

/-- `REPEAT` in its place finds the two entries of its `BEGIN` and `WHILE`. -/
theorem Shadow_repeat (base : List ControlEntry) (s s1 : List OpenControl)
    (cs : List ControlEntry)
    (hstep : nestStep (some ControlWord.wRepeat) s = some s1) (hsh : Shadow base s cs) :
    2 ≤ cs.length := by
  unfold nestStep at hstep
  split at hstep <;> cases hstep
  all_goals (first | (rename_i hk; cases hk; done) | skip)
  rename_i hk _
  obtain ⟨top, rest, rfl, h1, _⟩ := hsh
  obtain ⟨e1, e2, rfl, _, _⟩ := map_type_two top _ _ h1
  simp

/-- A properly nested token sequence leaves the control stack as it found it. -/
theorem compileSeq_balanced (base : List ControlEntry) (ts : List (List Char × List Char)) :
    ∀ (s : List OpenControl) (st st1 : State),
      properlyNested s (ts.map Prod.fst) = true → Shadow base s st.control_stack →
      compileSeq ts st = some st1 → st1.control_stack = base := by
  induction ts with
  | nil =>
    intro s st st1 hn hsh h
    simp only [List.map_nil, properlyNested, List.isEmpty_iff] at hn
    subst hn
    simp only [compileSeq, Option.some.injEq] at h
    subst h
    exact hsh
  | cons p ts ih =>
    intro s st st1 hn hsh h
    obtain ⟨t, r⟩ := p
    simp only [List.map_cons, properlyNested] at hn
    simp only [compileSeq] at h
    cases hs : nestStep (controlWord t) s with
    | none => rw [hs] at hn; cases hn
    | some s2 =>
      rw [hs] at hn
      cases hc : compileToken t r st with
      | none => rw [hc] at h; cases h
      | some q =>
        obtain ⟨st2, r2⟩ := q
        rw [hc] at h
        have he := (compileToken_effect t r st st2 r2 hc).1
        exact ih s2 st2 st1 hn (by
          rw [he]
          exact Shadow_step base _ _ s s2 _ hs hsh) h

/-- After every prefix of a properly nested token sequence the control stack has at
least the entries it had at the start. -/
theorem compileSeq_initial (base : List ControlEntry) (pre : List (List Char × List Char)) :
    ∀ (suf : List (List Char × List Char)) (s : List OpenControl) (st st1 : State),
      properlyNested s ((pre ++ suf).map Prod.fst) = true → Shadow base s st.control_stack →
      compileSeq pre st = some st1 → base.length ≤ st1.control_stack.length := by
  induction pre with
  | nil =>
    intro suf s st st1 _ hsh h
    simp only [compileSeq, Option.some.injEq] at h
    subst h
    exact Shadow_length base s _ hsh
  | cons p pre ih =>
    intro suf s st st1 hn hsh h
    obtain ⟨t, r⟩ := p
    simp only [List.cons_append, List.map_cons, properlyNested] at hn
    simp only [compileSeq] at h
    cases hs : nestStep (controlWord t) s with
    | none => rw [hs] at hn; cases hn
    | some s2 =>
      rw [hs] at hn
      cases hc : compileToken t r st with
      | none => rw [hc] at h; cases h
      | some q =>
        obtain ⟨st2, r2⟩ := q
        rw [hc] at h
        have he := (compileToken_effect t r st st2 r2 hc).1
        exact ih suf s2 st2 st1 hn (by
          rw [he]
          exact Shadow_step base _ _ s s2 _ hs hsh) h

/-- With room for one instruction, one string and one control-stack entry per token, a
properly nested token sequence is compiled to the end. -/
theorem compileSeq_isSome (base : List ControlEntry) (ts : List (List Char × List Char)) :
    ∀ (s : List OpenControl) (st : State),
      properlyNested s (ts.map Prod.fst) = true → Shadow base s st.control_stack →
      st.currentWord.code.length + ts.length ≤ WORD_CODE_SIZE →
      st.currentWord.strings.length + ts.length ≤ WORD_CODE_SIZE →
      st.control_stack.length + ts.length ≤ CONTROL_STACK_SIZE →
      ∃ st1, compileSeq ts st = some st1 := by
  induction ts with
  | nil =>
    intro s st _ _ _ _ _
    exact ⟨st, rfl⟩
  | cons p ts ih =>
    intro s st hn hsh h1 h2 h3
    obtain ⟨t, r⟩ := p
    simp only [List.map_cons, properlyNested] at hn
    simp only [List.length_cons] at h1 h2 h3
    cases hs : nestStep (controlWord t) s with
    | none => rw [hs] at hn; cases hn
    | some s2 =>
      rw [hs] at hn
      have hsome := compileToken_isSome t r st (by omega) (by omega) (by omega)
        (fun hk => Shadow_repeat base s s2 _ (by rw [← hk]; exact hs) hsh)
      cases hc : compileToken t r st with
      | none => rw [hc] at hsome; cases hsome
      | some q =>
        obtain ⟨st2, r2⟩ := q
        obtain ⟨e1, e2, e3⟩ := compileToken_effect t r st st2 r2 hc
        have hl := controlAfter_length (controlWord t) st.currentWord.code.length
          st.control_stack
        rw [← e1] at hl
        simp only [compileSeq, hc]
        exact ih s2 st2 hn (by
          rw [e1]
          exact Shadow_step base _ _ s s2 _ hs hsh) (by omega) (by omega) (by omega)

/-! ### C21 : an error aborts the rest of the line -/

/-- The token loop of `interpret` in terms of one pass through its body. -/
theorem interpretLoop_tokenStep (fs : List Char → Option (List (List Char))) (fuel : Nat)
    (token saveptr : List Char) (st : State) :
    interpretLoop fs (fuel + 1) (some (token, saveptr)) st
      = if st.error_flag then some st
        else match tokenStep fs fuel token saveptr st with
          | none => none
          | some (st1, none) => some st1
          | some (st1, some sp) => interpretLoop fs fuel (strtok_r sp) st1 := by
  rw [interpretLoop]
  unfold tokenStep
  by_cases he : st.error_flag = true
  · rw [if_pos he, if_pos he]
  rw [if_neg he, if_neg he]
  by_cases hc : st.compiling = true
  · rw [if_pos hc, if_pos hc]
    by_cases h1 : token = ";".toList
    · rw [if_pos h1, if_pos h1]
      cases emit { opcode := OpCode.OP_END, operand := 0 } st with
      | none => rfl
      | some st1 =>
        dsimp only
        by_cases hf : commitFault st1 = true
        · rw [if_pos hf, if_pos hf]
        · rw [if_neg hf, if_neg hf]
    · rw [if_neg h1, if_neg h1]
      cases compileToken token saveptr st with
      | none => rfl
      | some q => rfl
  rw [if_neg hc, if_neg hc]
  cases mpz_set_str token with
  | some v => rfl
  | none =>
    dsimp only
    by_cases h2 : token = ":".toList
    · rw [if_pos h2, if_pos h2]
      cases strtok_r saveptr with
      | none => rfl
      | some q =>
        dsimp only
        by_cases hf : redefineFault q.1 st = true
        · rw [if_pos hf, if_pos hf]
        · rw [if_neg hf, if_neg hf]
    rw [if_neg h2, if_neg h2]
    by_cases h3 : token = "LOAD".toList
    · rw [if_pos h3, if_pos h3]
      cases saveptr.dropWhile (fun c => c = ' ' || c = '\t') with
      | nil => rfl
      | cons c start1 =>
        dsimp only
        by_cases hq : c ≠ dquote
        · rw [if_pos hq, if_pos hq]
        rw [if_neg hq, if_neg hq]
        cases splitAtQuote start1 with
        | none => rfl
        | some q =>
          dsimp only
          by_cases hm : MAX_STRING_SIZE ≤ q.1.length
          · rw [if_pos hm, if_pos hm]
          rw [if_neg hm, if_neg hm]
          cases fs q.1 with
          | none => rfl
          | some lines =>
            dsimp only
            cases interpretLines fs fuel lines st with
            | none => rfl
            | some st1 => rfl
    rw [if_neg h3, if_neg h3]
    by_cases h4 : token = ['.', dquote]
    · rw [if_pos h4, if_pos h4]
      cases splitAtQuote saveptr with
      | none => rfl
      | some q =>
        dsimp only
        cases execLoop fs fuel
            (WordRef.temp (tempWord { opcode := OpCode.OP_DOT_QUOTE, operand := 0 } [q.1]))
            0 st with
        | none => rfl
        | some st1 => rfl
    rw [if_neg h4, if_neg h4]
    cases primitiveOpcode token with
    | some op =>
      dsimp only
      cases execLoop fs fuel (WordRef.temp (tempWord { opcode := op, operand := 0 } [])) 0 st with
      | none => rfl
      | some st1 => rfl
    | none =>
      dsimp only
      by_cases h5 : token = "FORGET".toList
      · rw [if_pos h5, if_pos h5]
        cases strtok_r saveptr with
        | none => rfl
        | some q =>
          dsimp only
          by_cases h6 : 0 ≤ findCompiledWordIndex q.1 st
          · rw [if_pos h6, if_pos h6]
            cases execLoop fs fuel
                (WordRef.temp (tempWord
                  { opcode := OpCode.OP_FORGET, operand := findCompiledWordIndex q.1 st } []))
                0 st with
            | none => rfl
            | some st1 => rfl
          · rw [if_neg h6, if_neg h6]
      rw [if_neg h5, if_neg h5]
      by_cases h7 : token = "VARIABLE".toList
      · rw [if_pos h7, if_pos h7]
        cases strtok_r saveptr with
        | none => rfl
        | some q =>
          dsimp only
          cases execLoop fs fuel
              (WordRef.temp (tempWord { opcode := OpCode.OP_VARIABLE, operand := 0 } [q.1]))
              0 st with
          | none => rfl
          | some st1 => rfl
      rw [if_neg h7, if_neg h7]
      by_cases h8 : 0 ≤ findCompiledWordIndex token st
      · rw [if_pos h8, if_pos h8]
        cases execLoop fs fuel
            (WordRef.temp (tempWord
              { opcode := OpCode.OP_CALL, operand := findCompiledWordIndex token st } []))
            0 st with
        | none => rfl
        | some st1 => rfl
      · rw [if_neg h8, if_neg h8]

/-- C21 (counterexample): the file `f` has the lines `1 0 / 9` and `2`.  In the line
`LOAD "f" 5` the token `LOAD` sets the error flag, in the first line of the file (after
that line alone the flag is set and the stack is empty); the nested call of `interpret`
for the second line clears the flag and pushes 2, and the later token `5` of the line is
processed and changes the value stack: the line ends with the stack 5 2, the flag clear
and the message of the error printed. -/
theorem C21_error_in_included_file_cleared :
    (interpret errorFile 50 ("LOAD ".toList ++ dquote :: 'f' :: dquote :: " 5".toList)
        initState).map (fun r => (r.stack, r.error_flag, r.output))
      = some ([5, 2], false,
          [Output.text "Error: ", Output.text "Division by zero", Output.text "\n"])
    ∧ (interpretLines errorFile 49 ["1 0 / 9".toList] initState).map
        (fun r => (r.stack, r.error_flag))
      = some ([], true) := by
  refine ⟨by decide!, by decide!⟩

/-- C21 (amended): with `error_flag` set the token loop of `interpret` returns the state
as it is, whatever tokens are left on the line.  Hence, for every token of a line, of
whatever kind (a number, a primitive, a word of the dictionary, `LOAD`, a token compiled
into a definition, ...): if `error_flag` is set in the state `st1` in which the pass of
the loop for that token ends (`tokenStep`), the result of the rest of the line from that
token on is `st1`: no later token changes the value stack, the dictionary or the
variables.  Every call of `interpret` clears `error_flag` first, so its result does not
depend on the flag it finds, and each line of an included file goes through `interpret`:
an error in a line of a file ends that line only.  After `1 0 / 5` (division by zero,
the 5 is not pushed) the next line `7` is processed normally; an error inside a word of
the dictionary (`D` in `D 5`) and an error in the last line of an included file (`g`
in `LOAD "g" 5`) end the line that called them. -/
theorem C21_error_aborts_line (fs : List Char → Option (List (List Char))) (fuel : Nat)
    (tok : Option (List Char × List Char)) (token saveptr line : List Char)
    (lines : List (List Char)) (st : State) :
    (st.error_flag = true → interpretLoop fs (fuel + 1) tok st = some st)
    ∧ (∀ (st1 : State) (r : Option (List Char)), st.error_flag = false →
        tokenStep fs (fuel + 1) token saveptr st = some (st1, r) → st1.error_flag = true →
        interpretLoop fs (fuel + 2) (some (token, saveptr)) st = some st1)
    ∧ interpretLoop fs (fuel + 1) (some (token, saveptr)) st
        = (if st.error_flag then some st
           else match tokenStep fs fuel token saveptr st with
             | none => none
             | some (st1, none) => some st1
             | some (st1, some sp) => interpretLoop fs fuel (strtok_r sp) st1)
    ∧ interpret fs fuel line st = interpret fs fuel line { st with error_flag := true }
    ∧ interpretLines fs (fuel + 1) (line :: lines) st
        = (interpret fs fuel line st).bind (interpretLines fs fuel lines)
    ∧ (session noFiles 50 ["1 0 / 5".toList] initState).map
        (fun r => (r.stack, r.error_flag, r.dict_count, r.vars))
      = some ([], true, 0, [])
    ∧ (session noFiles 50 ["1 0 / 5".toList, "7".toList] initState).map
        (fun r => (r.stack, r.error_flag))
      = some ([7], false)
    ∧ (session noFiles 50 [": D 1 0 / 9 ;".toList, "D 5".toList] initState).map
        (fun r => (r.stack, r.error_flag))
      = some ([], true)
    ∧ (interpret errorFile 50 ("LOAD ".toList ++ dquote :: 'g' :: dquote :: " 5".toList)
        initState).map (fun r => (r.stack, r.error_flag))
      = some ([3], true) := by
  refine ⟨interpretLoop_error fs fuel tok st, ?_, interpretLoop_tokenStep fs fuel token saveptr st,
    rfl, ?_, by decide!, by decide!, by decide!, by decide!⟩
  · intro st1 r herr hstep hflag
    rw [interpretLoop_tokenStep, if_neg (by rw [herr]; simp), hstep]
    cases r with
    | none => rfl
    | some sp => exact interpretLoop_error fs fuel _ st1 hflag
  · rw [interpretLines]
    unfold interpret
    cases interpretLoop fs fuel (strtok_r line) { st with error_flag := false } with
    | none => rfl
    | some st1 => rfl

/-- C21 (witness): `+` on the empty stack sets the error flag (each of its two pops
reports the underflow), and the `5` that follows on the line is not pushed. -/
theorem C21_error_aborts_line_witness :
    initState.error_flag = false
    ∧ tokenStep noFiles (1 + 1) "+".toList " 5".toList initState
        = some (set_error "Stack underflow" (set_error "Stack underflow" initState), some " 5".toList)
    ∧ (set_error "Stack underflow" (set_error "Stack underflow" initState)).error_flag = true
    ∧ interpretLoop noFiles (1 + 2) (some ("+".toList, " 5".toList)) initState
        = some (set_error "Stack underflow" (set_error "Stack underflow" initState)) :=
  ⟨rfl, by decide!, rfl,
   (C21_error_aborts_line noFiles 1 none "+".toList " 5".toList [] [] initState).2.1
     (set_error "Stack underflow" (set_error "Stack underflow" initState)) (some " 5".toList) rfl (by decide!) rfl⟩

/-! ### C22 : `LOAD` inside a colon-definition -/

/-- C22: after `: W LOAD "f" ;` in a fresh session the dictionary holds `W` at index 0 with
the code `CALL 0, END` and the string pool `["f"]`.  Executing `W` never reaches the file:
`OP_CALL` tests `operand < dict_count` first, 0 is the index of `W` itself, so `CALL 0` runs
`W` again, without end: for every file system and every amount of fuel the execution does
not return, and neither does the line `W`. -/
theorem C22_compiled_load_calls_dictionary (fs : List Char → Option (List (List Char)))
    (fuel : Nat) :
    (loadWordState.dict_count, loadWordState.compiling, loadWordState.error_flag,
        loadWordState.dictionary.getD 0 emptyWord)
      = (1, false, false,
          { name := "W".toList,
            code := [{ opcode := OpCode.OP_CALL, operand := 0 },
                     { opcode := OpCode.OP_END, operand := 0 }],
            strings := ["f".toList] })
    ∧ executeCompiledWord fs fuel (WordRef.dict 0) loadWordState = none
    ∧ interpret fs fuel "W".toList loadWordState = none := by
  have hst : (loadWordState.dict_count, loadWordState.compiling, loadWordState.error_flag,
        loadWordState.dictionary.getD 0 emptyWord)
      = (1, false, false,
          { name := "W".toList,
            code := [{ opcode := OpCode.OP_CALL, operand := 0 },
                     { opcode := OpCode.OP_END, operand := 0 }],
            strings := ["f".toList] }) := by decide!
  have hdc : loadWordState.dict_count = 1 := congrArg (fun p => p.1) hst
  have herr : loadWordState.error_flag = false := congrArg (fun p => p.2.2.1) hst
  have hcomp : loadWordState.compiling = false := congrArg (fun p => p.2.1) hst
  have hw : wordOf loadWordState (WordRef.dict 0)
      = { name := "W".toList,
          code := [{ opcode := OpCode.OP_CALL, operand := 0 },
                   { opcode := OpCode.OP_END, operand := 0 }],
          strings := ["f".toList] } := congrArg (fun p => p.2.2.2) hst
  have hcall : ∀ (f : Nat) (wr : WordRef),
      executeInstruction fs (f + 1) { opcode := OpCode.OP_CALL, operand := 0 } 0
          wr loadWordState
        = (execLoop fs f (WordRef.dict 0) 0 loadWordState).map (fun r => (r, 0)) := by
    intro f wr
    rw [executeInstruction]
    simp only [herr, hdc, Bool.false_eq_true, if_false, if_true, le_refl, Nat.cast_one,
      zero_lt_one, and_self, Int.toNat_zero]
    cases execLoop fs f (WordRef.dict 0) 0 loadWordState <;> rfl
  have hloop : ∀ f : Nat, execLoop fs f (WordRef.dict 0) 0 loadWordState = none := by
    intro f
    induction f using Nat.strong_induction_on with
    | _ f ih =>
      match f with
      | 0 => rw [execLoop]
      | 1 =>
        rw [execLoop]
        simp [hw, herr, CompiledWord.code_length, executeInstruction]
      | g + 2 =>
        rw [execLoop]
        simp only [hw, herr, CompiledWord.code_length, List.length_cons, List.length_nil,
          Int.toNat_zero, List.getElem?_cons_zero]
        rw [hcall g _, ih g (by omega)]
        simp
  refine ⟨hst, hloop fuel, ?_⟩
  have h0 : ({ loadWordState with error_flag := false } : State) = loadWordState := by
    have e : ({ loadWordState with error_flag := loadWordState.error_flag } : State)
        = loadWordState := rfl
    rw [herr] at e
    exact e
  have hfind : findCompiledWordIndex "W".toList loadWordState = 0 := by decide!
  have htemp : ∀ f : Nat, execLoop fs f
      (WordRef.temp (tempWord { opcode := OpCode.OP_CALL, operand := 0 } [])) 0
      loadWordState = none := by
    intro f
    match f with
    | 0 => rw [execLoop]
    | 1 =>
      rw [execLoop]
      simp [wordOf, tempWord, herr, CompiledWord.code_length, executeInstruction]
    | g + 2 =>
      rw [execLoop]
      simp only [wordOf, tempWord, herr, CompiledWord.code_length, List.length_cons,
        List.length_nil, Int.toNat_zero, List.getElem?_cons_zero]
      rw [hcall g _, hloop g]
      simp
  unfold interpret
  rw [h0, strtok_r_last _ (by decide)]
  match fuel with
  | 0 => rw [interpretLoop]
  | f + 1 =>
    have e0 : mpz_set_str "W".toList = none := by decide
    have e1 : ¬ "W".toList = ":".toList := by decide
    have e2 : ¬ "W".toList = "LOAD".toList := by decide
    have e3 : ¬ "W".toList = ['.', dquote] := by decide
    have e4 : primitiveOpcode "W".toList = none := by decide
    have e5 : ¬ "W".toList = "FORGET".toList := by decide
    have e6 : ¬ "W".toList = "VARIABLE".toList := by decide
    rw [interpretLoop]
    simp only [herr, hcomp, Bool.false_eq_true, if_false, e0, e1, e2, e3, e4, e5, e6, hfind,
      le_refl, if_true, htemp f]

/-! ### C23 : narrowing of indices and shift counts -/

/-- C23: `LSHIFT` and `RSHIFT` read the shift count with `mpz_get_ui`, the low 64 bits of
its absolute value, and never set the error flag: for every count `n` (on top of `b`, the
stack within its capacity, the error flag clear) they push `b * 2^k` and the quotient of
`b` by `2^k` truncated towards zero, with `k = |n| mod 2^64`.  So a count that does not
fit a `long` is truncated, not rejected: with `n = 2^64`, `5 n LSHIFT` and `5 n RSHIFT`
leave 5 and `7 n PICK` leaves `7 7`, all with the error flag clear. -/
theorem C23_narrowing_truncates (fs : List Char → Option (List (List Char))) (fuel : Nat)
    (operand ip : Int) (word : WordRef) (st : State) (s : List Int) (b n : Int)
    (herr : st.error_flag = false) (hcap : (n :: b :: s).length ≤ STACK_SIZE) :
    executeInstruction fs (fuel + 1) { opcode := OpCode.OP_LSHIFT, operand := operand } ip word
        { st with stack := n :: b :: s }
      = some ({ st with stack := (b * 2 ^ (n.natAbs % 2 ^ 64)) :: s,
                        result := b * 2 ^ (n.natAbs % 2 ^ 64), error_flag := false }, ip)
    ∧ executeInstruction fs (fuel + 1) { opcode := OpCode.OP_RSHIFT, operand := operand } ip word
        { st with stack := n :: b :: s }
      = some ({ st with stack := Int.tdiv b (2 ^ (n.natAbs % 2 ^ 64)) :: s,
                        result := Int.tdiv b (2 ^ (n.natAbs % 2 ^ 64)),
                        error_flag := false }, ip)
    ∧ mpz_fits_slong_p 18446744073709551616 = false
    ∧ (interpret noFiles 50 "5 18446744073709551616 LSHIFT".toList initState).map
        (fun r => (r.stack, r.error_flag)) = some ([5], false)
    ∧ (interpret noFiles 50 "5 18446744073709551616 RSHIFT".toList initState).map
        (fun r => (r.stack, r.error_flag)) = some ([5], false)
    ∧ (interpret noFiles 50 "7 18446744073709551616 PICK".toList initState).map
        (fun r => (r.stack, r.error_flag)) = some ([7, 7], false) := by
  have h1 : s.length < 1000 := by
    simp only [List.length_cons, STACK_SIZE] at hcap
    omega
  have he : ({ st with stack := n :: b :: s } : State).error_flag = false := herr
  refine ⟨?_, ?_, by decide, by decide!, by decide!, by decide!⟩
  · rw [executeInstruction_primitive _ _ _ _ _ _ he (by simp) (by rfl)]
    simp [executePrimitive, pop, push, herr, h1, mpz_get_ui, mpz_mul_2exp]
  · rw [executeInstruction_primitive _ _ _ _ _ _ he (by simp) (by rfl)]
    simp [executePrimitive, pop, push, herr, h1, mpz_get_ui, mpz_tdiv_q_2exp]

/-- C23 (witness): `LSHIFT` of 5 by `2^64` leaves `5 * 2^0`. -/
theorem C23_narrowing_truncates_witness :
    initState.error_flag = false
    ∧ ([18446744073709551616, 5] : List Int).length ≤ STACK_SIZE
    ∧ executeInstruction noFiles 1 { opcode := OpCode.OP_LSHIFT, operand := 0 } 0
        (WordRef.temp emptyWord) { initState with stack := [18446744073709551616, 5] }
      = some ({ initState with
                  stack := [5 * 2 ^ ((18446744073709551616 : Int).natAbs % 2 ^ 64)],
                  result := 5 * 2 ^ ((18446744073709551616 : Int).natAbs % 2 ^ 64),
                  error_flag := false }, 0) :=
  ⟨rfl, by decide,
   (C23_narrowing_truncates noFiles 0 0 0 (WordRef.temp emptyWord) initState []
      5 18446744073709551616 rfl (by decide)).1⟩

/-! ### C24 : `IF A ELSE B THEN` -/

/-- C24: let `A` and `B` be sequences of one-instruction tokens other than `EXIT`, `W` a
new name, the dictionary and the control stack with room, the definition within the 256
instructions of a word. Then `: W IF A ELSE B THEN ;` commits the word `ifElseWord W A B`:
`BRANCH_FALSE` with the index of the first instruction of `B`, the code of `A`, `BRANCH`
with the index of the instruction after `B` (the final `END`), the code of `B`, `END`.
Executing a word with this code on `s·f` with the error flag clear yields exactly the
state that the code of `A` produces from `s` when `f` is not 0, and exactly the state that
the code of `B` produces from `s` when `f` is 0. -/
theorem C24_if_else_then (fs : List Char → Option (List (List Char))) (fuel : Nat)
    (W : List Char) (A B : List (List Char)) (st : State)
    (hcomp : st.compiling = false) (hlen : st.dictionary.length = DICT_SIZE)
    (hdc : st.dict_count < DICT_SIZE)
    (hW : isToken W = true) (hWfresh : findCompiledWordIndex W st < 0)
    (hA : ∀ t ∈ A, isPrimToken t = true) (hB : ∀ t ∈ B, isPrimToken t = true)
    (hsize : A.length + B.length + 3 ≤ WORD_CODE_SIZE)
    (hcs : st.control_stack.length < CONTROL_STACK_SIZE) :
    interpret fs (fuel + (A.length + B.length + 6))
        (tokenLine (":".toList :: W :: "IF".toList
          :: (A ++ "ELSE".toList :: (B ++ ["THEN".toList]))) ";".toList) st
      = some (definedWord (ifElseWord W A B) st)
    ∧ (definedWord (ifElseWord W A B) st).dictionary.getD st.dict_count emptyWord
      = ifElseWord W A B
    ∧ (ifElseWord W A B).code[0]?
      = some { opcode := OpCode.OP_BRANCH_FALSE, operand := ((A.length + 2 : Nat) : Int) }
    ∧ (ifElseWord W A B).code.drop (A.length + 2)
      = primCode B ++ [{ opcode := OpCode.OP_END, operand := 0 }]
    ∧ (ifElseWord W A B).code[A.length + 1]?
      = some { opcode := OpCode.OP_BRANCH,
               operand := ((A.length + B.length + 2 : Nat) : Int) }
    ∧ (ifElseWord W A B).code.drop (A.length + B.length + 2)
      = [{ opcode := OpCode.OP_END, operand := 0 }]
    ∧ (∀ (wr : WordRef) (S : State) (s : List Int) (f : Int),
        (wordOf S wr).code = (ifElseWord W A B).code → S.error_flag = false →
        S.stack = f :: s →
        (f ≠ 0 →
          executeCompiledWord fs (fuel + A.length + 4) wr S
            = some (runStraight (wordOf S wr) (primCode A) { S with stack := s }))
        ∧ (f = 0 →
          executeCompiledWord fs (fuel + B.length + 3) wr S
            = some (runStraight (wordOf S wr) (primCode B) { S with stack := s }))) := by
  have hdl : st.dict_count < st.dictionary.length := by
    rw [hlen]
    exact hdc
  have hlA := primCode_length A hA
  have hlB := primCode_length B hB
  have hSA := primCode_straight A hA
  have hSB := primCode_straight B hB
  refine ⟨?_, ?_, ?_, ?_, ?_, ?_, ?_⟩
  · have hW0 : findCompiledWordIndex W { st with error_flag := false } < 0 := hWfresh
    have hdc0 : ({ st with error_flag := false } : State).dict_count < DICT_SIZE := hdc
    unfold interpret
    rw [strtok_r_tokenLine _ _ _ (by decide),
      show fuel + (A.length + B.length + 6) = (fuel + 2 + (A.length + B.length + 3)) + 1 from by
        omega,
      interpretLoop_colon fs _ _ W _ { st with error_flag := false } rfl hcomp
        (strtok_r_tokenLine W _ _ hW) (redefineFault_fresh W _ hW0),
      beginDefinition_fresh W _ hW0 hdc0]
    refine (interpretLoop_if_else_then fs (fuel + 2) ";".toList A B _ rfl rfl hA hB ?_
      ?_).trans ?_
    · simp only [List.length_nil]
      omega
    · exact hcs
    rw [strtok_r_last _ (by decide), interpretLoop_semicolon fs (fuel + 1) [] _ rfl rfl]
    have h256 : (ifElseCode 0 A B).length < 256 := by
      simp only [ifElseCode, List.length_append, List.length_singleton, hlA, hlB]
      have := hsize
      simp only [WORD_CODE_SIZE] at this
      omega
    simp [emit, commitWord, commitFault, strtok_r_nil, interpretLoop_none, definedWord,
      ifElseWord, withCode, hdc, hdl, h256]
  · simp [definedWord, hdl, List.getD_eq_getElem?_getD]
  · simp [ifElseWord, ifElseCode]
  · have h : (ifElseWord W A B).code
        = ([Instruction.mk OpCode.OP_BRANCH_FALSE ((A.length + 2 : Nat) : Int)] ++ primCode A
            ++ [Instruction.mk OpCode.OP_BRANCH ((A.length + B.length + 2 : Nat) : Int)])
          ++ (primCode B ++ [{ opcode := OpCode.OP_END, operand := 0 }]) := by
      simp [ifElseWord, ifElseCode]
    rw [h]
    exact List.drop_left' (by simp [hlA])
  · have h : (ifElseWord W A B).code
        = ([Instruction.mk OpCode.OP_BRANCH_FALSE ((A.length + 2 : Nat) : Int)] ++ primCode A)
          ++ (Instruction.mk OpCode.OP_BRANCH ((A.length + B.length + 2 : Nat) : Int)
              :: (primCode B ++ [{ opcode := OpCode.OP_END, operand := 0 }])) := by
      simp [ifElseWord, ifElseCode]
    rw [h, List.getElem?_append_right (by simp [hlA])]
    simp [hlA]
  · have h : (ifElseWord W A B).code
        = ([Instruction.mk OpCode.OP_BRANCH_FALSE ((A.length + 2 : Nat) : Int)] ++ primCode A
            ++ [Instruction.mk OpCode.OP_BRANCH ((A.length + B.length + 2 : Nat) : Int)]
            ++ primCode B)
          ++ [{ opcode := OpCode.OP_END, operand := 0 }] := by
      simp [ifElseWord, ifElseCode]
    rw [h]
    exact List.drop_left' (by simp [hlA, hlB]; omega)
  · intro wr S s f hcode herr hstack
    have hcode1 : (wordOf S wr).code
        = [] ++ [Instruction.mk OpCode.OP_BRANCH_FALSE
                  ((([] : List Instruction).length + (primCode A).length + 2 : Nat) : Int)]
            ++ primCode A
            ++ [Instruction.mk OpCode.OP_BRANCH
                  ((([] : List Instruction).length + (primCode A).length
                    + (primCode B).length + 2 : Nat) : Int)]
            ++ primCode B
            ++ [{ opcode := OpCode.OP_END, operand := 0 }] := by
      rw [hcode]
      simp [ifElseWord, ifElseCode, hlA, hlB]
    have hrun := execLoop_if_else fs (fuel + 1) wr S [] (primCode A) (primCode B)
      [{ opcode := OpCode.OP_END, operand := 0 }] f s hcode1 hSA hSB
      (primCode_heapFault A hA wr S) (primCode_heapFault B hB wr S) herr hstack
    have hend : ∀ X : State, wordOf X wr = wordOf S wr →
        execLoop fs (fuel + 1 + 1) wr
          ((([] : List Instruction).length + (primCode A).length + (primCode B).length + 2
            : Nat) : Int) X = some X := by
      intro X hX
      by_cases he : X.error_flag = true
      · exact execLoop_done fs _ wr _ X (Or.inr he)
      · have he' : X.error_flag = false := by simpa using he
        have hg : (wordOf X wr).code[((([] : List Instruction).length + (primCode A).length
            + (primCode B).length + 2 : Nat) : Int).toNat]?
            = some { opcode := OpCode.OP_END, operand := 0 } := by
          rw [hX, hcode1]
          simp only [Int.toNat_ofNat]
          rw [List.getElem?_append_right (by
            simp only [List.length_append, List.length_singleton, List.length_nil]
            omega)]
          simp only [List.length_append, List.length_singleton, List.length_nil]
          rw [show 0 + (primCode A).length + (primCode B).length + 2
            - (0 + 1 + (primCode A).length + 1 + (primCode B).length) = 0 from by omega]
          rfl
        rw [execLoop_step fs fuel wr _ X { opcode := OpCode.OP_END, operand := 0 } X _
          (by omega) hg he' (by simp) rfl (by rfl)]
        apply execLoop_done
        left
        rw [hX]
        unfold CompiledWord.code_length
        rw [hcode1]
        simp only [List.length_append, List.length_singleton, List.length_nil]
        push_cast
        omega
    have hwS : wordOf { S with stack := s } wr = wordOf S wr := by
      cases wr <;> rfl
    constructor
    · intro hf
      unfold executeCompiledWord
      have h1 := hrun.1 hf
      rw [hlA] at h1
      rw [show fuel + A.length + 4 = fuel + 1 + A.length + 3 from by omega]
      exact h1.trans (by
        rw [← hlA]
        exact hend _ (by rw [← hwS, runStraight_wordOf _ wr _ _ hSA]))
    · intro hf
      unfold executeCompiledWord
      have h1 := hrun.2 hf
      rw [hlB] at h1
      rw [show fuel + B.length + 3 = fuel + 1 + B.length + 2 from by omega]
      exact h1.trans (by
        rw [← hlB]
        exact hend _ (by rw [← hwS, runStraight_wordOf _ wr _ _ hSB]))

/-- C24 (witness): in a fresh session `: T IF DUP ELSE DROP THEN ;` commits the word
with the code `BRANCH_FALSE 3`, `DUP`, `BRANCH 4`, `DROP`, `END`, and a session confirms
that `5 1 T` leaves 5 5 and `5 0 T` leaves nothing. -/
theorem C24_if_else_then_witness :
    initState.compiling = false ∧ initState.dictionary.length = DICT_SIZE
    ∧ initState.dict_count < DICT_SIZE
    ∧ isToken "T".toList = true ∧ findCompiledWordIndex "T".toList initState < 0
    ∧ (∀ t ∈ ["DUP".toList], isPrimToken t = true)
    ∧ (∀ t ∈ ["DROP".toList], isPrimToken t = true)
    ∧ ["DUP".toList].length + ["DROP".toList].length + 3 ≤ WORD_CODE_SIZE
    ∧ initState.control_stack.length < CONTROL_STACK_SIZE
    ∧ interpret noFiles (0 + (["DUP".toList].length + ["DROP".toList].length + 6))
        (tokenLine (":".toList :: "T".toList :: "IF".toList
          :: (["DUP".toList] ++ "ELSE".toList :: (["DROP".toList] ++ ["THEN".toList])))
          ";".toList) initState
      = some (definedWord (ifElseWord "T".toList ["DUP".toList] ["DROP".toList]) initState)
    ∧ (ifElseWord "T".toList ["DUP".toList] ["DROP".toList]).code
      = [{ opcode := OpCode.OP_BRANCH_FALSE, operand := 3 },
         { opcode := OpCode.OP_DUP, operand := 0 },
         { opcode := OpCode.OP_BRANCH, operand := 4 },
         { opcode := OpCode.OP_DROP, operand := 0 },
         { opcode := OpCode.OP_END, operand := 0 }]
    ∧ (session noFiles 50 [": T IF DUP ELSE DROP THEN ;".toList, "5 1 T".toList]
        initState).map (fun r => (r.stack, r.error_flag)) = some ([5, 5], false)
    ∧ (session noFiles 50 [": T IF DUP ELSE DROP THEN ;".toList, "5 0 T".toList]
        initState).map (fun r => (r.stack, r.error_flag)) = some ([], false) :=
  ⟨rfl, by decide, by decide, by decide, by decide, by decide, by decide, by decide,
   by decide,
   (C24_if_else_then noFiles 0 "T".toList ["DUP".toList] ["DROP".toList] initState
      rfl (by decide) (by decide) (by decide) (by decide) (by decide) (by decide)
      (by decide) (by decide)).1,
   by decide, by decide!, by decide!⟩

/-! ### C25 : the number of passes of `DO ... LOOP` -/

/-- C25: a compiled `DO body LOOP` with straight-line `body` (no instruction of which
reads a string of the word through a freed pointer), entered with the error
flag clear, room on the loop stack and `start` on top of `limit` on top of `rest`, runs
its body `limit - start` times when `start < limit` and exactly once when
`start >= limit`: the loop of `executeCompiledWord` started at the `DO` reaches the
instruction after `LOOP` in the state that this number of runs of `body` produces from
the state left by `DO`, the index incremented between two runs, and the loop stack is
the one before `DO` again (unless the body set the error flag, which stops the
execution). At the start of run `j` the innermost loop entry has index `start + j`, which
is what `I` pushes. So `5 2 DO I LOOP` leaves 2 3 4 and `2 5 DO I LOOP` leaves 5. -/
theorem C25_do_loop_pass_count (fs : List Char → Option (List (List Char)))
    (fuel : Nat) (wr : WordRef) (st : State) (pre body post : List Instruction)
    (d l start limit : Int) (rest : List Int)
    (hcode : (wordOf st wr).code
        = pre ++ [{ opcode := OpCode.OP_DO, operand := d }] ++ body
            ++ ({ opcode := OpCode.OP_LOOP, operand := l } :: post))
    (hbody : ∀ i ∈ body, isStraight i.opcode = true)
    (hheap : ∀ i ∈ body, heapFault i wr st = false)
    (herr : st.error_flag = false) (hstack : st.stack = start :: limit :: rest)
    (hroom : st.loop_stack.length < LOOP_STACK_SIZE) :
    execLoop fs (fuel + 2 + loopCount start limit * (body.length + 1)) wr pre.length st
      = execLoop fs (fuel + 1) wr (pre.length + body.length + 2 : Nat)
          (loopExit st.loop_stack (runStraight (wordOf st wr) body
            (loopPasses (wordOf st wr) body (loopCount start limit - 1)
              (doEntered st start limit rest pre.length))))
    ∧ (start < limit → (loopCount start limit : Int) = limit - start)
    ∧ (limit ≤ start → loopCount start limit = 1)
    ∧ (∀ j : Nat, j < loopCount start limit →
        (loopPasses (wordOf st wr) body j
          (doEntered st start limit rest pre.length)).error_flag = false →
        (loopPasses (wordOf st wr) body j (doEntered st start limit rest pre.length)).loop_stack
          = { index := start + j, limit := limit, addr := (pre.length : Int) + 1 }
              :: st.loop_stack
        ∧ straightStep { opcode := OpCode.OP_I, operand := 0 } (wordOf st wr)
            (loopPasses (wordOf st wr) body j (doEntered st start limit rest pre.length))
          = push (start + j)
              (loopPasses (wordOf st wr) body j (doEntered st start limit rest pre.length)))
    ∧ (session noFiles 80 [": T 5 2 DO I LOOP ;".toList, "T".toList] initState).map
        (fun r => (r.stack, r.error_flag, r.loop_stack)) = some ([4, 3, 2], false, [])
    ∧ (session noFiles 80 [": T 2 5 DO I LOOP ;".toList, "T".toList] initState).map
        (fun r => (r.stack, r.error_flag, r.loop_stack)) = some ([5], false, []) := by
  refine ⟨?_, ?_, ?_, ?_, by decide!, by decide!⟩
  · generalize hst1 : doEntered st start limit rest pre.length = st1
    have hw1 : wordOf st1 wr = wordOf st wr := by
      subst hst1
      cases wr <;> rfl
    have hl1 : st1.loop_stack
        = { index := start, limit := limit, addr := (pre.length : Int) + 1 }
            :: st.loop_stack := by
      subst hst1
      rfl
    have hget : (wordOf st wr).code[(pre.length : Int).toNat]?
        = some { opcode := OpCode.OP_DO, operand := d } := by
      rw [hcode]
      simp only [Int.toNat_ofNat, List.append_assoc]
      rw [List.getElem?_append_right (le_refl _)]
      simp
    have hdo : executePrimitive { opcode := OpCode.OP_DO, operand := d } (pre.length : Int)
        (wordOf st wr) st = some (st1, (pre.length : Int)) := by
      subst hst1
      have hr : st.loop_stack.length < 100 := hroom
      simp [executePrimitive, pop, hstack, herr, hr, doEntered]
    have hpos : loopCount start limit = (loopCount start limit - 1) + 1 := by
      unfold loopCount
      split <;> omega
    rw [show fuel + 2 + loopCount start limit * (body.length + 1)
        = (fuel + loopCount start limit * (body.length + 1)) + 2 from by omega,
      execLoop_step fs _ wr _ st _ _ _ (by omega) hget herr (by simp) hdo (by rfl)]
    rw [show ((pre.length : Nat) : Int) + 1 = ((pre.length + 1 : Nat) : Int) from by
        push_cast; rfl,
      show fuel + loopCount start limit * (body.length + 1) + 1
        = fuel + 1 + ((loopCount start limit - 1) + 1) * (body.length + 1) from by
          rw [← hpos]; omega]
    exact execLoop_passes fs fuel wr (wordOf st wr) pre body post d l limit st.loop_stack
      hcode hbody (loopCount start limit - 1) st1 start hw1
      (fun i hi => by
        rw [← hst1]
        exact (heapFault_congr i wr st _ rfl rfl rfl rfl).trans (hheap i hi)) hl1
      (fun h0 => by
        unfold loopCount at h0
        split at h0 <;> omega)
      (fun h0 => by
        unfold loopCount at h0 ⊢
        by_cases hlt : start < limit
        · rw [if_pos hlt] at h0 ⊢
          omega
        · rw [if_neg hlt] at h0
          omega)
  · intro h
    unfold loopCount
    rw [if_pos h, Int.toNat_of_nonneg (by omega)]
  · intro h
    unfold loopCount
    rw [if_neg (by omega)]
  · intro j _ he
    have hls := loopPasses_loop_stack (wordOf st wr) body hbody j
      (doEntered st start limit rest pre.length)
      { index := start, limit := limit, addr := (pre.length : Int) + 1 } st.loop_stack rfl he
    refine ⟨hls, ?_⟩
    simp [straightStep, executePrimitive, hls]

/-- C25 (witness): the three instructions `DO`, `I`, `LOOP` entered with start 2 on top of
limit 5 leave 2, 3 and 4: three runs of the body. -/
theorem C25_do_loop_pass_count_witness :
    (wordOf { initState with stack := [2, 5] }
        (WordRef.temp { name := [], code := [{ opcode := OpCode.OP_DO, operand := 0 },
                                             { opcode := OpCode.OP_I, operand := 0 },
                                             { opcode := OpCode.OP_LOOP, operand := 0 }],
                        strings := [] })).code
      = [] ++ [{ opcode := OpCode.OP_DO, operand := 0 }]
           ++ [{ opcode := OpCode.OP_I, operand := 0 }]
           ++ ({ opcode := OpCode.OP_LOOP, operand := 0 } :: [])
    ∧ (∀ i ∈ [({ opcode := OpCode.OP_I, operand := 0 } : Instruction)],
          isStraight i.opcode = true)
    ∧ (∀ i ∈ [({ opcode := OpCode.OP_I, operand := 0 } : Instruction)],
          heapFault i
            (WordRef.temp { name := [], code := [{ opcode := OpCode.OP_DO, operand := 0 },
                                                 { opcode := OpCode.OP_I, operand := 0 },
                                                 { opcode := OpCode.OP_LOOP, operand := 0 }],
                            strings := [] })
            { initState with stack := [2, 5] } = false)
    ∧ ({ initState with stack := [2, 5] } : State).error_flag = false
    ∧ ({ initState with stack := [2, 5] } : State).stack = 2 :: 5 :: []
    ∧ ({ initState with stack := [2, 5] } : State).loop_stack.length < LOOP_STACK_SIZE
    ∧ execLoop noFiles
        (0 + 2 + loopCount 2 5
          * ([({ opcode := OpCode.OP_I, operand := 0 } : Instruction)].length + 1))
        (WordRef.temp { name := [], code := [{ opcode := OpCode.OP_DO, operand := 0 },
                                             { opcode := OpCode.OP_I, operand := 0 },
                                             { opcode := OpCode.OP_LOOP, operand := 0 }],
                        strings := [] })
        ([] : List Instruction).length { initState with stack := [2, 5] }
      = some { initState with stack := [4, 3, 2] } :=
  ⟨rfl, by decide, by decide, rfl, rfl, by decide,
   by rw [(C25_do_loop_pass_count noFiles 0
            (WordRef.temp { name := [], code := [{ opcode := OpCode.OP_DO, operand := 0 },
                                                 { opcode := OpCode.OP_I, operand := 0 },
                                                 { opcode := OpCode.OP_LOOP, operand := 0 }],
                            strings := [] })
            { initState with stack := [2, 5] } []
            [{ opcode := OpCode.OP_I, operand := 0 }] [] 0 0 2 5 []
            rfl (by decide) (by decide) rfl rfl (by decide)).1]
      decide!⟩

/-! ### C26 : `OF` -/

/-- C26: executing `OF` on `s·sel·val` (the case value `val` on top, the selector `sel`
beneath, the stack within its capacity, the error flag clear): if `sel = val` both are
consumed, the stack is `s` and execution continues with the next instruction; if
`sel ≠ val` the stack is `s·sel` and the next instruction executed is the one at the index
that is the operand of `OF`.  The compiler sets that operand when it compiles `ENDOF`: the
`OF` whose index is on top of the control stack gets the index just after the `ENDOF`
appended.  In `: T CASE 1 OF 10 ENDOF ENDCASE ;` the `OF` at index 2 has operand 5, the
`ENDOF` is at index 4; `1 T` leaves 10 and `2 T` leaves the empty stack. -/
theorem C26_of_compares_and_branches (fs : List Char → Option (List (List Char)))
    (fuel : Nat) (operand : Int) (ip : Nat) (wr : WordRef) (st : State) (s : List Int)
    (sel val : Int)
    (herr : st.error_flag = false) (hcap : (val :: sel :: s).length ≤ STACK_SIZE)
    (hcode : (wordOf st wr).code[ip]? = some { opcode := OpCode.OP_OF, operand := operand }) :
    (sel = val →
      executeInstruction fs (fuel + 1) { opcode := OpCode.OP_OF, operand := operand } ip wr
          { st with stack := val :: sel :: s }
        = some ({ st with stack := s }, (ip : Int))
      ∧ execLoop fs (fuel + 2) wr ip { st with stack := val :: sel :: s }
        = execLoop fs (fuel + 1) wr ((ip : Int) + 1) { st with stack := s })
    ∧ (sel ≠ val →
      executeInstruction fs (fuel + 1) { opcode := OpCode.OP_OF, operand := operand } ip wr
          { st with stack := val :: sel :: s }
        = some ({ st with stack := sel :: s }, operand - 1)
      ∧ execLoop fs (fuel + 2) wr ip { st with stack := val :: sel :: s }
        = execLoop fs (fuel + 1) wr operand { st with stack := sel :: s })
    ∧ (∀ (cst : State) (rest : List Char) (a : Nat) (x : Int) (es : List ControlEntry),
        cst.currentWord.code.length < WORD_CODE_SIZE →
        cst.control_stack = { type := ControlType.CT_OF, addr := (a : Int) } :: es →
        es.length < CONTROL_STACK_SIZE →
        cst.currentWord.code[a]? = some { opcode := OpCode.OP_OF, operand := x } →
        ∃ cst1, compileToken "ENDOF".toList rest cst = some (cst1, rest)
          ∧ cst1.currentWord.code.length = cst.currentWord.code.length + 1
          ∧ cst1.currentWord.code[cst.currentWord.code.length]?
              = some { opcode := OpCode.OP_ENDOF, operand := 0 }
          ∧ cst1.currentWord.code[a]?
              = some { opcode := OpCode.OP_OF,
                       operand := (cst.currentWord.code.length : Int) + 1 })
    ∧ ((stateAfter ": T CASE 1 OF 10 ENDOF ENDCASE ;".toList).dictionary.getD 0 emptyWord).code
        = [{ opcode := OpCode.OP_CASE, operand := 0 }, { opcode := OpCode.OP_PUSH, operand := 0 },
           { opcode := OpCode.OP_OF, operand := 5 }, { opcode := OpCode.OP_PUSH, operand := 1 },
           { opcode := OpCode.OP_ENDOF, operand := 6 },
           { opcode := OpCode.OP_ENDCASE, operand := 0 },
           { opcode := OpCode.OP_END, operand := 0 }]
    ∧ (session noFiles 50 [": T CASE 1 OF 10 ENDOF ENDCASE ;".toList, "1 T".toList]
          initState).map (fun r => (r.stack, r.error_flag)) = some ([10], false)
    ∧ (session noFiles 50 [": T CASE 1 OF 10 ENDOF ENDCASE ;".toList, "2 T".toList]
          initState).map (fun r => (r.stack, r.error_flag)) = some ([], false) := by
  have h1 : s.length < 1000 := by
    simp only [List.length_cons, STACK_SIZE] at hcap
    omega
  have he : ({ st with stack := val :: sel :: s } : State).error_flag = false := herr
  have hcode' : (wordOf { st with stack := val :: sel :: s } wr).code[((ip : Nat) : Int).toNat]?
      = some { opcode := OpCode.OP_OF, operand := operand } := by
    have hw : wordOf { st with stack := val :: sel :: s } wr = wordOf st wr := by
      cases wr <;> rfl
    rw [hw]
    simpa using hcode
  refine ⟨?_, ?_, ?_, by decide!, by decide!, by decide!⟩
  · intro heq
    have hex : executePrimitive { opcode := OpCode.OP_OF, operand := operand } (ip : Int)
        (wordOf { st with stack := val :: sel :: s } wr) { st with stack := val :: sel :: s }
        = some ({ st with stack := s }, (ip : Int)) := by
      simp [executePrimitive, pop, herr, heq]
    refine ⟨?_, ?_⟩
    · rw [executeInstruction_primitive _ _ _ _ _ _ he (by simp) (by rfl)]
      exact hex
    · exact execLoop_step fs fuel wr ip _ _ _ _ (Int.ofNat_nonneg _) hcode' he (by simp) hex (by rfl)
  · intro hne
    have hne' : ¬ val = sel := fun h => hne h.symm
    have hex : executePrimitive { opcode := OpCode.OP_OF, operand := operand } (ip : Int)
        (wordOf { st with stack := val :: sel :: s } wr) { st with stack := val :: sel :: s }
        = some ({ st with stack := sel :: s }, operand - 1) := by
      simp [executePrimitive, pop, push, herr, hne', h1]
    refine ⟨?_, ?_⟩
    · rw [executeInstruction_primitive _ _ _ _ _ _ he (by simp) (by rfl)]
      exact hex
    · rw [execLoop_step fs fuel wr ip _ _ _ _ (Int.ofNat_nonneg _) hcode' he (by simp) hex (by rfl)]
      rw [show operand - 1 + 1 = operand from by ring]
  · intro cst rest a x es hroom hcs hlen hof
    have ha : a < cst.currentWord.code.length := (List.getElem?_eq_some.1 hof).1
    refine ⟨_, compileToken_ENDOF rest cst a es hroom hcs hlen, ?_, ?_, ?_⟩
    · simp [withCode]
    · have hne : ((cst.currentWord.code.length : Nat) : Int) ≠ (a : Int) := by omega
      simp only [withCode]
      rw [patchOperand_getElem_ne _ _ _ _ hne]
      simp
    · simp only [withCode]
      rw [patchOperand_getElem _ a _ { opcode := OpCode.OP_OF, operand := x }
        (by rw [List.getElem?_append_left ha]; exact hof)]

/-- C26 (witness): `OF` with operand 5 on the stack `2 1` (case value 1 on top, selector
2): the selector stays and the new `*ip` is 4, so the instruction at index 5 is next. -/
theorem C26_of_compares_and_branches_witness :
    initState.error_flag = false ∧ ([1, 2] : List Int).length ≤ STACK_SIZE
    ∧ (wordOf initState (WordRef.temp (tempWord { opcode := OpCode.OP_OF, operand := 5 } []))).code[0]?
        = some { opcode := OpCode.OP_OF, operand := 5 }
    ∧ (2 : Int) ≠ 1
    ∧ executeInstruction noFiles (0 + 1) { opcode := OpCode.OP_OF, operand := 5 } ((0 : Nat) : Int)
        (WordRef.temp (tempWord { opcode := OpCode.OP_OF, operand := 5 } []))
        { initState with stack := [1, 2] }
      = some ({ initState with stack := [2] }, 5 - 1) :=
  ⟨rfl, by decide, rfl, by decide,
   ((C26_of_compares_and_branches noFiles 0 5 0
      (WordRef.temp (tempWord { opcode := OpCode.OP_OF, operand := 5 } [])) initState [] 2 1
      rfl (by decide) rfl).2.1 (by decide)).1⟩

/-! ### C27 : the target of `ENDOF` -/

/-- C27 (counterexample): in the word committed for `: T CASE 1 OF 10 ENDOF ENDCASE ;` the
`ENDOF` is at index 4 and the `ENDCASE` at index 5, and the operand of the `ENDOF` is 6,
the index of the instruction after the `ENDCASE`, not 5.  So `ENDCASE` is not executed
after the `ENDOF`: `1 T` leaves the 10 that `ENDCASE` would have popped. -/
theorem C27_endof_operand_is_past_endcase :
    ((stateAfter ": T CASE 1 OF 10 ENDOF ENDCASE ;".toList).dictionary.getD 0 emptyWord).code[4]?
      = some { opcode := OpCode.OP_ENDOF, operand := 6 }
    ∧ ((stateAfter ": T CASE 1 OF 10 ENDOF ENDCASE ;".toList).dictionary.getD 0
          emptyWord).code[5]?
      = some { opcode := OpCode.OP_ENDCASE, operand := 0 }
    ∧ (session noFiles 50 [": T CASE 1 OF 10 ENDOF ENDCASE ;".toList, "1 T".toList]
          initState).map (fun r => (r.stack, r.error_flag)) = some ([10], false) := by
  refine ⟨by decide!, by decide!, by decide!⟩

/-- C27 (amended): when `ENDCASE` is compiled with one or more `CT_ENDOF` entries on top of
the control stack and the `CT_CASE` entry beneath them, an `OP_ENDCASE` is appended at the
index `L` (the length of the code so far) and the instruction of every `CT_ENDOF` entry,
the `ENDOF` of a clause, gets the operand `L + 1`: the index of the instruction just after
the `ENDCASE`.  At run time an `ENDOF` with operand `t` makes the instruction at index `t`
the next one, so each `ENDOF` jumps past the `ENDCASE`. -/
theorem C27_endof_jumps_past_endcase (fs : List Char → Option (List (List Char)))
    (fuel : Nat) (rest : List Char) (cst : State) (x : ControlEntry)
    (xs : List ControlEntry) (c : ControlEntry) (es : List ControlEntry)
    (hroom : cst.currentWord.code.length < WORD_CODE_SIZE)
    (hcs : cst.control_stack = (x :: xs) ++ c :: es)
    (hall : ∀ y ∈ x :: xs, y.type = ControlType.CT_ENDOF)
    (hc : c.type = ControlType.CT_CASE) :
    (∃ cst1, compileToken "ENDCASE".toList rest cst = some (cst1, rest)
      ∧ cst1.control_stack = es
      ∧ cst1.currentWord.code.length = cst.currentWord.code.length + 1
      ∧ (∃ v, cst1.currentWord.code[cst.currentWord.code.length]?
                = some { opcode := OpCode.OP_ENDCASE, operand := v })
      ∧ (∀ y ∈ x :: xs, ∀ (a : Nat) (t : Int), y.addr = (a : Int) →
          cst.currentWord.code[a]? = some { opcode := OpCode.OP_ENDOF, operand := t } →
          cst1.currentWord.code[a]?
            = some { opcode := OpCode.OP_ENDOF,
                     operand := (cst.currentWord.code.length : Int) + 1 }))
    ∧ (∀ (wr : WordRef) (ip : Nat) (st : State) (t : Int), st.error_flag = false →
        (wordOf st wr).code[ip]? = some { opcode := OpCode.OP_ENDOF, operand := t } →
        execLoop fs (fuel + 2) wr ip st = execLoop fs (fuel + 1) wr t st) := by
  refine ⟨⟨_, compileToken_ENDCASE rest cst x xs c es hroom hcs hall hc, rfl, ?_, ?_, ?_⟩, ?_⟩
  · simp [withCode]
  · simp only [withCode]
    have hL : (cst.currentWord.code
        ++ [{ opcode := OpCode.OP_ENDCASE, operand := 0 }])[cst.currentWord.code.length]?
        = some { opcode := OpCode.OP_ENDCASE, operand := 0 } := by simp
    by_cases hmem : ((cst.currentWord.code.length : Nat) : Int)
        ∈ (x :: xs).map (fun y => y.addr)
    · exact ⟨_, patchAll_getElem_mem _ _ _ hmem _ _ hL⟩
    · exact ⟨_, (patchAll_getElem_not_mem _ _ _ hmem _).trans hL⟩
  · intro y hy a t hya ha
    have halt : a < cst.currentWord.code.length := (List.getElem?_eq_some.1 ha).1
    have hmem : (a : Int) ∈ (x :: xs).map (fun y => y.addr) := by
      rw [← hya]
      exact List.mem_map_of_mem _ hy
    simp only [withCode]
    exact patchAll_getElem_mem _ _ _ hmem
      (cst.currentWord.code ++ [{ opcode := OpCode.OP_ENDCASE, operand := 0 }])
      { opcode := OpCode.OP_ENDOF, operand := t }
      (by rw [List.getElem?_append_left halt]; exact ha)
  · intro wr ip st t herr hcode
    exact execLoop_ENDOF fs fuel wr ip st t herr hcode

/-- C27 (witness): compiling `ENDCASE` after `: T CASE 1 OF 10 ENDOF` pops the two entries
of the control stack. -/
theorem C27_endof_jumps_past_endcase_witness :
    (stateAfter ": T CASE 1 OF 10 ENDOF".toList).currentWord.code.length < WORD_CODE_SIZE
    ∧ (stateAfter ": T CASE 1 OF 10 ENDOF".toList).control_stack
        = ({ type := ControlType.CT_ENDOF, addr := 4 } :: [])
            ++ { type := ControlType.CT_CASE, addr := 0 } :: []
    ∧ (∀ y ∈ ({ type := ControlType.CT_ENDOF, addr := 4 } : ControlEntry) :: [],
          y.type = ControlType.CT_ENDOF)
    ∧ ({ type := ControlType.CT_CASE, addr := 0 } : ControlEntry).type = ControlType.CT_CASE
    ∧ (∃ cst1, compileToken "ENDCASE".toList []
            (stateAfter ": T CASE 1 OF 10 ENDOF".toList) = some (cst1, [])
          ∧ cst1.control_stack = []) :=
  ⟨by decide!, by decide!, by decide, rfl,
   by obtain ⟨cst1, h1, h2, _⟩ := (C27_endof_jumps_past_endcase noFiles 0 []
        (stateAfter ": T CASE 1 OF 10 ENDOF".toList) { type := ControlType.CT_ENDOF, addr := 4 }
        [] { type := ControlType.CT_CASE, addr := 0 } [] (by decide!) (by decide!)
        (by decide) rfl).1
      exact ⟨cst1, h1, h2⟩⟩

/-! ### C28 : `ENDCASE` after a `CASE` without clauses -/

/-- C28: `compileToken` emits an `OP_ENDCASE` only when the top of the control stack is a
`CT_ENDOF` entry.  With any other entry on top, the `CT_CASE` entry of a `CASE` without
`OF` clauses included, it prints `ENDCASE without CASE!`, emits nothing and pops nothing.
After `: T CASE ENDCASE ;` in a fresh session the committed code is `CASE, END`, without
an `ENDCASE`, the diagnostic was printed, and the `CT_CASE` entry is still on the control
stack, which was empty before. -/
theorem C28_endcase_without_clause_is_refused (rest : List Char) (st : State)
    (c : ControlEntry) (es : List ControlEntry)
    (hcs : st.control_stack = c :: es) (hc : c.type = ControlType.CT_CASE) :
    compileToken "ENDCASE".toList rest st
      = some ({ st with output := st.output ++ [Output.text "ENDCASE without CASE!\n"] }, rest)
    ∧ (initState.control_stack,
        ((stateAfter ": T CASE ENDCASE ;".toList).dictionary.getD 0 emptyWord).code,
        (stateAfter ": T CASE ENDCASE ;".toList).control_stack,
        (stateAfter ": T CASE ENDCASE ;".toList).output)
      = ([],
         [{ opcode := OpCode.OP_CASE, operand := 0 }, { opcode := OpCode.OP_END, operand := 0 }],
         [{ type := ControlType.CT_CASE, addr := 0 }],
         [Output.text "ENDCASE without CASE!\n"]) := by
  refine ⟨?_, by decide!⟩
  rw [compileToken_ENDCASE_refused rest st (fun e es1 h => by
    rw [hcs] at h
    cases h
    rw [hc]
    decide)]
  rfl

/-- C28 (witness): `ENDCASE` compiled right after `: T CASE`. -/
theorem C28_endcase_without_clause_is_refused_witness :
    (stateAfter ": T CASE".toList).control_stack
        = { type := ControlType.CT_CASE, addr := 0 } :: []
    ∧ ({ type := ControlType.CT_CASE, addr := 0 } : ControlEntry).type = ControlType.CT_CASE
    ∧ compileToken "ENDCASE".toList [] (stateAfter ": T CASE".toList)
      = some ({ stateAfter ": T CASE".toList with
                  output := (stateAfter ": T CASE".toList).output
                    ++ [Output.text "ENDCASE without CASE!\n"] }, []) :=
  ⟨by decide!, rfl,
   (C28_endcase_without_clause_is_refused [] (stateAfter ": T CASE".toList)
      { type := ControlType.CT_CASE, addr := 0 } [] (by decide!) rfl).1⟩

/-! ### C29 : `BEGIN C WHILE B REPEAT` -/

/-- C29: let `cC` and `cB` be the straight-line code of `C` and `B`, no instruction of
which reads a string of the word through a freed pointer. Compiling: `BEGIN` and
`WHILE` push the index of their instruction on the control stack; when `REPEAT` is read
with these two entries on top and the code `BEGIN cC WHILE cB` from index `p` on, it
appends `REPEAT` with operand `p` (the index of the `BEGIN`), sets the operand of the
`WHILE` to the index of the instruction after the `REPEAT` and pops both entries; for `C`
and `B` sequences of one-instruction tokens `interpret` compiles the whole
`BEGIN C WHILE B REPEAT` to `whileCode`. Running: from the `BEGIN`, when `C` leaves a
flag other than 0 in each of the first `n` passes (and nothing sets the error flag), `C`
and `B` are run `n` times, and when `C` then leaves the flag 0 the loop of
`executeCompiledWord` is at the instruction after `REPEAT` with the flag popped. So
`: T BEGIN DUP WHILE 1 - REPEAT ;` turns 3 into 0. -/
theorem C29_begin_while_repeat (fs : List Char → Option (List (List Char))) (fuel : Nat)
    (wr : WordRef) (st : State) (pre cC cB post : List Instruction) (n : Nat)
    (hcode : (wordOf st wr).code = pre ++ whileCode pre.length cC cB ++ post)
    (hC : ∀ i ∈ cC, isStraight i.opcode = true) (hB : ∀ i ∈ cB, isStraight i.opcode = true)
    (hhC : ∀ i ∈ cC, heapFault i wr st = false) (hhB : ∀ i ∈ cB, heapFault i wr st = false)
    (hpop : ∀ j, j ≤ n →
      (pop (runStraight (wordOf st wr) cC
        (whilePasses (wordOf st wr) cC cB j st))).2.error_flag = false)
    (hgo : ∀ j, j < n →
      (pop (runStraight (wordOf st wr) cC (whilePasses (wordOf st wr) cC cB j st))).1 ≠ 0)
    (hstop :
      (pop (runStraight (wordOf st wr) cC (whilePasses (wordOf st wr) cC cB n st))).1 = 0) :
    (∀ (rest : List Char) (S : State),
        S.currentWord.code.length < WORD_CODE_SIZE →
        S.control_stack.length < CONTROL_STACK_SIZE →
        compileToken "BEGIN".toList rest S
          = some (withCode S
                    (S.currentWord.code ++ [{ opcode := OpCode.OP_BEGIN, operand := 0 }])
                    ({ type := ControlType.CT_DO, addr := (S.currentWord.code.length : Int) }
                      :: S.control_stack), rest)
        ∧ compileToken "WHILE".toList rest S
          = some (withCode S
                    (S.currentWord.code ++ [{ opcode := OpCode.OP_WHILE, operand := 0 }])
                    ({ type := ControlType.CT_IF, addr := (S.currentWord.code.length : Int) }
                      :: S.control_stack), rest))
    ∧ (∀ (rest : List Char) (S : State) (es : List ControlEntry),
        S.currentWord.code
          = pre ++ [{ opcode := OpCode.OP_BEGIN, operand := 0 }] ++ cC
              ++ [{ opcode := OpCode.OP_WHILE, operand := 0 }] ++ cB →
        S.control_stack
          = { type := ControlType.CT_IF, addr := ((pre.length + 1 + cC.length : Nat) : Int) }
              :: { type := ControlType.CT_DO, addr := (pre.length : Int) } :: es →
        S.currentWord.code.length < WORD_CODE_SIZE →
        compileToken "REPEAT".toList rest S
          = some (withCode S (pre ++ whileCode pre.length cC cB) es, rest))
    ∧ (∀ (more : List Char) (C B : List (List Char)) (S : State),
        S.error_flag = false → S.compiling = true →
        (∀ t ∈ C, isPrimToken t = true) → (∀ t ∈ B, isPrimToken t = true) →
        S.currentWord.code.length + C.length + B.length + 3 ≤ WORD_CODE_SIZE →
        S.control_stack.length + 1 < CONTROL_STACK_SIZE →
        interpretLoop fs (fuel + (C.length + B.length + 3))
            (strtok_r (tokenLine ("BEGIN".toList :: (C ++ "WHILE".toList
              :: (B ++ ["REPEAT".toList]))) more)) S
          = interpretLoop fs fuel (strtok_r more)
              (withCode S
                (S.currentWord.code
                  ++ whileCode S.currentWord.code.length (primCode C) (primCode B))
                S.control_stack))
    ∧ (pre ++ whileCode pre.length cC cB ++ post)[pre.length]?
        = some { opcode := OpCode.OP_BEGIN, operand := 0 }
    ∧ (pre ++ whileCode pre.length cC cB ++ post)[pre.length + cC.length + 1]?
        = some { opcode := OpCode.OP_WHILE,
                 operand := ((pre.length + cC.length + cB.length + 3 : Nat) : Int) }
    ∧ (pre ++ whileCode pre.length cC cB ++ post)[pre.length + cC.length + cB.length + 2]?
        = some { opcode := OpCode.OP_REPEAT, operand := (pre.length : Int) }
    ∧ execLoop fs (fuel + n * (cC.length + cB.length + 3) + cC.length + 3) wr pre.length st
        = execLoop fs (fuel + 1) wr (pre.length + cC.length + cB.length + 3 : Nat)
            (pop (runStraight (wordOf st wr) cC
              (whilePasses (wordOf st wr) cC cB n st))).2
    ∧ (session noFiles 80 [": T BEGIN DUP WHILE 1 - REPEAT ;".toList, "3 T".toList]
        initState).map (fun r => (r.stack, r.error_flag, r.control_stack))
      = some ([0], false, []) := by
  refine ⟨fun rest S h1 h2 => ⟨compileToken_BEGIN rest S h1 h2, compileToken_WHILE rest S h1 h2⟩,
    ?_, ?_, ?_, ?_, ?_, ?_, by decide!⟩
  · intro rest S es hk hs hroom
    rw [compileToken_REPEAT rest S _ _ es hroom hs, hk]
    congr 2
    have hl : (pre ++ [Instruction.mk OpCode.OP_BEGIN 0] ++ cC
        ++ [Instruction.mk OpCode.OP_WHILE 0] ++ cB).length
        = pre.length + cC.length + cB.length + 2 := by
      simp only [List.length_append, List.length_singleton]
      omega
    rw [hl]
    rw [show pre ++ [{ opcode := OpCode.OP_BEGIN, operand := 0 }] ++ cC
          ++ [{ opcode := OpCode.OP_WHILE, operand := 0 }] ++ cB
          ++ [{ opcode := OpCode.OP_REPEAT, operand := (pre.length : Int) }]
        = (pre ++ [{ opcode := OpCode.OP_BEGIN, operand := 0 }] ++ cC)
          ++ { opcode := OpCode.OP_WHILE, operand := 0 }
          :: (cB ++ [{ opcode := OpCode.OP_REPEAT, operand := (pre.length : Int) }])
        from by simp]
    rw [show ((pre.length + 1 + cC.length : Nat) : Int)
          = (((pre ++ [Instruction.mk OpCode.OP_BEGIN 0] ++ cC).length : Nat) : Int) from by
          simp only [List.length_append, List.length_singleton],
      patchOperand_append_cons]
    simp only [whileCode, List.append_assoc, List.singleton_append, List.cons_append,
      List.nil_append]
    rw [show ((pre.length + cC.length + cB.length + 2 : Nat) : Int) + 1
      = ((pre.length + cC.length + cB.length + 3 : Nat) : Int) from by push_cast; ring]
  · intro more C B S herr hcomp hC1 hB1 hroom hcs
    exact interpretLoop_begin_while_repeat fs fuel more C B S herr hcomp hC1 hB1 hroom hcs
  · simp only [whileCode, List.append_assoc, List.singleton_append, List.cons_append]
    exact getElem?_append_cons_at _ _ _ _ rfl
  · rw [show pre ++ whileCode pre.length cC cB ++ post
        = (pre ++ [{ opcode := OpCode.OP_BEGIN, operand := 0 }] ++ cC)
          ++ { opcode := OpCode.OP_WHILE,
               operand := ((pre.length + cC.length + cB.length + 3 : Nat) : Int) }
          :: (cB ++ { opcode := OpCode.OP_REPEAT, operand := (pre.length : Int) } :: post)
        from by simp [whileCode]]
    exact getElem?_append_cons_at _ _ _ _ (by
      simp only [List.length_append, List.length_singleton]
      omega)
  · rw [show pre ++ whileCode pre.length cC cB ++ post
        = (pre ++ [{ opcode := OpCode.OP_BEGIN, operand := 0 }] ++ cC
          ++ [{ opcode := OpCode.OP_WHILE,
                operand := ((pre.length + cC.length + cB.length + 3 : Nat) : Int) }] ++ cB)
          ++ { opcode := OpCode.OP_REPEAT, operand := (pre.length : Int) } :: post
        from by simp [whileCode]]
    exact getElem?_append_cons_at _ _ _ _ (by
      simp only [List.length_append, List.length_singleton]
      omega)
  · exact execLoop_while fs fuel wr (wordOf st wr) pre cC cB post hcode hC hB n st rfl
      hhC hhB hpop hgo hstop

/-- C29 (witness): the code of `BEGIN DUP WHILE DROP REPEAT` entered with 5 on top of 7
on top of 0 makes two passes (flags 5 and 7) and leaves the loop at the third flag, 0. -/
theorem C29_begin_while_repeat_witness :
    (wordOf { initState with stack := [5, 7, 0] }
        (WordRef.temp { name := [],
                        code := whileCode 0 [{ opcode := OpCode.OP_DUP, operand := 0 }]
                                  [{ opcode := OpCode.OP_DROP, operand := 0 }],
                        strings := [] })).code
      = [] ++ whileCode ([] : List Instruction).length
                [{ opcode := OpCode.OP_DUP, operand := 0 }]
                [{ opcode := OpCode.OP_DROP, operand := 0 }] ++ []
    ∧ execLoop noFiles
        (0 + 2 * ([({ opcode := OpCode.OP_DUP, operand := 0 } : Instruction)].length
                  + [({ opcode := OpCode.OP_DROP, operand := 0 } : Instruction)].length + 3)
           + [({ opcode := OpCode.OP_DUP, operand := 0 } : Instruction)].length + 3)
        (WordRef.temp { name := [],
                        code := whileCode 0 [{ opcode := OpCode.OP_DUP, operand := 0 }]
                                  [{ opcode := OpCode.OP_DROP, operand := 0 }],
                        strings := [] })
        ([] : List Instruction).length { initState with stack := [5, 7, 0] }
      = some { initState with stack := [0] } :=
  ⟨rfl,
   by rw [(C29_begin_while_repeat noFiles 0
            (WordRef.temp { name := [],
                            code := whileCode 0 [{ opcode := OpCode.OP_DUP, operand := 0 }]
                                      [{ opcode := OpCode.OP_DROP, operand := 0 }],
                            strings := [] })
            { initState with stack := [5, 7, 0] } []
            [{ opcode := OpCode.OP_DUP, operand := 0 }]
            [{ opcode := OpCode.OP_DROP, operand := 0 }] [] 2
            rfl (by decide) (by decide) (by decide) (by decide) (by decide) (by decide)
            (by decide)).2.2.2.2.2.2.1]
      decide!⟩

/-! ### C30 : the jump operands of a committed definition -/

/-- What `compileToken` leaves alone, along a token sequence. -/
theorem compileSeq_frame (ts : List (List Char × List Char)) :
    ∀ (st st1 : State), compileSeq ts st = some st1 →
      st1.dictionary = st.dictionary ∧ st1.dict_count = st.dict_count
      ∧ st1.current_word_index = st.current_word_index ∧ st1.freed = st.freed
      ∧ st1.compiling = st.compiling ∧ st1.error_flag = st.error_flag := by
  induction ts with
  | nil =>
    intro st st1 h
    simp only [compileSeq, Option.some.injEq] at h
    subst h
    exact ⟨rfl, rfl, rfl, rfl, rfl, rfl⟩
  | cons p ts ih =>
    intro st st1 h
    obtain ⟨t, r⟩ := p
    simp only [compileSeq] at h
    cases hc : compileToken t r st with
    | none => rw [hc] at h; cases h
    | some q =>
      obtain ⟨st2, r2⟩ := q
      rw [hc] at h
      have hf := compileToken_frame t r st st2 r2 hc
      obtain ⟨h1, h2, h3, h4, h5, h6⟩ := ih st2 st1 h
      unfold CompileFrame at hf
      rw [hf] at h1 h2 h3 h4 h5 h6
      exact ⟨h1, h2, h3, h4, h5, h6⟩


/-- C31: in every state reachable from the initial state (empty dictionary) through calls
of `interpret` that return, whatever the input lines (colon-definitions, `VARIABLE`,
`FORGET` and all the rest), the entries with index below `dict_count` have pairwise
distinct names; so `findCompiledWordIndex` returns -1 for a name no such entry has, and
otherwise the index of the one entry with that name. After `: A 1 ;`, `: B 2 ;`,
`: A 3 ;`, `VARIABLE X`, `VARIABLE X`, `VARIABLE B`, `FORGET X`, `VARIABLE A` the names
are `A` and `B`. -/
theorem C31_live_names_distinct (st : State) (h : Reachable st) :
    (liveNames st).Nodup
    ∧ (∀ i j : Nat, i < st.dict_count → j < st.dict_count →
        (st.dictionary.getD i emptyWord).name = (st.dictionary.getD j emptyWord).name →
        i = j)
    ∧ (∀ name : List Char,
        (findCompiledWordIndex name st = -1
          ∧ ∀ i : Nat, i < st.dict_count → (st.dictionary.getD i emptyWord).name ≠ name)
        ∨ (∃ i : Nat, findCompiledWordIndex name st = (i : Int) ∧ i < st.dict_count
            ∧ (st.dictionary.getD i emptyWord).name = name
            ∧ ∀ j : Nat, j < st.dict_count →
                (st.dictionary.getD j emptyWord).name = name → j = i))
    ∧ (session noFiles 50 [": A 1 ;".toList, ": B 2 ;".toList, ": A 3 ;".toList,
          "VARIABLE X".toList, "VARIABLE X".toList, "VARIABLE B".toList, "FORGET X".toList,
          "VARIABLE A".toList] initState).map liveNames
      = some ["A".toList, "B".toList] := by
  obtain ⟨hnd, hl, hdc⟩ := Reachable_DictOK st h
  have hlen : st.dict_count ≤ st.dictionary.length := by
    rw [hl]
    exact hdc
  have hinj : ∀ i j : Nat, i < st.dict_count → j < st.dict_count →
      (st.dictionary.getD i emptyWord).name = (st.dictionary.getD j emptyWord).name →
      i = j := by
    intro i j hi hj he
    have h1 := liveNames_getElem? st hlen i hi
    have h2 := liveNames_getElem? st hlen j hj
    rw [he] at h1
    have hi' : i < (liveNames st).length := by rw [liveNames_length st hlen]; exact hi
    have hj' : j < (liveNames st).length := by rw [liveNames_length st hlen]; exact hj
    rw [List.getElem?_eq_getElem hi'] at h1
    rw [List.getElem?_eq_getElem hj'] at h2
    exact (List.Nodup.getElem_inj_iff hnd).1 ((Option.some.inj h1).trans (Option.some.inj h2).symm)
  refine ⟨hnd, hinj, ?_, by decide!⟩
  intro name
  by_cases hm : name ∈ liveNames st
  · right
    obtain ⟨i, hi⟩ := List.mem_iff_getElem?.1 hm
    have hilt : i < st.dict_count := by
      have := (List.getElem?_eq_some.1 hi).1
      rw [liveNames_length st hlen] at this
      exact this
    have hname : (st.dictionary.getD i emptyWord).name = name := by
      have h1 := liveNames_getElem? st hlen i hilt
      rw [hi] at h1
      exact (Option.some.inj h1).symm
    refine ⟨i, ?_, hilt, hname, ?_⟩
    · have := findIndexFrom_nodup name (st.dictionary.take st.dict_count) 0 i hnd hi
      unfold findCompiledWordIndex
      rw [this]
      simp
    · intro j hj hjn
      exact hinj j i hj hilt (hjn.trans hname.symm)
  · left
    refine ⟨findIndexFrom_not_mem name _ 0 hm, ?_⟩
    intro i hi hn
    apply hm
    exact List.mem_iff_getElem?.2 ⟨i, by rw [liveNames_getElem? st hlen i hi, hn]⟩

/-- C31 (witness): the state after `: A 1 ;` is reachable, and its live names, `A` alone,
are pairwise distinct. -/
theorem C31_live_names_distinct_witness :
    Reachable (stateAfter ": A 1 ;".toList)
    ∧ (liveNames (stateAfter ": A 1 ;".toList)).Nodup
    ∧ liveNames (stateAfter ": A 1 ;".toList) = ["A".toList] :=
  ⟨Reachable.step noFiles 50 ": A 1 ;".toList initState _ Reachable.init (by decide!),
   (C31_live_names_distinct (stateAfter ": A 1 ;".toList)
     (Reachable.step noFiles 50 ": A 1 ;".toList initState _ Reachable.init (by decide!))).1,
   by decide!⟩

/-! ### C32 : compiling is balanced on the control stack -/

/-- C32: let the control tokens of a token sequence be properly nested (`IF [ELSE] THEN`,
`DO LOOP`, `BEGIN WHILE REPEAT`, `CASE` with one or more `OF … ENDOF` clauses then
`ENDCASE`; the other tokens are arbitrary) and let `compileToken` be called on its tokens
one after the other, from any state. When the calls have a result, the control stack
after the last one is the control stack before the first one, entry by entry, so
`control_stack_top` is the same; and after every prefix of the sequence the control stack
has at least as many entries as at the start. The calls do have a result when the code
array, the string pool and the control stack have room for one entry per token. -/
theorem C32_nested_compile_is_balanced (ts : List (List Char × List Char)) (st : State)
    (hnest : properlyNested [] (ts.map Prod.fst) = true) :
    (∀ st1, compileSeq ts st = some st1 →
        st1.control_stack = st.control_stack
        ∧ st1.control_stack.length = st.control_stack.length)
    ∧ (∀ pre suf st1, ts = pre ++ suf → compileSeq pre st = some st1 →
        st.control_stack.length ≤ st1.control_stack.length)
    ∧ (st.currentWord.code.length + ts.length ≤ WORD_CODE_SIZE →
        st.currentWord.strings.length + ts.length ≤ WORD_CODE_SIZE →
        st.control_stack.length + ts.length ≤ CONTROL_STACK_SIZE →
        ∃ st1, compileSeq ts st = some st1) := by
  refine ⟨?_, ?_, ?_⟩
  · intro st1 h
    have := compileSeq_balanced st.control_stack ts [] st st1 hnest rfl h
    exact ⟨this, by rw [this]⟩
  · intro pre suf st1 hts h
    subst hts
    exact compileSeq_initial st.control_stack pre suf [] st st1 hnest rfl h
  · intro h1 h2 h3
    exact compileSeq_isSome st.control_stack ts [] st hnest rfl h1 h2 h3

/-- C32 (witness): the 25 tokens of `nestedTokens`, compiled from a state with a stale
`CT_ENDOF` entry on the control stack, leave this entry, and it alone, on the control
stack; after the first 12 tokens (`IF … ENDOF`) there are four entries. -/
theorem C32_nested_compile_is_balanced_witness :
    properlyNested [] (nestedTokens.map Prod.fst) = true
    ∧ compileSeq nestedTokens staleState
      = some ((compileSeq nestedTokens staleState).getD initState)
    ∧ ((compileSeq nestedTokens staleState).getD initState).control_stack
      = [{ type := ControlType.CT_ENDOF, addr := 7 }]
    ∧ ((compileSeq (nestedTokens.take 12) staleState).map
        (fun r => r.control_stack.map (fun e => e.type)))
      = some [ControlType.CT_ENDOF, ControlType.CT_ENDOF, ControlType.CT_CASE,
              ControlType.CT_IF, ControlType.CT_ENDOF] :=
  ⟨by decide,
   by decide!,
   ((C32_nested_compile_is_balanced nestedTokens staleState (by decide)).1
      ((compileSeq nestedTokens staleState).getD initState) (by decide!)).1,
   by decide!⟩

end ForthGmp
